import Mathlib

/-!
Nachos-RiscV kernel: synchronisation, open-file table and directory.

A shallow embedding of parts of the kernel sources

* `kernel/synch.cc`   : `Semaphore`, `Lock`, `Condition`
* `filesys/oftable.cc`: `OpenFileTable`, `OpenFileTableEntry`
* `filesys/directory.cc`: `Directory`
* `utility/bitmap.cc` : `BitMap`

Every C++ method becomes a pure function on an explicit state.  A method that
can put the calling thread to sleep returns an `Outcome`, saying whether it
ran to its `return` or stopped inside `Thread::Sleep`; the code that runs when
the thread is resumed is a second function (suffix `_wakeup`).  A failed
`ASSERT` or a dereferenced `NULL` is the outcome `fatal` (or `none`).
-/

namespace Nachos

/-! ## Kernel globals used by `synch.cc` -/

/-- The two interrupt levels of `machine/interrupt.h`. -/
inductive IntStatus where
  | INTERRUPTS_OFF
  | INTERRUPTS_ON
  deriving DecidableEq, Repr

/-- A thread is identified by the address of its `Thread` object. -/
abbrev Thread := Nat

/-- The globals read and written by the synchronisation routines:
`interrupt` (its level), `scheduler` (its ready list) and `g_current_thread`. -/
structure Kernel where
  level : IntStatus
  readyList : List Thread
  g_current_thread : Thread
  deriving DecidableEq, Repr

/-- Modelled from the spec: `Interrupt::SetStatus` (machine/interrupt.cc is not
among the sources) sets the interrupt level; the old level it returns is
dropped by every caller in `synch.cc`. -/
def Interrupt.SetStatus (k : Kernel) (s : IntStatus) : Kernel :=
  { k with level := s }

/-- Modelled from the spec: `Scheduler::ReadyToRun` (kernel/scheduler.cc is not
among the sources): "`ReadyToRun(t)` appends" to the FIFO ready queue. -/
def Scheduler.ReadyToRun (k : Kernel) (t : Thread) : Kernel :=
  { k with readyList := k.readyList ++ [t] }

/-- Modelled from the spec: `Listint::Append` (utility/list.cc is not among the
sources): each wait queue is strict FIFO, new items go to the tail. -/
def Listint.Append (q : List Thread) (t : Thread) : List Thread :=
  q ++ [t]

/-- Modelled from the spec: `Listint::Remove` (utility/list.cc is not among the
sources) takes the item at the head of the queue; on an empty queue it yields
`NULL` (`none`) and leaves the queue empty. -/
def Listint.Remove : List Thread → Option Thread × List Thread
  | [] => (none, [])
  | t :: rest => (some t, rest)

/-- Modelled from the spec: `Listint::IsEmpty` (utility/list.cc is not among
the sources). -/
def Listint.IsEmpty (q : List Thread) : Bool :=
  q.isEmpty

/-- How a call of a synchronisation routine ends: it reaches its `return`,
the calling thread is stopped inside `Thread::Sleep` (the state is the one at
the call of `Sleep`), or the kernel aborts (`ASSERT`, `NULL` thread). -/
inductive Outcome (α : Type) where
  | returned : Kernel → α → Outcome α
  | sleeping : Kernel → α → Outcome α
  | fatal : Outcome α
  deriving DecidableEq, Repr

/-! ## Semaphore -/

/-- The fields `counter` and `waiting_queue` of `Semaphore`.  `counter` is
compared with `0` after a decrement, so it is a signed integer; its
declaration (kernel/synch.h) is not among the sources and it is kept as a
mathematical integer (signed overflow is undefined in C++). -/
structure Semaphore where
  counter : Int
  waiting_queue : List Thread
  deriving DecidableEq, Repr

/-- `Semaphore::Semaphore(debugName, initialCount)`. -/
def Semaphore.new (initialCount : Nat) : Semaphore :=
  { counter := initialCount, waiting_queue := [] }

/-- `Semaphore::P`, up to its `return` or to the call of `Sleep`. -/
def Semaphore.P (k : Kernel) (s : Semaphore) : Outcome Semaphore :=
  let k := Interrupt.SetStatus k .INTERRUPTS_OFF
  let s := { s with counter := s.counter - 1 }
  if s.counter < (0 : Int) then
    .sleeping k { s with waiting_queue := Listint.Append s.waiting_queue k.g_current_thread }
  else
    .returned (Interrupt.SetStatus k .INTERRUPTS_ON) s

/-- `Semaphore::P` after `Sleep` has returned: the last statement. -/
def Semaphore.P_wakeup (k : Kernel) (s : Semaphore) : Outcome Semaphore :=
  .returned (Interrupt.SetStatus k .INTERRUPTS_ON) s

/-- `Semaphore::V`. -/
def Semaphore.V (k : Kernel) (s : Semaphore) : Outcome Semaphore :=
  let k := Interrupt.SetStatus k .INTERRUPTS_OFF
  let s := { s with counter := s.counter + 1 }
  if s.counter ≤ (0 : Int) then
    match Listint.Remove s.waiting_queue with
    | (some t, q) =>
        .returned (Interrupt.SetStatus (Scheduler.ReadyToRun k t) .INTERRUPTS_ON)
          { s with waiting_queue := q }
    | (none, _) => .fatal
  else
    .returned (Interrupt.SetStatus k .INTERRUPTS_ON) s

/-! ## Lock -/

/-- The fields `free`, `owner` and `waiting_queue` of `Lock`; `owner = NULL`
is `none`. -/
structure Lock where
  free : Bool
  owner : Option Thread
  waiting_queue : List Thread
  deriving DecidableEq, Repr

/-- `Lock::Lock(debugName)`. -/
def Lock.new : Lock :=
  { free := true, owner := none, waiting_queue := [] }

/-- `Lock::isHeldByCurrentThread`. -/
def Lock.isHeldByCurrentThread (k : Kernel) (l : Lock) : Bool :=
  decide (some k.g_current_thread = l.owner)

/-- The `while (!free)` loop of `Lock::Acquire` and what follows it, from the
test of the loop condition up to the `return` or to the call of `Sleep`. -/
def Lock.Acquire_loop (k : Kernel) (l : Lock) : Outcome Lock :=
  if !l.free then
    .sleeping k { l with waiting_queue := Listint.Append l.waiting_queue k.g_current_thread }
  else
    .returned (Interrupt.SetStatus k .INTERRUPTS_ON)
      { l with free := false, owner := some k.g_current_thread }

/-- `Lock::Acquire`, up to its `return` or to the call of `Sleep`. -/
def Lock.Acquire (k : Kernel) (l : Lock) : Outcome Lock :=
  Lock.Acquire_loop (Interrupt.SetStatus k .INTERRUPTS_OFF) l

/-- `Lock::Acquire` after `Sleep` has returned: control is at the end of the
loop body, so the loop condition is tested again. -/
def Lock.Acquire_wakeup (k : Kernel) (l : Lock) : Outcome Lock :=
  Lock.Acquire_loop k l

/-- `Lock::Release`. -/
def Lock.Release (k : Kernel) (l : Lock) : Outcome Lock :=
  let k := Interrupt.SetStatus k .INTERRUPTS_OFF
  if !Lock.isHeldByCurrentThread k l then .fatal
  else if !Listint.IsEmpty l.waiting_queue then
    match Listint.Remove l.waiting_queue with
    | (some t, q) =>
        .returned (Interrupt.SetStatus (Scheduler.ReadyToRun k t) .INTERRUPTS_ON)
          { l with waiting_queue := q }
    | (none, _) => .fatal
  else
    .returned (Interrupt.SetStatus k .INTERRUPTS_ON) { l with free := true, owner := none }

/-! ## Condition -/

/-- The field `waiting_queue` of `Condition`. -/
structure Condition where
  waiting_queue : List Thread
  deriving DecidableEq, Repr

/-- `Condition::Wait`, up to the call of `Sleep`. -/
def Condition.Wait (k : Kernel) (c : Condition) : Outcome Condition :=
  let k := Interrupt.SetStatus k .INTERRUPTS_OFF
  .sleeping k { c with waiting_queue := Listint.Append c.waiting_queue k.g_current_thread }

/-- `Condition::Wait` after `Sleep` has returned. -/
def Condition.Wait_wakeup (k : Kernel) (c : Condition) : Outcome Condition :=
  .returned (Interrupt.SetStatus k .INTERRUPTS_ON) c

/-- `Condition::Signal`. -/
def Condition.Signal (k : Kernel) (c : Condition) : Outcome Condition :=
  let k := Interrupt.SetStatus k .INTERRUPTS_OFF
  if !Listint.IsEmpty c.waiting_queue then
    match Listint.Remove c.waiting_queue with
    | (some t, q) =>
        .returned (Interrupt.SetStatus (Scheduler.ReadyToRun k t) .INTERRUPTS_ON)
          { c with waiting_queue := q }
    | (none, _) => .fatal
  else
    .returned (Interrupt.SetStatus k .INTERRUPTS_ON) c

/-- The `while (!waiting_queue->IsEmpty())` loop of `Condition::Broadcast`:
each turn removes the head of the queue and makes it ready. -/
def Condition.Broadcast_loop (k : Kernel) : List Thread → Kernel × List Thread
  | [] => (k, [])
  | t :: rest => Condition.Broadcast_loop (Scheduler.ReadyToRun k t) rest

/-- `Condition::Broadcast`. -/
def Condition.Broadcast (k : Kernel) (c : Condition) : Outcome Condition :=
  let k := Interrupt.SetStatus k .INTERRUPTS_OFF
  let r := Condition.Broadcast_loop k c.waiting_queue
  .returned (Interrupt.SetStatus r.1 .INTERRUPTS_ON) { c with waiting_queue := r.2 }

/-- States of a semaphore reachable from `Semaphore(name, n)` through calls of
`P` and `V` made by any thread in any kernel state: a `P` that returns, a `P`
that puts its caller to sleep, or a `V`.  (The part of `P` run at wake-up does
not touch the semaphore.) -/
inductive Semaphore.Reachable (n : Nat) : Semaphore → Prop where
  | init : Semaphore.Reachable n (Semaphore.new n)
  | P_returned {s s' : Semaphore} {k k' : Kernel} :
      Semaphore.Reachable n s → Semaphore.P k s = .returned k' s' →
      Semaphore.Reachable n s'
  | P_sleeping {s s' : Semaphore} {k k' : Kernel} :
      Semaphore.Reachable n s → Semaphore.P k s = .sleeping k' s' →
      Semaphore.Reachable n s'
  | V_returned {s s' : Semaphore} {k k' : Kernel} :
      Semaphore.Reachable n s → Semaphore.V k s = .returned k' s' →
      Semaphore.Reachable n s'

/-! ## Error codes and configuration (`kernel/msgerror.h`, `utility/config.h`) -/

/-- `#define ERROR -1`. -/
abbrev ERROR : Int := -1

/-- `#define INVALID_SECTOR -1`. -/
abbrev INVALID_SECTOR : Int := -1

/-- `NO_ERROR`, first member of the error enumeration. -/
abbrev NO_ERROR : Int := 0

/-- `ALREADY_IN_DIRECTORY`, member 6 of the error enumeration. -/
abbrev ALREADY_IN_DIRECTORY : Int := 6

/-- `INEXIST_FILE_ERROR`, member 7 of the error enumeration. -/
abbrev INEXIST_FILE_ERROR : Int := 7

/-- `INEXIST_DIRECTORY_ERROR`, member 8 of the error enumeration. -/
abbrev INEXIST_DIRECTORY_ERROR : Int := 8

/-- `NOSPACE_IN_DIRECTORY`, member 9 of the error enumeration. -/
abbrev NOSPACE_IN_DIRECTORY : Int := 9

/-- `#define NBOFTENTRY 15` (filesys/oftable.h). -/
abbrev NBOFTENTRY : Nat := 15

/-- `#define BITS_IN_WORD 32` (utility/bitmap.h). -/
abbrev BITS_IN_WORD : Nat := 32

/-- Constants whose definitions are not among the sources, kept as parameters:
the macros `FILENAMEMAXLEN` (filesys/directory.h) and `NUM_SECTORS`
(machine/disk.h), and the configuration value `g_cfg->NumDirEntries`. -/
structure Config where
  FILENAMEMAXLEN : Nat
  NUM_SECTORS : Nat
  NumDirEntries : Nat
  deriving DecidableEq, Repr

/-- A C string, as the list of its characters before the terminating NUL. -/
abbrev CString := List Char

/-- The test `!strncmp(a, b, n)`: the two strings agree on their first `n`
characters. -/
def strncmp_is_zero (a b : CString) (n : Nat) : Bool :=
  decide (a.take n = b.take n)

/-- The string left in `dst` by `strncpy(dst, src, n)`: the first `n`
characters of `src`. -/
def strncpy (src : CString) (n : Nat) : CString :=
  src.take n

/-! ## Directory (`filesys/directory.cc`) -/

/-- One `DirectoryEntry`: `inUse`, `name[FILENAMEMAXLEN]` (as the C string it
holds) and `sector`. -/
structure DirectoryEntry where
  inUse : Bool
  name : CString
  sector : Int
  deriving DecidableEq, Repr

/-- A `Directory`: its `table`; `tableSize` is the length of the list. -/
structure Directory where
  table : List DirectoryEntry
  deriving DecidableEq, Repr

/-- The field `tableSize`. -/
def Directory.tableSize (d : Directory) : Nat :=
  d.table.length

/-- `Directory::Directory(size)`: `size` entries, none in use (the other two
fields of a fresh entry are not initialised; they are taken empty and zero). -/
def Directory.new (size : Nat) : Directory :=
  { table := List.replicate size { inUse := false, name := [], sector := 0 } }

/-- The loop of `Directory::FindIndex` over the entries from index `i` on. -/
def Directory.FindIndex_loop (cfg : Config) (name : CString) :
    List DirectoryEntry → Nat → Int
  | [], _ => ERROR
  | e :: rest, i =>
      if e.inUse && strncmp_is_zero e.name name cfg.FILENAMEMAXLEN then (i : Int)
      else Directory.FindIndex_loop cfg name rest (i + 1)

/-- `Directory::FindIndex`. -/
def Directory.FindIndex (cfg : Config) (d : Directory) (name : CString) : Int :=
  Directory.FindIndex_loop cfg name d.table 0

/-- `Directory::Find`. -/
def Directory.Find (cfg : Config) (d : Directory) (name : CString) : Int :=
  let i := Directory.FindIndex cfg d name
  if i ≠ ERROR then
    match d.table[i.toNat]? with
    | some e => e.sector
    | none => ERROR
  else ERROR

/-- The `for` loop of `Directory::Add`: the table after the first entry not in
use has been filled, or `none` when the loop runs to its end. -/
def Directory.Add_loop (cfg : Config) (name : CString) (newSector : Int) :
    List DirectoryEntry → Option (List DirectoryEntry)
  | [] => none
  | e :: rest =>
      if !e.inUse then
        some ({ inUse := true, name := strncpy name cfg.FILENAMEMAXLEN, sector := newSector }
          :: rest)
      else
        (Directory.Add_loop cfg name newSector rest).map (fun r => e :: r)

/-- `Directory::Add`: the error code returned and the directory afterwards. -/
def Directory.Add (cfg : Config) (d : Directory) (name : CString) (newSector : Int) :
    Int × Directory :=
  if Directory.FindIndex cfg d name ≠ ERROR then
    (ALREADY_IN_DIRECTORY, d)
  else
    match Directory.Add_loop cfg name newSector d.table with
    | some t => (NO_ERROR, { table := t })
    | none => (NOSPACE_IN_DIRECTORY, d)

/-- `Directory::Remove`: the error code returned and the directory afterwards. -/
def Directory.Remove (cfg : Config) (d : Directory) (name : CString) : Int × Directory :=
  let i := Directory.FindIndex cfg d name
  if i = ERROR then
    (INEXIST_DIRECTORY_ERROR, d)
  else
    match d.table[i.toNat]? with
    | some e => (NO_ERROR, { table := d.table.set i.toNat { e with inUse := false } })
    | none => (NO_ERROR, d)

/-! ## Bitmap (`utility/bitmap.cc`) -/

/-- Modelled from the spec: the macro `divRoundUp(n, s)` (utility/utility.h is
not among the sources): the number of words is "rounded up if numBits is not a
multiple of the number of bits in a word". -/
def divRoundUp (n s : Nat) : Nat :=
  (n + s - 1) / s

/-- A `BitMap`: `numBits`, `numWords` and the `unsigned int` words of `map`. -/
structure BitMap where
  numBits : Nat
  numWords : Nat
  map : List Nat
  deriving DecidableEq, Repr

/-- `BitMap::BitMap(nitems)`: every bit below `nitems` is cleared (the storage
returned by `new` is taken zero-filled, so the padding bits are zero too). -/
def BitMap.new (nitems : Nat) : BitMap :=
  { numBits := nitems
    numWords := divRoundUp nitems BITS_IN_WORD
    map := List.replicate (divRoundUp nitems BITS_IN_WORD) 0 }

/-- `BitMap::Mark`; `none` when the `ASSERT` on `which` fails. -/
def BitMap.Mark (b : BitMap) (which : Int) : Option BitMap :=
  if 0 ≤ which ∧ which < b.numBits then
    let w := which.toNat
    let word := (b.map.getD (w / BITS_IN_WORD) 0 ||| (1 <<< (w % BITS_IN_WORD))) % 2 ^ 32
    some { b with map := b.map.set (w / BITS_IN_WORD) word }
  else none

/-- `BitMap::Clear`; `none` when the `ASSERT` on `which` fails.  The 32-bit
complement `~x` is `x ^ 0xFFFFFFFF`. -/
def BitMap.Clear (b : BitMap) (which : Int) : Option BitMap :=
  if 0 ≤ which ∧ which < b.numBits then
    let w := which.toNat
    let word := b.map.getD (w / BITS_IN_WORD) 0 &&& ((2 ^ 32 - 1) ^^^ (1 <<< (w % BITS_IN_WORD)))
    some { b with map := b.map.set (w / BITS_IN_WORD) word }
  else none

/-- `BitMap::Test`; `none` when the `ASSERT` on `which` fails. -/
def BitMap.Test (b : BitMap) (which : Int) : Option Bool :=
  if 0 ≤ which ∧ which < b.numBits then
    let w := which.toNat
    some (decide (b.map.getD (w / BITS_IN_WORD) 0 &&& (1 <<< (w % BITS_IN_WORD)) ≠ 0))
  else none

/-- The `for` loop of `BitMap::Find`, with `n` turns left from index `i`:
the value returned and the bitmap afterwards; `none` when an `ASSERT` of
`Test` or `Mark` fails. -/
def BitMap.Find_loop (b : BitMap) : Nat → Nat → Option (Int × BitMap)
  | 0, _ => some (ERROR, b)
  | n + 1, i =>
      match b.Test i with
      | none => none
      | some false => (b.Mark i).map (fun b' => ((i : Int), b'))
      | some true => BitMap.Find_loop b n (i + 1)

/-- `BitMap::Find`. -/
def BitMap.Find (b : BitMap) : Option (Int × BitMap) :=
  BitMap.Find_loop b b.numBits 0

/-- Modelled from the spec: `OpenFile::ReadAt(into, n, 0)` (filesys/openfile.cc
is not among the sources) "reads up to `min(n, length − pos)` bytes".  The
file is given by its contents, the buffer and the file being counted in items
of the same size (32-bit words, directory entries): the first items of the
buffer are replaced by those read, the rest of the buffer is kept. -/
def OpenFile.ReadAt {α : Type} (file : List α) (into : List α) (n : Nat) : List α :=
  file.take n ++ into.drop (file.take n).length

/-- Modelled from the spec: `OpenFile::WriteAt(from, n, 0)` (filesys/openfile.cc
is not among the sources) "does not grow the file (out-of-range writes are
truncated to length)": the contents of the file afterwards, its first items
replaced by the first `n` items of the buffer, as far as the file goes. -/
def OpenFile.WriteAt {α : Type} (file : List α) (buf : List α) (n : Nat) : List α :=
  (buf.take n).take file.length ++ file.drop ((buf.take n).take file.length).length

/-- `BitMap::FetchFrom(file)`, the file given by its contents as 32-bit words. -/
def BitMap.FetchFrom (b : BitMap) (file : List Nat) : BitMap :=
  { b with map := OpenFile.ReadAt file b.map b.numWords }

/-- `BitMap::WriteBack(file)`: the contents of the file afterwards. -/
def BitMap.WriteBack (b : BitMap) (file : List Nat) : List Nat :=
  OpenFile.WriteAt file b.map b.numWords

/-! ## File header and open file (`filesys/openfile.h`) -/

/-- Modelled from the spec: a `FileHeader` (filesys/filehdr.h is not among the
sources) holds "`numBytes`, `numSectors`, `isDir`, `dataSectors`"; the sectors
recorded are the first `numSectors` items of `dataSectors`. -/
structure FileHeader where
  numBytes : Nat
  numSectors : Nat
  isDir : Nat
  dataSectors : List Int
  deriving DecidableEq, Repr

/-- Modelled from the spec: `FileHeader::Deallocate` (filesys/filehdr.cc is not
among the sources): "`Deallocate(bitmap)`: clear each recorded sector". -/
def FileHeader.Deallocate (h : FileHeader) (freeMap : BitMap) : Option BitMap :=
  (h.dataSectors.take h.numSectors).foldlM (fun fm s => BitMap.Clear fm s) freeMap

/-- The private fields of `OpenFile`. -/
structure OpenFile where
  name : CString
  hdr : FileHeader
  seekPosition : Int
  fSector : Int
  deriving DecidableEq, Repr

/-- What `oftable.cc` reads and writes on the file-system disk: the contents
of the free-map file (`g_file_system->GetFreeMapFile()`) as 32-bit words, and
for each sector the file header stored there and the contents of the file it
describes, read as a table of directory entries. -/
structure Disk where
  freeMapFile : List Nat
  hdr : Int → FileHeader
  dirFile : Int → List DirectoryEntry

/-- Modelled from the spec: `OpenFile::OpenFile(sector)` (filesys/openfile.cc
is not among the sources) fetches the file header stored in `sector`; the
handle has no name yet and its seek position is 0. -/
def OpenFile.new (d : Disk) (sector : Int) : OpenFile :=
  { name := [], hdr := d.hdr sector, seekPosition := 0, fSector := sector }

/-- Modelled from the spec: `OpenFile::SetName` (filesys/openfile.cc is not
among the sources). -/
def OpenFile.SetName (f : OpenFile) (name : CString) : OpenFile :=
  { f with name := name }

/-- Modelled from the spec: `OpenFile::IsDir` (filesys/openfile.cc is not among
the sources): "`isDir`: 0 = regular, nonzero = directory". -/
def OpenFile.IsDir (f : OpenFile) : Bool :=
  decide (f.hdr.isDir ≠ 0)

/-- Modelled from the spec: `OpenFile::GetFileHeader` (filesys/openfile.cc is
not among the sources) returns "the file's header". -/
def OpenFile.GetFileHeader (f : OpenFile) : FileHeader :=
  f.hdr

/-- `Directory::FetchFrom(file)`, the file given by its contents as directory
entries. -/
def Directory.FetchFrom (d : Directory) (file : List DirectoryEntry) : Directory :=
  { table := OpenFile.ReadAt file d.table d.tableSize }

/-- `Directory::WriteBack(file)`: the contents of the file afterwards. -/
def Directory.WriteBack (d : Directory) (file : List DirectoryEntry) : List DirectoryEntry :=
  OpenFile.WriteAt file d.table d.tableSize

/-- The functions of filesys/filesys.cc called by `oftable.cc`, not among the
sources and kept as parameters: `FindDir(name)` returns the sector of the
header of the directory that holds the file and cuts `name` down to the leaf
name (`INVALID_SECTOR` when a directory of the path is missing);
`FileSystem::Remove(name)` returns an error code and changes the disk. -/
structure FileSystem where
  FindDir : Disk → CString → Int × CString
  Remove : Disk → CString → Int × Disk

/-! ## Open-file table (`filesys/oftable.cc`) -/

/-- An `OpenFileTableEntry`. -/
structure OpenFileTableEntry where
  name : CString
  file : Option OpenFile
  numthread : Int
  lock : Lock
  ToBeDeleted : Bool
  sector : Int
  deriving DecidableEq, Repr

/-- `OpenFileTableEntry::OpenFileTableEntry()` (the name buffer is empty). -/
def OpenFileTableEntry.new : OpenFileTableEntry :=
  { name := [], file := none, numthread := 1, lock := Lock.new, ToBeDeleted := false,
    sector := INVALID_SECTOR }

/-- `OpenFileTableEntry::~OpenFileTableEntry()`: the disk afterwards; `none`
when a `BitMap::Clear` assertion fails or `file` is `NULL`. -/
def OpenFileTableEntry.destroy (cfg : Config) (d : Disk) (e : OpenFileTableEntry) :
    Option Disk :=
  if e.ToBeDeleted then
    let freeMap := (BitMap.new cfg.NUM_SECTORS).FetchFrom d.freeMapFile
    match e.file with
    | none => none
    | some file =>
        match file.GetFileHeader.Deallocate freeMap with
        | none => none
        | some freeMap =>
            match freeMap.Clear e.sector with
            | none => none
            | some freeMap => some { d with freeMapFile := freeMap.WriteBack d.freeMapFile }
  else some d

/-- An `OpenFileTable`: the array `table[NBOFTENTRY]` (`NULL` is `none`; only
indices below `NBOFTENTRY` are ever used) and `nbentry`. -/
structure OpenFileTable where
  table : Nat → Option OpenFileTableEntry
  nbentry : Int

/-- `OpenFileTable::OpenFileTable()`. -/
def OpenFileTable.new : OpenFileTable :=
  { table := fun _ => none, nbentry := 0 }

/-- The `while` loop of `OpenFileTable::findl`, with `n` turns left from
index `i`. -/
def OpenFileTable.findl_loop (t : OpenFileTable) (name : CString) : Nat → Nat → Int
  | 0, _ => ERROR
  | n + 1, i =>
      match t.table i with
      | some e => if e.name = name then (i : Int) else OpenFileTable.findl_loop t name n (i + 1)
      | none => OpenFileTable.findl_loop t name n (i + 1)

/-- `OpenFileTable::findl`. -/
def OpenFileTable.findl (t : OpenFileTable) (name : CString) : Int :=
  OpenFileTable.findl_loop t name NBOFTENTRY 0

/-- The `while` loop of `OpenFileTable::next_entry`, with `n` turns left from
index `i`. -/
def OpenFileTable.next_entry_loop (t : OpenFileTable) : Nat → Nat → Int
  | 0, _ => ERROR
  | n + 1, i =>
      match t.table i with
      | none => (i : Int)
      | some _ => OpenFileTable.next_entry_loop t n (i + 1)

/-- `OpenFileTable::next_entry`. -/
def OpenFileTable.next_entry (t : OpenFileTable) : Int :=
  OpenFileTable.next_entry_loop t NBOFTENTRY 0

/-- `OpenFileTable::Open`: the handle returned (`NULL` is `none`) and the
table afterwards. -/
def OpenFileTable.Open (cfg : Config) (fsys : FileSystem) (d : Disk) (t : OpenFileTable)
    (name : CString) : Option OpenFile × OpenFileTable :=
  let num := t.findl name
  if num ≠ ERROR then
    match t.table num.toNat with
    | some e =>
        if !e.ToBeDeleted then
          let newfile := (OpenFile.new d e.sector).SetName name
          let e := { e with numthread := e.numthread + 1 }
          (some newfile, { t with table := Function.update t.table num.toNat (some e) })
        else (none, t)
    | none => (none, t)
  else if t.nbentry ≠ ERROR then
    let entry := { OpenFileTableEntry.new with name := name }
    let directory := Directory.new cfg.NumDirEntries
    let found := fsys.FindDir d name
    let dirsector := found.1
    let filename := found.2
    if dirsector = INVALID_SECTOR then (none, t)
    else
      let directory := directory.FetchFrom (d.dirFile dirsector)
      let sector := directory.Find cfg filename
      if sector ≥ 0 then
        let openfile := OpenFile.new d sector
        if openfile.IsDir then (none, t)
        else
          let newfile := (OpenFile.new d sector).SetName name
          let openfile := openfile.SetName name
          let entry := { entry with sector := sector, file := some openfile }
          let t := { t with table := Function.update t.table t.nbentry.toNat (some entry) }
          (some newfile, { t with nbentry := t.next_entry })
      else (none, t)
  else (none, t)

/-- `OpenFileTable::Close`: the disk and the table afterwards; `none` when the
destructor of the entry aborts. -/
def OpenFileTable.Close (cfg : Config) (d : Disk) (t : OpenFileTable) (name : CString) :
    Option (Disk × OpenFileTable) :=
  let num := t.findl name
  if num ≠ ERROR then
    match t.table num.toNat with
    | some e =>
        let e := { e with numthread := e.numthread - 1 }
        if e.numthread ≤ 0 then
          match OpenFileTableEntry.destroy cfg d e with
          | some d => some (d, { t with table := Function.update t.table num.toNat none })
          | none => none
        else some (d, { t with table := Function.update t.table num.toNat (some e) })
    | none => none
  else some (d, t)

/-- `OpenFileTable::Remove`: the error code returned, the disk and the table
afterwards. -/
def OpenFileTable.Remove (cfg : Config) (fsys : FileSystem) (d : Disk) (t : OpenFileTable)
    (name : CString) : Int × Disk × OpenFileTable :=
  let directory := Directory.new cfg.NumDirEntries
  let found := fsys.FindDir d name
  let dirsector := found.1
  let filename := found.2
  if dirsector = INVALID_SECTOR then (INEXIST_FILE_ERROR, d, t)
  else
    let directory := directory.FetchFrom (d.dirFile dirsector)
    let sector := directory.Find cfg filename
    if sector = INVALID_SECTOR then (INEXIST_FILE_ERROR, d, t)
    else
      let num := t.findl name
      if num ≠ ERROR then
        match t.table num.toNat with
        | some e =>
            let e := { e with ToBeDeleted := true }
            let t := { t with table := Function.update t.table num.toNat (some e) }
            let directory := (directory.Remove cfg filename).2
            let dirfile := directory.WriteBack (d.dirFile dirsector)
            let d := { d with dirFile := Function.update d.dirFile dirsector dirfile }
            (NO_ERROR, d, t)
        | none => (NO_ERROR, d, t)
      else
        let r := fsys.Remove d name
        (r.1, r.2, t)

/-- The number of entries held by the table (`table[i] != NULL`). -/
def OpenFileTable.entries (t : OpenFileTable) : Nat :=
  ((List.range NBOFTENTRY).filter (fun i => (t.table i).isSome)).length

/-- A sequence of `OpenFileTable::Open` calls, one per name: the table
afterwards. -/
def OpenFileTable.OpenAll (cfg : Config) (fsys : FileSystem) (d : Disk) (t : OpenFileTable)
    (names : List CString) : OpenFileTable :=
  names.foldl (fun t name => (OpenFileTable.Open cfg fsys d t name).2) t

/-- The call `OpenFileTable::Close(name)` made `n` times in a row: the disk
and the table afterwards; `none` when one of the calls aborts. -/
def OpenFileTable.CloseN (cfg : Config) (name : CString) :
    Nat → Disk × OpenFileTable → Option (Disk × OpenFileTable)
  | 0, s => some s
  | n + 1, s => (OpenFileTable.Close cfg s.1 s.2 name).bind (OpenFileTable.CloseN cfg name n)

/-- Bit `s` of the free map as stored on disk: what `Test(s)` answers on a
bitmap of `NUM_SECTORS` bits fetched from the free-map file. -/
def Disk.freeMapBit (cfg : Config) (d : Disk) (s : Int) : Option Bool :=
  ((BitMap.new cfg.NUM_SECTORS).FetchFrom d.freeMapFile).Test s

/-- A call made to the open-file table. -/
inductive FileOp where
  | Open (name : CString)
  | Close (name : CString)
  deriving DecidableEq, Repr

/-- The state of a run of calls: the disk, the table, the names of the `Open`
calls that returned a handle so far and the names of the `Close` calls made so
far. -/
structure OFTRun where
  disk : Disk
  oft : OpenFileTable
  opens : List CString
  closes : List CString

/-- One call of `Open` or `Close` in a run; `none` when the call aborts. -/
def OpenFileTable.step (cfg : Config) (fsys : FileSystem) (r : OFTRun) :
    FileOp → Option OFTRun
  | .Open name =>
      let o := OpenFileTable.Open cfg fsys r.disk r.oft name
      some { r with oft := o.2, opens := if o.1.isSome then name :: r.opens else r.opens }
  | .Close name =>
      (OpenFileTable.Close cfg r.disk r.oft name).map
        (fun p => { disk := p.1, oft := p.2, opens := r.opens, closes := name :: r.closes })

/-- A run of `Open` and `Close` calls on an initially empty table. -/
def OpenFileTable.run (cfg : Config) (fsys : FileSystem) (d : Disk) (ops : List FileOp) :
    Option OFTRun :=
  ops.foldlM (OpenFileTable.step cfg fsys) ⟨d, OpenFileTable.new, [], []⟩

/-- In the state `r` of a run (if the run got there), `name` has not been
closed more often than it has been opened with success. -/
def OFTRun.balanced (name : CString) : Option OFTRun → Bool
  | some r => decide (r.closes.count name ≤ r.opens.count name)
  | none => true

/-- No `Close(name)` of the run comes before its matching successful
`Open(name)`: after each prefix of the run the Closes of `name` do not
outnumber its successful Opens. -/
def OpenFileTable.Matched (cfg : Config) (fsys : FileSystem) (d : Disk) (name : CString)
    (ops : List FileOp) : Prop :=
  ∀ n, n ≤ ops.length → OFTRun.balanced name (OpenFileTable.run cfg fsys d (ops.take n)) = true

/-- What holds of the table in every state of a run, whatever the names:
entries sit below `NBOFTENTRY`, are not pending deletion and are held by at
least one thread; no two entries carry the same name; `nbentry` is `ERROR` or
the index of an empty slot. -/
structure OpenFileTable.Sound (t : OpenFileTable) : Prop where
  live : ∀ i e, t.table i = some e → e.ToBeDeleted = false ∧ 0 < e.numthread
  uniq : ∀ i j e e', i < NBOFTENTRY → j < NBOFTENTRY → t.table i = some e →
    t.table j = some e' → e.name = e'.name → i = j
  slot : t.nbentry = ERROR ∨ (0 ≤ t.nbentry ∧ t.nbentry < NBOFTENTRY ∧
    t.table t.nbentry.toNat = none)

/-- The counting invariant of a run for one name: an entry for the name has
`numthread` equal to the successful Opens minus the Closes of that name, and
when the name has no entry the two numbers are equal. -/
structure OFTRun.Counted (name : CString) (r : OFTRun) : Prop where
  count : ∀ i e, i < NBOFTENTRY → r.oft.table i = some e → e.name = name →
    e.numthread = (r.opens.count name : Int) - (r.closes.count name : Int)
  zero : (∀ i e, i < NBOFTENTRY → r.oft.table i = some e → e.name ≠ name) →
    r.opens.count name = r.closes.count name

/-! ## A small disk used to run the code on concrete inputs -/

/-- Sixteen directory entries, sixty-four sectors, names of at most eight
characters. -/
def Sample.cfg : Config :=
  { FILENAMEMAXLEN := 8, NUM_SECTORS := 64, NumDirEntries := 16 }

/-- Path resolution for files of the root directory (header in sector 1): the
leaf name is the path without its leading `/`. -/
def Sample.fsys : FileSystem :=
  { FindDir := fun _ name => (1, name.drop 1)
    Remove := fun d _ => (NO_ERROR, d) }

/-- The sixteen one-letter file names `a` to `p`. -/
def Sample.leaves : List CString :=
  [['a'], ['b'], ['c'], ['d'], ['e'], ['f'], ['g'], ['h'],
   ['i'], ['j'], ['k'], ['l'], ['m'], ['n'], ['o'], ['p']]

/-- A disk whose root directory holds the regular files `a` to `p`, with
headers in sectors 2 to 17 and one data sector each (18 to 33); the free map
has sectors 0 to 33 marked. -/
def Sample.disk : Disk :=
  { freeMapFile := [0xFFFFFFFF, 0x3]
    hdr := fun s => ⟨10, 1, 0, [s + 16]⟩
    dirFile := fun _ => Sample.leaves.enum.map (fun p => ⟨true, p.2, (p.1 : Int) + 2⟩) }

/-- The paths `/a` to `/o` of the first fifteen files. -/
def Sample.paths15 : List CString :=
  (Sample.leaves.take 15).map (fun leaf => '/' :: leaf)

/-- The entry of file `/a` (header in sector 2), held by two threads and
pending deletion. -/
def Sample.pendingEntry : OpenFileTableEntry :=
  { name := ['/', 'a'], file := some ((OpenFile.new Sample.disk 2).SetName ['/', 'a']),
    numthread := 2, lock := Lock.new, ToBeDeleted := true, sector := 2 }

/-- A table whose only entry, at index 0, is `Sample.pendingEntry`. -/
def Sample.pending : OpenFileTable :=
  { table := fun i => if i = 0 then some Sample.pendingEntry else none, nbentry := 1 }

/-- Directories reachable from an empty directory (`Directory(size)`) through
calls of `Add` and `Remove`. -/
inductive Directory.Reachable (cfg : Config) : Directory → Prop where
  | empty (size : Nat) : Directory.Reachable cfg (Directory.new size)
  | add {d : Directory} (name : CString) (newSector : Int) :
      Directory.Reachable cfg d → Directory.Reachable cfg (Directory.Add cfg d name newSector).2
  | remove {d : Directory} (name : CString) :
      Directory.Reachable cfg d → Directory.Reachable cfg (Directory.Remove cfg d name).2

/-! ## Translation table (`machine/translationtable.cc`) -/

/-- `#define INVALID_PAGE -1`. -/
abbrev INVALID_PAGE : Int := -1

/-- The values of the configuration `g_cfg` read by the virtual-memory code:
`PageSize` and `UserStackSize` are `uint32_t`, `NumPhysPages` and
`MaxVirtPages` are `uint64_t`. -/
structure VMConfig where
  PageSize : Nat
  NumPhysPages : Nat
  MaxVirtPages : Nat
  UserStackSize : Nat
  deriving DecidableEq, Repr

/-- The value of an integer once converted to a 32-bit `int`. -/
def toInt32 (n : Int) : Int :=
  (n + 2 ^ 31) % 2 ^ 32 - 2 ^ 31

/-- A `PageTableEntry`. -/
structure PageTableEntry where
  valid : Bool
  U : Bool
  M : Bool
  readAllowed : Bool
  writeAllowed : Bool
  physicalPage : Int
  swap : Bool
  addrDisk : Int
  io : Bool
  deriving DecidableEq, Repr

/-- `PageTableEntry::PageTableEntry()`; `physicalPage` and `io` are not
initialised by the constructor and are taken as `0` and `false`. -/
def PageTableEntry.new : PageTableEntry :=
  { valid := false, swap := false, addrDisk := -1, readAllowed := false, writeAllowed := false,
    U := false, M := false, physicalPage := 0, io := false }

/-- A `TranslationTable`: `maxNumPages` and the array `pageTable`, of which
only the entries below `maxNumPages` exist. -/
structure TranslationTable where
  maxNumPages : Nat
  pageTable : Nat → PageTableEntry

/-- `TranslationTable::TranslationTable()`. -/
def TranslationTable.new (cfg : VMConfig) : TranslationTable :=
  { maxNumPages := cfg.MaxVirtPages, pageTable := fun _ => PageTableEntry.new }

/-- `TranslationTable::getMaxNumPages`: `maxNumPages` converted to `int`. -/
def TranslationTable.getMaxNumPages (t : TranslationTable) : Int :=
  toInt32 t.maxNumPages

/-- The common shape of the setters of `TranslationTable`: the `ASSERT` on
`virtualPage` (`none` when it fails), then one field of the entry is written. -/
def TranslationTable.modify (t : TranslationTable) (virtualPage : Nat)
    (f : PageTableEntry → PageTableEntry) : Option TranslationTable :=
  if virtualPage < t.maxNumPages then
    some { t with pageTable := Function.update t.pageTable virtualPage
                    (f (t.pageTable virtualPage)) }
  else none

/-- The common shape of the getters of `TranslationTable`: the `ASSERT` on
`virtualPage` (`none` when it fails), then one field of the entry is read. -/
def TranslationTable.read {α : Type} (t : TranslationTable) (virtualPage : Nat)
    (f : PageTableEntry → α) : Option α :=
  if virtualPage < t.maxNumPages then some (f (t.pageTable virtualPage)) else none

/-- `TranslationTable::setPhysicalPage`. -/
def TranslationTable.setPhysicalPage (t : TranslationTable) (virtualPage : Nat)
    (physicalPage : Int) : Option TranslationTable :=
  t.modify virtualPage (fun e => { e with physicalPage := physicalPage })

/-- `TranslationTable::getPhysicalPage`. -/
def TranslationTable.getPhysicalPage (t : TranslationTable) (virtualPage : Nat) : Option Int :=
  t.read virtualPage (fun e => e.physicalPage)

/-- `TranslationTable::setAddrDisk`. -/
def TranslationTable.setAddrDisk (t : TranslationTable) (virtualPage : Nat) (addrDisk : Int) :
    Option TranslationTable :=
  t.modify virtualPage (fun e => { e with addrDisk := addrDisk })

/-- `TranslationTable::getAddrDisk`. -/
def TranslationTable.getAddrDisk (t : TranslationTable) (virtualPage : Nat) : Option Int :=
  t.read virtualPage (fun e => e.addrDisk)

/-- `TranslationTable::setBitValid`. -/
def TranslationTable.setBitValid (t : TranslationTable) (virtualPage : Nat) :
    Option TranslationTable :=
  t.modify virtualPage (fun e => { e with valid := true })

/-- `TranslationTable::clearBitValid`. -/
def TranslationTable.clearBitValid (t : TranslationTable) (virtualPage : Nat) :
    Option TranslationTable :=
  t.modify virtualPage (fun e => { e with valid := false })

/-- `TranslationTable::getBitValid`. -/
def TranslationTable.getBitValid (t : TranslationTable) (virtualPage : Nat) : Option Bool :=
  t.read virtualPage (fun e => e.valid)

/-- `TranslationTable::clearBitIo`. -/
def TranslationTable.clearBitIo (t : TranslationTable) (virtualPage : Nat) :
    Option TranslationTable :=
  t.modify virtualPage (fun e => { e with io := false })

/-- `TranslationTable::clearBitSwap`. -/
def TranslationTable.clearBitSwap (t : TranslationTable) (virtualPage : Nat) :
    Option TranslationTable :=
  t.modify virtualPage (fun e => { e with swap := false })

/-- `TranslationTable::getBitSwap`. -/
def TranslationTable.getBitSwap (t : TranslationTable) (virtualPage : Nat) : Option Bool :=
  t.read virtualPage (fun e => e.swap)

/-- `TranslationTable::setBitReadAllowed`. -/
def TranslationTable.setBitReadAllowed (t : TranslationTable) (virtualPage : Nat) :
    Option TranslationTable :=
  t.modify virtualPage (fun e => { e with readAllowed := true })

/-- `TranslationTable::setBitWriteAllowed`. -/
def TranslationTable.setBitWriteAllowed (t : TranslationTable) (virtualPage : Nat) :
    Option TranslationTable :=
  t.modify virtualPage (fun e => { e with writeAllowed := true })

/-- `TranslationTable::clearBitWriteAllowed`. -/
def TranslationTable.clearBitWriteAllowed (t : TranslationTable) (virtualPage : Nat) :
    Option TranslationTable :=
  t.modify virtualPage (fun e => { e with writeAllowed := false })

/-! ## Physical memory manager (`vm/physMem.cc`) -/

/-- One `struct tpr_c`; `owner` is the address of an `AddrSpace` object
(`NULL` is `none`). -/
structure tpr_c where
  free : Bool
  locked : Bool
  virtualPage : Nat
  owner : Option Nat
  deriving DecidableEq, Repr

/-- The fields of `PhysicalMemManager`: the array `tpr` (only the entries
below `NumPhysPages` exist), `free_page_list` and `i_clock`. -/
structure PhysicalMemManager where
  tpr : Nat → tpr_c
  free_page_list : List Nat
  i_clock : Nat

/-- The fields `translationTable` (`NULL` is `none`), `freePageId`,
`CodeStartAddress` and `nb_mapped_files` of an `AddrSpace`. -/
structure AddrSpace where
  translationTable : Option TranslationTable
  freePageId : Int
  CodeStartAddress : Int
  nb_mapped_files : Int

/-- The kernel state read and written by the virtual-memory code:
`g_physical_mem_manager`, the `AddrSpace` objects (by address),
`g_machine->mainMemory` (by byte address) and the counter `numMemoryAccess` of
the statistics of the current process. -/
structure VM where
  g_physical_mem_manager : PhysicalMemManager
  addrspace : Nat → AddrSpace
  mainMemory : Nat → Nat
  numMemoryAccess : Nat

/-- Modelled from the spec: `Listint::Prepend` (utility/list.cc is not among
the sources) puts an item at the head of the list. -/
def Listint.Prepend (q : List Nat) (item : Nat) : List Nat :=
  item :: q

/-- `PhysicalMemManager::PhysicalMemManager()`: every frame free, unlocked and
without owner (`virtualPage` is not initialised and taken as 0), the frames
appended to the free list in increasing order, `i_clock = -1` as `uint64_t`. -/
def PhysicalMemManager.new (cfg : VMConfig) : PhysicalMemManager :=
  { tpr := fun _ => { free := true, locked := false, virtualPage := 0, owner := none }
    free_page_list := (List.range cfg.NumPhysPages).foldl (fun l i => Listint.Append l i) []
    i_clock := 2 ^ 64 - 1 }

/-- `ProcessStat::incrMemoryAccess` on the statistics of the current process
(the tick counters updated along with `numMemoryAccess` are left out). -/
def VM.incrMemoryAccess (k : VM) : VM :=
  { k with numMemoryAccess := k.numMemoryAccess + 1 }

/-- `PhysicalMemManager::RemovePhysicalToVirtualMapping`; `none` when the
`ASSERT` fails, `num_page` is outside `tpr`, the owner is `NULL`, or the
`ASSERT` of `clearBitValid` fails. -/
def PhysicalMemManager.RemovePhysicalToVirtualMapping (cfg : VMConfig) (k : VM)
    (num_page : Nat) : Option VM :=
  let pmm := k.g_physical_mem_manager
  if num_page < cfg.NumPhysPages then
    if (pmm.tpr num_page).free then none
    else
      let e := { pmm.tpr num_page with free := true, locked := false }
      let tpr := Function.update pmm.tpr num_page e
      let pmm := { pmm with tpr := tpr, free_page_list := Listint.Prepend pmm.free_page_list num_page }
      match e.owner with
      | none => none
      | some owner =>
          match (k.addrspace owner).translationTable with
          | some translationTable =>
              match translationTable.clearBitValid e.virtualPage with
              | none => none
              | some translationTable =>
                  let a := { k.addrspace owner with translationTable := some translationTable }
                  some { k with g_physical_mem_manager := pmm
                                addrspace := Function.update k.addrspace owner a }
          | none => some { k with g_physical_mem_manager := pmm }
  else none

/-- `PhysicalMemManager::UnlockPage`; `none` when an `ASSERT` fails. -/
def PhysicalMemManager.UnlockPage (cfg : VMConfig) (k : VM) (num_page : Nat) : Option VM :=
  let pmm := k.g_physical_mem_manager
  if ¬ num_page < cfg.NumPhysPages then none
  else if ¬ (pmm.tpr num_page).locked = true then none
  else if ¬ (pmm.tpr num_page).free = false then none
  else
    let e := { pmm.tpr num_page with locked := false }
    some { k with g_physical_mem_manager := { pmm with tpr := Function.update pmm.tpr num_page e } }

/-- `PhysicalMemManager::ChangeOwner(numPage, owner)`, the thread `owner` being
given by the address space `owner->GetProcessOwner()->addrspace` (possibly
`NULL`) it runs in; `none` when `numPage` is outside `tpr`. -/
def PhysicalMemManager.ChangeOwner (cfg : VMConfig) (k : VM) (numPage : Nat)
    (addrspace : Option Nat) : Option VM :=
  let k := k.incrMemoryAccess
  let pmm := k.g_physical_mem_manager
  if numPage < cfg.NumPhysPages then
    let e := { pmm.tpr numPage with owner := addrspace }
    some { k with g_physical_mem_manager := { pmm with tpr := Function.update pmm.tpr numPage e } }
  else none

/-- `PhysicalMemManager::AddPhysicalToVirtualMapping`: the body prints a
warning and calls `exit(ERROR)`; it never returns (`none`). -/
def PhysicalMemManager.AddPhysicalToVirtualMapping (_cfg : VMConfig) (_k : VM) (_owner : Nat)
    (_virtualPage : Nat) : Option (Int × VM) :=
  none

/-- `PhysicalMemManager::EvictPage`: the body prints a warning and calls
`exit(ERROR)`; it never returns (`none`). -/
def PhysicalMemManager.EvictPage (_cfg : VMConfig) (_k : VM) : Option (Int × VM) :=
  none

/-- `PhysicalMemManager::FindFreePage`: the value returned (the page number
converted to `int`) and the state afterwards; `none` when the `ASSERT` fails
or the page taken from the list is outside `tpr`. -/
def PhysicalMemManager.FindFreePage (cfg : VMConfig) (k : VM) : Option (Int × VM) :=
  if Listint.IsEmpty k.g_physical_mem_manager.free_page_list then some (INVALID_PAGE, k)
  else
    let k := k.incrMemoryAccess
    let pmm := k.g_physical_mem_manager
    match Listint.Remove pmm.free_page_list with
    | (none, _) => none
    | (some page, rest) =>
        if page < cfg.NumPhysPages then
          if (pmm.tpr page).free then
            let e := { pmm.tpr page with free := false }
            let pmm := { pmm with tpr := Function.update pmm.tpr page e, free_page_list := rest }
            some (toInt32 page, { k with g_physical_mem_manager := pmm })
          else none
        else none

/-! ## Address space (`kernel/addrspace.cc`) -/

/-- `#define SHF_WRITE 0x1` (kernel/elf.h). -/
abbrev SHF_WRITE : Nat := 0x1

/-- `#define SHF_ALLOC 0x2` (kernel/elf.h). -/
abbrev SHF_ALLOC : Nat := 0x2

/-- `#define SHT_NOBITS 8` (kernel/elf.h). -/
abbrev SHT_NOBITS : Nat := 8

/-- `#define ELFCLASS32 1` (kernel/elf.h). -/
abbrev ELFCLASS32 : Nat := 1

/-- `#define ELFCLASS64 2` (kernel/elf.h). -/
abbrev ELFCLASS64 : Nat := 2

/-- `#define STACK_BLANK_LEN 4` (in pages). -/
abbrev STACK_BLANK_LEN : Int := 4

/-- One section header of the executable, as `ElfFile::getShAddr`, `getShSize`,
`getShFlags`, `getShType` and `getShOffset` return it (`uint64_t` values). -/
structure ElfSection where
  addr : Nat
  size : Nat
  flags : Nat
  type : Nat
  offset : Nat
  deriving DecidableEq, Repr

/-- The executable file as the constructor of `AddrSpace` sees it: its bytes,
the class byte `eident[EI_CLASS]`, the error code left by the constructor of
`ElfFile`, the section headers (`getShNum` is their number) and the entry
point `getEntry`. -/
structure Executable where
  contents : List Nat
  EI_CLASS : Nat
  err : Int
  sections : List ElfSection
  entry : Nat
  deriving DecidableEq, Repr

/-- The macro `divRoundUp(n, s)` on `uint64_t` operands. -/
def divRoundUp64 (n s : Nat) : Nat :=
  ((n + s - 1) % 2 ^ 64) / s

/-- The macro `divRoundUp(n, s)` on `uint32_t` operands. -/
def divRoundUp32 (n s : Nat) : Nat :=
  ((n + s - 1) % 2 ^ 32) / s

/-- The index `physicalPage * g_cfg->PageSize` into `mainMemory`, computed on
32-bit unsigned integers. -/
def VMConfig.frameAddress (cfg : VMConfig) (physicalPage : Int) : Nat :=
  ((physicalPage * cfg.PageSize) % 2 ^ 32).toNat

/-- `memset(&mainMemory[addr], c, n)`. -/
def memset (mainMemory : Nat → Nat) (addr c n : Nat) : Nat → Nat :=
  fun a => if addr ≤ a ∧ a < addr + n then c else mainMemory a

/-- Modelled from the spec: `OpenFile::ReadAt(&mainMemory[addr], n, position)`
(filesys/openfile.cc is not among the sources) "reads up to
`min(n, length − pos)` bytes" of the file into memory. -/
def OpenFile.ReadAtMemory (file : List Nat) (mainMemory : Nat → Nat) (addr n position : Nat) :
    Nat → Nat :=
  fun a =>
    if addr ≤ a ∧ a < addr + ((file.drop position).take n).length then
      ((file.drop position).take n).getD (a - addr) 0
    else mainMemory a

/-- `AddrSpace::Alloc`: the value returned and the address space afterwards;
`none` when `translationTable` is `NULL`. -/
def AddrSpace.Alloc (a : AddrSpace) (numPages : Int) : Option (Int × AddrSpace) :=
  match a.translationTable with
  | none => none
  | some translationTable =>
      let result := a.freePageId
      if a.freePageId + numPages ≥ translationTable.getMaxNumPages then some (INVALID_PAGE, a)
      else some (result, { a with freePageId := a.freePageId + numPages })

/-- The statements common to the constructor (addrspace.cc:188-204) and to
`StackAllocate` (addrspace.cc:346-360): `pp = FindFreePage()`, the kernel is
halted when `pp == INVALID_PAGE` (`none`), then `virtualPage`, `owner` and
`locked` of `tpr[pp]` are written; `none` also when `pp` is outside `tpr`. -/
def AddrSpace.FindFreePage_setup (cfg : VMConfig) (k : VM) (this : Nat) (virtualPage : Nat) :
    Option (Int × VM) :=
  match PhysicalMemManager.FindFreePage cfg k with
  | none => none
  | some (pp, k) =>
      if pp = INVALID_PAGE then none
      else if 0 ≤ pp ∧ pp.toNat < cfg.NumPhysPages then
        let pmm := k.g_physical_mem_manager
        let e := { pmm.tpr pp.toNat with virtualPage := virtualPage, owner := some this,
                                          locked := true }
        let pmm := { pmm with tpr := Function.update pmm.tpr pp.toNat e }
        some (pp, { k with g_physical_mem_manager := pmm })
      else none

/-- The body of the page loop of the constructor (addrspace.cc:161-266) for
page `pgdisk` of section `sec`, loaded at virtual page `virt_page`. -/
def AddrSpace.loadPage (cfg : VMConfig) (this : Nat) (exec_file : Executable)
    (sec : ElfSection) (k : VM) (pgdisk virt_page : Nat) : Option VM := do
  let translationTable ← (k.addrspace this).translationTable
  let translationTable ← translationTable.clearBitSwap virt_page
  let translationTable ← translationTable.setBitReadAllowed virt_page
  let translationTable ←
    if sec.flags &&& SHF_WRITE ≠ 0 then translationTable.setBitWriteAllowed virt_page
    else translationTable.clearBitWriteAllowed virt_page
  let translationTable ← translationTable.clearBitIo virt_page
  let found ← AddrSpace.FindFreePage_setup cfg k this virt_page
  let pp := found.1
  let k := found.2
  let translationTable ← translationTable.setPhysicalPage virt_page pp
  let physicalPage ← translationTable.getPhysicalPage virt_page
  let mainMemory :=
    if sec.type ≠ SHT_NOBITS then
      OpenFile.ReadAtMemory exec_file.contents k.mainMemory (cfg.frameAddress physicalPage)
        cfg.PageSize (sec.offset + pgdisk * cfg.PageSize)
    else memset k.mainMemory (cfg.frameAddress physicalPage) 0 cfg.PageSize
  let translationTable ← translationTable.setAddrDisk virt_page INVALID_SECTOR
  let translationTable ← translationTable.setBitValid virt_page
  let a := { k.addrspace this with translationTable := some translationTable }
  pure { k with mainMemory := mainMemory, addrspace := Function.update k.addrspace this a }

/-- The page loop of the constructor for one section, with `n` turns left;
`pgdisk` and `virt_page` are `unsigned int` counters. -/
def AddrSpace.loadSection_loop (cfg : VMConfig) (this : Nat) (exec_file : Executable)
    (sec : ElfSection) : Nat → Nat → Nat → VM → Option VM
  | 0, _, _, k => some k
  | n + 1, pgdisk, virt_page, k =>
      match AddrSpace.loadPage cfg this exec_file sec k pgdisk virt_page with
      | none => none
      | some k =>
          AddrSpace.loadSection_loop cfg this exec_file sec n ((pgdisk + 1) % 2 ^ 32)
            ((virt_page + 1) % 2 ^ 32) k

/-- The body of the section loop of the constructor (addrspace.cc:128-267):
empty sections and sections without `SHF_ALLOC` are skipped, a section not
aligned on a page trips the `ASSERT` (`none`), the others are loaded page by
page. -/
def AddrSpace.loadSection (cfg : VMConfig) (this : Nat) (exec_file : Executable) (k : VM)
    (sec : ElfSection) : Option VM :=
  if sec.size ≤ 0 then some k
  else if sec.flags &&& SHF_ALLOC = 0 then some k
  else if sec.addr % cfg.PageSize ≠ 0 then none
  else
    AddrSpace.loadSection_loop cfg this exec_file sec (divRoundUp64 sec.size cfg.PageSize) 0
      ((sec.addr / cfg.PageSize) % 2 ^ 32) k

/-- The highest virtual address of the sections to load (addrspace.cc:108-117). -/
def AddrSpace.mem_topaddr (sections : List ElfSection) : Nat :=
  sections.foldl
    (fun mem_topaddr sec =>
      if sec.size ≤ 0 then mem_topaddr
      else
        let section_topaddr := (sec.addr + sec.size) % 2 ^ 64
        if sec.flags &&& SHF_ALLOC ≠ 0 ∧ section_topaddr > mem_topaddr then section_topaddr
        else mem_topaddr)
    0

/-- `AddrSpace::AddrSpace(exec_file, p, err)` for the object at address `this`
(`exec_file == NULL` is `none`); `none` when the constructor exits, an `ASSERT`
fails or the kernel is halted.  Fields not yet written are taken as 0: the
object starts as `⟨new TranslationTable(), 0, 0, 0⟩`. -/
def AddrSpace.new (cfg : VMConfig) (k : VM) (this : Nat) (exec_file : Option Executable) :
    Option VM :=
  match exec_file with
  | none =>
      some ⟨k.g_physical_mem_manager,
        Function.update k.addrspace this ⟨some (TranslationTable.new cfg), 0, 0, 0⟩,
        k.mainMemory, k.numMemoryAccess⟩
  | some exec_file =>
      if exec_file.EI_CLASS ≠ ELFCLASS32 ∧ exec_file.EI_CLASS ≠ ELFCLASS64 then none
      else if exec_file.err ≠ NO_ERROR then none
      else
        match AddrSpace.Alloc ⟨some (TranslationTable.new cfg), 0, 0, 0⟩
            (toInt32 (divRoundUp64 (AddrSpace.mem_topaddr exec_file.sections) cfg.PageSize)) with
        | none => none
        | some (base_addr, a) =>
            if base_addr ≠ 0 then none
            else
              match exec_file.sections.foldlM (AddrSpace.loadSection cfg this exec_file)
                  { k with addrspace := Function.update k.addrspace this a } with
              | none => none
              | some k =>
                  some ⟨k.g_physical_mem_manager,
                    Function.update k.addrspace this
                      ⟨(k.addrspace this).translationTable, (k.addrspace this).freePageId,
                        toInt32 exec_file.entry, 0⟩,
                    k.mainMemory, k.numMemoryAccess⟩

/-- The body of the loop of `StackAllocate` (addrspace.cc:341-386) for the
virtual page `i`. -/
def AddrSpace.StackAllocate_page (cfg : VMConfig) (this : Nat) (k : VM) (i : Nat) :
    Option VM := do
  let found ← AddrSpace.FindFreePage_setup cfg k this i
  let pp := found.1
  let k := found.2
  let translationTable ← (k.addrspace this).translationTable
  let translationTable ← translationTable.setPhysicalPage i pp
  let physicalPage ← translationTable.getPhysicalPage i
  let mainMemory := memset k.mainMemory (cfg.frameAddress physicalPage) 0 cfg.PageSize
  let translationTable ← translationTable.setAddrDisk i INVALID_SECTOR
  let translationTable ← translationTable.setBitValid i
  let translationTable ← translationTable.clearBitSwap i
  let translationTable ← translationTable.setBitReadAllowed i
  let translationTable ← translationTable.setBitWriteAllowed i
  let translationTable ← translationTable.clearBitIo i
  let a := { k.addrspace this with translationTable := some translationTable }
  pure { k with mainMemory := mainMemory, addrspace := Function.update k.addrspace this a }

/-- The loop of `StackAllocate`, with `n` turns left from page `i`. -/
def AddrSpace.StackAllocate_loop (cfg : VMConfig) (this : Nat) : Nat → Nat → VM → Option VM
  | 0, _, k => some k
  | n + 1, i, k =>
      match AddrSpace.StackAllocate_page cfg this k i with
      | none => none
      | some k => AddrSpace.StackAllocate_loop cfg this n (i + 1) k

/-- The local variable `numPages` of `StackAllocate`:
`divRoundUp(g_cfg->UserStackSize, g_cfg->PageSize)` stored in an `int`. -/
def AddrSpace.StackAllocate_numPages (cfg : VMConfig) : Int :=
  toInt32 (divRoundUp32 cfg.UserStackSize cfg.PageSize)

/-- `AddrSpace::StackAllocate` on the object at address `this`: the stack
pointer returned and the state afterwards; `none` when an `ASSERT` fails or
the kernel is halted. -/
def AddrSpace.StackAllocate (cfg : VMConfig) (k : VM) (this : Nat) : Option (Int × VM) :=
  match (k.addrspace this).Alloc STACK_BLANK_LEN with
  | none => none
  | some (_, a) =>
      match a.Alloc (AddrSpace.StackAllocate_numPages cfg) with
      | none => none
      | some (stackBasePage, a) =>
          if ¬ stackBasePage ≥ 0 then none
          else
            match AddrSpace.StackAllocate_loop cfg this (AddrSpace.StackAllocate_numPages cfg).toNat
                stackBasePage.toNat { k with addrspace := Function.update k.addrspace this a } with
            | none => none
            | some k =>
                some (toInt32 ((((stackBasePage + AddrSpace.StackAllocate_numPages cfg)
                  * cfg.PageSize) % 2 ^ 32 - 16) % 2 ^ 64), k)

/-- States reachable from the constructor of `PhysicalMemManager` (with any
address spaces, memory and statistics around it) through `FindFreePage`,
`RemovePhysicalToVirtualMapping`, `UnlockPage`, `ChangeOwner`, the frame
set-up made by `AddrSpace` right after `FindFreePage`, and any other kernel
activity that leaves the manager alone. -/
inductive PhysicalMemManager.Reachable (cfg : VMConfig) : VM → Prop where
  | init (addrspace : Nat → AddrSpace) (mainMemory : Nat → Nat) (numMemoryAccess : Nat) :
      PhysicalMemManager.Reachable cfg
        ⟨PhysicalMemManager.new cfg, addrspace, mainMemory, numMemoryAccess⟩
  | FindFreePage {k k' : VM} {page : Int} :
      PhysicalMemManager.Reachable cfg k →
      PhysicalMemManager.FindFreePage cfg k = some (page, k') →
      PhysicalMemManager.Reachable cfg k'
  | RemovePhysicalToVirtualMapping {k k' : VM} (num_page : Nat) :
      PhysicalMemManager.Reachable cfg k →
      PhysicalMemManager.RemovePhysicalToVirtualMapping cfg k num_page = some k' →
      PhysicalMemManager.Reachable cfg k'
  | UnlockPage {k k' : VM} (num_page : Nat) :
      PhysicalMemManager.Reachable cfg k →
      PhysicalMemManager.UnlockPage cfg k num_page = some k' →
      PhysicalMemManager.Reachable cfg k'
  | ChangeOwner {k k' : VM} (numPage : Nat) (addrspace : Option Nat) :
      PhysicalMemManager.Reachable cfg k →
      PhysicalMemManager.ChangeOwner cfg k numPage addrspace = some k' →
      PhysicalMemManager.Reachable cfg k'
  | setup {k k' : VM} (this virtualPage : Nat) {pp : Int} :
      PhysicalMemManager.Reachable cfg k →
      AddrSpace.FindFreePage_setup cfg k this virtualPage = some (pp, k') →
      PhysicalMemManager.Reachable cfg k'
  | other {k k' : VM} :
      PhysicalMemManager.Reachable cfg k →
      k'.g_physical_mem_manager = k.g_physical_mem_manager →
      PhysicalMemManager.Reachable cfg k'

/-- Consistency of the frame table with the free list: the free list holds
frame numbers below `NumPhysPages`, each at most once; a frame is on it
exactly when its `free` flag is set; no frame is both locked and free. -/
structure PhysicalMemManager.Consistent (cfg : VMConfig) (pmm : PhysicalMemManager) : Prop where
  inRange : ∀ f ∈ pmm.free_page_list, f < cfg.NumPhysPages
  onList : ∀ f, f < cfg.NumPhysPages → (f ∈ pmm.free_page_list ↔ (pmm.tpr f).free = true)
  nodup : pmm.free_page_list.Nodup
  lockedNotFree : ∀ f, f < cfg.NumPhysPages →
    ¬ ((pmm.tpr f).locked = true ∧ (pmm.tpr f).free = true)

/-! ## A small machine used to run the virtual-memory code on concrete inputs -/

/-- Pages of 128 bytes, 4 frames, 16 virtual pages, stacks of 256 bytes. -/
def SampleVM.cfg : VMConfig :=
  { PageSize := 128, NumPhysPages := 4, MaxVirtPages := 16, UserStackSize := 256 }

/-- The machine right after the constructor of `PhysicalMemManager`: every
address holds an `AddrSpace` with an empty translation table, memory is zero. -/
def SampleVM.boot : VM :=
  { g_physical_mem_manager := PhysicalMemManager.new SampleVM.cfg
    addrspace := fun _ => ⟨some (TranslationTable.new SampleVM.cfg), 0, 0, 0⟩
    mainMemory := fun _ => 0
    numMemoryAccess := 0 }

/-- The machine after the address space at address 7 has obtained a frame for
its virtual page 0 (`FindFreePage` and frame set-up). -/
def SampleVM.afterSetup : VM :=
  match AddrSpace.FindFreePage_setup SampleVM.cfg SampleVM.boot 7 0 with
  | some (_, k) => k
  | none => SampleVM.boot

/-- States in which the address space at address `this` has been constructed
(`AddrSpace::AddrSpace`, in any state `k0` of the kernel) and `StackAllocate`
has then been called on it any number of times. -/
inductive AddrSpace.Built (cfg : VMConfig) (this : Nat) : VM → Prop where
  | ctor {k0 k : VM} (exec_file : Option Executable) :
      AddrSpace.new cfg k0 this exec_file = some k →
      AddrSpace.Built cfg this k
  | stack {k k' : VM} {stackpointer : Int} :
      AddrSpace.Built cfg this k →
      AddrSpace.StackAllocate cfg k this = some (stackpointer, k') →
      AddrSpace.Built cfg this k'

/-- The back-link property of the address space at `this`: every virtual page
whose valid bit is set refers to a frame that is not free, is owned by this
address space and records this virtual page. -/
def AddrSpace.BackLinked (cfg : VMConfig) (this : Nat) (k : VM) : Prop :=
  ∀ tt, (k.addrspace this).translationTable = some tt →
    ∀ vp, (tt.pageTable vp).valid = true →
      ∃ p : Nat, (tt.pageTable vp).physicalPage = (p : Int) ∧ p < cfg.NumPhysPages
        ∧ (k.g_physical_mem_manager.tpr p).free = false
        ∧ (k.g_physical_mem_manager.tpr p).owner = some this
        ∧ (k.g_physical_mem_manager.tpr p).virtualPage = vp

/-- The step made by the page loops of the constructor and of `StackAllocate`
for the virtual page `i`: the head `p` of the free list, a free frame, is
taken and set up for `(this, i)`, and entry `i` of the translation table of
`this` is rewritten into a valid entry that refers to `p`. -/
def AddrSpace.MapsPage (cfg : VMConfig) (this : Nat) (k : VM) (i : Nat) (k' : VM) : Prop :=
  ∃ (p : Nat) (rest : List Nat) (tt : TranslationTable) (e : PageTableEntry),
    k.g_physical_mem_manager.free_page_list = p :: rest ∧ p < cfg.NumPhysPages
      ∧ (k.g_physical_mem_manager.tpr p).free = true
      ∧ (k.addrspace this).translationTable = some tt
      ∧ k'.g_physical_mem_manager
          = ⟨Function.update k.g_physical_mem_manager.tpr p ⟨false, true, i, some this⟩, rest,
             k.g_physical_mem_manager.i_clock⟩
      ∧ (k'.addrspace this).translationTable
          = some ⟨tt.maxNumPages, Function.update tt.pageTable i e⟩
      ∧ e.valid = true ∧ e.physicalPage = (p : Int)

/-- A 32-bit executable of 100 bytes with one writable section to load, of
100 bytes at virtual address 0, and entry point 0. -/
def SampleVM.exec : Executable :=
  { contents := List.replicate 100 1
    EI_CLASS := ELFCLASS32
    err := NO_ERROR
    sections := [⟨0, 100, SHF_ALLOC ||| SHF_WRITE, 1, 0⟩]
    entry := 0 }

/-- The machine after the address space at address 7 has been constructed
from `SampleVM.exec`. -/
def SampleVM.built : VM :=
  match AddrSpace.new SampleVM.cfg SampleVM.boot 7 (some SampleVM.exec) with
  | some k => k
  | none => SampleVM.boot

/-- The stack pointer and the machine after `StackAllocate` on the address
space at address 7 of `SampleVM.built`. -/
def SampleVM.stacked : Int × VM :=
  match AddrSpace.StackAllocate SampleVM.cfg SampleVM.built 7 with
  | some r => r
  | none => (0, SampleVM.built)

/-- The translation table of the address space at address 7 after its
construction and one `StackAllocate`. -/
def SampleVM.stackedTable : TranslationTable :=
  match (SampleVM.stacked.2.addrspace 7).translationTable with
  | some tt => tt
  | none => TranslationTable.new SampleVM.cfg

/-! ## Object identifiers (`utility/objaddr.h`) -/

/-- The class `ObjAddr`: the counter `last_id` and the map `ids` from
identifiers to object addresses, kept as the list of its pairs in increasing
order of identifier (the iteration order of `std::map`). -/
structure ObjAddr where
  last_id : Int
  ids : List (Int × Nat)
  deriving DecidableEq, Repr

/-- `ObjAddr::ObjAddr()`: identifiers 0, 1 and 2 are left to the file
descriptors of the console. -/
def ObjAddr.new : ObjAddr :=
  { last_id := 3, ids := [] }

/-- The assignment `ids[id] = ptr` of `std::map`. -/
def ObjAddr.assign : List (Int × Nat) → Int → Nat → List (Int × Nat)
  | [], id, ptr => [(id, ptr)]
  | (i, p) :: rest, id, ptr =>
      if id < i then (id, ptr) :: (i, p) :: rest
      else if id = i then (id, ptr) :: rest
      else (i, p) :: ObjAddr.assign rest id ptr

/-- `ObjAddr::AddObject`: the identifier returned and the registry afterwards;
`none` when the kernel panics (`res < 0`, `Cleanup()` exits).  The increment
of `last_id` wraps on 32 bits. -/
def ObjAddr.AddObject (o : ObjAddr) (ptr : Nat) : Option (Int × ObjAddr) :=
  if o.last_id < 0 then none
  else some (o.last_id, ⟨toInt32 (o.last_id + 1), ObjAddr.assign o.ids o.last_id ptr⟩)

/-- `ObjAddr::SearchObject`: `none` is `NULL`. -/
def ObjAddr.SearchObject (o : ObjAddr) (id : Int) : Option Nat :=
  (o.ids.find? (fun e => e.1 = id)).map Prod.snd

/-- `ObjAddr::RemoveObject(int32_t id)`. -/
def ObjAddr.RemoveObject (o : ObjAddr) (id : Int) : ObjAddr :=
  { o with ids := o.ids.filter (fun e => e.1 ≠ id) }

/-- `ObjAddr::RemoveObject(void *ptr)`: the first pair whose object is `ptr` is
erased, unless its identifier is `-1`. -/
def ObjAddr.RemoveObjectPtr (o : ObjAddr) (ptr : Nat) : ObjAddr :=
  match o.ids.find? (fun e => e.2 = ptr) with
  | none => o
  | some e => if e.1 ≠ -1 then o.RemoveObject e.1 else o

/-- A call on the object registry. -/
inductive ObjOp where
  | AddObject (ptr : Nat)
  | RemoveObject (id : Int)
  | RemoveObjectPtr (ptr : Nat)
  deriving DecidableEq, Repr

/-- A run of calls on the registry `o`: the identifiers returned by the
`AddObject` calls, in order, and the registry at the end; `none` when the
kernel panics. -/
def ObjAddr.run (o : ObjAddr) : List ObjOp → Option (List Int × ObjAddr)
  | [] => some ([], o)
  | ObjOp.AddObject ptr :: ops =>
      match o.AddObject ptr with
      | none => none
      | some (id, o) =>
          match ObjAddr.run o ops with
          | none => none
          | some (ids, o) => some (id :: ids, o)
  | ObjOp.RemoveObject id :: ops => ObjAddr.run (o.RemoveObject id) ops
  | ObjOp.RemoveObjectPtr ptr :: ops => ObjAddr.run (o.RemoveObjectPtr ptr) ops

/-- The number of `AddObject` calls of a run. -/
def ObjOp.adds (ops : List ObjOp) : Nat :=
  (ops.filter (fun op => match op with
    | ObjOp.AddObject _ => true
    | _ => false)).length

/-! ## Swap manager (`vm/swapManager.cc`) -/

/-- The swap manager: the swap disk behind the driver `swap_disk` (of which
only the contents, of type `D`, matter here) and the bitmap `page_flags`. -/
structure SwapManager (D : Type) where
  swap_disk : D
  page_flags : BitMap

/-- `SwapManager::SwapManager()` on the swap disk `diskSwap` of the machine. -/
def SwapManager.new {D : Type} (cfg : Config) (diskSwap : D) : SwapManager D :=
  { swap_disk := diskSwap, page_flags := BitMap.new cfg.NUM_SECTORS }

/-- The `for` loop of `SwapManager::GetFreePage`, with `n` turns left from
sector `i`: the value returned and `page_flags` afterwards; `none` when an
`ASSERT` of `Test` or `Mark` fails. -/
def SwapManager.GetFreePage_loop (page_flags : BitMap) : Nat → Nat → Option (Int × BitMap)
  | 0, _ => some (ERROR, page_flags)
  | n + 1, i =>
      match page_flags.Test i with
      | none => none
      | some false => (page_flags.Mark i).map (fun b => ((i : Int), b))
      | some true => SwapManager.GetFreePage_loop page_flags n (i + 1)

/-- `SwapManager::GetFreePage`. -/
def SwapManager.GetFreePage {D : Type} (cfg : Config) (m : SwapManager D) :
    Option (Int × SwapManager D) :=
  (SwapManager.GetFreePage_loop m.page_flags cfg.NUM_SECTORS 0).map
    (fun r => (r.1, ⟨m.swap_disk, r.2⟩))

/-- `SwapManager::ReleasePageSwap(disk_addr)`, `disk_addr` being a `uint32_t`
that `BitMap::Clear` receives as an `int`. -/
def SwapManager.ReleasePageSwap {D : Type} (m : SwapManager D) (disk_addr : Nat) :
    Option (SwapManager D) :=
  (m.page_flags.Clear (toInt32 disk_addr)).map (fun b => ⟨m.swap_disk, b⟩)

/-- `SwapManager::PutPageSwap(disk_addr, SwapPage)`: the value returned and the
swap manager afterwards.  `disk_addr` is a `uint32_t`, compared with
`(uint32_t) INVALID_SECTOR`, and is returned as an `int`.  The driver routine
`DriverDisk::WriteSector` (drivers/drvDisk.cc is not among the sources) is the
parameter `WriteSector`: the disk after the sector has been written, or `none`
when the driver aborts. -/
def SwapManager.PutPageSwap {D B : Type} (WriteSector : D → Nat → B → Option D) (cfg : Config)
    (m : SwapManager D) (disk_addr : Nat) (SwapPage : B) : Option (Int × SwapManager D) :=
  if disk_addr ≠ (INVALID_SECTOR % 2 ^ 32).toNat then
    (WriteSector m.swap_disk disk_addr SwapPage).map
      (fun d => (toInt32 disk_addr, ⟨d, m.page_flags⟩))
  else
    match m.GetFreePage cfg with
    | none => none
    | some (r, m) =>
        if (r % 2 ^ 32).toNat = (INVALID_SECTOR % 2 ^ 32).toNat then some (INVALID_SECTOR, m)
        else
          (WriteSector m.swap_disk (r % 2 ^ 32).toNat SwapPage).map
            (fun d => (toInt32 (r % 2 ^ 32).toNat, ⟨d, m.page_flags⟩))

/-- A swap disk of 8 sectors given by the list of their contents, written by
`SampleSwap.WriteSector`. -/
def SampleSwap.WriteSector (d : List (List Nat)) (sector : Nat) (data : List Nat) :
    Option (List (List Nat)) :=
  if sector < d.length then some (d.set sector data) else none

/-- A swap manager over 8 sectors of which sectors 0, 1 and 2 are in use. -/
def SampleSwap.manager : SwapManager (List (List Nat)) :=
  { swap_disk := [[10], [11], [12], [], [], [], [], []], page_flags := ⟨8, 1, [7]⟩ }

/-! ## Parameters of system calls (`kernel/exception.cc`) -/

/-- The conversion `(char) c` of a `uint64_t`: the low byte, as a signed
`char`. -/
def toChar (c : Nat) : Int :=
  if c % 256 < 128 then ((c % 256 : Nat) : Int) else ((c % 256 : Nat) : Int) - 256

/-- The `while` loop of `GetStringParam`, with `n = maxlen - i` turns left:
the array `dest` afterwards and the user addresses read so far.  `ReadMem a`
is the byte that `g_machine->mmu->ReadMem(a, 1, &c)` stores into `c`, `none`
when the access fails and `c` keeps its value (machine/mmu.cc is not among the
sources); `addr` is a `uint64_t`. -/
def GetStringParam_loop (ReadMem : Nat → Option Nat) :
    Nat → Nat → (Nat → Int) → Nat → Nat → List Nat → (Nat → Int) × List Nat
  | 0, _, dest, _, _, reads => (dest, reads)
  | n + 1, addr, dest, i, c, reads =>
      if c ≠ 0 then
        GetStringParam_loop ReadMem n ((addr + 1) % 2 ^ 64)
          (Function.update dest i (toChar ((ReadMem addr).getD c))) (i + 1)
          ((ReadMem addr).getD c) (reads ++ [addr])
      else (dest, reads)

/-- `GetStringParam(addr, dest, maxlen)`: the array `dest` afterwards and the
user addresses read, in order; `none` when `maxlen < 1`, where
`dest[maxlen-1]` is outside the array. -/
def GetStringParam (ReadMem : Nat → Option Nat) (addr : Nat) (dest : Nat → Int) (maxlen : Int) :
    Option ((Nat → Int) × List Nat) :=
  if 1 ≤ maxlen then
    some (Function.update (GetStringParam_loop ReadMem maxlen.toNat addr dest 0 1 []).1
        (maxlen.toNat - 1) 0,
      (GetStringParam_loop ReadMem maxlen.toNat addr dest 0 1 []).2)
  else none

/-- The C string held in the array `s` from index `k`: the characters before
the first NUL, looking at `n` cells at most. -/
def cstring (s : Nat → Int) : Nat → Nat → List Int
  | _, 0 => []
  | k, n + 1 => if s k = 0 then [] else s k :: cstring s (k + 1) n

/-- A user memory holding the bytes of `hello` and a NUL from address 1000. -/
def SampleSys.mem (a : Nat) : Nat :=
  ([104, 101, 108, 108, 111, 0].getD (a - 1000) 7)

/-! ## System calls (`kernel/exception.cc`) -/

/-- `OPENFILE_ERROR` of the enumeration of kernel/msgerror.h. -/
abbrev OPENFILE_ERROR : Int := 2

/-- `INVALID_FILE_ID` of the enumeration of kernel/msgerror.h. -/
abbrev INVALID_FILE_ID : Int := 17

/-- `INVALID_THREAD_ID` of the enumeration of kernel/msgerror.h. -/
abbrev INVALID_THREAD_ID : Int := 18

/-- Constants of userlib/syscall.h and kernel/system.h, which are not among the
sources: the descriptors of the console and the type tags of kernel objects. -/
structure SysConfig where
  CONSOLE_INPUT : Int
  CONSOLE_OUTPUT : Int
  FILE_TYPE : Int
  THREAD_TYPE : Int
  deriving DecidableEq, Repr

/-- The private fields of `SyscallError` read by `PError`: the last error and
its context string. -/
structure SyscallError where
  lastError : Int
  errorAbout : List Int
  deriving DecidableEq, Repr

/-- Modelled from the spec: `SyscallError::SetMsg(about, num)`
(kernel/msgerror.cc is not among the sources): "the last-error slot carries an
`{errorKind, context-string}` pair retrievable by `PError`". -/
def SyscallError.SetMsg (_e : SyscallError) (about : List Int) (num : Int) : SyscallError :=
  { lastError := num, errorAbout := about }

/-- What the system calls on files, the console and threads read and write:
the integer registers of the machine, the bytes of user memory as the MMU
delivers them (`none` where an access fails), the last error, the object
registry, the `type` field and the `OpenFile` contents of the kernel objects by
address, the address of the next object made by `new`, the open-file table,
the file-system disk and the strings handed to the console driver. -/
structure Sys where
  int_registers : Nat → Int
  memory : Nat → Option Nat
  g_syscall_error : SyscallError
  g_object_addrs : ObjAddr
  type : Nat → Int
  file : Nat → OpenFile
  heap_top : Nat
  g_open_file_table : OpenFileTable
  disk : Disk
  console : List (List Int)

/-- Routines called by the system calls whose code is not among the sources
(filesys/openfile.cc, drivers/drvConsole.cc, kernel/thread.cc), kept as
parameters: `file->Read(buffer, size)` gives the bytes read, the value returned
and the file afterwards; `file->Write(buffer, size)` the value returned, the
file and the disk afterwards; `file->Seek(offset)` the file afterwards;
`g_console_driver->GetString(buffer, size)` the bytes typed;
`g_current_thread->Join(ptThread)` and `delete file` the state afterwards. -/
structure SysEnv where
  Read : OpenFile → Int → List Int × Int × OpenFile
  Write : Disk → OpenFile → List Int → Int → Int × OpenFile × Disk
  Seek : OpenFile → Int → OpenFile
  GetString : Sys → Int → List Int
  Join : Sys → Nat → Sys
  delete : Sys → Nat → Sys

/-- `Machine::ReadIntRegister`. -/
def Sys.ReadIntRegister (s : Sys) (num : Nat) : Int :=
  s.int_registers num

/-- `Machine::WriteIntRegister`. -/
def Sys.WriteIntRegister (s : Sys) (num : Nat) (value : Int) : Sys :=
  { s with int_registers := Function.update s.int_registers num value }

/-- `g_syscall_error->SetMsg(about, num)`. -/
def Sys.SetMsg (s : Sys) (about : List Int) (num : Int) : Sys :=
  { s with g_syscall_error := s.g_syscall_error.SetMsg about num }

/-- Modelled from the spec: `g_machine->mmu->WriteMem(addr, 1, value)`
(machine/mmu.cc is not among the sources) stores the low byte of `value` at
the user address `addr` when the access succeeds. -/
def Sys.WriteMem (s : Sys) (addr : Nat) (value : Int) : Sys :=
  match s.memory addr with
  | none => s
  | some _ => { s with memory := Function.update s.memory addr (some (value % 256).toNat) }

/-- Modelled from the spec: `g_console_driver->PutString(buffer, size)`
(drivers/drvConsole.cc is not among the sources) hands the `size` bytes of
`buffer` to the console. -/
def Sys.PutString (s : Sys) (buffer : List Int) (size : Int) : Sys :=
  { s with console := s.console ++ [buffer.take size.toNat] }

/-- The format `"%" PRId64` of `sprintf`: the decimal digits of `f`, as
characters. -/
def sprintf_d (f : Int) : List Int :=
  (toString f).toList.map (fun ch => (ch.toNat : Int))

/-- The conversion of a 64-bit register to `int64_t` after it went through a
`uint64_t`. -/
def toInt64 (n : Int) : Int :=
  (n + 2 ^ 63) % 2 ^ 64 - 2 ^ 63

/-- The kernel string `ch` as a file name of the file system. -/
def CString.ofChars (ch : List Int) : CString :=
  ch.map (fun x => Char.ofNat (x % 256).toNat)

/-- The `while` loop of `GetLengthParam`, with `n` turns left: `none` when the
`int` counters `addr` or `i` would overflow.  A failing `ReadMem` leaves `c`
as it was. -/
def GetLengthParam_loop (ReadMem : Nat → Option Nat) : Nat → Int → Int → Nat → Option Int
  | 0, _, _, _ => none
  | n + 1, addr, i, c =>
      if c ≠ 0 then
        if addr + 1 < 2 ^ 31 ∧ i + 1 < 2 ^ 31 then
          GetLengthParam_loop ReadMem n (addr + 1) (i + 1)
            ((ReadMem (addr % 2 ^ 64).toNat).getD c)
        else none
      else if i + 1 < 2 ^ 31 then some (i + 1) else none

/-- `GetLengthParam(addr)`: `addr` is an `int`, converted to `uint64_t` for
`ReadMem`; the loop cannot make more than `2^32` turns before `addr`
overflows. -/
def GetLengthParam (ReadMem : Nat → Option Nat) (addr : Int) : Option Int :=
  GetLengthParam_loop ReadMem (2 ^ 32) addr 0 1

/-- The statements common to `SC_OPEN`, `SC_CREATE`, `SC_REMOVE`, …: the
string at the user address held in register 10 is copied into the array `ch`
of `GetLengthParam(addr)` characters (whose cells are taken as 0 before the
copy), and read as a C string. -/
def Sys.stringParam (s : Sys) : Option (List Int) :=
  match GetLengthParam s.memory (toInt32 (s.ReadIntRegister 10)) with
  | none => none
  | some sizep =>
      match GetStringParam s.memory (toInt32 (s.ReadIntRegister 10) % 2 ^ 64).toNat (fun _ => 0)
          sizep with
      | none => none
      | some r => some (cstring r.1 0 sizep.toNat)

/-- The case `SC_OPEN` of `ExceptionHandler`; `none` when the kernel panics or
a counter overflows.  The `OpenFile` returned by the table is the object made
by `new` at address `heap_top`, with type tag `FILE_TYPE`. -/
def SC_OPEN (c : SysConfig) (cfg : Config) (fsys : FileSystem) (s : Sys) : Option Sys :=
  match s.stringParam with
  | none => none
  | some ch =>
      match OpenFileTable.Open cfg fsys s.disk s.g_open_file_table (CString.ofChars ch) with
      | (none, t) =>
          some (Sys.WriteIntRegister
            (Sys.SetMsg ⟨s.int_registers, s.memory, s.g_syscall_error, s.g_object_addrs, s.type,
              s.file, s.heap_top, t, s.disk, s.console⟩ ch OPENFILE_ERROR) 10 0)
      | (some file, t) =>
          match s.g_object_addrs.AddObject s.heap_top with
          | none => none
          | some (ret, o) =>
              some (Sys.WriteIntRegister
                (Sys.SetMsg ⟨s.int_registers, s.memory, s.g_syscall_error, o,
                  Function.update s.type s.heap_top c.FILE_TYPE,
                  Function.update s.file s.heap_top file, s.heap_top + 1, t, s.disk,
                  s.console⟩ [] NO_ERROR) 10 ret)

/-- The loop of `SC_READ` that copies `buffer[0..numread-1]` into user memory
from `addr` (an `int`), with the bytes left to copy. -/
def SC_READ_copy : List Int → Int → Sys → Sys
  | [], _, s => s
  | b :: rest, addr, s => SC_READ_copy rest (addr + 1) (s.WriteMem (addr % 2 ^ 64).toNat b)

/-- The case `SC_READ` of `ExceptionHandler`. -/
def SC_READ (env : SysEnv) (c : SysConfig) (s : Sys) : Sys :=
  if s.ReadIntRegister 12 ≠ c.CONSOLE_INPUT then
    match s.g_object_addrs.SearchObject (toInt32 (s.ReadIntRegister 12)) with
    | some file =>
        if s.type file = c.FILE_TYPE then
          Sys.WriteIntRegister
            (SC_READ_copy
              ((env.Read (s.file file) (toInt32 (s.ReadIntRegister 11))).1.take
                (env.Read (s.file file) (toInt32 (s.ReadIntRegister 11))).2.1.toNat)
              (toInt32 (s.ReadIntRegister 10))
              (Sys.SetMsg ⟨s.int_registers, s.memory, s.g_syscall_error, s.g_object_addrs, s.type,
                Function.update s.file file
                  (env.Read (s.file file) (toInt32 (s.ReadIntRegister 11))).2.2,
                s.heap_top, s.g_open_file_table, s.disk, s.console⟩ [] NO_ERROR))
            10 (env.Read (s.file file) (toInt32 (s.ReadIntRegister 11))).2.1
        else
          Sys.WriteIntRegister (s.SetMsg (sprintf_d (s.ReadIntRegister 12)) INVALID_FILE_ID) 10 ERROR
    | none =>
        Sys.WriteIntRegister (s.SetMsg (sprintf_d (s.ReadIntRegister 12)) INVALID_FILE_ID) 10 ERROR
  else
    Sys.WriteIntRegister
      (SC_READ_copy
        ((env.GetString s (toInt32 (s.ReadIntRegister 11))).take
          (toInt32 (s.ReadIntRegister 11)).toNat)
        (toInt32 (s.ReadIntRegister 10)) (s.SetMsg [] NO_ERROR))
      10 (toInt32 (s.ReadIntRegister 11))

/-- The loop of `SC_WRITE` that fills `buffer` from user memory, with `n`
bytes left to read from the `uint64_t` address `addr`; `c` is the variable the
MMU writes into, which keeps its value when an access fails. -/
def SC_WRITE_fill (memory : Nat → Option Nat) : Nat → Nat → Nat → List Int
  | 0, _, _ => []
  | n + 1, addr, c =>
      toChar ((memory addr).getD c)
        :: SC_WRITE_fill memory n ((addr + 1) % 2 ^ 64) ((memory addr).getD c)

/-- The array `buffer` of `SC_WRITE` once filled: `size` is the `int` held in
register 11, `addr` the `uint64_t` held in register 10; `c` is taken as 0
before the first access. -/
def Sys.writeBuffer (s : Sys) : List Int :=
  SC_WRITE_fill s.memory (toInt32 (s.ReadIntRegister 11)).toNat
    (s.ReadIntRegister 10 % 2 ^ 64).toNat 0

/-- The case `SC_WRITE` of `ExceptionHandler`: the descriptor `f` is a
`uint64_t`, compared as such with `CONSOLE_OUTPUT`. -/
def SC_WRITE (env : SysEnv) (c : SysConfig) (s : Sys) : Sys :=
  if s.ReadIntRegister 12 % 2 ^ 64 > c.CONSOLE_OUTPUT % 2 ^ 64 then
    match s.g_object_addrs.SearchObject (toInt32 (s.ReadIntRegister 12)) with
    | some file =>
        if s.type file = c.FILE_TYPE then
          Sys.WriteIntRegister
            (Sys.SetMsg ⟨s.int_registers, s.memory, s.g_syscall_error, s.g_object_addrs, s.type,
              Function.update s.file file
                (env.Write s.disk (s.file file) s.writeBuffer
                  (toInt32 (s.ReadIntRegister 11))).2.1,
              s.heap_top, s.g_open_file_table,
              (env.Write s.disk (s.file file) s.writeBuffer (toInt32 (s.ReadIntRegister 11))).2.2,
              s.console⟩ [] NO_ERROR)
            10 (env.Write s.disk (s.file file) s.writeBuffer (toInt32 (s.ReadIntRegister 11))).1
        else
          Sys.WriteIntRegister
            (s.SetMsg (sprintf_d (toInt64 (s.ReadIntRegister 12))) INVALID_FILE_ID) 10 ERROR
    | none =>
        Sys.WriteIntRegister
          (s.SetMsg (sprintf_d (toInt64 (s.ReadIntRegister 12))) INVALID_FILE_ID) 10 ERROR
  else if s.ReadIntRegister 12 % 2 ^ 64 = c.CONSOLE_OUTPUT % 2 ^ 64 then
    Sys.WriteIntRegister
      (Sys.SetMsg (s.PutString s.writeBuffer (toInt32 (s.ReadIntRegister 11))) [] NO_ERROR)
      10 (toInt32 (s.ReadIntRegister 11))
  else
    Sys.WriteIntRegister
      (s.SetMsg (sprintf_d (toInt64 (s.ReadIntRegister 12))) INVALID_FILE_ID) 10 ERROR

/-- The case `SC_SEEK` of `ExceptionHandler`. -/
def SC_SEEK (env : SysEnv) (c : SysConfig) (s : Sys) : Sys :=
  if s.ReadIntRegister 11 > c.CONSOLE_OUTPUT then
    match s.g_object_addrs.SearchObject (toInt32 (s.ReadIntRegister 11)) with
    | some file =>
        if s.type file = c.FILE_TYPE then
          Sys.WriteIntRegister
            (Sys.SetMsg ⟨s.int_registers, s.memory, s.g_syscall_error, s.g_object_addrs, s.type,
              Function.update s.file file
                (env.Seek (s.file file) (toInt32 (s.ReadIntRegister 10))),
              s.heap_top, s.g_open_file_table, s.disk, s.console⟩ [] NO_ERROR)
            10 NO_ERROR
        else
          Sys.WriteIntRegister
            (s.SetMsg (sprintf_d (s.ReadIntRegister 11)) INVALID_FILE_ID) 10 ERROR
    | none =>
        Sys.WriteIntRegister (s.SetMsg (sprintf_d (s.ReadIntRegister 11)) INVALID_FILE_ID) 10 ERROR
  else
    Sys.SetMsg (s.WriteIntRegister 10 ERROR) (sprintf_d (s.ReadIntRegister 11)) INVALID_FILE_ID

/-- The case `SC_CLOSE` of `ExceptionHandler`; `none` when closing the file
aborts in the open-file table. -/
def SC_CLOSE (env : SysEnv) (c : SysConfig) (cfg : Config) (s : Sys) : Option Sys :=
  match s.g_object_addrs.SearchObject (toInt32 (s.ReadIntRegister 10)) with
  | some file =>
      if s.type file = c.FILE_TYPE then
        match OpenFileTable.Close cfg s.disk s.g_open_file_table (s.file file).name with
        | none => none
        | some r =>
            some (Sys.SetMsg
              (Sys.WriteIntRegister
                (env.delete ⟨s.int_registers, s.memory, s.g_syscall_error,
                  s.g_object_addrs.RemoveObject (toInt32 (s.ReadIntRegister 10)), s.type, s.file,
                  s.heap_top, r.2, r.1, s.console⟩ file)
                10 NO_ERROR)
              [] NO_ERROR)
      else
        some (Sys.SetMsg (s.WriteIntRegister 10 ERROR) (sprintf_d (s.ReadIntRegister 10))
          INVALID_FILE_ID)
  | none =>
      some (Sys.SetMsg (s.WriteIntRegister 10 ERROR) (sprintf_d (s.ReadIntRegister 10))
        INVALID_FILE_ID)

/-- The case `SC_JOIN` of `ExceptionHandler`. -/
def SC_JOIN (env : SysEnv) (c : SysConfig) (s : Sys) : Sys :=
  match s.g_object_addrs.SearchObject (toInt32 (s.ReadIntRegister 10)) with
  | some ptThread =>
      if s.type ptThread = c.THREAD_TYPE then
        Sys.WriteIntRegister (Sys.SetMsg (env.Join s ptThread) [] NO_ERROR) 10 NO_ERROR
      else Sys.WriteIntRegister (s.SetMsg [] NO_ERROR) 10 NO_ERROR
  | none => Sys.WriteIntRegister (s.SetMsg [] NO_ERROR) 10 NO_ERROR

/-- Descriptors 0 and 1 for the console, type tags 1 for files and 2 for
threads. -/
def SampleSys.consts : SysConfig :=
  { CONSOLE_INPUT := 0, CONSOLE_OUTPUT := 1, FILE_TYPE := 1, THREAD_TYPE := 2 }

/-- File and thread routines that do nothing. -/
def SampleSys.env : SysEnv :=
  { Read := fun f _ => ([], 0, f)
    Write := fun d f _ _ => (0, f, d)
    Seek := fun f _ => f
    GetString := fun _ _ => []
    Join := fun s _ => s
    delete := fun s _ => s }

/-- A state with the given contents of registers 10, 11 and 12: user memory
holds `hello` at address 1000, the registry holds one object, a thread at
address 50 registered under identifier 3, the open-file table is empty and the
disk is `Sample.disk`. -/
def SampleSys.state (r10 r11 r12 : Int) : Sys :=
  { int_registers := fun n => if n = 10 then r10 else if n = 11 then r11 else
      if n = 12 then r12 else 0
    memory := fun a => some (SampleSys.mem a)
    g_syscall_error := ⟨NO_ERROR, []⟩
    g_object_addrs := ⟨4, [(3, 50)]⟩
    type := fun p => if p = 50 then 2 else 0
    file := fun _ => OpenFile.new Sample.disk 0
    heap_top := 51
    g_open_file_table := OpenFileTable.new
    disk := Sample.disk
    console := [] }


/-- Pages of 128 bytes, 4 frames, 5 virtual pages, stacks of 256 bytes. -/
def SampleVM.cfg5 : VMConfig :=
  { PageSize := 128, NumPhysPages := 4, MaxVirtPages := 5, UserStackSize := 256 }

/-- The machine after the address space at address 7 has been constructed
from `SampleVM.exec` with the virtual space of 5 pages of `SampleVM.cfg5`. -/
def SampleVM.built5 : VM :=
  match AddrSpace.new SampleVM.cfg5 SampleVM.boot 7 (some SampleVM.exec) with
  | some k => k
  | none => SampleVM.boot

/-- The translation table of the address space at address 7 after its
construction, before any `StackAllocate`. -/
def SampleVM.builtTable : TranslationTable :=
  match (SampleVM.built.addrspace 7).translationTable with
  | some tt => tt
  | none => TranslationTable.new SampleVM.cfg


/-! ## Destruction of an address space (`AddrSpace::~AddrSpace`) -/

/-- The first statement of the loop of `AddrSpace::~AddrSpace` for the virtual
page `i` of the object at address `this`: the frame of a valid page is freed;
`none` when an `ASSERT` fails.  `getPhysicalPage` returns an `int` that
`RemovePhysicalToVirtualMapping` receives as a `uint64_t`. -/
def AddrSpace.delete_frame (cfg : VMConfig) (this : Nat) (k : VM) (i : Nat) : Option VM :=
  match (k.addrspace this).translationTable with
  | none => none
  | some translationTable =>
      match translationTable.getBitValid i with
      | none => none
      | some false => some k
      | some true =>
          match translationTable.getPhysicalPage i with
          | none => none
          | some physicalPage =>
              PhysicalMemManager.RemovePhysicalToVirtualMapping cfg k (physicalPage % 2 ^ 64).toNat

/-- The second statement of the loop of `AddrSpace::~AddrSpace` for the
virtual page `i`: the swap sector of a page in the swap area is released in
`g_swap_manager`; `none` when an `ASSERT` fails.  `getAddrDisk` returns an
`int` that `ReleasePageSwap` receives as a `uint32_t`. -/
def AddrSpace.delete_swap {D : Type} (this : Nat) (k : VM) (g_swap_manager : SwapManager D)
    (i : Nat) : Option (SwapManager D) :=
  match (k.addrspace this).translationTable with
  | none => none
  | some translationTable =>
      match translationTable.getBitSwap i with
      | none => none
      | some false => some g_swap_manager
      | some true =>
          match translationTable.getAddrDisk i with
          | none => none
          | some addrDisk =>
              if addrDisk ≥ 0 then g_swap_manager.ReleasePageSwap (addrDisk % 2 ^ 32).toNat
              else some g_swap_manager

/-- The body of the loop of `AddrSpace::~AddrSpace` for the virtual page `i`
of the object at address `this`, on the kernel state and `g_swap_manager`. -/
def AddrSpace.delete_page {D : Type} (cfg : VMConfig) (this : Nat) (s : VM × SwapManager D)
    (i : Nat) : Option (VM × SwapManager D) :=
  match AddrSpace.delete_frame cfg this s.1 i with
  | none => none
  | some k => (AddrSpace.delete_swap this k s.2 i).map (fun m => (k, m))

/-- The loop `for (i = 0; i < freePageId; i++)` of `AddrSpace::~AddrSpace`,
with `n` turns left from page `i`. -/
def AddrSpace.delete_loop {D : Type} (cfg : VMConfig) (this : Nat) :
    Nat → Nat → VM × SwapManager D → Option (VM × SwapManager D)
  | 0, _, s => some s
  | n + 1, i, s =>
      match AddrSpace.delete_page cfg this s i with
      | none => none
      | some s => AddrSpace.delete_loop cfg this n (i + 1) s

/-- `AddrSpace::~AddrSpace` on the object at address `this`: the kernel state
and the swap manager afterwards; `none` when an `ASSERT` fails.  The state
keeps no record of which objects are allocated: the `delete translationTable`
that ends the destructor and the release of the object itself leave it
unchanged. -/
def AddrSpace.delete {D : Type} (cfg : VMConfig) (this : Nat) (s : VM × SwapManager D) :
    Option (VM × SwapManager D) :=
  match (s.1.addrspace this).translationTable with
  | none => some s
  | some _ => AddrSpace.delete_loop cfg this (s.1.addrspace this).freePageId.toNat 0 s

/-- The table `SampleVM.stackedTable` in which page 2, which is not valid, has
been given the swap bit and the swap sector 1. -/
def SampleVM.swappedTable : TranslationTable :=
  ⟨SampleVM.stackedTable.maxNumPages,
    Function.update SampleVM.stackedTable.pageTable 2
      { SampleVM.stackedTable.pageTable 2 with swap := true, addrDisk := 1 }⟩

/-- The machine `SampleVM.stacked` in which the address space at address 7 has
the table `SampleVM.swappedTable`. -/
def SampleVM.swapped : VM :=
  ⟨SampleVM.stacked.2.g_physical_mem_manager,
    Function.update SampleVM.stacked.2.addrspace 7
      ⟨some SampleVM.swappedTable, (SampleVM.stacked.2.addrspace 7).freePageId,
        (SampleVM.stacked.2.addrspace 7).CodeStartAddress,
        (SampleVM.stacked.2.addrspace 7).nb_mapped_files⟩,
    SampleVM.stacked.2.mainMemory, SampleVM.stacked.2.numMemoryAccess⟩


/-- States of a lock reachable from `Lock(name)` through calls of `Acquire` and
`Release` made by any thread in any kernel state: an `Acquire` that returns or
puts its caller to sleep, the part of `Acquire` run when its caller wakes up
(which returns or puts it to sleep again), or a `Release` that returns. -/
inductive Lock.Reachable : Lock → Prop where
  | init : Lock.Reachable Lock.new
  | Acquire_returned {l l' : Lock} {k k' : Kernel} :
      Lock.Reachable l → Lock.Acquire k l = .returned k' l' → Lock.Reachable l'
  | Acquire_sleeping {l l' : Lock} {k k' : Kernel} :
      Lock.Reachable l → Lock.Acquire k l = .sleeping k' l' → Lock.Reachable l'
  | Acquire_wakeup_returned {l l' : Lock} {k k' : Kernel} :
      Lock.Reachable l → Lock.Acquire_wakeup k l = .returned k' l' → Lock.Reachable l'
  | Acquire_wakeup_sleeping {l l' : Lock} {k k' : Kernel} :
      Lock.Reachable l → Lock.Acquire_wakeup k l = .sleeping k' l' → Lock.Reachable l'
  | Release_returned {l l' : Lock} {k k' : Kernel} :
      Lock.Reachable l → Lock.Release k l = .returned k' l' → Lock.Reachable l'


/-! ## Instruction decoding (`machine/instruction.cc`) -/

/-- The value of an integer once converted to a 16-bit `short`. -/
def toInt16 (n : Int) : Int :=
  (n + 2 ^ 15) % 2 ^ 16 - 2 ^ 15

/-- The field `imm13`, a `short`, computed by `Instruction::Decode` from the
`uint64_t` field `value`. -/
def Instruction.Decode_imm13 (value : Nat) : Int :=
  toInt16 ((((value >>> 19) &&& 0x1000) + ((value >>> 20) &&& 0x7e0) + ((value >>> 7) &&& 0x1e)
    + (((value <<< 4) % 2 ^ 64) &&& 0x800)) % 2 ^ 64 : Nat)

/-- The field `imm13_signed`, a `short`, computed by `Instruction::Decode`. -/
def Instruction.Decode_imm13_signed (value : Nat) : Int :=
  toInt16 (if Instruction.Decode_imm13 value ≥ 4096 then Instruction.Decode_imm13 value - 8192
    else Instruction.Decode_imm13 value)

/-- The B-type branch offset of the instruction word `w`, in the words of the
RISC-V encoding: the 13-bit value whose bit 12 is `w[31]`, bits 10:5 are
`w[30:25]`, bits 4:1 are `w[11:8]`, bit 11 is `w[7]` and bit 0 is 0, read in
two's complement. -/
def Instruction.btype_offset (w : Nat) : Int :=
  if w / 2 ^ 31 % 2 = 1 then
    ((2 ^ 12 + (w / 2 ^ 7 % 2) * 2 ^ 11 + (w / 2 ^ 25 % 2 ^ 6) * 2 ^ 5
      + (w / 2 ^ 8 % 2 ^ 4) * 2 ^ 1 : Nat) : Int) - 2 ^ 13
  else
    (((w / 2 ^ 7 % 2) * 2 ^ 11 + (w / 2 ^ 25 % 2 ^ 6) * 2 ^ 5
      + (w / 2 ^ 8 % 2 ^ 4) * 2 ^ 1 : Nat) : Int)


/-! ## Configuration record (`utility/config.cc`) -/

/-- The macro `power_of_two(size)`, `(((size) & ((size)-1)) == 0)`, on a
`uint32_t`. -/
def power_of_two (size : Nat) : Bool :=
  decide (size &&& ((size + 2 ^ 32 - 1) % 2 ^ 32) = 0)

/-- The statements of `Config::Config` that follow the reading of the
configuration file (config.cc:278-288), on the values of `SectorSize` and
`PageSize` (both `uint32_t`) reached then: the values of `SectorSize` and
`PageSize` once the check is passed, `none` when the constructor exits.  The
fields derived from them afterwards are not represented. -/
def Config.Config_check (SectorSize PageSize : Nat) : Option (Nat × Nat) :=
  let PageSize := if PageSize ≠ SectorSize then SectorSize else PageSize
  if !power_of_two SectorSize then none
  else some (SectorSize, PageSize)

/-! ## ELF headers (`kernel/elf.cc`) -/

/-- `EXEC_FILE_FORMAT_ERROR`, member 3 of the error enumeration. -/
abbrev EXEC_FILE_FORMAT_ERROR : Int := 3

/-- `WRONG_FILE_ENDIANESS`, member 19 of the error enumeration. -/
abbrev WRONG_FILE_ENDIANESS : Int := 19

/-- `#define EI_MAG0 0` (kernel/elf.h). -/
abbrev EI_MAG0 : Nat := 0

/-- `#define EI_MAG1 1` (kernel/elf.h). -/
abbrev EI_MAG1 : Nat := 1

/-- `#define EI_MAG2 2` (kernel/elf.h). -/
abbrev EI_MAG2 : Nat := 2

/-- `#define EI_MAG3 3` (kernel/elf.h). -/
abbrev EI_MAG3 : Nat := 3

/-- `#define EI_CLASS 4` (kernel/elf.h). -/
abbrev EI_CLASS : Nat := 4

/-- `#define EI_DATA 5` (kernel/elf.h). -/
abbrev EI_DATA : Nat := 5

/-- `#define EI_VERSION 6` (kernel/elf.h). -/
abbrev EI_VERSION : Nat := 6

/-- `#define ELFDATANONE 0` (kernel/elf.h). -/
abbrev ELFDATANONE : Nat := 0

/-- `#define ELFDATA2LSB 1` (kernel/elf.h). -/
abbrev ELFDATA2LSB : Nat := 1

/-- `#define ELFDATA2MSB 2` (kernel/elf.h). -/
abbrev ELFDATA2MSB : Nat := 2

/-- `#define ET_EXEC 2` (kernel/elf.h). -/
abbrev ET_EXEC : Nat := 2

/-- `#define EM_RISC 243` (kernel/elf.h). -/
abbrev EM_RISC : Nat := 243

/-- `#define EV_CURRENT 1` (kernel/elf.h). -/
abbrev EV_CURRENT : Nat := 1

/-- The fields of an ELF file header read by `CheckELF32Header` and
`CheckELF64Header`; `Elf32_Ehdr` and `Elf64_Ehdr` have the same fields and
differ in the width of `e_shoff`.  `e_ident` is the array of `EI_NIDENT`
bytes. -/
structure Elf_Ehdr where
  e_ident : Nat → Nat
  e_type : Nat
  e_machine : Nat
  e_shoff : Nat
  e_ehsize : Nat
  e_shentsize : Nat
  e_shnum : Nat
  e_shstrndx : Nat

/-- The constants `IS_BIG_ENDIAN` and `IS_LITTLE_ENDIAN` and the global
`host_endianess`, whose definitions are not among the sources, kept as
parameters. -/
structure Endianess where
  IS_BIG_ENDIAN : Int
  IS_LITTLE_ENDIAN : Int
  host_endianess : Int
  deriving DecidableEq, Repr

/-- The checks common to `ElfFile::CheckELF32Header` and
`ElfFile::CheckELF64Header`, which differ in the class byte expected and in
the sizes `sizeof(Elf_Ehdr)` and `sizeof(Elf_Shdr)`: the error code stored in
`*err`.  The global `risc_endianess` written on the way is the local
`risc_endianess`. -/
def ElfFile.CheckELFHeader (en : Endianess) (ELFCLASS sizeof_Ehdr sizeof_Shdr : Nat)
    (elfHdr : Elf_Ehdr) : Int :=
  if elfHdr.e_ident EI_MAG0 ≠ 0x7f ∨ elfHdr.e_ident EI_MAG1 ≠ 'E'.toNat
      ∨ elfHdr.e_ident EI_MAG2 ≠ 'L'.toNat ∨ elfHdr.e_ident EI_MAG3 ≠ 'F'.toNat then
    EXEC_FILE_FORMAT_ERROR
  else if elfHdr.e_ident EI_CLASS ≠ ELFCLASS ∨ elfHdr.e_ident EI_VERSION ≠ EV_CURRENT then
    EXEC_FILE_FORMAT_ERROR
  else
    let risc_endianess :=
      if elfHdr.e_ident EI_DATA = ELFDATA2MSB then en.IS_BIG_ENDIAN else en.IS_LITTLE_ENDIAN
    if risc_endianess ≠ en.host_endianess then WRONG_FILE_ENDIANESS
    else if elfHdr.e_machine ≠ EM_RISC ∨ elfHdr.e_type ≠ ET_EXEC then EXEC_FILE_FORMAT_ERROR
    else if elfHdr.e_ehsize ≠ sizeof_Ehdr ∨ elfHdr.e_shentsize ≠ sizeof_Shdr then
      EXEC_FILE_FORMAT_ERROR
    else if elfHdr.e_shoff < sizeof_Ehdr then EXEC_FILE_FORMAT_ERROR
    else if elfHdr.e_shstrndx ≥ elfHdr.e_shnum then EXEC_FILE_FORMAT_ERROR
    else NO_ERROR

/-- `ElfFile::CheckELF32Header`: `sizeof(Elf32_Ehdr)` is 52 and
`sizeof(Elf32_Shdr)` is 40. -/
def ElfFile.CheckELF32Header (en : Endianess) (elfHdr : Elf_Ehdr) : Int :=
  ElfFile.CheckELFHeader en ELFCLASS32 52 40 elfHdr

/-- `ElfFile::CheckELF64Header`: `sizeof(Elf64_Ehdr)` and `sizeof(Elf64_Shdr)`
are both 64. -/
def ElfFile.CheckELF64Header (en : Endianess) (elfHdr : Elf_Ehdr) : Int :=
  ElfFile.CheckELFHeader en ELFCLASS64 64 64 elfHdr

/-- A little-endian host, with 0 for `IS_LITTLE_ENDIAN` and 1 for
`IS_BIG_ENDIAN`. -/
def SampleElf.littleHost : Endianess :=
  { IS_BIG_ENDIAN := 1, IS_LITTLE_ENDIAN := 0, host_endianess := 0 }

/-- A well-formed header of a 32-bit RISC-V executable whose data-encoding
byte is `data`. -/
def SampleElf.header32 (data : Nat) : Elf_Ehdr :=
  { e_ident := fun i => [0x7f, 'E'.toNat, 'L'.toNat, 'F'.toNat, ELFCLASS32, data, EV_CURRENT].getD i 0
    e_type := ET_EXEC
    e_machine := EM_RISC
    e_shoff := 1000
    e_ehsize := 52
    e_shentsize := 40
    e_shnum := 5
    e_shstrndx := 4 }


/-! ## Print (`filesys/fsmisc.cc`) -/

/-- `#define TransferSize 10`. -/
abbrev TransferSize : Nat := 10

/-- A byte of a file once stored in the array `char buffer[TransferSize]` and
promoted to `int` as an argument of `printf`.  Whether plain `char` is signed
is left to the compiler (it is on x86 hosts, it is not on ARM and RISC-V Linux
hosts): `char_signed` says which. -/
def Print_promote (char_signed : Bool) (b : Nat) : Int :=
  if char_signed then toChar b else ((b % 256 : Nat) : Int)

/-- The characters written by `printf("%1x ", c)` for the `int` `c`: `%x` reads
it as an `unsigned int` and writes it in lowercase hexadecimal, with at least
one digit, then comes the space. -/
def printf_1x (c : Int) : List Char :=
  Nat.toDigits 16 (c % 2 ^ 32).toNat ++ [' ']

/-- Modelled from the spec: `OpenFile::Read(into, numBytes)`
(filesys/openfile.cc is not among the sources) reads "up to
`min(n, length − pos)` bytes" at the seek pointer, which it advances by the
number of bytes read, the value it returns: the bytes read, for a file given by
its contents. -/
def OpenFile.Read (contents : List Nat) (seekPosition numBytes : Nat) : List Nat :=
  (contents.drop seekPosition).take numBytes

/-- The `while` loop of `Print`, with `n` turns left, the seek pointer of the
file at `seekPosition` and `out` written so far: everything written when the
loop ends, `none` when the turns run out. -/
def Print_loop (char_signed : Bool) (contents : List Nat) :
    Nat → Nat → List Char → Option (List Char)
  | 0, _, _ => none
  | n + 1, seekPosition, out =>
      if (OpenFile.Read contents seekPosition TransferSize).length > 0 then
        Print_loop char_signed contents n
          (seekPosition + (OpenFile.Read contents seekPosition TransferSize).length)
          (out ++ ((OpenFile.Read contents seekPosition TransferSize).map
            (fun b => printf_1x (Print_promote char_signed b))).flatten)
      else some out

/-- `Print(name)` on a file that opens, given by its contents: what is written
to the standard output.  The loop is given one turn per byte of the file and
one more. -/
def Print (char_signed : Bool) (contents : List Nat) : Option (List Char) :=
  Print_loop char_signed contents (contents.length + 1) 0 []


/-- What an operation of the address space at `this` did to the frame table,
from the state `k` to the state `k'`, when every frame it obtained is left
locked: each frame either keeps its entry or was free and is now not free,
locked and owned by `this`. -/
def AddrSpace.TakesLocked (this : Nat) (k k' : VM) : Prop :=
  ∀ f : Nat,
    k'.g_physical_mem_manager.tpr f = k.g_physical_mem_manager.tpr f
      ∨ ((k.g_physical_mem_manager.tpr f).free = true
          ∧ (k'.g_physical_mem_manager.tpr f).free = false
          ∧ (k'.g_physical_mem_manager.tpr f).locked = true
          ∧ (k'.g_physical_mem_manager.tpr f).owner = some this)

/-- Every virtual page of the address space at `this` whose valid bit is set
refers to a frame that is not free and is locked. -/
def AddrSpace.LockedLinked (this : Nat) (k : VM) : Prop :=
  ∀ tt, (k.addrspace this).translationTable = some tt →
    ∀ vp, (tt.pageTable vp).valid = true →
      ∃ p : Nat, (tt.pageTable vp).physicalPage = (p : Int)
        ∧ (k.g_physical_mem_manager.tpr p).free = false
        ∧ (k.g_physical_mem_manager.tpr p).locked = true


/-- The registries in which the identifier `id` is registered for no object
and cannot be issued again: it lies below the counter `last_id` (a 32-bit
`int`) as long as the counter has not wrapped to a negative value, after which
`AddObject` issues nothing. -/
def ObjAddr.Retired (id : Int) (o : ObjAddr) : Prop :=
  (∀ e ∈ o.ids, e.1 ≠ id) ∧ (0 ≤ o.last_id → id < o.last_id) ∧ o.last_id < 2 ^ 31

/-- The registries whose identifiers are at least 3 and lie below the counter
`last_id`, as long as the counter has not wrapped to a negative value. -/
def ObjAddr.WF (o : ObjAddr) : Prop :=
  (∀ e ∈ o.ids, 3 ≤ e.1 ∧ (0 ≤ o.last_id → e.1 < o.last_id))
    ∧ (0 ≤ o.last_id → 3 ≤ o.last_id) ∧ o.last_id < 2 ^ 31

/-- A state with `r10` in register 10 in which a thread at address 50 and a
file at address 60 are registered under the identifiers 3 and 4; the file is
`/a`, whose entry in the open-file table is `Sample.pendingEntry`. -/
def SampleSys.fileState (r10 : Int) : Sys :=
  { int_registers := fun n => if n = 10 then r10 else 0
    memory := fun a => some (SampleSys.mem a)
    g_syscall_error := ⟨NO_ERROR, []⟩
    g_object_addrs := ⟨5, [(3, 50), (4, 60)]⟩
    type := fun p => if p = 50 then 2 else if p = 60 then 1 else 0
    file := fun _ => (OpenFile.new Sample.disk 2).SetName ['/', 'a']
    heap_top := 61
    g_open_file_table := Sample.pending
    disk := Sample.disk
    console := [] }

/-- The state after the `Close` system call on identifier 4 in
`SampleSys.fileState 4`. -/
def SampleSys.closed : Sys :=
  match SC_CLOSE SampleSys.env SampleSys.consts Sample.cfg (SampleSys.fileState 4) with
  | some s => s
  | none => SampleSys.fileState 4

/-- A later state, with `r` in the registers 10, 11 and 12, in which two more
objects have been registered and the thread has been removed from the
registry. -/
def SampleSys.later (r : Int) : Sys :=
  { int_registers := fun _ => r
    memory := SampleSys.closed.memory
    g_syscall_error := ⟨NO_ERROR, []⟩
    g_object_addrs := ⟨7, [(5, 70), (6, 80)]⟩
    type := fun p => if p = 70 then 1 else if p = 80 then 1 else 0
    file := SampleSys.closed.file
    heap_top := 81
    g_open_file_table := SampleSys.closed.g_open_file_table
    disk := SampleSys.closed.disk
    console := [] }


/-! ## Directory::List (`filesys/directory.cc`) -/

/-- The loop `for (j = 0; j < depth; j++)` of `Directory::List`, which draws
the branch before the name of an entry: the characters written from index `j`
on, with `n` turns left. -/
def Directory.List_branch (depth : Int) : Nat → Int → List Char
  | 0, _ => []
  | n + 1, j =>
      (if j < depth - 3 then [' '] else []) ++ (if j = depth - 3 then ['+'] else [])
        ++ (if j > depth - 3 then ['-'] else []) ++ Directory.List_branch depth n (j + 1)

/-- One turn of the loop `for (i = 0; i < tableSize; i++)` of
`Directory::List(name, depth)` on the entry `e`: the characters written so far
and the local directory `dir` afterwards; `none` when the recursive call
`dir.List(dirname, depth + 4)`, given as `List_rec`, yields none or when the
path built by `strcpy` and `strcat` does not fit the array
`dirname[g_cfg->MaxFileNameSize]`.  The file of a subdirectory is the contents
`disk.dirFile` of the file whose header is in the sector of the entry. -/
def Directory.List_entry (MaxFileNameSize : Nat) (disk : Disk)
    (List_rec : List DirectoryEntry → CString → Int → Option (List Char))
    (name : CString) (depth : Int) (acc : Option (List Char × Directory)) (e : DirectoryEntry) :
    Option (List Char × Directory) :=
  match acc with
  | none => none
  | some (out, dir) =>
      if e.inUse then
        if (OpenFile.new disk e.sector).IsDir then
          if name.length + e.name.length < MaxFileNameSize then
            match List_rec (dir.FetchFrom (disk.dirFile e.sector)).table (name ++ e.name)
                (depth + 4) with
            | none => none
            | some sub =>
                some (out ++ Directory.List_branch depth depth.toNat 0 ++ e.name
                    ++ ['(', 'D', ')', '\n'] ++ sub,
                  dir.FetchFrom (disk.dirFile e.sector))
          else none
        else
          some (out ++ Directory.List_branch depth depth.toNat 0 ++ e.name ++ ['\n'], dir)
      else some (out, dir)

/-- `Directory::List(name, depth)` (the name `List` is taken in Lean) on the
directory whose table is `table`: the characters written, `none` when the
recursion is deeper than `fuel` or a path does not fit its array.  The local
directory `dir` is made once per call, with `g_cfg->NumDirEntries` entries, and
refilled by `FetchFrom` for each subdirectory.  `MaxFileNameSize` is the
configuration value `g_cfg->MaxFileNameSize`. -/
def Directory.ListTree (cfg : Config) (MaxFileNameSize : Nat) (disk : Disk) :
    Nat → List DirectoryEntry → CString → Int → Option (List Char)
  | 0, _, _, _ => none
  | fuel + 1, table, name, depth =>
      (table.foldl
        (Directory.List_entry MaxFileNameSize disk
          (Directory.ListTree cfg MaxFileNameSize disk fuel) name depth)
        (some ([], Directory.new cfg.NumDirEntries))).map Prod.fst

/-- The line of an entry nested `L` levels below the directory listed, in the
words of the specification: the bare name at level 0, and at level `L ≥ 1` the
name preceded by exactly `4·L` characters, `4·L − 3` spaces followed by `+--`;
a directory is followed by `(D)`. -/
def Directory.tree_line (L : Nat) (name : CString) (isDir : Bool) : List Char :=
  (if L = 0 then [] else List.replicate (4 * L - 3) ' ' ++ ['+', '-', '-']) ++ name
    ++ (if isDir then ['(', 'D', ')'] else []) ++ ['\n']

/-- The lines of the entries of a table at level `L`, in the words of the
specification: every in-use entry, in table order, as its line, the listing
`sub` of a subdirectory (of the first `NumDirEntries` entries of its file)
coming right after the line of that subdirectory. -/
def Directory.tree_entries (cfg : Config) (disk : Disk)
    (sub : List DirectoryEntry → Option (List Char)) (L : Nat) :
    List DirectoryEntry → Option (List Char)
  | [] => some []
  | e :: rest =>
      if e.inUse then
        if (OpenFile.new disk e.sector).IsDir then
          match sub ((disk.dirFile e.sector).take cfg.NumDirEntries) with
          | none => none
          | some s =>
              (Directory.tree_entries cfg disk sub L rest).map
                (fun r => Directory.tree_line L e.name true ++ s ++ r)
        else
          (Directory.tree_entries cfg disk sub L rest).map
            (fun r => Directory.tree_line L e.name false ++ r)
      else Directory.tree_entries cfg disk sub L rest

/-- The listing of a directory at level `L` in the words of the specification,
the entries of a subdirectory being listed one level deeper; `none` when the
hierarchy is deeper than `fuel`. -/
def Directory.tree (cfg : Config) (disk : Disk) :
    Nat → List DirectoryEntry → Nat → Option (List Char)
  | 0, _, _ => none
  | fuel + 1, table, L =>
      Directory.tree_entries cfg disk (fun t => Directory.tree cfg disk fuel t (L + 1)) L table

/-- Four entries per directory, names of at most eight characters. -/
def SampleDir.cfg : Config :=
  { FILENAMEMAXLEN := 8, NUM_SECTORS := 64, NumDirEntries := 4 }

/-- A disk on which the file with header in sector 5 is a directory that holds
the regular files `x` and `y`; every other header is that of a regular
file. -/
def SampleDir.disk : Disk :=
  { freeMapFile := [0xFF]
    hdr := fun s => if s = 5 then ⟨0, 1, 1, [9]⟩ else ⟨10, 1, 0, [s + 16]⟩
    dirFile := fun _ => [⟨true, ['x'], 6⟩, ⟨true, ['y'], 7⟩, ⟨false, [], 0⟩, ⟨false, [], 0⟩] }

/-- The table of the root directory: the directory `d`, an entry not in use,
and the regular file `f`. -/
def SampleDir.root : List DirectoryEntry :=
  [⟨true, ['d'], 5⟩, ⟨false, ['o', 'l', 'd'], 8⟩, ⟨true, ['f'], 8⟩, ⟨false, [], 0⟩]

/-! # Theorems -/

/-! ## Lock hand-off (C1, C2) -/

/-- `Lock::Release` by the owner `T` with waiters `W :: rest`: `W` leaves the wait
queue and is appended to the ready list; `free` and `owner` are not written. -/
theorem Lock.Release_with_waiters (lvl : IntStatus) (ready : List Thread) (T W : Thread)
    (rest : List Thread) :
    Lock.Release ⟨lvl, ready, T⟩ ⟨false, some T, W :: rest⟩
      = .returned ⟨.INTERRUPTS_ON, ready ++ [W], T⟩ ⟨false, some T, rest⟩ := by
  simp [Lock.Release, Lock.isHeldByCurrentThread, Interrupt.SetStatus, Listint.IsEmpty,
    Listint.Remove, Scheduler.ReadyToRun]

/-- A thread resumed inside `Lock::Acquire` while `free` is false goes back to
the tail of the wait queue and sleeps again. -/
theorem Lock.Acquire_wakeup_not_free (k : Kernel) (l : Lock) (h : l.free = false) :
    Lock.Acquire_wakeup k l
      = .sleeping k { l with waiting_queue := l.waiting_queue ++ [k.g_current_thread] } := by
  simp [Lock.Acquire_wakeup, Lock.Acquire_loop, h, Listint.Append]

/-- C1 (code at the failing input): thread 1 holds the lock, threads 2 and 3
wait; `Release` by thread 1 removes 2 from the wait queue, appends it to the
ready list, leaves the lock not free, but the owner is still thread 1, not the
woken thread 2. -/
theorem C1_Release_does_not_transfer_owner :
    Lock.Release ⟨.INTERRUPTS_ON, [], 1⟩ ⟨false, some 1, [2, 3]⟩
        = .returned ⟨.INTERRUPTS_ON, [2], 1⟩ ⟨false, some 1, [3]⟩
      ∧ (some 1 : Option Thread) ≠ some 2 := by
  decide

/-- C2 (code at the failing input): thread 1 holds the lock and thread 2 is
blocked in `Acquire`.  After `Release` by thread 1 the lock is still not free,
so thread 2, once resumed, fails the loop test again: its `Acquire` does not
return, it is back on the wait queue and asleep, and the owner is still 1. -/
theorem C2_woken_waiter_sleeps_again :
    Lock.Release ⟨.INTERRUPTS_ON, [], 1⟩ ⟨false, some 1, [2]⟩
        = .returned ⟨.INTERRUPTS_ON, [2], 1⟩ ⟨false, some 1, []⟩
      ∧ Lock.Acquire_wakeup ⟨.INTERRUPTS_OFF, [], 2⟩ ⟨false, some 1, []⟩
        = .sleeping ⟨.INTERRUPTS_OFF, [], 2⟩ ⟨false, some 1, [2]⟩ := by
  decide

/-! ## Semaphore invariant (C3) -/

/-- The queue-length invariant is kept by `P` and `V`. -/
theorem Semaphore.queue_length_of_reachable {n : Nat} {s : Semaphore}
    (h : Semaphore.Reachable n s) :
    (s.waiting_queue.length : Int) = max 0 (-s.counter) := by
  induction h with
  | init => simp [Semaphore.new]
  | @P_returned s s' k k' _ hP ih =>
      simp only [Semaphore.P] at hP
      split at hP
      · cases hP
      · rename_i hc
        injection hP with _ hs
        subst hs
        simp only at hc ⊢
        rw [ih]; omega
  | @P_sleeping s s' k k' _ hP ih =>
      simp only [Semaphore.P] at hP
      split at hP
      · rename_i hc
        injection hP with _ hs
        subst hs
        simp only [Listint.Append, List.length_append, List.length_singleton] at hc ⊢
        push_cast
        rw [ih]; omega
      · cases hP
  | @V_returned s s' k k' _ hV ih =>
      simp only [Semaphore.V] at hV
      split at hV
      · rename_i hc
        cases hq : s.waiting_queue with
        | nil => simp [hq, Listint.Remove] at hV
        | cons t rest =>
            simp only [hq, Listint.Remove] at hV
            injection hV with _ hs
            subst hs
            simp only at hc ⊢
            rw [hq] at ih
            simp only [List.length_cons] at ih
            push_cast at ih
            omega
      · rename_i hc
        injection hV with _ hs
        subst hs
        simp only at hc ⊢
        rw [ih]; omega

/-- C3: in every state reachable from a new semaphore of initial count `n`
through `P` and `V`, the wait queue holds `max(0, -counter)` threads; `V`
takes its dequeue branch (new counter `≤ 0`) exactly when a thread is waiting,
it then removes the head `t` of the queue and appends it to the ready list,
and with an empty queue it only increments the counter: it never removes from
an empty queue (no `fatal` outcome). -/
theorem C3_Semaphore_queue_invariant (n : Nat) (s : Semaphore)
    (h : Semaphore.Reachable n s) :
    (s.waiting_queue.length : Int) = max 0 (-s.counter)
      ∧ (s.counter + 1 ≤ 0 ↔ s.waiting_queue ≠ [])
      ∧ (∀ (k : Kernel) (t : Thread) (rest : List Thread), s.waiting_queue = t :: rest →
          Semaphore.V k s = .returned ⟨.INTERRUPTS_ON, k.readyList ++ [t], k.g_current_thread⟩
            ⟨s.counter + 1, rest⟩)
      ∧ (∀ k : Kernel, s.waiting_queue = [] →
          Semaphore.V k s = .returned ⟨.INTERRUPTS_ON, k.readyList, k.g_current_thread⟩
            ⟨s.counter + 1, []⟩) := by
  have hlen := Semaphore.queue_length_of_reachable h
  have hiff : s.counter + 1 ≤ 0 ↔ s.waiting_queue ≠ [] := by
    rw [← List.length_pos, ← Int.natCast_pos, hlen]
    omega
  refine ⟨hlen, hiff, ?_, ?_⟩
  · intro k t rest hq
    have hc : s.counter + 1 ≤ 0 := hiff.mpr (by simp [hq])
    simp [Semaphore.V, hc, hq, Listint.Remove, Interrupt.SetStatus, Scheduler.ReadyToRun]
  · intro k hq
    have hc : ¬ s.counter + 1 ≤ 0 := fun hc => hiff.mp hc hq
    simp [Semaphore.V, hc, hq, Interrupt.SetStatus]

/-- Witness for C3: the semaphore `Semaphore(name, 0)` after one `P` by thread
5 has counter `-1` and thread 5 on its queue. -/
theorem C3_Semaphore_queue_invariant_witness :
    Semaphore.Reachable 0 ⟨-1, [5]⟩
      ∧ ((([5] : List Thread).length : Int) = max 0 (-(-1 : Int))) :=
  have hr : Semaphore.Reachable 0 ⟨-1, [5]⟩ :=
    @Semaphore.Reachable.P_sleeping 0 (Semaphore.new 0) ⟨-1, [5]⟩ ⟨.INTERRUPTS_ON, [], 5⟩
      ⟨.INTERRUPTS_OFF, [], 5⟩ Semaphore.Reachable.init (by decide)
  ⟨hr, (C3_Semaphore_queue_invariant 0 ⟨-1, [5]⟩ hr).1⟩

/-! ## Interrupt status on return (C4) -/

/-- C4 (code at the failing input): called with interrupts disabled,
`Semaphore::V`, `Semaphore::P`, `Lock::Acquire`, `Lock::Release`,
`Condition::Signal` and `Condition::Broadcast` all return with interrupts
enabled: the last statement sets `INTERRUPTS_ON`, not the level found at entry. -/
theorem C4_operations_return_with_interrupts_on :
    Semaphore.V ⟨.INTERRUPTS_OFF, [], 1⟩ ⟨0, []⟩ = .returned ⟨.INTERRUPTS_ON, [], 1⟩ ⟨1, []⟩
      ∧ Semaphore.P ⟨.INTERRUPTS_OFF, [], 1⟩ ⟨1, []⟩ = .returned ⟨.INTERRUPTS_ON, [], 1⟩ ⟨0, []⟩
      ∧ Lock.Acquire ⟨.INTERRUPTS_OFF, [], 1⟩ Lock.new
          = .returned ⟨.INTERRUPTS_ON, [], 1⟩ ⟨false, some 1, []⟩
      ∧ Lock.Release ⟨.INTERRUPTS_OFF, [], 1⟩ ⟨false, some 1, []⟩
          = .returned ⟨.INTERRUPTS_ON, [], 1⟩ ⟨true, none, []⟩
      ∧ Condition.Signal ⟨.INTERRUPTS_OFF, [], 1⟩ ⟨[2]⟩ = .returned ⟨.INTERRUPTS_ON, [2], 1⟩ ⟨[]⟩
      ∧ Condition.Broadcast ⟨.INTERRUPTS_OFF, [], 1⟩ ⟨[2, 3]⟩
          = .returned ⟨.INTERRUPTS_ON, [2, 3], 1⟩ ⟨[]⟩ := by
  decide

/-! ## Directory::Add (C10) -/

/-- `FindIndex` never returns a negative index other than `ERROR`: the loop
returns `ERROR` exactly when no entry in use carries the name. -/
theorem Directory.FindIndex_loop_eq_ERROR (cfg : Config) (name : CString)
    (l : List DirectoryEntry) (i : Nat) :
    Directory.FindIndex_loop cfg name l i = ERROR ↔
      ∀ e ∈ l, ¬ (e.inUse = true ∧ e.name.take cfg.FILENAMEMAXLEN = name.take cfg.FILENAMEMAXLEN) := by
  induction l generalizing i with
  | nil => simp [Directory.FindIndex_loop]
  | cons e rest ih =>
      simp only [Directory.FindIndex_loop, strncmp_is_zero, Bool.and_eq_true, decide_eq_true_eq,
        List.mem_cons, forall_eq_or_imp]
      split
      · rename_i h
        constructor
        · intro h'
          simp only [ERROR] at h'
          omega
        · intro h'; exact absurd h h'.1
      · rename_i h
        rw [ih]
        exact ⟨fun h' => ⟨h, h'⟩, fun h' => h'.2⟩

/-- The loop of `Add` runs to its end exactly when every entry is in use. -/
theorem Directory.Add_loop_eq_none (cfg : Config) (name : CString) (newSector : Int)
    (l : List DirectoryEntry) :
    Directory.Add_loop cfg name newSector l = none ↔ ∀ e ∈ l, e.inUse = true := by
  induction l with
  | nil => simp [Directory.Add_loop]
  | cons e rest ih =>
      cases hu : e.inUse <;> simp [Directory.Add_loop, hu, ih]

/-- The loop of `Add` fills the lowest-indexed entry that is not in use. -/
theorem Directory.Add_loop_first_free (cfg : Config) (name : CString) (newSector : Int)
    (l : List DirectoryEntry) (i : Nat) (e : DirectoryEntry) (hi : l[i]? = some e)
    (hfree : e.inUse = false)
    (hlow : ∀ j, j < i → ∀ e', l[j]? = some e' → e'.inUse = true) :
    Directory.Add_loop cfg name newSector l
      = some (l.set i { inUse := true, name := strncpy name cfg.FILENAMEMAXLEN,
                        sector := newSector }) := by
  induction l generalizing i with
  | nil => simp at hi
  | cons a rest ih =>
      cases i with
      | zero =>
          simp only [List.getElem?_cons_zero, Option.some.injEq] at hi
          subst hi
          simp [Directory.Add_loop, hfree]
      | succ i =>
          simp only [List.getElem?_cons_succ] at hi
          have ha : a.inUse = true := hlow 0 (Nat.succ_pos i) a (by simp)
          have hrest := ih i hi (fun j hj e' he' => hlow (j + 1) (by omega) e' (by simpa using he'))
          simp [Directory.Add_loop, ha, hrest]

/-- C10: `Directory::Add(name, sector)` returns `ALREADY_IN_DIRECTORY` and leaves
the table unchanged when an entry in use carries the name (compared on the
first `FILENAMEMAXLEN` characters); otherwise `NOSPACE_IN_DIRECTORY`, table
unchanged, when every entry is in use; otherwise `NO_ERROR` after storing the
name (its first `FILENAMEMAXLEN` characters) and the sector in the
lowest-indexed entry `i` that was not in use. -/
theorem C10_Directory_Add (cfg : Config) (d : Directory) (name : CString) (sector : Int) :
    ((∃ e ∈ d.table, e.inUse = true ∧
          e.name.take cfg.FILENAMEMAXLEN = name.take cfg.FILENAMEMAXLEN) →
        Directory.Add cfg d name sector = (ALREADY_IN_DIRECTORY, d))
    ∧ ((¬ ∃ e ∈ d.table, e.inUse = true ∧
          e.name.take cfg.FILENAMEMAXLEN = name.take cfg.FILENAMEMAXLEN) →
        (∀ e ∈ d.table, e.inUse = true) →
        Directory.Add cfg d name sector = (NOSPACE_IN_DIRECTORY, d))
    ∧ ((¬ ∃ e ∈ d.table, e.inUse = true ∧
          e.name.take cfg.FILENAMEMAXLEN = name.take cfg.FILENAMEMAXLEN) →
        ∀ (i : Nat) (e : DirectoryEntry), d.table[i]? = some e → e.inUse = false →
        (∀ j, j < i → ∀ e', d.table[j]? = some e' → e'.inUse = true) →
        Directory.Add cfg d name sector
          = (NO_ERROR, ⟨d.table.set i ⟨true, name.take cfg.FILENAMEMAXLEN, sector⟩⟩)) := by
  have hfind : Directory.FindIndex cfg d name = ERROR ↔
      ¬ ∃ e ∈ d.table, e.inUse = true ∧
        e.name.take cfg.FILENAMEMAXLEN = name.take cfg.FILENAMEMAXLEN := by
    rw [Directory.FindIndex, Directory.FindIndex_loop_eq_ERROR]
    simp
  refine ⟨?_, ?_, ?_⟩
  · intro hp
    have : Directory.FindIndex cfg d name ≠ ERROR := fun h => hfind.mp h hp
    simp [Directory.Add, this]
  · intro hp hfull
    have h1 := hfind.mpr hp
    have h2 := (Directory.Add_loop_eq_none cfg name sector d.table).mpr hfull
    simp [Directory.Add, h1, h2]
  · intro hp i e hi hfree hlow
    have h1 := hfind.mpr hp
    have h2 := Directory.Add_loop_first_free cfg name sector d.table i e hi hfree hlow
    simp [Directory.Add, h1, h2, strncpy]

/-- Witness for C10 with `FILENAMEMAXLEN = 2` and a directory of two entries,
the first in use under the name `ab`: adding `abc` is refused (same first two
characters), adding `xyz` stores `xy` in entry 1, and adding to the directory
once full is refused for lack of space. -/
theorem C10_Directory_Add_witness :
    Directory.Add ⟨2, 8, 2⟩ ⟨[⟨true, ['a', 'b'], 4⟩, ⟨false, [], 0⟩]⟩ ['a', 'b', 'c'] 5
        = (ALREADY_IN_DIRECTORY, ⟨[⟨true, ['a', 'b'], 4⟩, ⟨false, [], 0⟩]⟩)
    ∧ Directory.Add ⟨2, 8, 2⟩ ⟨[⟨true, ['a', 'b'], 4⟩, ⟨true, ['x', 'y'], 5⟩]⟩ ['q'] 6
        = (NOSPACE_IN_DIRECTORY, ⟨[⟨true, ['a', 'b'], 4⟩, ⟨true, ['x', 'y'], 5⟩]⟩)
    ∧ Directory.Add ⟨2, 8, 2⟩ ⟨[⟨true, ['a', 'b'], 4⟩, ⟨false, [], 0⟩]⟩ ['x', 'y', 'z'] 5
        = (NO_ERROR, ⟨[⟨true, ['a', 'b'], 4⟩, ⟨true, ['x', 'y'], 5⟩]⟩) :=
  ⟨(C10_Directory_Add ⟨2, 8, 2⟩ ⟨[⟨true, ['a', 'b'], 4⟩, ⟨false, [], 0⟩]⟩ ['a', 'b', 'c'] 5).1
      ⟨⟨true, ['a', 'b'], 4⟩, by decide, by decide⟩,
   (C10_Directory_Add ⟨2, 8, 2⟩ ⟨[⟨true, ['a', 'b'], 4⟩, ⟨true, ['x', 'y'], 5⟩]⟩ ['q'] 6).2.1
      (by decide) (by decide),
   (C10_Directory_Add ⟨2, 8, 2⟩ ⟨[⟨true, ['a', 'b'], 4⟩, ⟨false, [], 0⟩]⟩ ['x', 'y', 'z'] 5).2.2
      (by decide) 1 ⟨false, [], 0⟩ (by decide) (by decide)
      (fun j hj e' he' => by
        have hj0 : j = 0 := by omega
        subst hj0
        simp at he'
        subst he'
        rfl)⟩

/-! ## Lookups in the open-file table and in a directory -/

/-- The loop of `findl` returns the lowest index, among the `n` it visits,
whose entry carries the name. -/
theorem OpenFileTable.findl_loop_first (t : OpenFileTable) (name : CString) (n start k : Nat)
    (e : OpenFileTableEntry) (hk : k < n) (he : t.table (start + k) = some e)
    (hname : e.name = name)
    (hlow : ∀ j, j < k → ∀ e', t.table (start + j) = some e' → e'.name ≠ name) :
    OpenFileTable.findl_loop t name n start = ((start + k : Nat) : Int) := by
  induction n generalizing start k with
  | zero => omega
  | succ n ih =>
      cases k with
      | zero =>
          simp only [Nat.add_zero] at he
          simp [OpenFileTable.findl_loop, he, hname]
      | succ k =>
          have h0 : ∀ e', t.table start = some e' → e'.name ≠ name := fun e' he' =>
            hlow 0 (Nat.succ_pos k) e' (by simpa using he')
          have hrec := ih (start + 1) k (by omega)
            (by rw [← he]; congr 1; omega)
            (fun j hj e' he' => hlow (j + 1) (by omega) e'
              (by rw [← he']; congr 1; omega))
          have hidx : start + 1 + k = start + (k + 1) := by omega
          rw [hidx] at hrec
          cases hs : t.table start with
          | none => simp [OpenFileTable.findl_loop, hs, hrec]
          | some e0 => simp [OpenFileTable.findl_loop, hs, h0 e0 hs, hrec]

/-- The loop of `findl` returns `ERROR` exactly when none of the `n` entries
it visits carries the name. -/
theorem OpenFileTable.findl_loop_eq_ERROR (t : OpenFileTable) (name : CString) (n start : Nat) :
    OpenFileTable.findl_loop t name n start = ERROR ↔
      ∀ j, j < n → ∀ e, t.table (start + j) = some e → e.name ≠ name := by
  induction n generalizing start with
  | zero => simp [OpenFileTable.findl_loop]
  | succ n ih =>
      have hshift : (∀ j, j < n → ∀ e, t.table (start + 1 + j) = some e → e.name ≠ name) ↔
          (∀ j, 0 < j → j < n + 1 → ∀ e, t.table (start + j) = some e → e.name ≠ name) := by
        constructor
        · intro h j hj0 hj e he
          have := h (j - 1) (by omega) e (by rw [← he]; congr 1; omega)
          exact this
        · intro h j hj e he
          exact h (j + 1) (by omega) (by omega) e (by rw [← he]; congr 1; omega)
      cases hs : t.table start with
      | none =>
          simp only [OpenFileTable.findl_loop, hs, ih, hshift]
          constructor
          · intro h j hj e he
            rcases Nat.eq_zero_or_pos j with h0 | h0
            · subst h0; simp [hs] at he
            · exact h j h0 hj e he
          · intro h j _ hj e he
            exact h j hj e he
      | some e0 =>
          simp only [OpenFileTable.findl_loop, hs]
          split
          · rename_i hn
            constructor
            · intro h; simp only [ERROR] at h; omega
            · intro h; exact absurd hn (h 0 (Nat.succ_pos n) e0 (by simpa using hs))
          · rename_i hn
            rw [ih, hshift]
            constructor
            · intro h j hj e he
              rcases Nat.eq_zero_or_pos j with h0 | h0
              · subst h0
                simp only [Nat.add_zero, hs, Option.some.injEq] at he
                subst he; exact hn
              · exact h j h0 hj e he
            · intro h j _ hj e he
              exact h j hj e he

/-- When the loop of `findl` does not return `ERROR`, it returns an index it
visited, the entry there carries the name and no entry before it does. -/
theorem OpenFileTable.findl_loop_found (t : OpenFileTable) (name : CString) (n start : Nat)
    (h : OpenFileTable.findl_loop t name n start ≠ ERROR) :
    ∃ k e, k < n ∧ OpenFileTable.findl_loop t name n start = ((start + k : Nat) : Int)
      ∧ t.table (start + k) = some e ∧ e.name = name
      ∧ ∀ j, j < k → ∀ e', t.table (start + j) = some e' → e'.name ≠ name := by
  induction n generalizing start with
  | zero => simp [OpenFileTable.findl_loop] at h
  | succ n ih =>
      by_cases h0 : ∃ e, t.table start = some e ∧ e.name = name
      · obtain ⟨e, he, hn⟩ := h0
        refine ⟨0, e, Nat.succ_pos n, ?_, by simpa using he, hn, fun j hj => by omega⟩
        simp [OpenFileTable.findl_loop, he, hn]
      · have hstep : OpenFileTable.findl_loop t name (n + 1) start
            = OpenFileTable.findl_loop t name n (start + 1) := by
          cases hs : t.table start with
          | none => simp [OpenFileTable.findl_loop, hs]
          | some e0 =>
              have : e0.name ≠ name := fun hn => h0 ⟨e0, hs, hn⟩
              simp [OpenFileTable.findl_loop, hs, this]
        rw [hstep] at h ⊢
        obtain ⟨k, e, hk, hres, he, hn, hlow⟩ := ih (start + 1) h
        refine ⟨k + 1, e, by omega, ?_, ?_, hn, ?_⟩
        · rw [hres]; congr 1; omega
        · rw [← he]; congr 1; omega
        · intro j hj e' he'
          rcases Nat.eq_zero_or_pos j with hj0 | hj0
          · subst hj0
            exact fun hn' => h0 ⟨e', by simpa using he', hn'⟩
          · exact hlow (j - 1) (by omega) e' (by rw [← he']; congr 1; omega)

/-- The loop of `FindIndex` returns the lowest index whose entry is in use and
carries the name. -/
theorem Directory.FindIndex_loop_first (cfg : Config) (name : CString)
    (l : List DirectoryEntry) (start k : Nat) (e : DirectoryEntry) (he : l[k]? = some e)
    (huse : e.inUse = true)
    (hname : e.name.take cfg.FILENAMEMAXLEN = name.take cfg.FILENAMEMAXLEN)
    (hlow : ∀ j, j < k → ∀ e', l[j]? = some e' →
      ¬ (e'.inUse = true ∧ e'.name.take cfg.FILENAMEMAXLEN = name.take cfg.FILENAMEMAXLEN)) :
    Directory.FindIndex_loop cfg name l start = ((start + k : Nat) : Int) := by
  induction l generalizing start k with
  | nil => simp at he
  | cons a rest ih =>
      cases k with
      | zero =>
          simp only [List.getElem?_cons_zero, Option.some.injEq] at he
          subst he
          simp [Directory.FindIndex_loop, strncmp_is_zero, huse, hname]
      | succ k =>
          simp only [List.getElem?_cons_succ] at he
          have ha := hlow 0 (Nat.succ_pos k) a (by simp)
          have hrec := ih (start + 1) k he
            (fun j hj e' he' => hlow (j + 1) (by omega) e' (by simpa using he'))
          have hidx : start + 1 + k = start + (k + 1) := by omega
          rw [hidx] at hrec
          simp only [Directory.FindIndex_loop, strncmp_is_zero, Bool.and_eq_true,
            decide_eq_true_eq, ha, if_false, hrec]

/-! ## Open of a file already in the table (C8) -/

/-- C8: when the table has an entry for `name` (`e`, at the lowest index `i`
whose entry carries the name): if `ToBeDeleted` is false, `Open(name)` adds
one to the entry's `numthread`, changes nothing else in the table and returns
a new handle on the entry's sector; if `ToBeDeleted` is true, it returns no
handle and leaves the table unchanged. -/
theorem C8_Open_entry_present (cfg : Config) (fsys : FileSystem) (d : Disk)
    (t : OpenFileTable) (name : CString) (i : Nat) (e : OpenFileTableEntry)
    (hi : i < NBOFTENTRY) (he : t.table i = some e) (hname : e.name = name)
    (hlow : ∀ j, j < i → ∀ e', t.table j = some e' → e'.name ≠ name) :
    (e.ToBeDeleted = false →
        OpenFileTable.Open cfg fsys d t name
          = (some ⟨name, d.hdr e.sector, 0, e.sector⟩,
             ⟨Function.update t.table i (some { e with numthread := e.numthread + 1 }),
              t.nbentry⟩))
    ∧ (e.ToBeDeleted = true → OpenFileTable.Open cfg fsys d t name = (none, t)) := by
  have hfind : t.findl name = (i : Int) := by
    have := OpenFileTable.findl_loop_first t name NBOFTENTRY 0 i e hi (by simpa using he) hname
      (fun j hj e' he' => hlow j hj e' (by simpa using he'))
    simpa [OpenFileTable.findl] using this
  have hne : (i : Int) ≠ ERROR := by simp only [ERROR]; omega
  constructor
  · intro hdel
    simp [OpenFileTable.Open, hfind, hne, he, hdel, OpenFile.new, OpenFile.SetName]
  · intro hdel
    simp [OpenFileTable.Open, hfind, hne, he, hdel]

/-- Witness for C8: a table holding `/a` (opened twice, sector 7) at index 0
and `/b` (pending deletion) at index 1. -/
theorem C8_Open_entry_present_witness :
    (OpenFileTable.Open ⟨8, 64, 4⟩ ⟨fun _ n => (1, n), fun d _ => (0, d)⟩
        ⟨[], fun _ => ⟨0, 0, 0, []⟩, fun _ => []⟩
        ⟨fun j => if j = 0 then some ⟨['/', 'a'], none, 2, Lock.new, false, 7⟩
                  else if j = 1 then some ⟨['/', 'b'], none, 1, Lock.new, true, 9⟩ else none, 2⟩
        ['/', 'a']).1 = some ⟨['/', 'a'], ⟨0, 0, 0, []⟩, 0, 7⟩
    ∧ (OpenFileTable.Open ⟨8, 64, 4⟩ ⟨fun _ n => (1, n), fun d _ => (0, d)⟩
        ⟨[], fun _ => ⟨0, 0, 0, []⟩, fun _ => []⟩
        ⟨fun j => if j = 0 then some ⟨['/', 'a'], none, 2, Lock.new, false, 7⟩
                  else if j = 1 then some ⟨['/', 'b'], none, 1, Lock.new, true, 9⟩ else none, 2⟩
        ['/', 'b']).1 = none :=
  ⟨congrArg Prod.fst
      ((C8_Open_entry_present ⟨8, 64, 4⟩ ⟨fun _ n => (1, n), fun d _ => (0, d)⟩
        ⟨[], fun _ => ⟨0, 0, 0, []⟩, fun _ => []⟩
        ⟨fun j => if j = 0 then some ⟨['/', 'a'], none, 2, Lock.new, false, 7⟩
                  else if j = 1 then some ⟨['/', 'b'], none, 1, Lock.new, true, 9⟩ else none, 2⟩
        ['/', 'a'] 0 ⟨['/', 'a'], none, 2, Lock.new, false, 7⟩ (by decide) rfl rfl
        (fun j hj => absurd hj (Nat.not_lt_zero j))).1 rfl),
   congrArg Prod.fst
      ((C8_Open_entry_present ⟨8, 64, 4⟩ ⟨fun _ n => (1, n), fun d _ => (0, d)⟩
        ⟨[], fun _ => ⟨0, 0, 0, []⟩, fun _ => []⟩
        ⟨fun j => if j = 0 then some ⟨['/', 'a'], none, 2, Lock.new, false, 7⟩
                  else if j = 1 then some ⟨['/', 'b'], none, 1, Lock.new, true, 9⟩ else none, 2⟩
        ['/', 'b'] 1 ⟨['/', 'b'], none, 1, Lock.new, true, 9⟩ (by decide) rfl rfl
        (fun j hj e' he' => by
          have hj0 : j = 0 := by omega
          subst hj0
          simp at he'
          subst he'
          decide)).2 rfl)⟩

/-! ## Remove of an open file (C9) -/

/-- Writing back a directory read from a file, after its entry `k`, an entry in
use, has been replaced: the entry is entry `k` of the file, since the entries
of a new directory that the file does not fill are not in use, and the file
afterwards is the file with entry `k` replaced. -/
theorem Directory.WriteBack_set (N : Nat) (file : List DirectoryEntry) (k : Nat)
    (de x : DirectoryEntry)
    (hk : ((Directory.new N).FetchFrom file).table[k]? = some de) (huse : de.inUse = true) :
    file[k]? = some de
      ∧ Directory.WriteBack ⟨((Directory.new N).FetchFrom file).table.set k x⟩ file
          = file.set k x := by
  have htab : ((Directory.new N).FetchFrom file).table
      = file.take N ++ (List.replicate N (⟨false, [], 0⟩ : DirectoryEntry)).drop
          (file.take N).length := by
    simp only [Directory.FetchFrom, Directory.new, Directory.tableSize, OpenFile.ReadAt,
      List.length_replicate]
  rw [htab] at hk ⊢
  have hlt : k < (file.take N).length := by
    by_contra hge
    rw [List.getElem?_append_right (by omega)] at hk
    obtain ⟨hidx, heq⟩ := List.getElem?_eq_some.mp hk
    have hmem : de ∈ List.replicate N (⟨false, [], 0⟩ : DirectoryEntry) :=
      List.mem_of_mem_drop (heq ▸ List.getElem_mem hidx)
    rw [List.eq_of_mem_replicate hmem] at huse
    cases huse
  have hkf : k < file.length := by
    rw [List.length_take] at hlt
    omega
  have hkN : k < N := by
    rw [List.length_take] at hlt
    omega
  refine ⟨?_, ?_⟩
  · rw [List.getElem?_append_left hlt, List.getElem?_take_of_lt hkN] at hk
    exact hk
  rw [List.set_append_left _ _ hlt]
  simp only [Directory.WriteBack, Directory.tableSize, OpenFile.WriteAt]
  by_cases hN : N ≤ file.length
  · have hpad : (List.replicate N (⟨false, [], 0⟩ : DirectoryEntry)).drop (file.take N).length
        = [] := by
      apply List.drop_eq_nil_of_le
      rw [List.length_replicate, List.length_take]
      omega
    rw [hpad, List.append_nil]
    have hl : ((file.take N).set k x).length = N := by
      rw [List.length_set, List.length_take]
      omega
    have t1 : ((file.take N).set k x).take N = (file.take N).set k x :=
      List.take_of_length_le (by rw [hl])
    have t2 : ((file.take N).set k x).take file.length = (file.take N).set k x :=
      List.take_of_length_le (by rw [hl]; exact hN)
    rw [hl, t1, t2, hl]
    conv_rhs => rw [← List.take_append_drop N file]
    rw [List.set_append_left _ _ hlt]
  · have hfile : file.take N = file := List.take_of_length_le (by omega)
    rw [hfile]
    have hl : (file.set k x).length = file.length := List.length_set _ _ _
    have h1 : (file.set k x ++ (List.replicate N (⟨false, [], 0⟩ : DirectoryEntry)).drop
        file.length).length = N := by
      rw [List.length_append, hl, List.length_drop, List.length_replicate]
      omega
    have t1 : (file.set k x ++ (List.replicate N (⟨false, [], 0⟩ : DirectoryEntry)).drop
        file.length).take N
        = file.set k x ++ (List.replicate N (⟨false, [], 0⟩ : DirectoryEntry)).drop
            file.length := List.take_of_length_le (by rw [h1])
    have t2 : (file.set k x ++ (List.replicate N (⟨false, [], 0⟩ : DirectoryEntry)).drop
        file.length).take file.length = file.set k x := List.take_left' hl
    rw [h1, t1, t2, hl, List.drop_eq_nil_of_le (Nat.le_refl _), List.append_nil]

/-- C9: let `FindDir(name)` give the directory sector `ds` and the leaf name
`leaf`, and let `dir` be the directory read from `ds`.  If `ds` is a valid
sector, `dir` has an entry in use for `leaf` (`de`, the lowest-indexed one,
at index `k`, holding a valid header sector) and the table has an entry for
`name` (`e`, at the lowest index `i`), then `Remove(name)` returns `NO_ERROR`,
sets `ToBeDeleted` in that entry, changing nothing else in the table (so
`numthread` is kept), and writes the directory back: `de` is entry `k` of the
directory file, and the file afterwards is the same file with entry `k` marked
not in use; nothing else changes on the disk (so the free map is kept).  If
`ds` is `INVALID_SECTOR` or no entry in use of `dir` carries `leaf`, it returns
`INEXIST_FILE_ERROR` and changes neither the table nor the disk. -/
theorem C9_Remove_open_file (cfg : Config) (fsys : FileSystem) (d : Disk) (t : OpenFileTable)
    (name leaf : CString) (ds : Int) (dir : Directory)
    (hfd : fsys.FindDir d name = (ds, leaf))
    (hdir : dir = (Directory.new cfg.NumDirEntries).FetchFrom (d.dirFile ds)) :
    (∀ (i : Nat) (e : OpenFileTableEntry) (k : Nat) (de : DirectoryEntry),
        ds ≠ INVALID_SECTOR →
        i < NBOFTENTRY → t.table i = some e → e.name = name →
        (∀ j, j < i → ∀ e', t.table j = some e' → e'.name ≠ name) →
        dir.table[k]? = some de → de.inUse = true →
        de.name.take cfg.FILENAMEMAXLEN = leaf.take cfg.FILENAMEMAXLEN →
        (∀ j, j < k → ∀ e', dir.table[j]? = some e' →
          ¬ (e'.inUse = true ∧
              e'.name.take cfg.FILENAMEMAXLEN = leaf.take cfg.FILENAMEMAXLEN)) →
        de.sector ≠ INVALID_SECTOR →
        (d.dirFile ds)[k]? = some de
          ∧ OpenFileTable.Remove cfg fsys d t name
            = (NO_ERROR,
               ⟨d.freeMapFile, d.hdr,
                Function.update d.dirFile ds ((d.dirFile ds).set k { de with inUse := false })⟩,
               ⟨Function.update t.table i (some { e with ToBeDeleted := true }), t.nbentry⟩))
    ∧ ((ds = INVALID_SECTOR ∨
          ∀ de ∈ dir.table, ¬ (de.inUse = true ∧
            de.name.take cfg.FILENAMEMAXLEN = leaf.take cfg.FILENAMEMAXLEN)) →
        OpenFileTable.Remove cfg fsys d t name = (INEXIST_FILE_ERROR, d, t)) := by
  constructor
  · intro i e k de hds hi he hname hlow hk huse hmatch hfirst hsec
    have hfind : t.findl name = (i : Int) := by
      have := OpenFileTable.findl_loop_first t name NBOFTENTRY 0 i e hi (by simpa using he)
        hname (fun j hj e' he' => hlow j hj e' (by simpa using he'))
      simpa [OpenFileTable.findl] using this
    have hne : (i : Int) ≠ ERROR := by simp only [ERROR]; omega
    have hidx : Directory.FindIndex cfg dir leaf = (k : Int) := by
      have := Directory.FindIndex_loop_first cfg leaf dir.table 0 k de hk huse hmatch hfirst
      simpa [Directory.FindIndex] using this
    have hkne : (k : Int) ≠ ERROR := by simp only [ERROR]; omega
    have hFind : Directory.Find cfg dir leaf = de.sector := by
      simp [Directory.Find, hidx, hkne, hk]
    have hRem : Directory.Remove cfg dir leaf
        = (NO_ERROR, ⟨dir.table.set k { de with inUse := false }⟩) := by
      simp [Directory.Remove, hidx, hkne, hk]
    obtain ⟨hentry, hwb⟩ := Directory.WriteBack_set cfg.NumDirEntries (d.dirFile ds) k de
      { de with inUse := false } (hdir ▸ hk) huse
    rw [← hdir] at hwb
    refine ⟨hentry, ?_⟩
    simp only [OpenFileTable.Remove, hfd, ← hdir, hFind, hRem, hfind]
    simp [hds, hsec, hne, he, hwb]
  · intro h
    rcases h with h | h
    · simp [OpenFileTable.Remove, hfd, h]
    · have hidx : Directory.FindIndex cfg dir leaf = ERROR := by
        rw [Directory.FindIndex, Directory.FindIndex_loop_eq_ERROR]
        exact h
      have hFind : Directory.Find cfg dir leaf = ERROR := by
        simp [Directory.Find, hidx]
      simp only [OpenFileTable.Remove, hfd, ← hdir, hFind]
      simp

/-- Witness for C9: root directory in sector 1 with the single file `a`
(header in sector 5), open once under the name `/a`: `Remove("/a")` returns
`NO_ERROR` and leaves the entry of `a` not in use in the directory file;
`Remove("/b")` returns `INEXIST_FILE_ERROR`. -/
theorem C9_Remove_open_file_witness :
    (OpenFileTable.Remove ⟨8, 64, 2⟩ ⟨fun _ n => (1, n.drop 1), fun d _ => (0, d)⟩
        ⟨[7], fun _ => ⟨0, 0, 0, []⟩, fun _ => [⟨true, ['a'], 5⟩, ⟨false, [], 0⟩]⟩
        ⟨fun j => if j = 0 then some ⟨['/', 'a'], none, 1, Lock.new, false, 5⟩ else none, 1⟩
        ['/', 'a']).1 = NO_ERROR
    ∧ (OpenFileTable.Remove ⟨8, 64, 2⟩ ⟨fun _ n => (1, n.drop 1), fun d _ => (0, d)⟩
        ⟨[7], fun _ => ⟨0, 0, 0, []⟩, fun _ => [⟨true, ['a'], 5⟩, ⟨false, [], 0⟩]⟩
        ⟨fun j => if j = 0 then some ⟨['/', 'a'], none, 1, Lock.new, false, 5⟩ else none, 1⟩
        ['/', 'a']).2.1.dirFile 1 = [⟨false, ['a'], 5⟩, ⟨false, [], 0⟩]
    ∧ (OpenFileTable.Remove ⟨8, 64, 2⟩ ⟨fun _ n => (1, n.drop 1), fun d _ => (0, d)⟩
        ⟨[7], fun _ => ⟨0, 0, 0, []⟩, fun _ => [⟨true, ['a'], 5⟩, ⟨false, [], 0⟩]⟩
        ⟨fun j => if j = 0 then some ⟨['/', 'a'], none, 1, Lock.new, false, 5⟩ else none, 1⟩
        ['/', 'b']).1 = INEXIST_FILE_ERROR := by
  have h := ((C9_Remove_open_file ⟨8, 64, 2⟩ ⟨fun _ n => (1, n.drop 1), fun d _ => (0, d)⟩
    ⟨[7], fun _ => ⟨0, 0, 0, []⟩, fun _ => [⟨true, ['a'], 5⟩, ⟨false, [], 0⟩]⟩
    ⟨fun j => if j = 0 then some ⟨['/', 'a'], none, 1, Lock.new, false, 5⟩ else none, 1⟩
    ['/', 'a'] ['a'] 1 ⟨[⟨true, ['a'], 5⟩, ⟨false, [], 0⟩]⟩ rfl (by decide)).1
    0 ⟨['/', 'a'], none, 1, Lock.new, false, 5⟩ 0 ⟨true, ['a'], 5⟩
    (by decide) (by decide) rfl rfl (fun j hj => absurd hj (Nat.not_lt_zero j))
    (by decide) rfl (by decide) (fun j hj => absurd hj (Nat.not_lt_zero j)) (by decide)).2
  have h' := (C9_Remove_open_file ⟨8, 64, 2⟩ ⟨fun _ n => (1, n.drop 1), fun d _ => (0, d)⟩
    ⟨[7], fun _ => ⟨0, 0, 0, []⟩, fun _ => [⟨true, ['a'], 5⟩, ⟨false, [], 0⟩]⟩
    ⟨fun j => if j = 0 then some ⟨['/', 'a'], none, 1, Lock.new, false, 5⟩ else none, 1⟩
    ['/', 'b'] ['b'] 1 ⟨[⟨true, ['a'], 5⟩, ⟨false, [], 0⟩]⟩ rfl (by decide)).2
    (Or.inr (by decide))
  refine ⟨congrArg Prod.fst h, ?_, congrArg Prod.fst h'⟩
  rw [h]
  decide

/-! ## Bitmap lemmas -/

/-- Bit `s` of the bitmap storage, whatever `numBits` is. -/
theorem BitMap.Test_eq_testBit (b : BitMap) (s : Int) (h0 : 0 ≤ s) (h1 : s < b.numBits) :
    b.Test s = some ((b.map.getD (s.toNat / BITS_IN_WORD) 0).testBit (s.toNat % BITS_IN_WORD)) := by
  have hand : ∀ x k : Nat, decide (x &&& (1 <<< k) ≠ 0) = x.testBit k := by
    intro x k
    rw [Nat.one_shiftLeft, Nat.and_two_pow]
    cases x.testBit k <;> simp
  simp [BitMap.Test, h0, h1, hand]

/-- `Clear(w)` succeeds for `w` in range, keeps the sizes and clears bit `w`
of the storage, leaving every other bit as it was. -/
theorem BitMap.Clear_spec (b : BitMap) (w : Int) (h0 : 0 ≤ w) (h1 : w < b.numBits)
    (hlen : w.toNat / BITS_IN_WORD < b.map.length) :
    ∃ b', b.Clear w = some b' ∧ b'.numBits = b.numBits ∧ b'.numWords = b.numWords
      ∧ b'.map.length = b.map.length
      ∧ ∀ s : Nat, (b'.map.getD (s / BITS_IN_WORD) 0).testBit (s % BITS_IN_WORD)
          = ((b.map.getD (s / BITS_IN_WORD) 0).testBit (s % BITS_IN_WORD) && decide (s ≠ w.toNat)) := by
  refine ⟨⟨b.numBits, b.numWords, b.map.set (w.toNat / BITS_IN_WORD)
      (b.map.getD (w.toNat / BITS_IN_WORD) 0 &&&
        ((2 ^ 32 - 1) ^^^ (1 <<< (w.toNat % BITS_IN_WORD))))⟩,
    by simp [BitMap.Clear, h0, h1], rfl, rfl, by simp, ?_⟩
  intro s
  simp only [List.getD_eq_getElem?_getD, List.getElem?_set]
  by_cases hq : w.toNat / BITS_IN_WORD = s / BITS_IN_WORD
  · simp only [hq, if_true]
    rw [hq] at hlen
    simp only [hlen, if_true, Option.getD_some, Nat.testBit_land, Nat.testBit_xor,
      Nat.testBit_two_pow_sub_one, Nat.one_shiftLeft, Nat.testBit_two_pow]
    have hs : s % BITS_IN_WORD < 32 := Nat.mod_lt _ (by decide)
    by_cases hr : w.toNat % BITS_IN_WORD = s % BITS_IN_WORD
    · have : s = w.toNat := by
        have h1 := Nat.div_add_mod s BITS_IN_WORD
        have h2 := Nat.div_add_mod w.toNat BITS_IN_WORD
        rw [hq, hr] at h2
        omega
      simp [hr, hs, this]
    · have : s ≠ w.toNat := fun h => hr (by rw [h])
      simp [hr, hs, this]
  · have : s ≠ w.toNat := fun h => hq (by rw [h])
    simp [hq, this]

/-- `Deallocate` on sectors in range succeeds, keeps the sizes and clears in
the storage exactly the bits of the sectors listed. -/
theorem BitMap.Clear_foldlM_spec (l : List Int) (b : BitMap)
    (hwf : b.numBits ≤ b.map.length * BITS_IN_WORD)
    (hin : ∀ s ∈ l, 0 ≤ s ∧ s < (b.numBits : Int)) :
    ∃ b', l.foldlM (fun fm s => BitMap.Clear fm s) b = some b' ∧ b'.numBits = b.numBits
      ∧ b'.numWords = b.numWords ∧ b'.map.length = b.map.length
      ∧ ∀ s : Nat, (b'.map.getD (s / BITS_IN_WORD) 0).testBit (s % BITS_IN_WORD)
          = ((b.map.getD (s / BITS_IN_WORD) 0).testBit (s % BITS_IN_WORD)
              && decide (∀ w ∈ l, s ≠ w.toNat)) := by
  induction l generalizing b with
  | nil => exact ⟨b, rfl, rfl, rfl, rfl, fun s => by simp⟩
  | cons w rest ih =>
      have hw := hin w (List.mem_cons_self w rest)
      have hlen : w.toNat / BITS_IN_WORD < b.map.length := by
        have : w.toNat < b.numBits := by omega
        simp only [BITS_IN_WORD] at hwf ⊢
        omega
      obtain ⟨b1, hc, hnb, hnw, hml, hbits⟩ := BitMap.Clear_spec b w hw.1 hw.2 hlen
      obtain ⟨b2, hf, hnb2, hnw2, hml2, hbits2⟩ := ih b1 (by rw [hnb, hml]; exact hwf)
        (fun s hs => by rw [hnb]; exact hin s (List.mem_cons_of_mem w hs))
      refine ⟨b2, ?_, hnb2.trans hnb, hnw2.trans hnw, hml2.trans hml, ?_⟩
      · simp [List.foldlM, hc, hf]
      · intro s
        rw [hbits2 s, hbits s]
        simp only [List.mem_cons, forall_eq_or_imp, Bool.and_assoc, Bool.decide_and]

/-- Writing a bitmap to a file long enough and fetching it into a fresh bitmap
of the same size gives back the same storage. -/
theorem BitMap.FetchFrom_WriteBack (n : Nat) (b : BitMap) (file : List Nat)
    (hnw : b.numWords = divRoundUp n BITS_IN_WORD) (hml : b.map.length = b.numWords)
    (hfile : divRoundUp n BITS_IN_WORD ≤ file.length) :
    ((BitMap.new n).FetchFrom (b.WriteBack file)).map = b.map := by
  have e1 : b.map.take b.numWords = b.map := List.take_of_length_le (by omega)
  have e2 : b.map.take file.length = b.map := List.take_of_length_le (by omega)
  have e3 : (b.map ++ file.drop b.map.length).take (divRoundUp n BITS_IN_WORD) = b.map := by
    rw [List.take_append_of_le_length (by omega)]
    exact List.take_of_length_le (by omega)
  have e4 : (List.replicate (divRoundUp n BITS_IN_WORD) 0).drop b.map.length = [] := by
    apply List.drop_eq_nil_of_le
    simp only [List.length_replicate]
    omega
  simp only [BitMap.FetchFrom, BitMap.WriteBack, BitMap.new, OpenFile.ReadAt, OpenFile.WriteAt,
    e1, e2, e3, e4, List.append_nil]

/-- A fresh bitmap filled from a file long enough has room for all its bits. -/
theorem BitMap.FetchFrom_new_length (n : Nat) (file : List Nat) :
    ((BitMap.new n).FetchFrom file).numBits = n
      ∧ ((BitMap.new n).FetchFrom file).numWords = divRoundUp n BITS_IN_WORD
      ∧ ((BitMap.new n).FetchFrom file).map.length = divRoundUp n BITS_IN_WORD
      ∧ n ≤ ((BitMap.new n).FetchFrom file).map.length * BITS_IN_WORD := by
  have hl : ((BitMap.new n).FetchFrom file).map.length = divRoundUp n BITS_IN_WORD := by
    simp only [BitMap.FetchFrom, BitMap.new, OpenFile.ReadAt, List.length_take,
      List.length_append, List.length_replicate, List.length_drop]
    omega
  refine ⟨rfl, rfl, hl, ?_⟩
  rw [hl]
  simp only [divRoundUp, BITS_IN_WORD]
  omega

/-- Writing a bitmap to a file long enough replaces the first words of the
file by the storage of the bitmap and keeps the rest. -/
theorem BitMap.WriteBack_eq (b : BitMap) (file : List Nat)
    (hml : b.map.length = b.numWords) (hfile : b.numWords ≤ file.length) :
    b.WriteBack file = b.map ++ file.drop b.numWords := by
  have e1 : b.map.take b.numWords = b.map := List.take_of_length_le (by omega)
  have e2 : b.map.take file.length = b.map := List.take_of_length_le (by omega)
  simp only [BitMap.WriteBack, OpenFile.WriteAt, e1, e2, hml]

/-! ## Close of a file pending deletion (C6) -/

/-- The destructor of an entry with `ToBeDeleted` set, whose sectors are
sectors of the disk: it succeeds, changes only the free-map file, and in the
free map read back from the disk the bits of the header sector and of the
recorded data sectors are clear, the other bits being as before. -/
theorem OpenFileTableEntry.destroy_spec (cfg : Config) (d : Disk) (e : OpenFileTableEntry)
    (file : OpenFile) (hdel : e.ToBeDeleted = true) (hfile : e.file = some file)
    (hsec : 0 ≤ e.sector ∧ e.sector < (cfg.NUM_SECTORS : Int))
    (hdata : ∀ s ∈ file.hdr.dataSectors.take file.hdr.numSectors,
      0 ≤ s ∧ s < (cfg.NUM_SECTORS : Int))
    (hmap : divRoundUp cfg.NUM_SECTORS BITS_IN_WORD ≤ d.freeMapFile.length) :
    ∃ d', OpenFileTableEntry.destroy cfg d e = some d' ∧ d'.hdr = d.hdr
      ∧ d'.dirFile = d.dirFile
      ∧ d'.freeMapFile.length = d.freeMapFile.length
      ∧ d'.freeMapFile.drop (divRoundUp cfg.NUM_SECTORS BITS_IN_WORD)
          = d.freeMapFile.drop (divRoundUp cfg.NUM_SECTORS BITS_IN_WORD)
      ∧ ∀ s : Int, 0 ≤ s → s < (cfg.NUM_SECTORS : Int) →
          Disk.freeMapBit cfg d' s
            = if s = e.sector ∨ s ∈ file.hdr.dataSectors.take file.hdr.numSectors
              then some false else Disk.freeMapBit cfg d s := by
  obtain ⟨hnb0, hnw0, hml0, hwf0⟩ := BitMap.FetchFrom_new_length cfg.NUM_SECTORS d.freeMapFile
  obtain ⟨b1, hf, hnb1, hnw1, hml1, hbits1⟩ :=
    BitMap.Clear_foldlM_spec (file.hdr.dataSectors.take file.hdr.numSectors)
      ((BitMap.new cfg.NUM_SECTORS).FetchFrom d.freeMapFile) hwf0
      (fun s hs => by rw [hnb0]; exact hdata s hs)
  have hlen1 : e.sector.toNat / BITS_IN_WORD < b1.map.length := by
    have : e.sector.toNat < cfg.NUM_SECTORS := by omega
    rw [hml1]
    simp only [BITS_IN_WORD] at hwf0 ⊢
    omega
  obtain ⟨b2, hc, hnb2, hnw2, hml2, hbits2⟩ :=
    BitMap.Clear_spec b1 e.sector hsec.1 (by rw [hnb1, hnb0]; exact hsec.2) hlen1
  have hw2 : b2.numWords = divRoundUp cfg.NUM_SECTORS BITS_IN_WORD := by
    rw [hnw2, hnw1, hnw0]
  have hl2 : b2.map.length = b2.numWords := by rw [hml2, hml1, hml0, hw2]
  have hwb := BitMap.WriteBack_eq b2 d.freeMapFile hl2 (by rw [hw2]; exact hmap)
  refine ⟨{ d with freeMapFile := b2.WriteBack d.freeMapFile }, ?_, rfl, rfl, ?_, ?_, ?_⟩
  · simp only [OpenFileTableEntry.destroy, hdel, if_true, hfile, OpenFile.GetFileHeader,
      FileHeader.Deallocate, hf, hc]
  · show (b2.WriteBack d.freeMapFile).length = d.freeMapFile.length
    rw [hwb, List.length_append, List.length_drop, hl2, hw2]
    omega
  · show (b2.WriteBack d.freeMapFile).drop _ = _
    rw [hwb, ← hw2, ← hl2, List.drop_left]
  · intro s hs0 hs1
    have hmapeq := BitMap.FetchFrom_WriteBack cfg.NUM_SECTORS b2 d.freeMapFile
      (by rw [hnw2, hnw1, hnw0]) (by rw [hml2, hml1, hml0, hnw2, hnw1, hnw0]) hmap
    have hnew : Disk.freeMapBit cfg { d with freeMapFile := b2.WriteBack d.freeMapFile } s
        = some ((b2.map.getD (s.toNat / BITS_IN_WORD) 0).testBit (s.toNat % BITS_IN_WORD)) := by
      rw [Disk.freeMapBit, BitMap.Test_eq_testBit _ s hs0 (by simpa using hs1), hmapeq]
    have hold : Disk.freeMapBit cfg d s
        = some ((((BitMap.new cfg.NUM_SECTORS).FetchFrom d.freeMapFile).map.getD
            (s.toNat / BITS_IN_WORD) 0).testBit (s.toNat % BITS_IN_WORD)) := by
      rw [Disk.freeMapBit, BitMap.Test_eq_testBit _ s hs0 (by simpa using hs1)]
    rw [hnew, hold, hbits2, hbits1]
    have hcast : ∀ w : Int, 0 ≤ w → (s.toNat ≠ w.toNat ↔ s ≠ w) := by
      intro w hw
      constructor
      · intro h h'; exact h (by rw [h'])
      · intro h h'; apply h; omega
    by_cases h1 : s = e.sector
    · simp [h1]
    · by_cases h2 : s ∈ file.hdr.dataSectors.take file.hdr.numSectors
      · have : ¬ ∀ w ∈ file.hdr.dataSectors.take file.hdr.numSectors, s.toNat ≠ w.toNat :=
          fun h => h s h2 rfl
        simp [h2, this]
      · have h3 : ∀ w ∈ file.hdr.dataSectors.take file.hdr.numSectors, s.toNat ≠ w.toNat :=
          fun w hw => (hcast w (hdata w hw).1).mpr (fun h => h2 (h ▸ hw))
        have h4 : s.toNat ≠ e.sector.toNat := (hcast e.sector hsec.1).mpr h1
        have h5 : decide (∀ w ∈ file.hdr.dataSectors.take file.hdr.numSectors,
            s.toNat ≠ w.toNat) = true := decide_eq_true h3
        simp only [h1, h2, or_self, if_false, Option.some.injEq, h5, Bool.and_true]
        simp [h4]

/-- The entry found by `findl`, given as the lowest-indexed entry of the table
that carries the name. -/
theorem OpenFileTable.findl_of_first (t : OpenFileTable) (name : CString) (i : Nat)
    (e : OpenFileTableEntry) (hi : i < NBOFTENTRY) (he : t.table i = some e)
    (hname : e.name = name)
    (hlow : ∀ j, j < i → ∀ e', t.table j = some e' → e'.name ≠ name) :
    t.findl name = (i : Int) ∧ (i : Int) ≠ ERROR := by
  have := OpenFileTable.findl_loop_first t name NBOFTENTRY 0 i e hi (by simpa using he) hname
    (fun j hj e' he' => hlow j hj e' (by simpa using he'))
  refine ⟨by simpa [OpenFileTable.findl] using this, ?_⟩
  simp only [ERROR]; omega

/-- `Close` on an entry held more than once only decrements `numthread`. -/
theorem OpenFileTable.Close_keep (cfg : Config) (d : Disk) (t : OpenFileTable)
    (name : CString) (i : Nat) (e : OpenFileTableEntry) (hi : i < NBOFTENTRY)
    (he : t.table i = some e) (hname : e.name = name)
    (hlow : ∀ j, j < i → ∀ e', t.table j = some e' → e'.name ≠ name)
    (hn : 1 < e.numthread) :
    OpenFileTable.Close cfg d t name
      = some (d, ⟨Function.update t.table i (some { e with numthread := e.numthread - 1 }),
                  t.nbentry⟩) := by
  obtain ⟨hfind, hne⟩ := OpenFileTable.findl_of_first t name i e hi he hname hlow
  have : ¬ e.numthread - 1 ≤ 0 := by omega
  simp [OpenFileTable.Close, hfind, hne, he, this]

/-- `Close` on an entry held once runs the destructor and empties the slot. -/
theorem OpenFileTable.Close_last (cfg : Config) (d : Disk) (t : OpenFileTable)
    (name : CString) (i : Nat) (e : OpenFileTableEntry) (hi : i < NBOFTENTRY)
    (he : t.table i = some e) (hname : e.name = name)
    (hlow : ∀ j, j < i → ∀ e', t.table j = some e' → e'.name ≠ name)
    (hn : e.numthread ≤ 1) :
    OpenFileTable.Close cfg d t name
      = (OpenFileTableEntry.destroy cfg d { e with numthread := e.numthread - 1 }).map
          (fun d' => (d', ⟨Function.update t.table i none, t.nbentry⟩)) := by
  obtain ⟨hfind, hne⟩ := OpenFileTable.findl_of_first t name i e hi he hname hlow
  have : e.numthread - 1 ≤ 0 := by omega
  simp only [OpenFileTable.Close, hfind, hne, he, this, ne_eq, not_false_eq_true, if_true,
    Int.toNat_ofNat]
  cases OpenFileTableEntry.destroy cfg d { e with numthread := e.numthread - 1 } <;> rfl

/-- While the entry is held by more threads than there are calls, `n` calls of
`Close` only bring `numthread` down by `n`; the disk is untouched. -/
theorem OpenFileTable.CloseN_keep (cfg : Config) (d : Disk) (name : CString) (i : Nat)
    (hi : i < NBOFTENTRY) (n : Nat) (t : OpenFileTable) (e : OpenFileTableEntry)
    (he : t.table i = some e) (hname : e.name = name)
    (hlow : ∀ j, j < i → ∀ e', t.table j = some e' → e'.name ≠ name)
    (hn : (n : Int) < e.numthread) :
    OpenFileTable.CloseN cfg name n (d, t)
      = some (d, ⟨Function.update t.table i (some { e with numthread := e.numthread - n }),
                  t.nbentry⟩) := by
  induction n generalizing t e with
  | zero =>
      have : Function.update t.table i (some e) = t.table := by
        rw [← he]; exact Function.update_eq_self i t.table
      simp [OpenFileTable.CloseN, this]
  | succ n ih =>
      have h1 := OpenFileTable.Close_keep cfg d t name i e hi he hname hlow
        (by push_cast at hn; omega)
      have h2 := ih ⟨Function.update t.table i (some { e with numthread := e.numthread - 1 }),
          t.nbentry⟩ { e with numthread := e.numthread - 1 } (by simp) hname
        (fun j hj e' he' => hlow j hj e' (by
          rw [← he']; simp [Function.update_noteq (Nat.ne_of_lt hj)]))
        (by push_cast at hn; simp only; omega)
      have hsub : e.numthread - 1 - (n : Int) = e.numthread - ((n + 1 : Nat) : Int) := by
        push_cast; omega
      rw [OpenFileTable.CloseN, h1, Option.some_bind, h2]
      simp only [Function.update_idem, hsub]

/-- As many calls of `Close` as `numthread` says end with the destructor of
the entry and leave its slot empty. -/
theorem OpenFileTable.CloseN_all (cfg : Config) (d : Disk) (name : CString) (i : Nat)
    (hi : i < NBOFTENTRY) (n : Nat) (t : OpenFileTable) (e : OpenFileTableEntry)
    (he : t.table i = some e) (hname : e.name = name)
    (hlow : ∀ j, j < i → ∀ e', t.table j = some e' → e'.name ≠ name)
    (hn : e.numthread = ((n + 1 : Nat) : Int)) :
    OpenFileTable.CloseN cfg name (n + 1) (d, t)
      = (OpenFileTableEntry.destroy cfg d { e with numthread := 0 }).map
          (fun d' => (d', ⟨Function.update t.table i none, t.nbentry⟩)) := by
  induction n generalizing t e with
  | zero =>
      have h1 := OpenFileTable.Close_last cfg d t name i e hi he hname hlow (by rw [hn]; simp)
      have h0 : e.numthread - 1 = 0 := by rw [hn]; simp
      rw [h0] at h1
      simp only [OpenFileTable.CloseN, h1]
      cases OpenFileTableEntry.destroy cfg d { e with numthread := 0 } <;> rfl
  | succ n ih =>
      have h1 := OpenFileTable.Close_keep cfg d t name i e hi he hname hlow
        (by rw [hn]; push_cast; omega)
      have h2 := ih ⟨Function.update t.table i (some { e with numthread := e.numthread - 1 }),
          t.nbentry⟩ { e with numthread := e.numthread - 1 } (by simp) hname
        (fun j hj e' he' => hlow j hj e' (by
          rw [← he']; simp [Function.update_noteq (Nat.ne_of_lt hj)]))
        (by simp only; rw [hn]; push_cast; omega)
      rw [OpenFileTable.CloseN, h1, Option.some_bind, h2]
      simp only [Function.update_idem]

/-- C6: for an entry `e` for `name` with `ToBeDeleted` set and `numthread = k ≥ 1`
(its header sector and recorded data sectors being sectors of the disk, and
the free-map file holding the whole bitmap): after any `j < k` calls of
`Close(name)` the disk, hence the on-disk free map, is unchanged and the entry
is still in the table with `numthread = k − j`; after `k` calls the entry is
gone from the table and, in the on-disk free map, the bit of the header sector
and the bit of every data sector recorded in the file header are clear.
Nothing else changes on the disk: every other bit of the free map reads as
before, the free-map file keeps its length and its words beyond the bitmap,
and the file headers and the directories are untouched. -/
theorem C6_Close_pending_delete (cfg : Config) (d : Disk) (t : OpenFileTable)
    (name : CString) (i : Nat) (e : OpenFileTableEntry) (file : OpenFile)
    (hi : i < NBOFTENTRY) (he : t.table i = some e) (hname : e.name = name)
    (hlow : ∀ j, j < i → ∀ e', t.table j = some e' → e'.name ≠ name)
    (hdel : e.ToBeDeleted = true) (hk : 1 ≤ e.numthread) (hfile : e.file = some file)
    (hsec : 0 ≤ e.sector ∧ e.sector < (cfg.NUM_SECTORS : Int))
    (hdata : ∀ s ∈ file.hdr.dataSectors.take file.hdr.numSectors,
      0 ≤ s ∧ s < (cfg.NUM_SECTORS : Int))
    (hmap : divRoundUp cfg.NUM_SECTORS BITS_IN_WORD ≤ d.freeMapFile.length) :
    (∀ j : Nat, (j : Int) < e.numthread →
        OpenFileTable.CloseN cfg name j (d, t)
          = some (d, ⟨Function.update t.table i (some { e with numthread := e.numthread - j }),
                      t.nbentry⟩))
    ∧ ∃ d', OpenFileTable.CloseN cfg name e.numthread.toNat (d, t)
          = some (d', ⟨Function.update t.table i none, t.nbentry⟩)
        ∧ Disk.freeMapBit cfg d' e.sector = some false
        ∧ (∀ s ∈ file.hdr.dataSectors.take file.hdr.numSectors,
            Disk.freeMapBit cfg d' s = some false)
        ∧ (∀ s : Int, 0 ≤ s → s < (cfg.NUM_SECTORS : Int) → s ≠ e.sector →
            s ∉ file.hdr.dataSectors.take file.hdr.numSectors →
            Disk.freeMapBit cfg d' s = Disk.freeMapBit cfg d s)
        ∧ d'.freeMapFile.length = d.freeMapFile.length
        ∧ d'.freeMapFile.drop (divRoundUp cfg.NUM_SECTORS BITS_IN_WORD)
            = d.freeMapFile.drop (divRoundUp cfg.NUM_SECTORS BITS_IN_WORD)
        ∧ d'.hdr = d.hdr ∧ d'.dirFile = d.dirFile := by
  constructor
  · intro j hj
    exact OpenFileTable.CloseN_keep cfg d name i hi j t e he hname hlow hj
  · obtain ⟨d', hd, hhdr, hdirs, hlen, hdrop, hbits⟩ :=
      OpenFileTableEntry.destroy_spec cfg d { e with numthread := 0 } file hdel hfile hsec
        hdata hmap
    obtain ⟨n, hn⟩ : ∃ n : Nat, e.numthread.toNat = n + 1 := ⟨e.numthread.toNat - 1, by omega⟩
    have hall := OpenFileTable.CloseN_all cfg d name i hi n t e he hname hlow (by omega)
    refine ⟨d', ?_, ?_, ?_, ?_, hlen, hdrop, hhdr, hdirs⟩
    · rw [hn, hall, hd]; rfl
    · rw [hbits e.sector hsec.1 hsec.2]; simp
    · intro s hs
      rw [hbits s (hdata s hs).1 (hdata s hs).2]; simp [hs]
    · intro s hs0 hs1 hne hnot
      rw [hbits s hs0 hs1, if_neg (by
        intro h
        rcases h with h | h
        · exact hne h
        · exact hnot h)]

/-- Witness for C6: the file `/a` of the sample disk (header sector 2, data
sector 18), held by two threads and pending deletion: after two `Close` calls
the entry is gone, bits 2 and 18 of the on-disk free map are clear and the
rest of the disk is as before. -/
theorem C6_Close_pending_delete_witness :
    ∃ d', OpenFileTable.CloseN Sample.cfg ['/', 'a'] 2 (Sample.disk, Sample.pending)
          = some (d', ⟨Function.update Sample.pending.table 0 none, 1⟩)
        ∧ Disk.freeMapBit Sample.cfg d' 2 = some false
        ∧ (∀ s ∈ [(18 : Int)], Disk.freeMapBit Sample.cfg d' s = some false)
        ∧ (∀ s : Int, 0 ≤ s → s < 64 → s ≠ 2 → s ∉ [(18 : Int)] →
            Disk.freeMapBit Sample.cfg d' s = Disk.freeMapBit Sample.cfg Sample.disk s)
        ∧ d'.freeMapFile.length = 2
        ∧ d'.freeMapFile.drop 2 = []
        ∧ d'.hdr = Sample.disk.hdr ∧ d'.dirFile = Sample.disk.dirFile :=
  (C6_Close_pending_delete Sample.cfg Sample.disk Sample.pending ['/', 'a'] 0
    Sample.pendingEntry ((OpenFile.new Sample.disk 2).SetName ['/', 'a'])
    (by decide) rfl rfl (fun j hj => absurd hj (Nat.not_lt_zero j)) rfl (by decide) rfl
    (by decide) (by decide) (by decide)).2

/-! ## Open of a file not in the table (C7) -/

set_option maxRecDepth 100000 in
/-- C7 (code at the failing input): on the sample disk, fifteen `Open` calls
fill the table and leave `nbentry = ERROR`; `Close("/a")` then frees a slot
without recomputing `nbentry`.  The table now holds 14 entries, none for `/p`,
and `/p` is a regular file on disk (on an empty table `Open("/p")` returns a
handle on its header sector 17), yet `Open("/p")` returns `NULL`. -/
theorem C7_Open_refused_after_table_was_full :
    (OpenFileTable.OpenAll Sample.cfg Sample.fsys Sample.disk OpenFileTable.new
        Sample.paths15).entries = 15
    ∧ (OpenFileTable.Close Sample.cfg Sample.disk
        (OpenFileTable.OpenAll Sample.cfg Sample.fsys Sample.disk OpenFileTable.new
          Sample.paths15) ['/', 'a']).map
        (fun r => (r.2.entries, r.2.findl ['/', 'p'], r.2.nbentry,
          (OpenFileTable.Open Sample.cfg Sample.fsys r.1 r.2 ['/', 'p']).1))
      = some (14, ERROR, ERROR, none)
    ∧ ((OpenFileTable.Open Sample.cfg Sample.fsys Sample.disk OpenFileTable.new
        ['/', 'p']).1.map (fun f => (f.fSector, f.IsDir))) = some (17, false) := by
  decide

/-! ## Reference counts along a run of Open and Close calls (C5) -/

/-- The loop of `next_entry` returns `ERROR` or an index it visited whose slot
is empty. -/
theorem OpenFileTable.next_entry_loop_spec (t : OpenFileTable) (n start : Nat) :
    OpenFileTable.next_entry_loop t n start = ERROR
      ∨ ∃ k, k < n ∧ OpenFileTable.next_entry_loop t n start = ((start + k : Nat) : Int)
          ∧ t.table (start + k) = none := by
  induction n generalizing start with
  | zero => left; rfl
  | succ n ih =>
      cases hs : t.table start with
      | none =>
          right
          exact ⟨0, Nat.succ_pos n, by simp [OpenFileTable.next_entry_loop, hs], by simpa using hs⟩
      | some e =>
          rcases ih (start + 1) with h | ⟨k, hk, hres, hnone⟩
          · left; simp [OpenFileTable.next_entry_loop, hs, h]
          · right
            refine ⟨k + 1, by omega, ?_, ?_⟩
            · simp only [OpenFileTable.next_entry_loop, hs, hres]; congr 1; omega
            · rw [← hnone]; congr 1; omega

/-- The three ways `Open` ends on a sound table: the name has an entry, whose
count goes up by one; or nothing changes and no handle is returned; or the
name has no entry and a new one, held once, fills the slot `nbentry`. -/
theorem OpenFileTable.Open_cases (cfg : Config) (fsys : FileSystem) (d : Disk)
    (t : OpenFileTable) (name : CString) (ht : t.Sound) :
    (∃ k e, k < NBOFTENTRY ∧ t.table k = some e ∧ e.name = name
        ∧ (OpenFileTable.Open cfg fsys d t name).1.isSome = true
        ∧ (OpenFileTable.Open cfg fsys d t name).2
            = ⟨Function.update t.table k (some { e with numthread := e.numthread + 1 }),
               t.nbentry⟩)
    ∨ ((OpenFileTable.Open cfg fsys d t name).1.isSome = false
        ∧ (OpenFileTable.Open cfg fsys d t name).2 = t)
    ∨ (∃ k e, k < NBOFTENTRY ∧ t.table k = none
        ∧ (∀ j, j < NBOFTENTRY → ∀ e', t.table j = some e' → e'.name ≠ name)
        ∧ e.name = name ∧ e.numthread = 1 ∧ e.ToBeDeleted = false
        ∧ (OpenFileTable.Open cfg fsys d t name).1.isSome = true
        ∧ (OpenFileTable.Open cfg fsys d t name).2
            = ⟨Function.update t.table k (some e),
               OpenFileTable.next_entry ⟨Function.update t.table k (some e), t.nbentry⟩⟩) := by
  by_cases hf : t.findl name = ERROR
  · have hnone : ∀ j, j < NBOFTENTRY → ∀ e', t.table j = some e' → e'.name ≠ name := by
      have := (OpenFileTable.findl_loop_eq_ERROR t name NBOFTENTRY 0).mp hf
      intro j hj e' he'
      exact this j hj e' (by simpa using he')
    by_cases hnb : t.nbentry = ERROR
    · right; left
      simp [OpenFileTable.Open, hf, hnb]
    · by_cases hds : (fsys.FindDir d name).1 = INVALID_SECTOR
      · right; left
        simp [OpenFileTable.Open, hf, hnb, hds]
      · obtain ⟨S, hS⟩ : ∃ S, Directory.Find cfg ((Directory.new cfg.NumDirEntries).FetchFrom
            (d.dirFile (fsys.FindDir d name).1)) (fsys.FindDir d name).2 = S := ⟨_, rfl⟩
        by_cases hsec : 0 ≤ S
        · by_cases hdir : (OpenFile.new d S).IsDir = true
          · right; left
            simp [OpenFileTable.Open, hf, hnb, hds, hS, hsec, hdir]
          · right; right
            rcases ht.slot with h | ⟨h0, h1, h2⟩
            · exact absurd h hnb
            · have hopen : OpenFileTable.Open cfg fsys d t name
                  = (some ((OpenFile.new d S).SetName name),
                     ⟨Function.update t.table t.nbentry.toNat
                        (some ⟨name, some ((OpenFile.new d S).SetName name), 1, Lock.new, false,
                          S⟩),
                      OpenFileTable.next_entry ⟨Function.update t.table t.nbentry.toNat
                        (some ⟨name, some ((OpenFile.new d S).SetName name), 1, Lock.new, false,
                          S⟩), t.nbentry⟩⟩) := by
                simp [OpenFileTable.Open, hf, hnb, hds, hS, hsec, hdir, OpenFileTableEntry.new]
              refine ⟨t.nbentry.toNat,
                ⟨name, some ((OpenFile.new d S).SetName name), 1, Lock.new, false, S⟩,
                by omega, h2, hnone, rfl, rfl, rfl, ?_, ?_⟩
              · rw [hopen]; rfl
              · rw [hopen]
        · right; left
          simp [OpenFileTable.Open, hf, hnb, hds, hS, hsec]
  · obtain ⟨k, e, hk, hres, he, hname, _⟩ :=
      OpenFileTable.findl_loop_found t name NBOFTENTRY 0 hf
    simp only [Nat.zero_add] at hres he
    have hfind : t.findl name = (k : Int) := hres
    have hlive := (ht.live k e he).1
    have hne : (k : Int) ≠ ERROR := by simp only [ERROR]; omega
    have hopen : OpenFileTable.Open cfg fsys d t name
        = (some ((OpenFile.new d e.sector).SetName name),
           ⟨Function.update t.table k (some { e with numthread := e.numthread + 1 }),
            t.nbentry⟩) := by
      simp [OpenFileTable.Open, hfind, he, hlive, hne]
    left
    refine ⟨k, e, hk, he, hname, ?_, ?_⟩
    · rw [hopen]; rfl
    · rw [hopen]

/-- The three ways `Close` ends on a sound table: the name has no entry and
nothing changes; or its entry is held once and is removed; or its entry is
held more than once and its count goes down by one.  The disk never changes. -/
theorem OpenFileTable.Close_cases (cfg : Config) (d : Disk) (t : OpenFileTable)
    (name : CString) (ht : t.Sound) :
    ((∀ j, j < NBOFTENTRY → ∀ e', t.table j = some e' → e'.name ≠ name)
        ∧ OpenFileTable.Close cfg d t name = some (d, t))
    ∨ (∃ k e, k < NBOFTENTRY ∧ t.table k = some e ∧ e.name = name ∧ e.numthread = 1
        ∧ OpenFileTable.Close cfg d t name
            = some (d, ⟨Function.update t.table k none, t.nbentry⟩))
    ∨ (∃ k e, k < NBOFTENTRY ∧ t.table k = some e ∧ e.name = name ∧ 1 < e.numthread
        ∧ OpenFileTable.Close cfg d t name
            = some (d, ⟨Function.update t.table k
                (some { e with numthread := e.numthread - 1 }), t.nbentry⟩)) := by
  by_cases hf : t.findl name = ERROR
  · left
    refine ⟨?_, by simp [OpenFileTable.Close, hf]⟩
    have := (OpenFileTable.findl_loop_eq_ERROR t name NBOFTENTRY 0).mp hf
    intro j hj e' he'
    exact this j hj e' (by simpa using he')
  · obtain ⟨k, e, hk, _, he, hname, hlow⟩ :=
      OpenFileTable.findl_loop_found t name NBOFTENTRY 0 hf
    simp only [Nat.zero_add] at he hlow
    have hlive := ht.live k e he
    by_cases h1 : e.numthread = 1
    · right; left
      refine ⟨k, e, hk, he, hname, h1, ?_⟩
      rw [OpenFileTable.Close_last cfg d t name k e hk he hname hlow (by omega)]
      simp [OpenFileTableEntry.destroy, hlive.1]
    · right; right
      exact ⟨k, e, hk, he, hname, by omega,
        OpenFileTable.Close_keep cfg d t name k e hk he hname hlow (by omega)⟩

/-- Soundness is kept when an entry is replaced by one of the same name. -/
theorem OpenFileTable.Sound.update_same {t : OpenFileTable} (ht : t.Sound) (k : Nat)
    (e e' : OpenFileTableEntry) (he : t.table k = some e) (hname : e'.name = e.name)
    (hdel : e'.ToBeDeleted = false) (hnum : 0 < e'.numthread) :
    OpenFileTable.Sound ⟨Function.update t.table k (some e'), t.nbentry⟩ := by
  refine ⟨?_, ?_, ?_⟩
  · intro i x hx
    by_cases hik : i = k
    · subst hik
      simp only [Function.update_same, Option.some.injEq] at hx
      subst hx; exact ⟨hdel, hnum⟩
    · simp only [Function.update_noteq hik] at hx
      exact ht.live i x hx
  · intro i j x y hi hj hx hy hxy
    have key : ∀ (a : Nat) (z : OpenFileTableEntry),
        Function.update t.table k (some e') a = some z →
        ∃ z', t.table a = some z' ∧ z'.name = z.name := by
      intro a z hz
      by_cases hak : a = k
      · subst hak
        simp only [Function.update_same, Option.some.injEq] at hz
        subst hz; exact ⟨e, he, hname.symm⟩
      · simp only [Function.update_noteq hak] at hz
        exact ⟨z, hz, rfl⟩
    obtain ⟨x', hx', hxn⟩ := key i x hx
    obtain ⟨y', hy', hyn⟩ := key j y hy
    exact ht.uniq i j x' y' hi hj hx' hy' (by rw [hxn, hyn, hxy])
  · rcases ht.slot with h | ⟨h0, h1, h2⟩
    · exact Or.inl h
    · refine Or.inr ⟨h0, h1, ?_⟩
      have : t.nbentry.toNat ≠ k := fun h => by rw [h, he] at h2; cases h2
      simp only [Function.update_noteq this]
      exact h2

/-- Soundness is kept when an entry is removed. -/
theorem OpenFileTable.Sound.remove {t : OpenFileTable} (ht : t.Sound) (k : Nat) :
    OpenFileTable.Sound ⟨Function.update t.table k none, t.nbentry⟩ := by
  have key : ∀ (a : Nat) (z : OpenFileTableEntry),
      Function.update t.table k none a = some z → t.table a = some z := by
    intro a z hz
    by_cases hak : a = k
    · subst hak; simp at hz
    · simpa only [Function.update_noteq hak] using hz
  refine ⟨fun i x hx => ht.live i x (key i x hx),
    fun i j x y hi hj hx hy hxy => ht.uniq i j x y hi hj (key i x hx) (key j y hy) hxy, ?_⟩
  rcases ht.slot with h | ⟨h0, h1, h2⟩
  · exact Or.inl h
  · refine Or.inr ⟨h0, h1, ?_⟩
    by_cases hk : t.nbentry.toNat = k
    · show Function.update t.table k none t.nbentry.toNat = none
      rw [hk, Function.update_same]
    · show Function.update t.table k none t.nbentry.toNat = none
      rw [Function.update_noteq hk]; exact h2

/-- Soundness is kept when an entry with a new name fills an empty slot and
`nbentry` is recomputed by `next_entry`. -/
theorem OpenFileTable.Sound.insert {t : OpenFileTable} (ht : t.Sound) (k : Nat)
    (e : OpenFileTableEntry) (hk : k < NBOFTENTRY) (hnone : t.table k = none)
    (hnew : ∀ j, j < NBOFTENTRY → ∀ e', t.table j = some e' → e'.name ≠ e.name)
    (hdel : e.ToBeDeleted = false) (hnum : 0 < e.numthread) :
    OpenFileTable.Sound ⟨Function.update t.table k (some e),
      OpenFileTable.next_entry ⟨Function.update t.table k (some e), t.nbentry⟩⟩ := by
  refine ⟨?_, ?_, ?_⟩
  · intro i x hx
    by_cases hik : i = k
    · subst hik
      simp only [Function.update_same, Option.some.injEq] at hx
      subst hx; exact ⟨hdel, hnum⟩
    · simp only [Function.update_noteq hik] at hx
      exact ht.live i x hx
  · intro i j x y hi hj hx hy hxy
    by_cases hik : i = k <;> by_cases hjk : j = k
    · rw [hik, hjk]
    · subst hik
      simp only [Function.update_same, Option.some.injEq] at hx
      simp only [Function.update_noteq hjk] at hy
      subst hx
      exact absurd hxy.symm (hnew j hj y hy)
    · subst hjk
      simp only [Function.update_same, Option.some.injEq] at hy
      simp only [Function.update_noteq hik] at hx
      subst hy
      exact absurd hxy (hnew i hi x hx)
    · simp only [Function.update_noteq hik] at hx
      simp only [Function.update_noteq hjk] at hy
      exact ht.uniq i j x y hi hj hx hy hxy
  · rcases OpenFileTable.next_entry_loop_spec
        ⟨Function.update t.table k (some e), t.nbentry⟩ NBOFTENTRY 0 with h | ⟨a, ha, hres, hna⟩
    · exact Or.inl h
    · right
      simp only [Nat.zero_add] at hres
      have hna' : Function.update t.table k (some e) a = none := by
        rw [← hna]; congr 1; omega
      have hres' : OpenFileTable.next_entry ⟨Function.update t.table k (some e), t.nbentry⟩
          = (a : Int) := hres
      show 0 ≤ OpenFileTable.next_entry ⟨Function.update t.table k (some e), t.nbentry⟩ ∧
        OpenFileTable.next_entry ⟨Function.update t.table k (some e), t.nbentry⟩
          < (NBOFTENTRY : Int) ∧
        Function.update t.table k (some e)
          (OpenFileTable.next_entry ⟨Function.update t.table k (some e), t.nbentry⟩).toNat
          = none
      rw [hres', Int.toNat_ofNat]
      exact ⟨by omega, by omega, hna'⟩

/-- One call of a run on a sound table does not abort and keeps the table
sound; it keeps the counting invariant of `name` provided that, after it, the
name has not been closed more often than it has been opened. -/
theorem OpenFileTable.step_spec (cfg : Config) (fsys : FileSystem) (name : CString)
    (r : OFTRun) (op : FileOp) (ht : r.oft.Sound) :
    ∃ r', OpenFileTable.step cfg fsys r op = some r' ∧ r'.oft.Sound
      ∧ (r.Counted name → r'.closes.count name ≤ r'.opens.count name → r'.Counted name) := by
  cases op with
  | Open m =>
      refine ⟨_, rfl, ?_, ?_⟩
      · rcases OpenFileTable.Open_cases cfg fsys r.disk r.oft m ht with
          ⟨k, e, _, he, _, _, htab⟩ | ⟨_, htab⟩ | ⟨k, e, hk, hnone, hno, hname, hnum, hdel, _, htab⟩
        · show (OpenFileTable.Open cfg fsys r.disk r.oft m).2.Sound
          rw [htab]
          exact ht.update_same k e _ he rfl (ht.live k e he).1 (by have := (ht.live k e he).2; simp only; omega)
        · show (OpenFileTable.Open cfg fsys r.disk r.oft m).2.Sound
          rw [htab]; exact ht
        · show (OpenFileTable.Open cfg fsys r.disk r.oft m).2.Sound
          rw [htab]
          exact ht.insert k e hk hnone (by rw [hname]; exact hno) hdel (by omega)
      · intro hC _
        rcases OpenFileTable.Open_cases cfg fsys r.disk r.oft m ht with
          ⟨k, e, hk, he, hname, hsome, htab⟩ | ⟨hnone, htab⟩ |
          ⟨k, e, hk, hnone, hno, hname, hnum, hdel, hsome, htab⟩
        · refine ⟨?_, ?_⟩
          · intro i x hi hx hxn
            simp only [hsome, if_true, htab] at hx ⊢
            by_cases hik : i = k
            · subst hik
              simp only [Function.update_same, Option.some.injEq] at hx
              subst hx
              have hmn : m = name := by rw [← hname]; exact hxn
              subst hmn
              have := hC.count i e hi he hname
              simp only [List.count_cons_self]
              push_cast
              omega
            · simp only [Function.update_noteq hik] at hx
              have hmn : m ≠ name := fun h => hik
                (ht.uniq i k x e hi hk hx he (by rw [hxn, hname, h]))
              rw [List.count_cons_of_ne (Ne.symm hmn)]
              exact hC.count i x hi hx hxn
          · intro hno
            simp only [hsome, if_true, htab] at hno ⊢
            have hen : e.name ≠ name :=
              hno k { e with numthread := e.numthread + 1 } hk (by simp)
            have hmn : m ≠ name := by rw [← hname]; exact hen
            rw [List.count_cons_of_ne (Ne.symm hmn)]
            apply hC.zero
            intro i x hi hx
            by_cases hik : i = k
            · subst hik
              rw [he] at hx
              cases hx; exact hen
            · exact hno i x hi (by simp only [Function.update_noteq hik]; exact hx)
        · refine ⟨?_, ?_⟩
          · intro i x hi hx hxn
            simp only [hnone, htab] at hx ⊢
            exact hC.count i x hi hx hxn
          · intro hno
            simp only [hnone, htab] at hno ⊢
            exact hC.zero hno
        · refine ⟨?_, ?_⟩
          · intro i x hi hx hxn
            simp only [hsome, if_true, htab] at hx ⊢
            by_cases hik : i = k
            · subst hik
              simp only [Function.update_same, Option.some.injEq] at hx
              subst hx
              have hmn : m = name := by rw [← hname]; exact hxn
              subst hmn
              have := hC.zero (fun j y hj hy => hno j hj y hy)
              simp only [List.count_cons_self]
              push_cast
              omega
            · simp only [Function.update_noteq hik] at hx
              have hmn : m ≠ name := fun h => hno i hi x hx (by rw [hxn, h])
              rw [List.count_cons_of_ne (Ne.symm hmn)]
              exact hC.count i x hi hx hxn
          · intro hno'
            simp only [hsome, if_true, htab] at hno' ⊢
            have hen : e.name ≠ name := hno' k e hk (by simp)
            have hmn : m ≠ name := by rw [← hname]; exact hen
            rw [List.count_cons_of_ne (Ne.symm hmn)]
            apply hC.zero
            intro i x hi hx
            by_cases hik : i = k
            · subst hik
              rw [hnone] at hx
              cases hx
            · exact hno' i x hi (by simp only [Function.update_noteq hik]; exact hx)
  | Close m =>
      rcases OpenFileTable.Close_cases cfg r.disk r.oft m ht with
        ⟨hno, hcl⟩ | ⟨k, e, hk, he, hname, hnum, hcl⟩ | ⟨k, e, hk, he, hname, hnum, hcl⟩
      · refine ⟨⟨r.disk, r.oft, r.opens, m :: r.closes⟩, by simp [OpenFileTable.step, hcl], ht,
          ?_⟩
        intro hC hle
        simp only at hle
        refine ⟨?_, ?_⟩
        · intro i x hi hx hxn
          have hmn : m ≠ name := fun h => hno i hi x hx (by rw [hxn, h])
          simp only [List.count_cons_of_ne (Ne.symm hmn)]
          exact hC.count i x hi hx hxn
        · intro hno'
          have h0 := hC.zero hno'
          by_cases hmn : m = name
          · subst hmn
            simp only [List.count_cons_self] at hle
            omega
          · simp only [List.count_cons_of_ne (Ne.symm hmn)]
            exact h0
      · refine ⟨⟨r.disk, ⟨Function.update r.oft.table k none, r.oft.nbentry⟩, r.opens,
          m :: r.closes⟩, by simp [OpenFileTable.step, hcl], ht.remove k, ?_⟩
        intro hC _
        refine ⟨?_, ?_⟩
        · intro i x hi hx hxn
          simp only at hx ⊢
          by_cases hik : i = k
          · subst hik; simp at hx
          · simp only [Function.update_noteq hik] at hx
            have hmn : m ≠ name := fun h => hik
              (ht.uniq i k x e hi hk hx he (by rw [hxn, hname, h]))
            rw [List.count_cons_of_ne (Ne.symm hmn)]
            exact hC.count i x hi hx hxn
        · intro hno'
          simp only at hno' ⊢
          by_cases hmn : m = name
          · subst hmn
            have := hC.count k e hk he hname
            simp only [List.count_cons_self]
            omega
          · rw [List.count_cons_of_ne (Ne.symm hmn)]
            apply hC.zero
            intro i x hi hx
            by_cases hik : i = k
            · subst hik
              rw [he] at hx
              cases hx
              rw [hname]; exact hmn
            · exact hno' i x hi (by simp only [Function.update_noteq hik]; exact hx)
      · refine ⟨⟨r.disk, ⟨Function.update r.oft.table k
            (some { e with numthread := e.numthread - 1 }), r.oft.nbentry⟩, r.opens,
          m :: r.closes⟩, by simp [OpenFileTable.step, hcl],
          ht.update_same k e _ he rfl (ht.live k e he).1 (by simp only; omega), ?_⟩
        intro hC _
        refine ⟨?_, ?_⟩
        · intro i x hi hx hxn
          simp only at hx ⊢
          by_cases hik : i = k
          · subst hik
            simp only [Function.update_same, Option.some.injEq] at hx
            subst hx
            have hmn : m = name := by rw [← hname]; exact hxn
            subst hmn
            have := hC.count i e hi he hname
            simp only [List.count_cons_self]
            push_cast
            omega
          · simp only [Function.update_noteq hik] at hx
            have hmn : m ≠ name := fun h => hik
              (ht.uniq i k x e hi hk hx he (by rw [hxn, hname, h]))
            rw [List.count_cons_of_ne (Ne.symm hmn)]
            exact hC.count i x hi hx hxn
        · intro hno'
          simp only at hno' ⊢
          have hen : e.name ≠ name :=
            hno' k { e with numthread := e.numthread - 1 } hk (by simp)
          have hmn : m ≠ name := by rw [← hname]; exact hen
          rw [List.count_cons_of_ne (Ne.symm hmn)]
          apply hC.zero
          intro i x hi hx
          by_cases hik : i = k
          · subst hik
            rw [he] at hx
            cases hx; exact hen
          · exact hno' i x hi (by simp only [Function.update_noteq hik]; exact hx)

/-- A run extended by one call. -/
theorem OpenFileTable.run_append_singleton (cfg : Config) (fsys : FileSystem) (d : Disk)
    (ops : List FileOp) (op : FileOp) :
    OpenFileTable.run cfg fsys d (ops ++ [op])
      = (OpenFileTable.run cfg fsys d ops).bind (fun r => OpenFileTable.step cfg fsys r op) := by
  simp only [OpenFileTable.run, List.foldlM_append, List.foldlM_cons, List.foldlM_nil]
  cases List.foldlM (OpenFileTable.step cfg fsys) ⟨d, OpenFileTable.new, [], []⟩ ops with
  | none => rfl
  | some r =>
      show (OpenFileTable.step cfg fsys r op).bind some = _
      simp

/-- The empty table is sound. -/
theorem OpenFileTable.new_Sound : OpenFileTable.new.Sound := by
  refine ⟨?_, ?_, ?_⟩
  · intro i e h; simp [OpenFileTable.new] at h
  · intro i j e e' _ _ h; simp [OpenFileTable.new] at h
  · right; simp [OpenFileTable.new]

/-- A run never aborts and its table stays sound; when no `Close(name)` comes
before its matching `Open`, the counting invariant of `name` holds at the end. -/
theorem OpenFileTable.run_spec (cfg : Config) (fsys : FileSystem) (d : Disk) (name : CString)
    (ops : List FileOp) (h : OpenFileTable.Matched cfg fsys d name ops) :
    ∃ r, OpenFileTable.run cfg fsys d ops = some r ∧ r.oft.Sound ∧ r.Counted name := by
  induction ops using List.reverseRecOn with
  | nil =>
      refine ⟨⟨d, OpenFileTable.new, [], []⟩, rfl, OpenFileTable.new_Sound, ?_, ?_⟩
      · intro i e _ he; simp [OpenFileTable.new] at he
      · intro _; rfl
  | append_singleton l a ih =>
      have hl : OpenFileTable.Matched cfg fsys d name l := by
        intro n hn
        have := h n (by simp; omega)
        rwa [List.take_append_of_le_length hn] at this
      obtain ⟨r, hr, hs, hc⟩ := ih hl
      obtain ⟨r', hstep, hs', hc'⟩ := OpenFileTable.step_spec cfg fsys name r a hs
      have hrun : OpenFileTable.run cfg fsys d (l ++ [a]) = some r' := by
        rw [OpenFileTable.run_append_singleton, hr]; exact hstep
      refine ⟨r', hrun, hs', hc' hc ?_⟩
      have := h (l ++ [a]).length (Nat.le_refl _)
      rw [List.take_length, hrun] at this
      simpa [OFTRun.balanced] using this

/-- C5: for every file name and every run of `Open` and `Close` calls on an
initially empty table in which no `Close(name)` comes before its matching
successful `Open(name)`, the run does not abort and at its end the table
holds an entry for `name` exactly when (successful Opens − Closes) of `name`
is positive, that entry's `numthread` equals (successful Opens − Closes), and
no entry of the table has a negative `numthread`. -/
theorem C5_numthread_counts_open_handles (cfg : Config) (fsys : FileSystem) (d : Disk)
    (name : CString) (ops : List FileOp)
    (h : OpenFileTable.Matched cfg fsys d name ops) :
    ∃ r, OpenFileTable.run cfg fsys d ops = some r
      ∧ ((∃ i e, i < NBOFTENTRY ∧ r.oft.table i = some e ∧ e.name = name)
          ↔ 0 < (r.opens.count name : Int) - (r.closes.count name : Int))
      ∧ (∀ i e, i < NBOFTENTRY → r.oft.table i = some e → e.name = name →
          e.numthread = (r.opens.count name : Int) - (r.closes.count name : Int))
      ∧ (∀ i e, r.oft.table i = some e → 0 ≤ e.numthread) := by
  obtain ⟨r, hr, hs, hc⟩ := OpenFileTable.run_spec cfg fsys d name ops h
  refine ⟨r, hr, ⟨?_, ?_⟩, hc.count, fun i e he => le_of_lt (hs.live i e he).2⟩
  · rintro ⟨i, e, hi, he, hn⟩
    have h1 := hc.count i e hi he hn
    have h2 := (hs.live i e he).2
    omega
  · intro hpos
    by_contra hno
    have h0 := hc.zero (fun i e hi he hn => hno ⟨i, e, hi, he, hn⟩)
    omega

set_option maxRecDepth 100000 in
/-- Witness for C5: on the sample disk, `Open("/a")`, `Open("/a")`, `Close("/a")`
leave one entry for `/a`, with `numthread = 2 − 1`. -/
theorem C5_numthread_counts_open_handles_witness :
    ∃ r, OpenFileTable.run Sample.cfg Sample.fsys Sample.disk
          [.Open ['/', 'a'], .Open ['/', 'a'], .Close ['/', 'a']] = some r
      ∧ ((∃ i e, i < NBOFTENTRY ∧ r.oft.table i = some e ∧ e.name = ['/', 'a'])
          ↔ 0 < (r.opens.count ['/', 'a'] : Int) - (r.closes.count ['/', 'a'] : Int))
      ∧ (∀ i e, i < NBOFTENTRY → r.oft.table i = some e → e.name = ['/', 'a'] →
          e.numthread = (r.opens.count ['/', 'a'] : Int) - (r.closes.count ['/', 'a'] : Int))
      ∧ (∀ i e, r.oft.table i = some e → 0 ≤ e.numthread) :=
  C5_numthread_counts_open_handles Sample.cfg Sample.fsys Sample.disk ['/', 'a']
    [.Open ['/', 'a'], .Open ['/', 'a'], .Close ['/', 'a']]
    (fun n hn => by
      have hn' : n ≤ 3 := hn
      interval_cases n <;> decide)

/-! ## Directory: Find after Add and after Remove (C11, C12) -/

/-- When some entry of a list satisfies a decidable property, there is a
lowest-indexed one. -/
theorem Directory.exists_first (p : DirectoryEntry → Prop) [DecidablePred p]
    (l : List DirectoryEntry) (h : ∃ e ∈ l, p e) :
    ∃ (k : Nat) (e : DirectoryEntry), l[k]? = some e ∧ p e
      ∧ ∀ j, j < k → ∀ e', l[j]? = some e' → ¬ p e' := by
  induction l with
  | nil => simp at h
  | cons a rest ih =>
      by_cases ha : p a
      · exact ⟨0, a, by simp, ha, fun j hj => by omega⟩
      · have hrest : ∃ e ∈ rest, p e := by
          obtain ⟨e, he, hp⟩ := h
          rcases List.mem_cons.mp he with h1 | h1
          · subst h1; exact absurd hp ha
          · exact ⟨e, h1, hp⟩
        obtain ⟨k, e, hk, hp, hlow⟩ := ih hrest
        refine ⟨k + 1, e, by simpa using hk, hp, ?_⟩
        intro j hj e' he'
        cases j with
        | zero =>
            simp only [List.getElem?_cons_zero, Option.some.injEq] at he'
            subst he'; exact ha
        | succ j => exact hlow j (by omega) e' (by simpa using he')

/-- `Find` returns the sector of the lowest-indexed entry in use that carries
the name. -/
theorem Directory.Find_of_first (cfg : Config) (l : List DirectoryEntry) (name : CString)
    (k : Nat) (e : DirectoryEntry) (he : l[k]? = some e) (huse : e.inUse = true)
    (hname : e.name.take cfg.FILENAMEMAXLEN = name.take cfg.FILENAMEMAXLEN)
    (hlow : ∀ j, j < k → ∀ e', l[j]? = some e' →
      ¬ (e'.inUse = true ∧ e'.name.take cfg.FILENAMEMAXLEN = name.take cfg.FILENAMEMAXLEN)) :
    Directory.Find cfg ⟨l⟩ name = e.sector := by
  have hidx : Directory.FindIndex cfg ⟨l⟩ name = (k : Int) := by
    have := Directory.FindIndex_loop_first cfg name l 0 k e he huse hname hlow
    simpa [Directory.FindIndex] using this
  have hkne : (k : Int) ≠ ERROR := by simp only [ERROR]; omega
  simp [Directory.Find, hidx, hkne, he]

/-- `Find` returns `ERROR` when no entry in use carries the name. -/
theorem Directory.Find_of_none (cfg : Config) (l : List DirectoryEntry) (name : CString)
    (h : ∀ e ∈ l, ¬ (e.inUse = true ∧
      e.name.take cfg.FILENAMEMAXLEN = name.take cfg.FILENAMEMAXLEN)) :
    Directory.Find cfg ⟨l⟩ name = ERROR := by
  have hidx : Directory.FindIndex cfg ⟨l⟩ name = ERROR := by
    rw [Directory.FindIndex, Directory.FindIndex_loop_eq_ERROR]; exact h
  simp [Directory.Find, hidx]

/-- `Find` gives the same answer on two tables of which the second is the
first with entry `i` replaced, when neither the old nor the new entry `i` is
an entry in use carrying the name. -/
theorem Directory.Find_set_irrelevant (cfg : Config) (l : List DirectoryEntry)
    (name : CString) (i : Nat) (old new : DirectoryEntry) (hi : l[i]? = some old)
    (hold : ¬ (old.inUse = true ∧
      old.name.take cfg.FILENAMEMAXLEN = name.take cfg.FILENAMEMAXLEN))
    (hnew : ¬ (new.inUse = true ∧
      new.name.take cfg.FILENAMEMAXLEN = name.take cfg.FILENAMEMAXLEN)) :
    Directory.Find cfg ⟨l.set i new⟩ name = Directory.Find cfg ⟨l⟩ name := by
  have hlen : i < l.length := by
    rcases Nat.lt_or_ge i l.length with h | h
    · exact h
    · rw [List.getElem?_eq_none h] at hi; cases hi
  have hget : ∀ j e', (l.set i new)[j]? = some e' →
      (j = i ∧ e' = new) ∨ (j ≠ i ∧ l[j]? = some e') := by
    intro j e' he'
    rw [List.getElem?_set] at he'
    by_cases hji : i = j
    · subst hji
      simp only [if_true, hlen, Option.some.injEq] at he'
      exact Or.inl ⟨rfl, he'.symm⟩
    · simp only [hji, if_false] at he'
      exact Or.inr ⟨fun h => hji h.symm, he'⟩
  by_cases hex : ∃ e ∈ l, e.inUse = true ∧
      e.name.take cfg.FILENAMEMAXLEN = name.take cfg.FILENAMEMAXLEN
  · obtain ⟨k, e, hk, hp, hlow⟩ := Directory.exists_first
      (fun e => e.inUse = true ∧
        e.name.take cfg.FILENAMEMAXLEN = name.take cfg.FILENAMEMAXLEN) l hex
    have hki : k ≠ i := by
      intro h; subst h
      rw [hi] at hk; cases hk
      exact hold hp
    have hk' : (l.set i new)[k]? = some e := by
      rw [List.getElem?_set]; simp [Ne.symm hki, hk]
    rw [Directory.Find_of_first cfg l name k e hk hp.1 hp.2 hlow]
    refine Directory.Find_of_first cfg (l.set i new) name k e hk' hp.1 hp.2 ?_
    intro j hj e' he'
    rcases hget j e' he' with ⟨_, h2⟩ | ⟨_, h2⟩
    · subst h2; exact hnew
    · exact hlow j hj e' h2
  · have hnone : ∀ e ∈ l, ¬ (e.inUse = true ∧
        e.name.take cfg.FILENAMEMAXLEN = name.take cfg.FILENAMEMAXLEN) :=
      fun e he hp => hex ⟨e, he, hp⟩
    rw [Directory.Find_of_none cfg l name hnone]
    apply Directory.Find_of_none
    intro e' he'
    obtain ⟨j, hj⟩ := List.mem_iff_getElem?.mp he'
    rcases hget j e' hj with ⟨_, h2⟩ | ⟨_, h2⟩
    · subst h2; exact hnew
    · exact hnone e' (List.mem_iff_getElem?.mpr ⟨j, h2⟩)

/-- When the loop of `Add` fills an entry, that entry is the lowest-indexed
one not in use. -/
theorem Directory.Add_loop_some (cfg : Config) (name : CString) (newSector : Int)
    (l t : List DirectoryEntry) (h : Directory.Add_loop cfg name newSector l = some t) :
    ∃ (i : Nat) (e : DirectoryEntry), l[i]? = some e ∧ e.inUse = false
      ∧ (∀ j, j < i → ∀ e', l[j]? = some e' → e'.inUse = true)
      ∧ t = l.set i ⟨true, name.take cfg.FILENAMEMAXLEN, newSector⟩ := by
  induction l generalizing t with
  | nil => simp [Directory.Add_loop] at h
  | cons a rest ih =>
      cases hu : a.inUse with
      | false =>
          simp only [Directory.Add_loop, hu, Bool.not_false, if_true, Option.some.injEq,
            strncpy] at h
          exact ⟨0, a, by simp, hu, fun j hj => absurd hj (Nat.not_lt_zero j), by simp [← h]⟩
      | true =>
          simp only [Directory.Add_loop, hu, Bool.not_true, Bool.false_eq_true, if_false,
            Option.map_eq_some'] at h
          obtain ⟨r, hr, ht⟩ := h
          obtain ⟨i, e, hi, hfree, hlow, hset⟩ := ih r hr
          refine ⟨i + 1, e, by simpa using hi, hfree, ?_, by simp [← ht, hset]⟩
          intro j hj e' he'
          cases j with
          | zero =>
              simp only [List.getElem?_cons_zero, Option.some.injEq] at he'
              subst he'; exact hu
          | succ j => exact hlow j (by omega) e' (by simpa using he')

/-- C11: if `Add(n, s)` returns `NO_ERROR`, then right afterwards `Find(n)`
returns `s`, and `Find(m)` returns what it returned before `Add` for every name
`m` that differs from `n` within its first `FILENAMEMAXLEN` characters. -/
theorem C11_Find_after_Add (cfg : Config) (d : Directory) (n : CString) (s : Int)
    (h : (Directory.Add cfg d n s).1 = NO_ERROR) :
    Directory.Find cfg (Directory.Add cfg d n s).2 n = s
      ∧ ∀ m : CString, m.take cfg.FILENAMEMAXLEN ≠ n.take cfg.FILENAMEMAXLEN →
          Directory.Find cfg (Directory.Add cfg d n s).2 m = Directory.Find cfg d m := by
  by_cases hf : Directory.FindIndex cfg d n = ERROR
  · cases hl : Directory.Add_loop cfg n s d.table with
    | none => simp [Directory.Add, hf, hl] at h
    | some t =>
        have hadd : (Directory.Add cfg d n s).2 = ⟨t⟩ := by simp [Directory.Add, hf, hl]
        obtain ⟨i, e, hi, hfree, hlow, hset⟩ := Directory.Add_loop_some cfg n s d.table t hl
        have hnone := (Directory.FindIndex_loop_eq_ERROR cfg n d.table 0).mp hf
        have hlen : i < d.table.length := by
          rcases Nat.lt_or_ge i d.table.length with h' | h'
          · exact h'
          · rw [List.getElem?_eq_none h'] at hi; cases hi
        rw [hadd, hset]
        constructor
        · refine Directory.Find_of_first cfg _ n i ⟨true, n.take cfg.FILENAMEMAXLEN, s⟩
            (by rw [List.getElem?_set]; simp [hlen]) rfl (by simp) ?_
          intro j hj e' he'
          rw [List.getElem?_set] at he'
          have hij : ¬ i = j := by omega
          simp only [hij, if_false] at he'
          exact hnone e' (List.mem_iff_getElem?.mpr ⟨j, he'⟩)
        · intro m hm
          exact Directory.Find_set_irrelevant cfg d.table m i e _ hi (by simp [hfree])
            (by
              intro hc
              apply hm
              rw [← hc.2]; simp)
  · simp [Directory.Add, hf] at h

/-- Witness for C11 with `FILENAMEMAXLEN = 2`: adding `xyz` at sector 5 to a
directory that holds `ab` at sector 4. -/
theorem C11_Find_after_Add_witness :
    Directory.Find ⟨2, 8, 2⟩
        (Directory.Add ⟨2, 8, 2⟩ ⟨[⟨true, ['a', 'b'], 4⟩, ⟨false, [], 0⟩]⟩ ['x', 'y', 'z'] 5).2
        ['x', 'y', 'z'] = 5
      ∧ ∀ m : CString, m.take 2 ≠ ['x', 'y', 'z'].take 2 →
          Directory.Find ⟨2, 8, 2⟩
            (Directory.Add ⟨2, 8, 2⟩ ⟨[⟨true, ['a', 'b'], 4⟩, ⟨false, [], 0⟩]⟩
              ['x', 'y', 'z'] 5).2 m
            = Directory.Find ⟨2, 8, 2⟩ ⟨[⟨true, ['a', 'b'], 4⟩, ⟨false, [], 0⟩]⟩ m :=
  C11_Find_after_Add ⟨2, 8, 2⟩ ⟨[⟨true, ['a', 'b'], 4⟩, ⟨false, [], 0⟩]⟩ ['x', 'y', 'z'] 5
    (by decide)

/-- An entry read from a table after entry `i` has been replaced is either the
new entry, at index `i`, or an entry of the old table at another index. -/
theorem Directory.getElem?_set_some (l : List DirectoryEntry) (i : Nat)
    (new : DirectoryEntry) (j : Nat) (x : DirectoryEntry)
    (h : (l.set i new)[j]? = some x) :
    (j = i ∧ x = new) ∨ (j ≠ i ∧ l[j]? = some x) := by
  rw [List.getElem?_set] at h
  by_cases hij : i = j
  · subst hij
    simp only [if_true] at h
    split at h
    · simp only [Option.some.injEq] at h
      exact Or.inl ⟨rfl, h.symm⟩
    · cases h
  · simp only [hij, if_false] at h
    exact Or.inr ⟨fun hc => hij hc.symm, h⟩

/-- In a directory built by `Add` and `Remove`, no two entries in use carry
the same name (compared on the first `FILENAMEMAXLEN` characters). -/
theorem Directory.Reachable.distinct {cfg : Config} {d : Directory}
    (h : Directory.Reachable cfg d) :
    ∀ (i j : Nat) (e e' : DirectoryEntry), d.table[i]? = some e → d.table[j]? = some e' →
      e.inUse = true → e'.inUse = true →
      e.name.take cfg.FILENAMEMAXLEN = e'.name.take cfg.FILENAMEMAXLEN → i = j := by
  induction h with
  | empty size =>
      intro i j e e' hi _ hu
      have : e ∈ List.replicate size (⟨false, [], 0⟩ : DirectoryEntry) :=
        List.mem_iff_getElem?.mpr ⟨i, hi⟩
      rw [List.mem_replicate] at this
      rw [this.2] at hu
      cases hu
  | @add d name newSector _ ih =>
      by_cases hf : Directory.FindIndex cfg d name = ERROR
      · cases hl : Directory.Add_loop cfg name newSector d.table with
        | none =>
            have : (Directory.Add cfg d name newSector).2 = d := by
              simp [Directory.Add, hf, hl]
            rw [this]; exact ih
        | some t =>
            have hadd : (Directory.Add cfg d name newSector).2 = ⟨t⟩ := by
              simp [Directory.Add, hf, hl]
            obtain ⟨k, old, hk, _, _, hset⟩ :=
              Directory.Add_loop_some cfg name newSector d.table t hl
            have hnone := (Directory.FindIndex_loop_eq_ERROR cfg name d.table 0).mp hf
            have hlen : k < d.table.length := by
              rcases Nat.lt_or_ge k d.table.length with h' | h'
              · exact h'
              · rw [List.getElem?_eq_none h'] at hk; cases hk
            rw [hadd, hset]
            intro i j e e' hi hj hu hu' hn
            rcases Directory.getElem?_set_some d.table k _ i e hi with ⟨h1, h2⟩ | ⟨h1, h2⟩ <;>
              rcases Directory.getElem?_set_some d.table k _ j e' hj with ⟨h3, h4⟩ | ⟨h3, h4⟩
            · rw [h1, h3]
            · exfalso
              apply hnone e' (List.mem_iff_getElem?.mpr ⟨j, h4⟩)
              refine ⟨hu', ?_⟩
              rw [← hn, h2]; simp
            · exfalso
              apply hnone e (List.mem_iff_getElem?.mpr ⟨i, h2⟩)
              refine ⟨hu, ?_⟩
              rw [hn, h4]; simp
            · exact ih i j e e' h2 h4 hu hu' hn
      · have : (Directory.Add cfg d name newSector).2 = d := by
          simp [Directory.Add, hf]
        rw [this]; exact ih
  | @remove d name _ ih =>
      by_cases hf : Directory.FindIndex cfg d name = ERROR
      · have : (Directory.Remove cfg d name).2 = d := by simp [Directory.Remove, hf]
        rw [this]; exact ih
      · cases hk : d.table[(Directory.FindIndex cfg d name).toNat]? with
        | none =>
            have : (Directory.Remove cfg d name).2 = d := by
              simp [Directory.Remove, hf, hk]
            rw [this]; exact ih
        | some old =>
            have : (Directory.Remove cfg d name).2
                = ⟨d.table.set (Directory.FindIndex cfg d name).toNat
                    { old with inUse := false }⟩ := by
              simp [Directory.Remove, hf, hk]
            rw [this]
            intro i j e e' hi hj hu hu' hn
            rcases Directory.getElem?_set_some d.table _ _ i e hi with ⟨_, h2⟩ | ⟨_, h2⟩
            · rw [h2] at hu; cases hu
            · rcases Directory.getElem?_set_some d.table _ _ j e' hj with ⟨_, h4⟩ | ⟨_, h4⟩
              · rw [h4] at hu'; cases hu'
              · exact ih i j e e' h2 h4 hu hu' hn

/-- `Remove` marks not in use the lowest-indexed entry in use that carries the
name. -/
theorem Directory.Remove_of_first (cfg : Config) (d : Directory) (name : CString)
    (k : Nat) (e : DirectoryEntry) (he : d.table[k]? = some e) (huse : e.inUse = true)
    (hname : e.name.take cfg.FILENAMEMAXLEN = name.take cfg.FILENAMEMAXLEN)
    (hlow : ∀ j, j < k → ∀ e', d.table[j]? = some e' →
      ¬ (e'.inUse = true ∧ e'.name.take cfg.FILENAMEMAXLEN = name.take cfg.FILENAMEMAXLEN)) :
    Directory.Remove cfg d name = (NO_ERROR, ⟨d.table.set k { e with inUse := false }⟩) := by
  have hidx : Directory.FindIndex cfg d name = (k : Int) := by
    have := Directory.FindIndex_loop_first cfg name d.table 0 k e he huse hname hlow
    simpa [Directory.FindIndex] using this
  have hkne : (k : Int) ≠ ERROR := by simp only [ERROR]; omega
  simp [Directory.Remove, hidx, hkne, he]

/-- C12: in a directory reachable from an empty directory through `Add` and
`Remove`: when some entry in use is named `n` (on the first `FILENAMEMAXLEN`
characters), `Remove(n)` returns `NO_ERROR`, afterwards `Find(n)` returns the
not-found value `ERROR` and `Find` of every other name is unchanged; when no
entry in use is named `n`, `Remove(n)` returns `INEXIST_DIRECTORY_ERROR` and the
table is unchanged.  So `NO_ERROR` is returned exactly in the first case. -/
theorem C12_Remove_then_Find (cfg : Config) (d : Directory) (n : CString)
    (h : Directory.Reachable cfg d) :
    ((∃ e ∈ d.table, e.inUse = true ∧
          e.name.take cfg.FILENAMEMAXLEN = n.take cfg.FILENAMEMAXLEN) →
        (Directory.Remove cfg d n).1 = NO_ERROR
        ∧ Directory.Find cfg (Directory.Remove cfg d n).2 n = ERROR
        ∧ ∀ m : CString, m.take cfg.FILENAMEMAXLEN ≠ n.take cfg.FILENAMEMAXLEN →
            Directory.Find cfg (Directory.Remove cfg d n).2 m = Directory.Find cfg d m)
    ∧ ((¬ ∃ e ∈ d.table, e.inUse = true ∧
          e.name.take cfg.FILENAMEMAXLEN = n.take cfg.FILENAMEMAXLEN) →
        Directory.Remove cfg d n = (INEXIST_DIRECTORY_ERROR, d))
    ∧ ((Directory.Remove cfg d n).1 = NO_ERROR ↔
        ∃ e ∈ d.table, e.inUse = true ∧
          e.name.take cfg.FILENAMEMAXLEN = n.take cfg.FILENAMEMAXLEN) := by
  have hyes : (∃ e ∈ d.table, e.inUse = true ∧
        e.name.take cfg.FILENAMEMAXLEN = n.take cfg.FILENAMEMAXLEN) →
      (Directory.Remove cfg d n).1 = NO_ERROR
      ∧ Directory.Find cfg (Directory.Remove cfg d n).2 n = ERROR
      ∧ ∀ m : CString, m.take cfg.FILENAMEMAXLEN ≠ n.take cfg.FILENAMEMAXLEN →
          Directory.Find cfg (Directory.Remove cfg d n).2 m = Directory.Find cfg d m := by
    intro hex
    obtain ⟨k, e, hk, hp, hlow⟩ := Directory.exists_first
      (fun e => e.inUse = true ∧
        e.name.take cfg.FILENAMEMAXLEN = n.take cfg.FILENAMEMAXLEN) d.table hex
    have hrem := Directory.Remove_of_first cfg d n k e hk hp.1 hp.2 hlow
    have hlen : k < d.table.length := by
      rcases Nat.lt_or_ge k d.table.length with h' | h'
      · exact h'
      · rw [List.getElem?_eq_none h'] at hk; cases hk
    rw [hrem]
    refine ⟨rfl, ?_, ?_⟩
    · apply Directory.Find_of_none
      intro x hx hpx
      obtain ⟨j, hj⟩ := List.mem_iff_getElem?.mp hx
      rcases Directory.getElem?_set_some d.table k _ j x hj with ⟨_, h2⟩ | ⟨h1, h2⟩
      · rw [h2] at hpx; cases hpx.1
      · exact h1 (h.distinct j k x e h2 hk hpx.1 hp.1 (by rw [hp.2, hpx.2]))
    · intro m hm
      exact Directory.Find_set_irrelevant cfg d.table m k e _ hk
        (fun hc => hm (by rw [← hc.2, hp.2])) (by simp)
  have hno : (¬ ∃ e ∈ d.table, e.inUse = true ∧
        e.name.take cfg.FILENAMEMAXLEN = n.take cfg.FILENAMEMAXLEN) →
      Directory.Remove cfg d n = (INEXIST_DIRECTORY_ERROR, d) := by
    intro hex
    have hidx : Directory.FindIndex cfg d n = ERROR := by
      rw [Directory.FindIndex, Directory.FindIndex_loop_eq_ERROR]
      exact fun e he hp => hex ⟨e, he, hp⟩
    simp [Directory.Remove, hidx]
  refine ⟨hyes, hno, ⟨?_, fun hex => (hyes hex).1⟩⟩
  intro hret
  by_contra hex
  rw [hno hex] at hret
  simp at hret

/-- Witness for C12 with `FILENAMEMAXLEN = 2`: a directory of two entries to
which `ab` (sector 4) has been added; removing `abc` (same first two
characters) succeeds, removing `q` does not. -/
theorem C12_Remove_then_Find_witness :
    ((Directory.Remove ⟨2, 8, 2⟩ (Directory.Add ⟨2, 8, 2⟩ (Directory.new 2) ['a', 'b'] 4).2
          ['a', 'b', 'c']).1 = NO_ERROR ↔
        ∃ e ∈ (Directory.Add ⟨2, 8, 2⟩ (Directory.new 2) ['a', 'b'] 4).2.table,
          e.inUse = true ∧ e.name.take 2 = ['a', 'b', 'c'].take 2)
      ∧ Directory.Remove ⟨2, 8, 2⟩ (Directory.Add ⟨2, 8, 2⟩ (Directory.new 2) ['a', 'b'] 4).2 ['q']
          = (INEXIST_DIRECTORY_ERROR, (Directory.Add ⟨2, 8, 2⟩ (Directory.new 2) ['a', 'b'] 4).2) :=
  ⟨(C12_Remove_then_Find ⟨2, 8, 2⟩ (Directory.Add ⟨2, 8, 2⟩ (Directory.new 2) ['a', 'b'] 4).2
      ['a', 'b', 'c'] (Directory.Reachable.add ['a', 'b'] 4 (Directory.Reachable.empty 2))).2.2,
   (C12_Remove_then_Find ⟨2, 8, 2⟩ (Directory.Add ⟨2, 8, 2⟩ (Directory.new 2) ['a', 'b'] 4).2
      ['q'] (Directory.Reachable.add ['a', 'b'] 4 (Directory.Reachable.empty 2))).2.1
      (by decide)⟩

/-! ## BitMap::Find and the round trip through a file (C13, C14) -/

/-- `Mark(w)` succeeds for `w` in range, keeps the sizes and sets bit `w` of
the storage, leaving every other bit as it was. -/
theorem BitMap.Mark_spec (b : BitMap) (w : Int) (h0 : 0 ≤ w) (h1 : w < b.numBits)
    (hlen : w.toNat / BITS_IN_WORD < b.map.length) :
    ∃ b', b.Mark w = some b' ∧ b'.numBits = b.numBits ∧ b'.numWords = b.numWords
      ∧ b'.map.length = b.map.length
      ∧ ∀ s : Nat, (b'.map.getD (s / BITS_IN_WORD) 0).testBit (s % BITS_IN_WORD)
          = ((b.map.getD (s / BITS_IN_WORD) 0).testBit (s % BITS_IN_WORD)
              || decide (s = w.toNat)) := by
  refine ⟨⟨b.numBits, b.numWords, b.map.set (w.toNat / BITS_IN_WORD)
      ((b.map.getD (w.toNat / BITS_IN_WORD) 0 ||| (1 <<< (w.toNat % BITS_IN_WORD))) % 2 ^ 32)⟩,
    by simp [BitMap.Mark, h0, h1], rfl, rfl, by simp, ?_⟩
  intro s
  simp only [List.getD_eq_getElem?_getD, List.getElem?_set]
  have hs : s % BITS_IN_WORD < 32 := Nat.mod_lt _ (by decide)
  by_cases hq : w.toNat / BITS_IN_WORD = s / BITS_IN_WORD
  · simp only [hq, if_true]
    rw [hq] at hlen
    simp only [hlen, if_true, Option.getD_some, Nat.testBit_mod_two_pow, Nat.testBit_lor,
      Nat.one_shiftLeft, Nat.testBit_two_pow, hs, decide_True, Bool.true_and]
    by_cases hr : w.toNat % BITS_IN_WORD = s % BITS_IN_WORD
    · have : s = w.toNat := by
        have h1 := Nat.div_add_mod s BITS_IN_WORD
        have h2 := Nat.div_add_mod w.toNat BITS_IN_WORD
        rw [hq, hr] at h2
        omega
      simp [hr, this]
    · have : s ≠ w.toNat := fun h => hr (by rw [h])
      simp [hr, this]
  · have : s ≠ w.toNat := fun h => hq (by rw [h])
    simp [hq, this]

/-- The loop of `Find` started at `i0` with `n` turns left, on a bitmap whose
bits `i0 .. i-1` are set and whose bit `i` is clear: it marks `i` and returns
it. -/
theorem BitMap.Find_loop_first (b : BitMap) (n i0 i : Nat) (hi0 : i0 ≤ i) (hin : i < i0 + n)
    (hclear : b.Test i = some false)
    (hset : ∀ j : Nat, i0 ≤ j → j < i → b.Test j = some true) :
    BitMap.Find_loop b n i0 = (b.Mark i).map (fun b' => ((i : Int), b')) := by
  induction n generalizing i0 with
  | zero => omega
  | succ n ih =>
      rcases Nat.eq_or_lt_of_le hi0 with h | h
      · subst h
        simp [BitMap.Find_loop, hclear]
      · have h0 := hset i0 (Nat.le_refl _) h
        simp only [BitMap.Find_loop, h0]
        exact ih (i0 + 1) (by omega) (by omega) (fun j hj1 hj2 => hset j (by omega) hj2)

/-- The loop of `Find` on a bitmap whose bits `i0 .. i0+n-1` are all set
returns `ERROR` and leaves the bitmap as it is. -/
theorem BitMap.Find_loop_full (b : BitMap) (n i0 : Nat)
    (hset : ∀ j : Nat, i0 ≤ j → j < i0 + n → b.Test j = some true) :
    BitMap.Find_loop b n i0 = some (ERROR, b) := by
  induction n generalizing i0 with
  | zero => rfl
  | succ n ih =>
      have h0 := hset i0 (Nat.le_refl _) (by omega)
      simp only [BitMap.Find_loop, h0]
      exact ih (i0 + 1) (fun j hj1 hj2 => hset j (by omega) (by omega))

/-- C13: on a bitmap of `numBits` bits (with storage for all of them), when
`i` is the least index whose bit is clear, `Find` returns `i`, sets bit `i`
and leaves every other bit unchanged; when no bit is clear it returns `ERROR`
(−1) and leaves the bitmap unchanged. -/
theorem C13_BitMap_Find (b : BitMap) (hwf : b.numBits ≤ b.map.length * BITS_IN_WORD) :
    (∀ i : Nat, i < b.numBits → b.Test i = some false →
        (∀ j : Nat, j < i → b.Test j = some true) →
        ∃ b', b.Find = some ((i : Int), b') ∧ b'.numBits = b.numBits
          ∧ b'.Test i = some true
          ∧ ∀ j : Nat, j ≠ i → b'.Test j = b.Test j)
    ∧ ((∀ j : Nat, j < b.numBits → b.Test j = some true) → b.Find = some (ERROR, b)) := by
  constructor
  · intro i hi hclear hset
    have hlen : ((i : Int)).toNat / BITS_IN_WORD < b.map.length := by
      simp only [Int.toNat_ofNat, BITS_IN_WORD] at hwf ⊢
      omega
    obtain ⟨b', hm, hnb, _, _, hbits⟩ :=
      BitMap.Mark_spec b i (by omega) (by exact_mod_cast hi) hlen
    have hfind : b.Find = some ((i : Int), b') := by
      rw [BitMap.Find, BitMap.Find_loop_first b b.numBits 0 i (Nat.zero_le _) (by omega) hclear
        (fun j _ hj => hset j hj), hm]
      rfl
    have htest : ∀ j : Nat, b'.Test j
        = if j < b.numBits then
            some ((b.map.getD (j / BITS_IN_WORD) 0).testBit (j % BITS_IN_WORD) || decide (j = i))
          else none := by
      intro j
      by_cases hj : j < b.numBits
      · rw [BitMap.Test_eq_testBit b' j (by omega) (by rw [hnb]; exact_mod_cast hj)]
        simp only [Int.toNat_ofNat, hbits, hj, if_true]
      · have : ¬ ((0 : Int) ≤ j ∧ (j : Int) < b'.numBits) := by
          rw [hnb]; intro hc; exact hj (by exact_mod_cast hc.2)
        simp only [BitMap.Test, this, if_false, hj]
    refine ⟨b', hfind, hnb, ?_, ?_⟩
    · rw [htest i]; simp [hi]
    · intro j hji
      rw [htest j]
      by_cases hj : j < b.numBits
      · rw [BitMap.Test_eq_testBit b j (by omega) (by exact_mod_cast hj)]
        simp [hj, hji]
      · have : ¬ ((0 : Int) ≤ j ∧ (j : Int) < b.numBits) := by
          intro hc; exact hj (by exact_mod_cast hc.2)
        simp only [BitMap.Test, this, if_false, hj]
  · intro hfull
    exact BitMap.Find_loop_full b b.numBits 0 (fun j _ hj => hfull j (by omega))

/-- Witness for C13: a bitmap of 40 bits whose bits 0 to 32 are set: `Find`
returns 33 and sets bit 33 (second word `1` becomes `3`); a bitmap of 3 bits
all set: `Find` returns `ERROR`. -/
theorem C13_BitMap_Find_witness :
    (∃ b', BitMap.Find ⟨40, 2, [0xFFFFFFFF, 1]⟩ = some ((33 : Int), b') ∧ b'.numBits = 40
          ∧ b'.Test (33 : Nat) = some true
          ∧ ∀ j : Nat, j ≠ 33 → b'.Test j = BitMap.Test ⟨40, 2, [0xFFFFFFFF, 1]⟩ j)
      ∧ BitMap.Find ⟨3, 1, [7]⟩ = some (ERROR, ⟨3, 1, [7]⟩) :=
  ⟨(C13_BitMap_Find ⟨40, 2, [0xFFFFFFFF, 1]⟩ (by decide)).1 33 (by decide) (by decide)
      (fun j hj => by interval_cases j <;> decide),
   (C13_BitMap_Find ⟨3, 1, [7]⟩ (by decide)).2
      (fun j hj => by
        have hj' : j < 3 := hj
        interval_cases j <;> decide)⟩

/-- C14: for a bitmap `b` of `n` bits (its storage being `⌈n/32⌉` words) and a
file holding at least `⌈n/32⌉` words (`4·⌈n/32⌉` bytes), after `b.WriteBack(f)`
followed by `b2.FetchFrom(f)` on a bitmap `b2` of the same size, `b2.Test(i)`
answers as `b.Test(i)` for every `i`; `WriteBack` produces the new file
contents from `b` and does not change `b`. -/
theorem C14_WriteBack_FetchFrom (b b2 : BitMap) (file : List Nat)
    (hnw : b.numWords = divRoundUp b.numBits BITS_IN_WORD) (hml : b.map.length = b.numWords)
    (hsize : b2.numBits = b.numBits) (hnw2 : b2.numWords = b.numWords)
    (hml2 : b2.map.length = b2.numWords)
    (hfile : divRoundUp b.numBits BITS_IN_WORD ≤ file.length) :
    (b2.FetchFrom (b.WriteBack file)).map = b.map
      ∧ ∀ i : Int, (b2.FetchFrom (b.WriteBack file)).Test i = b.Test i := by
  have hmap : (b2.FetchFrom (b.WriteBack file)).map = b.map := by
    have e1 : b.map.take b.numWords = b.map := List.take_of_length_le (by omega)
    have e2 : b.map.take file.length = b.map := List.take_of_length_le (by omega)
    have e3 : (b.map ++ file.drop b.map.length).take b2.numWords = b.map := by
      rw [List.take_append_of_le_length (by omega)]
      exact List.take_of_length_le (by omega)
    have e4 : b2.map.drop b.map.length = [] := by
      apply List.drop_eq_nil_of_le
      omega
    simp only [BitMap.FetchFrom, BitMap.WriteBack, OpenFile.ReadAt, OpenFile.WriteAt,
      e1, e2, e3, e4, List.append_nil]
  refine ⟨hmap, fun i => ?_⟩
  have hnb : (b2.FetchFrom (b.WriteBack file)).numBits = b.numBits := hsize
  simp only [BitMap.Test, hnb, hmap]

/-- Witness for C14: a bitmap of 40 bits written to a file of three words and
fetched into a fresh bitmap of 40 bits. -/
theorem C14_WriteBack_FetchFrom_witness :
    ((BitMap.new 40).FetchFrom (BitMap.WriteBack ⟨40, 2, [5, 129]⟩ [0, 0, 77])).map = [5, 129]
      ∧ ∀ i : Int, ((BitMap.new 40).FetchFrom (BitMap.WriteBack ⟨40, 2, [5, 129]⟩
          [0, 0, 77])).Test i = BitMap.Test ⟨40, 2, [5, 129]⟩ i :=
  C14_WriteBack_FetchFrom ⟨40, 2, [5, 129]⟩ (BitMap.new 40) [0, 0, 77] (by decide) (by decide)
    (by decide) (by decide) (by decide) (by decide)

/-! ## Frame table and free list (C15, C17) -/

/-- A number below `2^31` is unchanged by the conversion to `int`. -/
theorem toInt32_of_lt (n : Nat) (h : n < 2 ^ 31) : toInt32 (n : Int) = (n : Int) := by
  unfold toInt32
  omega

/-- The free list built by the constructor is `0, 1, …, NumPhysPages − 1`. -/
theorem PhysicalMemManager.new_free_page_list (cfg : VMConfig) :
    (PhysicalMemManager.new cfg).free_page_list = List.range cfg.NumPhysPages := by
  have key : ∀ n : Nat,
      (List.range n).foldl (fun l i => Listint.Append l i) [] = List.range n := by
    intro n
    induction n with
    | zero => rfl
    | succ n ih =>
        rw [List.range_succ, List.foldl_append, ih]
        rfl
  exact key cfg.NumPhysPages

/-- What a call of `FindFreePage` that returns did: nothing, returning
`INVALID_PAGE`, when the free list is empty; otherwise it took the head `p` of
the list, which was a free frame, cleared its `free` flag and returned `p`. -/
theorem PhysicalMemManager.FindFreePage_cases (cfg : VMConfig) (k k' : VM) (r : Int)
    (h : PhysicalMemManager.FindFreePage cfg k = some (r, k')) :
    (k.g_physical_mem_manager.free_page_list = [] ∧ r = INVALID_PAGE ∧ k' = k)
    ∨ ∃ p rest, k.g_physical_mem_manager.free_page_list = p :: rest ∧ p < cfg.NumPhysPages
        ∧ (k.g_physical_mem_manager.tpr p).free = true ∧ r = toInt32 p
        ∧ k' = ⟨⟨Function.update k.g_physical_mem_manager.tpr p
                  { k.g_physical_mem_manager.tpr p with free := false }, rest,
                 k.g_physical_mem_manager.i_clock⟩,
                k.addrspace, k.mainMemory, k.numMemoryAccess + 1⟩ := by
  cases hl : k.g_physical_mem_manager.free_page_list with
  | nil =>
      left
      simp only [PhysicalMemManager.FindFreePage, hl, Listint.IsEmpty, List.isEmpty_nil,
        if_true, Option.some.injEq, Prod.mk.injEq] at h
      exact ⟨rfl, h.1.symm, h.2.symm⟩
  | cons p rest =>
      right
      simp only [PhysicalMemManager.FindFreePage, hl, Listint.IsEmpty, List.isEmpty_cons,
        Bool.false_eq_true, if_false, VM.incrMemoryAccess, Listint.Remove] at h
      split at h
      · split at h
        · rename_i hp hfree
          simp only [Option.some.injEq, Prod.mk.injEq] at h
          exact ⟨p, rest, rfl, hp, hfree, h.1.symm, h.2.symm⟩
        · cases h
      · cases h

/-- What a call of the frame set-up that returns did: it took the head `p` of
the free list, a free frame, and left `tpr[p]` not free, locked, owned by
`this` for the page `virtualPage`. -/
theorem AddrSpace.FindFreePage_setup_cases (cfg : VMConfig) (hN : cfg.NumPhysPages ≤ 2 ^ 31)
    (k k' : VM) (this virtualPage : Nat) (pp : Int)
    (h : AddrSpace.FindFreePage_setup cfg k this virtualPage = some (pp, k')) :
    ∃ p rest, k.g_physical_mem_manager.free_page_list = p :: rest ∧ p < cfg.NumPhysPages
      ∧ (k.g_physical_mem_manager.tpr p).free = true ∧ pp = (p : Int)
      ∧ k' = ⟨⟨Function.update k.g_physical_mem_manager.tpr p
                ⟨false, true, virtualPage, some this⟩, rest,
               k.g_physical_mem_manager.i_clock⟩,
              k.addrspace, k.mainMemory, k.numMemoryAccess + 1⟩ := by
  unfold AddrSpace.FindFreePage_setup at h
  cases hf : PhysicalMemManager.FindFreePage cfg k with
  | none => simp [hf] at h
  | some res =>
      obtain ⟨r, k1⟩ := res
      simp only [hf] at h
      rcases PhysicalMemManager.FindFreePage_cases cfg k k1 r hf with
        ⟨_, hr, _⟩ | ⟨p, rest, hl, hp, hfree, hr, hk1⟩
      · simp [hr] at h
      · have hpp : r = (p : Int) := by rw [hr]; exact toInt32_of_lt p (by omega)
        subst hpp
        have hne : ¬ ((p : Int) = INVALID_PAGE) := by simp only [INVALID_PAGE]; omega
        have hin : (0 : Int) ≤ (p : Int) ∧ ((p : Int)).toNat < cfg.NumPhysPages := by
          simp only [Int.toNat_ofNat]; omega
        simp only [hne, if_false, hin, and_self, if_true, Option.some.injEq,
          Prod.mk.injEq] at h
        refine ⟨p, rest, hl, hp, hfree, h.1.symm, ?_⟩
        rw [← h.2, hk1]
        simp only [Int.toNat_ofNat, Function.update_same, Function.update_idem]

/-- The constructor leaves the manager consistent. -/
theorem PhysicalMemManager.new_Consistent (cfg : VMConfig) :
    PhysicalMemManager.Consistent cfg (PhysicalMemManager.new cfg) := by
  refine ⟨?_, ?_, ?_, ?_⟩
  · intro f hf
    rw [PhysicalMemManager.new_free_page_list] at hf
    exact List.mem_range.mp hf
  · intro f hf
    rw [PhysicalMemManager.new_free_page_list]
    simp [PhysicalMemManager.new, hf]
  · rw [PhysicalMemManager.new_free_page_list]
    exact List.nodup_range _
  · intro f _ hc
    simp [PhysicalMemManager.new] at hc

/-- Taking the head of the free list and clearing its `free` flag (whatever
else is written to that entry) keeps the manager consistent. -/
theorem PhysicalMemManager.Consistent.take_head {cfg : VMConfig} {pmm : PhysicalMemManager}
    (hc : PhysicalMemManager.Consistent cfg pmm) (p : Nat) (rest : List Nat)
    (hl : pmm.free_page_list = p :: rest) (e : tpr_c) (he : e.free = false) :
    PhysicalMemManager.Consistent cfg ⟨Function.update pmm.tpr p e, rest, pmm.i_clock⟩ := by
  have hnd := hc.nodup
  rw [hl] at hnd
  have hp : p ∉ rest := (List.nodup_cons.mp hnd).1
  refine ⟨?_, ?_, (List.nodup_cons.mp hnd).2, ?_⟩
  · intro f hf
    exact hc.inRange f (by rw [hl]; exact List.mem_cons_of_mem p hf)
  · intro f hf
    by_cases hfp : f = p
    · subst hfp
      simp [hp, he]
    · simp only [Function.update_noteq hfp]
      rw [← hc.onList f hf, hl]
      simp [hfp]
  · intro f hf hcon
    by_cases hfp : f = p
    · subst hfp
      simp [he] at hcon
    · simp only [Function.update_noteq hfp] at hcon
      exact hc.lockedNotFree f hf hcon

/-- Writing to an entry without changing its `free` flag, and without locking
a free frame, keeps the manager consistent. -/
theorem PhysicalMemManager.Consistent.update_entry {cfg : VMConfig} {pmm : PhysicalMemManager}
    (hc : PhysicalMemManager.Consistent cfg pmm) (f : Nat) (e : tpr_c)
    (hfree : e.free = (pmm.tpr f).free) (hlock : ¬ (e.locked = true ∧ e.free = true)) :
    PhysicalMemManager.Consistent cfg
      ⟨Function.update pmm.tpr f e, pmm.free_page_list, pmm.i_clock⟩ := by
  refine ⟨hc.inRange, ?_, hc.nodup, ?_⟩
  · intro g hg
    by_cases hgf : g = f
    · subst hgf
      simp only [Function.update_same, hfree]
      exact hc.onList g hg
    · simp only [Function.update_noteq hgf]
      exact hc.onList g hg
  · intro g hg hcon
    by_cases hgf : g = f
    · subst hgf
      simp only [Function.update_same] at hcon
      exact hlock hcon
    · simp only [Function.update_noteq hgf] at hcon
      exact hc.lockedNotFree g hg hcon

/-- Marking a frame that was not free as free and unlocked, and putting it at
the head of the free list, keeps the manager consistent. -/
theorem PhysicalMemManager.Consistent.release {cfg : VMConfig} {pmm : PhysicalMemManager}
    (hc : PhysicalMemManager.Consistent cfg pmm) (f : Nat) (hf : f < cfg.NumPhysPages)
    (hnot : (pmm.tpr f).free = false) (e : tpr_c) (he : e.free = true)
    (hl : e.locked = false) :
    PhysicalMemManager.Consistent cfg
      ⟨Function.update pmm.tpr f e, f :: pmm.free_page_list, pmm.i_clock⟩ := by
  have hfl : f ∉ pmm.free_page_list := by
    intro hmem
    have := (hc.onList f hf).mp hmem
    rw [hnot] at this
    cases this
  refine ⟨?_, ?_, List.nodup_cons.mpr ⟨hfl, hc.nodup⟩, ?_⟩
  · intro g hg
    rcases List.mem_cons.mp hg with h | h
    · rw [h]; exact hf
    · exact hc.inRange g h
  · intro g hg
    by_cases hgf : g = f
    · subst hgf
      simp [he]
    · simp only [Function.update_noteq hgf, List.mem_cons, hgf, false_or]
      exact hc.onList g hg
  · intro g hg hcon
    by_cases hgf : g = f
    · subst hgf
      simp [hl] at hcon
    · simp only [Function.update_noteq hgf] at hcon
      exact hc.lockedNotFree g hg hcon

/-- Every reachable state of the manager is consistent. -/
theorem PhysicalMemManager.Reachable.consistent {cfg : VMConfig}
    (hN : cfg.NumPhysPages ≤ 2 ^ 31) {k : VM} (h : PhysicalMemManager.Reachable cfg k) :
    PhysicalMemManager.Consistent cfg k.g_physical_mem_manager := by
  induction h with
  | init addrspace mainMemory numMemoryAccess => exact PhysicalMemManager.new_Consistent cfg
  | @FindFreePage k k' page _ hstep ih =>
      rcases PhysicalMemManager.FindFreePage_cases cfg k k' page hstep with
        ⟨_, _, hk⟩ | ⟨p, rest, hl, _, _, _, hk⟩
      · rw [hk]; exact ih
      · rw [hk]; exact ih.take_head p rest hl _ rfl
  | @RemovePhysicalToVirtualMapping k k' num_page _ hstep ih =>
      unfold PhysicalMemManager.RemovePhysicalToVirtualMapping at hstep
      simp only at hstep
      split at hstep
      · rename_i hin
        split at hstep
        · cases hstep
        · rename_i hfree
          have hcons := ih.release num_page hin (by simpa using hfree)
            { k.g_physical_mem_manager.tpr num_page with free := true, locked := false } rfl rfl
          split at hstep
          · cases hstep
          · split at hstep
            · split at hstep
              · cases hstep
              · simp only [Option.some.injEq] at hstep
                rw [← hstep]; exact hcons
            · simp only [Option.some.injEq] at hstep
              rw [← hstep]; exact hcons
      · cases hstep
  | @UnlockPage k k' num_page _ hstep ih =>
      unfold PhysicalMemManager.UnlockPage at hstep
      simp only at hstep
      split at hstep
      · cases hstep
      · split at hstep
        · cases hstep
        · split at hstep
          · cases hstep
          · simp only [Option.some.injEq] at hstep
            rw [← hstep]
            exact ih.update_entry num_page _ rfl (by simp)
  | @ChangeOwner k k' numPage addrspace _ hstep ih =>
      unfold PhysicalMemManager.ChangeOwner at hstep
      simp only [VM.incrMemoryAccess] at hstep
      split at hstep
      · simp only [Option.some.injEq] at hstep
        rw [← hstep]
        exact ih.update_entry numPage _ rfl (by
          intro hc
          exact ih.lockedNotFree numPage (by assumption) hc)
      · cases hstep
  | @setup k k' this virtualPage pp _ hstep ih =>
      obtain ⟨p, rest, hl, _, _, _, hk⟩ :=
        AddrSpace.FindFreePage_setup_cases cfg hN k k' this virtualPage pp hstep
      rw [hk]; exact ih.take_head p rest hl _ rfl
  | @other k k' _ hsame ih => rw [hsame]; exact ih

/-- C15: in every state reachable from the constructor of `PhysicalMemManager`
through `FindFreePage`, `RemovePhysicalToVirtualMapping`, `UnlockPage`,
`ChangeOwner` and the frame set-up made by `AddrSpace` right after
`FindFreePage` (frame numbers fitting an `int`), a frame number is on the free
list exactly when its `free` flag is true, it appears there at most once, and
no frame is both locked and free. -/
theorem C15_free_list_matches_free_flags (cfg : VMConfig) (hN : cfg.NumPhysPages ≤ 2 ^ 31)
    (k : VM) (h : PhysicalMemManager.Reachable cfg k) :
    (∀ f, f < cfg.NumPhysPages →
        (f ∈ k.g_physical_mem_manager.free_page_list ↔
          (k.g_physical_mem_manager.tpr f).free = true))
      ∧ k.g_physical_mem_manager.free_page_list.Nodup
      ∧ (∀ f, f < cfg.NumPhysPages →
          ¬ ((k.g_physical_mem_manager.tpr f).locked = true ∧
              (k.g_physical_mem_manager.tpr f).free = true)) :=
  ⟨(h.consistent hN).onList, (h.consistent hN).nodup, (h.consistent hN).lockedNotFree⟩

/-- Witness for C15: the sample machine after one frame has been handed to the
address space at address 7. -/
theorem C15_free_list_matches_free_flags_witness :
    (∀ f, f < SampleVM.cfg.NumPhysPages →
        (f ∈ SampleVM.afterSetup.g_physical_mem_manager.free_page_list ↔
          (SampleVM.afterSetup.g_physical_mem_manager.tpr f).free = true))
      ∧ SampleVM.afterSetup.g_physical_mem_manager.free_page_list.Nodup
      ∧ (∀ f, f < SampleVM.cfg.NumPhysPages →
          ¬ ((SampleVM.afterSetup.g_physical_mem_manager.tpr f).locked = true ∧
              (SampleVM.afterSetup.g_physical_mem_manager.tpr f).free = true)) :=
  C15_free_list_matches_free_flags SampleVM.cfg (by decide) SampleVM.afterSetup
    (@PhysicalMemManager.Reachable.setup SampleVM.cfg SampleVM.boot SampleVM.afterSetup 7 0 0
      (PhysicalMemManager.Reachable.init _ _ _) rfl)

/-- C17: in a reachable state of the manager (frame numbers fitting an `int`),
`FindFreePage` returns `INVALID_PAGE` and changes nothing when the free list
is empty; otherwise the frame `p` at the head of the list is free and
`FindFreePage` returns `p`, removes it from the list, clears its `free` flag
and leaves every other frame's entry unchanged (the memory-access counter of
the statistics goes up by one).  So `INVALID_PAGE` is returned exactly when
the free list is empty. -/
theorem C17_FindFreePage (cfg : VMConfig) (hN : cfg.NumPhysPages ≤ 2 ^ 31) (k : VM)
    (h : PhysicalMemManager.Reachable cfg k) :
    (k.g_physical_mem_manager.free_page_list = [] →
        PhysicalMemManager.FindFreePage cfg k = some (INVALID_PAGE, k))
    ∧ (∀ p rest, k.g_physical_mem_manager.free_page_list = p :: rest →
        (k.g_physical_mem_manager.tpr p).free = true
        ∧ PhysicalMemManager.FindFreePage cfg k
            = some ((p : Int),
                ⟨⟨Function.update k.g_physical_mem_manager.tpr p
                    { k.g_physical_mem_manager.tpr p with free := false }, rest,
                  k.g_physical_mem_manager.i_clock⟩,
                 k.addrspace, k.mainMemory, k.numMemoryAccess + 1⟩))
    ∧ (∀ r k', PhysicalMemManager.FindFreePage cfg k = some (r, k') →
        (r = INVALID_PAGE ↔ k.g_physical_mem_manager.free_page_list = [])) := by
  have hc := h.consistent hN
  have hcons : ∀ p rest, k.g_physical_mem_manager.free_page_list = p :: rest →
      (k.g_physical_mem_manager.tpr p).free = true
      ∧ PhysicalMemManager.FindFreePage cfg k
          = some ((p : Int),
              ⟨⟨Function.update k.g_physical_mem_manager.tpr p
                  { k.g_physical_mem_manager.tpr p with free := false }, rest,
                k.g_physical_mem_manager.i_clock⟩,
               k.addrspace, k.mainMemory, k.numMemoryAccess + 1⟩) := by
    intro p rest hl
    have hmem : p ∈ k.g_physical_mem_manager.free_page_list := by rw [hl]; simp
    have hp := hc.inRange p hmem
    have hfree := (hc.onList p hp).mp hmem
    refine ⟨hfree, ?_⟩
    simp [PhysicalMemManager.FindFreePage, hl, Listint.IsEmpty, Listint.Remove,
      VM.incrMemoryAccess, hp, hfree, toInt32_of_lt p (by omega)]
  refine ⟨?_, hcons, ?_⟩
  · intro hl
    simp [PhysicalMemManager.FindFreePage, hl, Listint.IsEmpty]
  · intro r k' hres
    cases hl : k.g_physical_mem_manager.free_page_list with
    | nil =>
        simp only [PhysicalMemManager.FindFreePage, hl, Listint.IsEmpty, List.isEmpty_nil,
          if_true, Option.some.injEq, Prod.mk.injEq] at hres
        simp [← hres.1]
    | cons p rest =>
        rw [(hcons p rest hl).2] at hres
        simp only [Option.some.injEq, Prod.mk.injEq] at hres
        rw [← hres.1]
        simp only [INVALID_PAGE, reduceCtorEq, iff_false]

/-- Witness for C17: on the sample machine after one frame has been handed
out, the free list is `1, 2, 3` and `FindFreePage` returns frame 1. -/
theorem C17_FindFreePage_witness :
    (PhysicalMemManager.FindFreePage SampleVM.cfg SampleVM.afterSetup).map Prod.fst
      = some (1 : Int) :=
  congrArg (Option.map Prod.fst)
    ((C17_FindFreePage SampleVM.cfg (by decide) SampleVM.afterSetup
      (@PhysicalMemManager.Reachable.setup SampleVM.cfg SampleVM.boot SampleVM.afterSetup 7 0 0
        (PhysicalMemManager.Reachable.init _ _ _) rfl)).2.1 1 [2, 3] (by decide)).2

/-! ## RemovePhysicalToVirtualMapping and AddPhysicalToVirtualMapping (C16, C18, C19) -/

/-- C18: `RemovePhysicalToVirtualMapping(f)` on a frame that is not free and
whose owner `a` has a translation table `tt` (with `tpr[f].virtualPage` inside
it): `tpr[f]` becomes free and unlocked, the valid bit of page
`tpr[f].virtualPage` of `tt` is cleared and nothing else of the table changes,
and `f` is put at the head of the free list.  On a frame that is already free
the `ASSERT` fails: the kernel aborts and no state results. -/
theorem C18_RemovePhysicalToVirtualMapping (cfg : VMConfig) (k : VM) (f : Nat)
    (hf : f < cfg.NumPhysPages) :
    (∀ (a : Nat) (tt : TranslationTable),
        (k.g_physical_mem_manager.tpr f).free = false →
        (k.g_physical_mem_manager.tpr f).owner = some a →
        (k.addrspace a).translationTable = some tt →
        (k.g_physical_mem_manager.tpr f).virtualPage < tt.maxNumPages →
        PhysicalMemManager.RemovePhysicalToVirtualMapping cfg k f
          = some ⟨⟨Function.update k.g_physical_mem_manager.tpr f
                    { k.g_physical_mem_manager.tpr f with free := true, locked := false },
                   f :: k.g_physical_mem_manager.free_page_list,
                   k.g_physical_mem_manager.i_clock⟩,
                  Function.update k.addrspace a
                    ⟨some ⟨tt.maxNumPages,
                        Function.update tt.pageTable
                          (k.g_physical_mem_manager.tpr f).virtualPage
                          { tt.pageTable (k.g_physical_mem_manager.tpr f).virtualPage with
                            valid := false }⟩,
                      (k.addrspace a).freePageId, (k.addrspace a).CodeStartAddress,
                      (k.addrspace a).nb_mapped_files⟩,
                  k.mainMemory, k.numMemoryAccess⟩)
    ∧ ((k.g_physical_mem_manager.tpr f).free = true →
        PhysicalMemManager.RemovePhysicalToVirtualMapping cfg k f = none) := by
  constructor
  · intro a tt hfree howner htt hvp
    simp [PhysicalMemManager.RemovePhysicalToVirtualMapping, hf, hfree, howner, htt,
      TranslationTable.clearBitValid, TranslationTable.modify, hvp, Listint.Prepend]
  · intro hfree
    simp [PhysicalMemManager.RemovePhysicalToVirtualMapping, hf, hfree]

set_option maxRecDepth 100000 in
/-- Witness for C18: on the sample machine, frame 0 (owned by the address
space at address 7, not free) is released and ends up free, unlocked and at
the head of the free list; releasing frame 1, which is free, aborts. -/
theorem C18_RemovePhysicalToVirtualMapping_witness :
    (PhysicalMemManager.RemovePhysicalToVirtualMapping SampleVM.cfg SampleVM.afterSetup 0).map
        (fun k => ((k.g_physical_mem_manager.tpr 0).free,
          (k.g_physical_mem_manager.tpr 0).locked, k.g_physical_mem_manager.free_page_list))
      = some (true, false, [0, 1, 2, 3])
    ∧ (PhysicalMemManager.RemovePhysicalToVirtualMapping SampleVM.cfg SampleVM.afterSetup
        1).isSome = false :=
  ⟨by
      rw [(C18_RemovePhysicalToVirtualMapping SampleVM.cfg SampleVM.afterSetup 0
        (by decide)).1 7 (TranslationTable.new SampleVM.cfg) (by decide) (by decide) rfl
        (by decide)]
      decide,
   by
      rw [(C18_RemovePhysicalToVirtualMapping SampleVM.cfg SampleVM.afterSetup 1
        (by decide)).2 (by decide)]
      rfl⟩

set_option maxRecDepth 100000 in
/-- C16 (code at the failing input): on the sample machine, frame 0 is handed
to the address space at address 7 and then released by
`RemovePhysicalToVirtualMapping(0)`: afterwards frame 0 is free and on the free
list, yet `tpr[0].owner` is still the address space 7, not `NULL`. -/
theorem C16_freed_frame_keeps_owner :
    (SampleVM.afterSetup.g_physical_mem_manager.tpr 0).free = false
      ∧ (SampleVM.afterSetup.g_physical_mem_manager.tpr 0).owner = some 7
      ∧ (PhysicalMemManager.RemovePhysicalToVirtualMapping SampleVM.cfg SampleVM.afterSetup
          0).map
          (fun k => ((k.g_physical_mem_manager.tpr 0).free,
            (k.g_physical_mem_manager.tpr 0).owner, k.g_physical_mem_manager.free_page_list))
        = some (true, some 7, [0, 1, 2, 3]) := by
  decide

/-- C19 (code at the failing input): on the sample machine right after boot,
with the four frames free, `AddPhysicalToVirtualMapping(space 7, page 0)`
does not return a frame: its body only prints a warning and exits. -/
theorem C19_AddPhysicalToVirtualMapping_not_implemented :
    SampleVM.boot.g_physical_mem_manager.free_page_list = [0, 1, 2, 3]
      ∧ (PhysicalMemManager.AddPhysicalToVirtualMapping SampleVM.cfg SampleVM.boot 7 0).isSome
        = false := by
  decide

/-! ## Back-links from valid pages to frames (C20) -/

/-- A setter of the translation table that returns has passed its `ASSERT` and
rewritten one entry. -/
theorem TranslationTable.modify_eq_some (t t' : TranslationTable) (vp : Nat)
    (f : PageTableEntry → PageTableEntry) (h : t.modify vp f = some t') :
    vp < t.maxNumPages
      ∧ t' = ⟨t.maxNumPages, Function.update t.pageTable vp (f (t.pageTable vp))⟩ := by
  unfold TranslationTable.modify at h
  split at h
  · rename_i hvp
    simp only [Option.some.injEq] at h
    exact ⟨hvp, h.symm⟩
  · cases h

/-- One turn of the loop of `StackAllocate` maps the page. -/
theorem AddrSpace.StackAllocate_page_MapsPage (cfg : VMConfig) (hN : cfg.NumPhysPages ≤ 2 ^ 31)
    (this : Nat) (k k' : VM) (i : Nat)
    (h : AddrSpace.StackAllocate_page cfg this k i = some k') :
    AddrSpace.MapsPage cfg this k i k' := by
  simp only [AddrSpace.StackAllocate_page, Option.bind_eq_bind, Option.bind_eq_some,
    Option.pure_def, Option.some.injEq] at h
  obtain ⟨⟨pp, k1⟩, hsetup, t0, ht0, t1, h1, phys, _, t2, h2, t3, h3, t4, h4, t5, h5, t6, h6,
    t7, h7, hk'⟩ := h
  obtain ⟨p, rest, hl, hp, hfree, hpp, hk1⟩ :=
    AddrSpace.FindFreePage_setup_cases cfg hN k k1 this i pp hsetup
  simp only at ht0 h1 hk'
  obtain ⟨_, e1⟩ := TranslationTable.modify_eq_some _ _ _ _ h1
  obtain ⟨_, e2⟩ := TranslationTable.modify_eq_some _ _ _ _ h2
  obtain ⟨_, e3⟩ := TranslationTable.modify_eq_some _ _ _ _ h3
  obtain ⟨_, e4⟩ := TranslationTable.modify_eq_some _ _ _ _ h4
  obtain ⟨_, e5⟩ := TranslationTable.modify_eq_some _ _ _ _ h5
  obtain ⟨_, e6⟩ := TranslationTable.modify_eq_some _ _ _ _ h6
  obtain ⟨_, e7⟩ := TranslationTable.modify_eq_some _ _ _ _ h7
  subst e1 e2 e3 e4 e5 e6 e7 hpp
  simp only [Function.update_same, Function.update_idem] at hk'
  rw [hk1] at ht0 hk'
  simp only at ht0 hk'
  have hpm : k'.g_physical_mem_manager
      = ⟨Function.update k.g_physical_mem_manager.tpr p ⟨false, true, i, some this⟩, rest,
         k.g_physical_mem_manager.i_clock⟩ := by rw [← hk']
  have key : ∃ e : PageTableEntry, (k'.addrspace this).translationTable
      = some ⟨t0.maxNumPages, Function.update t0.pageTable i e⟩
      ∧ e.valid = true ∧ e.physicalPage = (p : Int) := by
    rw [← hk']
    simp only [Function.update_same]
    exact ⟨_, rfl, rfl, rfl⟩
  obtain ⟨e, he, hv, hph⟩ := key
  exact ⟨p, rest, t0, e, hl, hp, hfree, ht0, hpm, he, hv, hph⟩

/-- One turn of the page loop of the constructor maps the page. -/
theorem AddrSpace.loadPage_MapsPage (cfg : VMConfig) (hN : cfg.NumPhysPages ≤ 2 ^ 31)
    (this : Nat) (exec_file : Executable) (sec : ElfSection) (k k' : VM)
    (pgdisk virt_page : Nat)
    (h : AddrSpace.loadPage cfg this exec_file sec k pgdisk virt_page = some k') :
    AddrSpace.MapsPage cfg this k virt_page k' := by
  simp only [AddrSpace.loadPage, Option.bind_eq_bind, Option.bind_eq_some,
    Option.pure_def, Option.some.injEq] at h
  obtain ⟨t0, ht0, t1, h1, t2, h2, hrest⟩ := h
  have hrest2 : ∃ f3 : PageTableEntry → PageTableEntry, ∃ t3, t2.modify virt_page f3 = some t3
      ∧ ∃ t4, t3.clearBitIo virt_page = some t4
      ∧ ∃ a, AddrSpace.FindFreePage_setup cfg k this virt_page = some a
      ∧ ∃ t5, t4.setPhysicalPage virt_page a.1 = some t5
      ∧ ∃ phys, t5.getPhysicalPage virt_page = some phys
      ∧ ∃ t6, t5.setAddrDisk virt_page INVALID_SECTOR = some t6
      ∧ ∃ t7, t6.setBitValid virt_page = some t7
      ∧ (⟨a.2.g_physical_mem_manager,
          Function.update a.2.addrspace this
            ⟨some t7, (a.2.addrspace this).freePageId, (a.2.addrspace this).CodeStartAddress,
              (a.2.addrspace this).nb_mapped_files⟩,
          if sec.type ≠ SHT_NOBITS then
            OpenFile.ReadAtMemory exec_file.contents a.2.mainMemory (cfg.frameAddress phys)
              cfg.PageSize (sec.offset + pgdisk * cfg.PageSize)
          else memset a.2.mainMemory (cfg.frameAddress phys) 0 cfg.PageSize,
          a.2.numMemoryAccess⟩ : VM) = k' := by
    split at hrest
    · simp only [Option.bind_eq_bind, Option.bind_eq_some, Option.pure_def,
        Option.some.injEq] at hrest
      exact ⟨_, hrest⟩
    · simp only [Option.bind_eq_bind, Option.bind_eq_some, Option.pure_def,
        Option.some.injEq] at hrest
      exact ⟨_, hrest⟩
  obtain ⟨f3, t3, h3, t4, h4, ⟨pp, k1⟩, hsetup, t5, h5, phys, _, t6, h6, t7, h7, hk'⟩ := hrest2
  obtain ⟨p, rest, hl, hp, hfree, hpp, hk1⟩ :=
    AddrSpace.FindFreePage_setup_cases cfg hN k k1 this virt_page pp hsetup
  simp only at h5 hk'
  obtain ⟨_, e1⟩ := TranslationTable.modify_eq_some _ _ _ _ h1
  obtain ⟨_, e2⟩ := TranslationTable.modify_eq_some _ _ _ _ h2
  obtain ⟨_, e3⟩ := TranslationTable.modify_eq_some _ _ _ _ h3
  obtain ⟨_, e4⟩ := TranslationTable.modify_eq_some _ _ _ _ h4
  obtain ⟨_, e5⟩ := TranslationTable.modify_eq_some _ _ _ _ h5
  obtain ⟨_, e6⟩ := TranslationTable.modify_eq_some _ _ _ _ h6
  obtain ⟨_, e7⟩ := TranslationTable.modify_eq_some _ _ _ _ h7
  subst e1 e2 e3 e4 e5 e6 e7 hpp
  simp only [Function.update_same, Function.update_idem] at hk'
  rw [hk1] at hk'
  simp only at hk'
  have hpm : k'.g_physical_mem_manager
      = ⟨Function.update k.g_physical_mem_manager.tpr p ⟨false, true, virt_page, some this⟩, rest,
         k.g_physical_mem_manager.i_clock⟩ := by rw [← hk']
  have key : ∃ e : PageTableEntry, (k'.addrspace this).translationTable
      = some ⟨t0.maxNumPages, Function.update t0.pageTable virt_page e⟩
      ∧ e.valid = true ∧ e.physicalPage = (p : Int) := by
    rw [← hk']
    simp only [Function.update_same]
    exact ⟨_, rfl, rfl, rfl⟩
  obtain ⟨e, he, hv, hph⟩ := key
  exact ⟨p, rest, t0, e, hl, hp, hfree, ht0, hpm, he, hv, hph⟩

/-- Mapping one page keeps the back-links: the frame taken was free, so no
valid page referred to it. -/
theorem AddrSpace.backLinked_of_MapsPage (cfg : VMConfig) (this : Nat) (k k' : VM) (i : Nat)
    (hm : AddrSpace.MapsPage cfg this k i k') (hb : AddrSpace.BackLinked cfg this k) :
    AddrSpace.BackLinked cfg this k' := by
  obtain ⟨p, rest, tt, e, _, hp, hfree, htt, hpm, htt', hv, hph⟩ := hm
  intro tt' h' vp hvalid
  rw [htt'] at h'
  simp only [Option.some.injEq] at h'
  subst h'
  rw [hpm]
  by_cases hvp : vp = i
  · subst hvp
    refine ⟨p, ?_, hp, ?_, ?_, ?_⟩
    · simp only [Function.update_same, hph]
    · simp only [Function.update_same]
    · simp only [Function.update_same]
    · simp only [Function.update_same]
  · simp only [Function.update_noteq hvp] at hvalid ⊢
    obtain ⟨q, hq, hqN, hqf, hqo, hqv⟩ := hb tt htt vp hvalid
    have hqp : q ≠ p := by
      intro hEq
      rw [hEq, hfree] at hqf
      cases hqf
    exact ⟨q, hq, hqN, by simp only [Function.update_noteq hqp, hqf],
      by simp only [Function.update_noteq hqp, hqo],
      by simp only [Function.update_noteq hqp, hqv]⟩

/-- The back-links depend only on the frame table and on the translation
table of the address space. -/
theorem AddrSpace.BackLinked.of_same (cfg : VMConfig) (this : Nat) (k k' : VM)
    (hpm : k'.g_physical_mem_manager = k.g_physical_mem_manager)
    (htt : (k'.addrspace this).translationTable = (k.addrspace this).translationTable)
    (hb : AddrSpace.BackLinked cfg this k) : AddrSpace.BackLinked cfg this k' := by
  intro tt h' vp hvalid
  rw [htt] at h'
  rw [hpm]
  exact hb tt h' vp hvalid

/-- `Alloc` only moves `freePageId`. -/
theorem AddrSpace.Alloc_translationTable (a a' : AddrSpace) (numPages r : Int)
    (h : a.Alloc numPages = some (r, a')) : a'.translationTable = a.translationTable := by
  unfold AddrSpace.Alloc at h
  cases htt : a.translationTable with
  | none => simp [htt] at h
  | some tt =>
      simp only [htt] at h
      split at h
      · simp only [Option.some.injEq, Prod.mk.injEq] at h
        rw [← h.2, htt]
      · simp only [Option.some.injEq, Prod.mk.injEq] at h
        rw [← h.2]

/-- The loop of `StackAllocate` keeps the back-links. -/
theorem AddrSpace.StackAllocate_loop_backLinked (cfg : VMConfig)
    (hN : cfg.NumPhysPages ≤ 2 ^ 31) (this : Nat) (n : Nat) :
    ∀ (i : Nat) (k k' : VM), AddrSpace.StackAllocate_loop cfg this n i k = some k' →
      AddrSpace.BackLinked cfg this k → AddrSpace.BackLinked cfg this k' := by
  induction n with
  | zero =>
      intro i k k' h hb
      simp only [AddrSpace.StackAllocate_loop, Option.some.injEq] at h
      rw [← h]
      exact hb
  | succ n ih =>
      intro i k k' h hb
      simp only [AddrSpace.StackAllocate_loop] at h
      cases hpage : AddrSpace.StackAllocate_page cfg this k i with
      | none => simp [hpage] at h
      | some k1 =>
          simp only [hpage] at h
          exact ih (i + 1) k1 k' h
            (AddrSpace.backLinked_of_MapsPage cfg this k k1 i
              (AddrSpace.StackAllocate_page_MapsPage cfg hN this k k1 i hpage) hb)

/-- The page loop of the constructor keeps the back-links. -/
theorem AddrSpace.loadSection_loop_backLinked (cfg : VMConfig)
    (hN : cfg.NumPhysPages ≤ 2 ^ 31) (this : Nat) (exec_file : Executable) (sec : ElfSection)
    (n : Nat) :
    ∀ (pgdisk virt_page : Nat) (k k' : VM),
      AddrSpace.loadSection_loop cfg this exec_file sec n pgdisk virt_page k = some k' →
      AddrSpace.BackLinked cfg this k → AddrSpace.BackLinked cfg this k' := by
  induction n with
  | zero =>
      intro pgdisk virt_page k k' h hb
      simp only [AddrSpace.loadSection_loop, Option.some.injEq] at h
      rw [← h]
      exact hb
  | succ n ih =>
      intro pgdisk virt_page k k' h hb
      simp only [AddrSpace.loadSection_loop] at h
      cases hpage : AddrSpace.loadPage cfg this exec_file sec k pgdisk virt_page with
      | none => simp [hpage] at h
      | some k1 =>
          simp only [hpage] at h
          exact ih _ _ k1 k' h
            (AddrSpace.backLinked_of_MapsPage cfg this k k1 virt_page
              (AddrSpace.loadPage_MapsPage cfg hN this exec_file sec k k1 pgdisk virt_page hpage)
              hb)

/-- Loading one section keeps the back-links. -/
theorem AddrSpace.loadSection_backLinked (cfg : VMConfig) (hN : cfg.NumPhysPages ≤ 2 ^ 31)
    (this : Nat) (exec_file : Executable) (sec : ElfSection) (k k' : VM)
    (h : AddrSpace.loadSection cfg this exec_file k sec = some k')
    (hb : AddrSpace.BackLinked cfg this k) : AddrSpace.BackLinked cfg this k' := by
  unfold AddrSpace.loadSection at h
  split at h
  · simp only [Option.some.injEq] at h
    rw [← h]
    exact hb
  · split at h
    · simp only [Option.some.injEq] at h
      rw [← h]
      exact hb
    · split at h
      · cases h
      · exact AddrSpace.loadSection_loop_backLinked cfg hN this exec_file sec _ _ _ k k' h hb

/-- The section loop of the constructor keeps the back-links. -/
theorem AddrSpace.loadSections_backLinked (cfg : VMConfig) (hN : cfg.NumPhysPages ≤ 2 ^ 31)
    (this : Nat) (exec_file : Executable) (sections : List ElfSection) :
    ∀ (k k' : VM), sections.foldlM (AddrSpace.loadSection cfg this exec_file) k = some k' →
      AddrSpace.BackLinked cfg this k → AddrSpace.BackLinked cfg this k' := by
  induction sections with
  | nil =>
      intro k k' h hb
      simp only [List.foldlM_nil, Option.pure_def, Option.some.injEq] at h
      rw [← h]
      exact hb
  | cons sec sections ih =>
      intro k k' h hb
      simp only [List.foldlM_cons, Option.bind_eq_bind, Option.bind_eq_some] at h
      obtain ⟨k1, h1, h2⟩ := h
      exact ih k1 k' h2 (AddrSpace.loadSection_backLinked cfg hN this exec_file sec k k1 h1 hb)

/-- A state in which the translation table of `this` is the fresh one has the
back-link property: no valid bit is set. -/
theorem AddrSpace.BackLinked.fresh (cfg : VMConfig) (this : Nat) (k : VM)
    (h : (k.addrspace this).translationTable = some (TranslationTable.new cfg)) :
    AddrSpace.BackLinked cfg this k := by
  intro tt htt vp hvalid
  rw [h] at htt
  simp only [Option.some.injEq] at htt
  subst htt
  simp [TranslationTable.new, PageTableEntry.new] at hvalid

/-- The constructor establishes the back-links. -/
theorem AddrSpace.new_backLinked (cfg : VMConfig) (hN : cfg.NumPhysPages ≤ 2 ^ 31)
    (this : Nat) (k0 k : VM) (exec_file : Option Executable)
    (h : AddrSpace.new cfg k0 this exec_file = some k) : AddrSpace.BackLinked cfg this k := by
  unfold AddrSpace.new at h
  cases exec_file with
  | none =>
      simp only [Option.some.injEq] at h
      apply AddrSpace.BackLinked.fresh
      rw [← h]
      simp only [Function.update_same]
  | some exec_file =>
      dsimp only at h
      by_cases h1 : exec_file.EI_CLASS ≠ ELFCLASS32 ∧ exec_file.EI_CLASS ≠ ELFCLASS64
      · rw [if_pos h1] at h
        cases h
      · rw [if_neg h1] at h
        by_cases h2 : exec_file.err ≠ NO_ERROR
        · rw [if_pos h2] at h
          cases h
        · rw [if_neg h2] at h
          cases halloc : AddrSpace.Alloc ⟨some (TranslationTable.new cfg), 0, 0, 0⟩
              (toInt32 ((divRoundUp64 (AddrSpace.mem_topaddr exec_file.sections)
                cfg.PageSize : Nat) : Int)) with
          | none =>
              rw [halloc] at h
              cases h
          | some r =>
              obtain ⟨base_addr, a⟩ := r
              rw [halloc] at h
              dsimp only at h
              by_cases h3 : base_addr ≠ 0
              · rw [if_pos h3] at h
                cases h
              · rw [if_neg h3] at h
                have htt := AddrSpace.Alloc_translationTable _ _ _ _ halloc
                cases hload : List.foldlM (AddrSpace.loadSection cfg this exec_file)
                    (⟨k0.g_physical_mem_manager, Function.update k0.addrspace this a,
                      k0.mainMemory, k0.numMemoryAccess⟩ : VM) exec_file.sections with
                | none =>
                    rw [hload] at h
                    cases h
                | some k1 =>
                    rw [hload] at h
                    dsimp only at h
                    have hk : k = ⟨k1.g_physical_mem_manager,
                        Function.update k1.addrspace this
                          ⟨(k1.addrspace this).translationTable, (k1.addrspace this).freePageId,
                            toInt32 (exec_file.entry : Int), 0⟩,
                        k1.mainMemory, k1.numMemoryAccess⟩ := (Option.some.inj h).symm
                    have h1 := AddrSpace.loadSections_backLinked cfg hN this exec_file
                      exec_file.sections _ k1 hload
                      (AddrSpace.BackLinked.fresh cfg this _
                        (by dsimp only; rw [Function.update_same]; exact htt))
                    refine AddrSpace.BackLinked.of_same cfg this k1 k ?_ ?_ h1
                    · rw [hk]
                    · rw [hk]
                      dsimp only
                      rw [Function.update_same]

/-- `StackAllocate` keeps the back-links. -/
theorem AddrSpace.StackAllocate_backLinked (cfg : VMConfig) (hN : cfg.NumPhysPages ≤ 2 ^ 31)
    (this : Nat) (k k' : VM) (stackpointer : Int)
    (h : AddrSpace.StackAllocate cfg k this = some (stackpointer, k'))
    (hb : AddrSpace.BackLinked cfg this k) : AddrSpace.BackLinked cfg this k' := by
  unfold AddrSpace.StackAllocate at h
  cases halloc1 : (k.addrspace this).Alloc STACK_BLANK_LEN with
  | none =>
      rw [halloc1] at h
      cases h
  | some r1 =>
      obtain ⟨blankaddr, a1⟩ := r1
      rw [halloc1] at h
      dsimp only at h
      cases halloc2 : a1.Alloc (AddrSpace.StackAllocate_numPages cfg) with
      | none =>
          rw [halloc2] at h
          cases h
      | some r2 =>
          obtain ⟨stackBasePage, a2⟩ := r2
          rw [halloc2] at h
          dsimp only at h
          by_cases h3 : ¬ stackBasePage ≥ 0
          · rw [if_pos h3] at h
            cases h
          · rw [if_neg h3] at h
            cases hloop : AddrSpace.StackAllocate_loop cfg this
                (AddrSpace.StackAllocate_numPages cfg).toNat stackBasePage.toNat
                (⟨k.g_physical_mem_manager, Function.update k.addrspace this a2, k.mainMemory,
                  k.numMemoryAccess⟩ : VM) with
            | none =>
                rw [hloop] at h
                cases h
            | some k1 =>
                rw [hloop] at h
                dsimp only at h
                have hk : k1 = k' := (Prod.mk.inj (Option.some.inj h)).2
                rw [← hk]
                refine AddrSpace.StackAllocate_loop_backLinked cfg hN this _ _ _ k1 hloop ?_
                refine AddrSpace.BackLinked.of_same cfg this k _ rfl ?_ hb
                dsimp only
                rw [Function.update_same, AddrSpace.Alloc_translationTable _ _ _ _ halloc2,
                  AddrSpace.Alloc_translationTable _ _ _ _ halloc1]

/-- The back-links hold in every state in which the address space has been
constructed and `StackAllocate` called on it any number of times. -/
theorem AddrSpace.backLinked_of_Built (cfg : VMConfig) (hN : cfg.NumPhysPages ≤ 2 ^ 31)
    (this : Nat) (k : VM) (h : AddrSpace.Built cfg this k) : AddrSpace.BackLinked cfg this k := by
  induction h with
  | ctor exec_file hnew => exact AddrSpace.new_backLinked cfg hN this _ _ exec_file hnew
  | stack _ hstack ih => exact AddrSpace.StackAllocate_backLinked cfg hN this _ _ _ hstack ih

/-- C20: after the address space at `this` has been constructed and after any
number of `StackAllocate` calls on it, for every virtual page `vp` of that
space whose valid bit is set, the frame `physicalPage(vp)` is a frame of the
machine, is not free, and has `owner` = that address space and
`virtualPage = vp` (frame numbers fit an `int`: `NumPhysPages ≤ 2^31`). -/
theorem C20_valid_page_back_link (cfg : VMConfig) (hN : cfg.NumPhysPages ≤ 2 ^ 31)
    (this : Nat) (k : VM) (hbuilt : AddrSpace.Built cfg this k)
    (tt : TranslationTable) (htt : (k.addrspace this).translationTable = some tt)
    (vp : Nat) (hvalid : tt.getBitValid vp = some true) :
    ∃ p : Nat, tt.getPhysicalPage vp = some (p : Int) ∧ p < cfg.NumPhysPages
      ∧ (k.g_physical_mem_manager.tpr p).free = false
      ∧ (k.g_physical_mem_manager.tpr p).owner = some this
      ∧ (k.g_physical_mem_manager.tpr p).virtualPage = vp := by
  have hlt : vp < tt.maxNumPages ∧ (tt.pageTable vp).valid = true := by
    simp only [TranslationTable.getBitValid, TranslationTable.read] at hvalid
    split at hvalid
    · rename_i hlt
      simp only [Option.some.injEq] at hvalid
      exact ⟨hlt, hvalid⟩
    · cases hvalid
  obtain ⟨p, hp, hrest⟩ := AddrSpace.backLinked_of_Built cfg hN this k hbuilt tt htt vp hlt.2
  refine ⟨p, ?_, hrest⟩
  simp only [TranslationTable.getPhysicalPage, TranslationTable.read, hlt.1, if_true, hp]

/-- Witness for C20: on the sample machine the address space at address 7 is
constructed from an executable with one page to load and `StackAllocate` is
called once; its virtual page 5, the first page of the stack, is valid and
refers to frame 1, which is not free, is owned by that address space and
records virtual page 5. -/
theorem C20_valid_page_back_link_witness :
    SampleVM.stackedTable.getBitValid 5 = some true
      ∧ SampleVM.stackedTable.getPhysicalPage 5 = some (1 : Int)
      ∧ ∃ p : Nat, SampleVM.stackedTable.getPhysicalPage 5 = some (p : Int)
          ∧ p < SampleVM.cfg.NumPhysPages
          ∧ (SampleVM.stacked.2.g_physical_mem_manager.tpr p).free = false
          ∧ (SampleVM.stacked.2.g_physical_mem_manager.tpr p).owner = some 7
          ∧ (SampleVM.stacked.2.g_physical_mem_manager.tpr p).virtualPage = 5 :=
  ⟨by decide, by decide,
    C20_valid_page_back_link SampleVM.cfg (by decide) 7 SampleVM.stacked.2
      (@AddrSpace.Built.stack SampleVM.cfg 7 SampleVM.built SampleVM.stacked.2 SampleVM.stacked.1
        (@AddrSpace.Built.ctor SampleVM.cfg 7 SampleVM.boot SampleVM.built (some SampleVM.exec)
          rfl) rfl)
      SampleVM.stackedTable rfl 5 (by decide)⟩

/-! ## AddrSpace::Alloc at the end of the virtual space (C21) -/

/-- C21 (code at the failing input): an address space with a table of 16
pages and `freePageId = 12` is asked for 4 pages: `12 + 4 ≤ 16`, the pages
12..15 exist, yet `Alloc(4)` returns `INVALID_PAGE` and leaves `freePageId` at
12, because the test is `freePageId + numPages >= getMaxNumPages()`; asked for
3 pages it returns 12 and moves `freePageId` to 15. -/
theorem C21_Alloc_refuses_last_page :
    (AddrSpace.Alloc ⟨some (TranslationTable.new SampleVM.cfg), 12, 0, 0⟩ 4).map
        (fun r => (r.1, r.2.freePageId)) = some (INVALID_PAGE, 12)
      ∧ (AddrSpace.Alloc ⟨some (TranslationTable.new SampleVM.cfg), 12, 0, 0⟩ 3).map
        (fun r => (r.1, r.2.freePageId)) = some (12, 15) := by
  decide

/-! ## Identifiers issued by the object registry (C25) -/

/-- The registry after a removal has the same counter. -/
theorem ObjAddr.RemoveObject_last_id (o : ObjAddr) (id : Int) :
    (o.RemoveObject id).last_id = o.last_id := rfl

/-- The registry after a removal by address has the same counter. -/
theorem ObjAddr.RemoveObjectPtr_last_id (o : ObjAddr) (ptr : Nat) :
    (o.RemoveObjectPtr ptr).last_id = o.last_id := by
  unfold ObjAddr.RemoveObjectPtr
  split
  · rfl
  · split <;> rfl

/-- The list `L, L + 1, …, L + m` starts with `L` and goes on from `L + 1`. -/
theorem ObjAddr.range_shift (L m : Nat) :
    (List.range (m + 1)).map (fun j : Nat => (L : Int) + (j : Int))
      = (L : Int) :: (List.range m).map (fun j : Nat => ((L + 1 : Nat) : Int) + (j : Int)) := by
  rw [List.range_succ_eq_map, List.map_cons, List.map_map]
  have hrest : ∀ j : Nat, ((fun j : Nat => (L : Int) + (j : Int)) ∘ Nat.succ) j
      = ((L + 1 : Nat) : Int) + (j : Int) := by
    intro j
    simp only [Function.comp_apply, Nat.succ_eq_add_one]
    push_cast
    omega
  rw [funext hrest]
  simp

/-- From a registry whose counter is `L ≥ 0`, a run with `m` calls to
`AddObject`, `L + m < 2^31`, returns `L, L + 1, …, L + m − 1`. -/
theorem ObjAddr.run_ids (ops : List ObjOp) :
    ∀ (o : ObjAddr) (L : Nat), o.last_id = (L : Int) → L + ObjOp.adds ops < 2 ^ 31 →
      ∃ o', ObjAddr.run o ops
          = some ((List.range (ObjOp.adds ops)).map (fun j : Nat => (L : Int) + (j : Int)), o')
        ∧ o'.last_id = (L : Int) + (ObjOp.adds ops : Int) := by
  induction ops with
  | nil =>
      intro o L hL _
      exact ⟨o, rfl, by simp [ObjOp.adds, hL]⟩
  | cons op ops ih =>
      intro o L hL hm
      cases op with
      | AddObject ptr =>
          have hadds : ObjOp.adds (ObjOp.AddObject ptr :: ops) = ObjOp.adds ops + 1 := by
            simp [ObjOp.adds]
          rw [hadds] at hm ⊢
          have hnext : toInt32 (o.last_id + 1) = ((L + 1 : Nat) : Int) := by
            rw [hL]
            have := toInt32_of_lt (L + 1) (by omega)
            simpa using this
          obtain ⟨o', hrun, hlast⟩ :=
            ih ⟨toInt32 (o.last_id + 1), ObjAddr.assign o.ids o.last_id ptr⟩ (L + 1) hnext
              (by omega)
          have hadd : o.AddObject ptr
              = some (o.last_id, ⟨toInt32 (o.last_id + 1),
                  ObjAddr.assign o.ids o.last_id ptr⟩) := by
            unfold ObjAddr.AddObject
            rw [if_neg (by rw [hL]; omega)]
          refine ⟨o', ?_, ?_⟩
          · rw [ObjAddr.range_shift, ← hL]
            simp only [ObjAddr.run, hadd, hrun]
          · rw [hlast]
            push_cast
            omega
      | RemoveObject id =>
          have hadds : ObjOp.adds (ObjOp.RemoveObject id :: ops) = ObjOp.adds ops := by
            simp [ObjOp.adds]
          rw [hadds] at hm ⊢
          exact ih (o.RemoveObject id) L hL hm
      | RemoveObjectPtr ptr =>
          have hadds : ObjOp.adds (ObjOp.RemoveObjectPtr ptr :: ops) = ObjOp.adds ops := by
            simp [ObjOp.adds]
          rw [hadds] at hm ⊢
          exact ih (o.RemoveObjectPtr ptr) L
            (by rw [ObjAddr.RemoveObjectPtr_last_id]; exact hL) hm

/-- C25: on a fresh object registry, in any run of `AddObject` and
`RemoveObject` calls (by identifier or by address) with fewer than `2^31 − 3`
calls to `AddObject`, the run does not panic and the `k`-th call to
`AddObject` returns `3 + (k − 1)`: the identifiers returned are
`3, 4, 5, …` in order, whatever removals occur in between; so every
identifier is at least 3, they are strictly increasing and none is issued
twice. -/
theorem C25_AddObject_identifiers (ops : List ObjOp) (h : ObjOp.adds ops < 2 ^ 31 - 3) :
    ∃ o', ObjAddr.run ObjAddr.new ops
        = some ((List.range (ObjOp.adds ops)).map (fun j : Nat => (3 : Int) + (j : Int)), o')
      ∧ (∀ id ∈ (List.range (ObjOp.adds ops)).map (fun j : Nat => (3 : Int) + (j : Int)),
          3 ≤ id)
      ∧ ((List.range (ObjOp.adds ops)).map (fun j : Nat => (3 : Int) + (j : Int))).Pairwise
          (fun a b => a < b)
      ∧ ((List.range (ObjOp.adds ops)).map (fun j : Nat => (3 : Int) + (j : Int))).Nodup := by
  obtain ⟨o', hrun, _⟩ := ObjAddr.run_ids ops ObjAddr.new 3 rfl (by omega)
  have hpw : ((List.range (ObjOp.adds ops)).map (fun j : Nat => (3 : Int) + (j : Int))).Pairwise
      (fun a b => a < b) := by
    rw [List.pairwise_map]
    refine List.Pairwise.imp ?_ (List.pairwise_lt_range _)
    intro a b hab
    omega
  refine ⟨o', by simpa using hrun, ?_, hpw, ?_⟩
  · intro id hid
    rw [List.mem_map] at hid
    obtain ⟨j, _, hj⟩ := hid
    omega
  · exact hpw.imp (fun h => ne_of_lt h)

/-- Witness for C25: three objects are registered, the first is removed by
identifier and the second by address, then two more are registered: the
identifiers returned are 3, 4, 5, 6, 7. -/
theorem C25_AddObject_identifiers_witness :
    (ObjAddr.run ObjAddr.new
        [ObjOp.AddObject 100, ObjOp.AddObject 200, ObjOp.AddObject 300, ObjOp.RemoveObject 3,
          ObjOp.RemoveObjectPtr 200, ObjOp.AddObject 400, ObjOp.AddObject 100]).map Prod.fst
      = some [3, 4, 5, 6, 7] := by
  obtain ⟨o', hrun, _⟩ := C25_AddObject_identifiers
    [ObjOp.AddObject 100, ObjOp.AddObject 200, ObjOp.AddObject 300, ObjOp.RemoveObject 3,
      ObjOp.RemoveObjectPtr 200, ObjOp.AddObject 400, ObjOp.AddObject 100] (by decide)
  rw [hrun]
  rfl

/-! ## SwapManager::PutPageSwap (C24) -/

/-- The loop of `GetFreePage` is the loop of `BitMap::Find`. -/
theorem SwapManager.GetFreePage_loop_eq (b : BitMap) (n : Nat) :
    ∀ i : Nat, SwapManager.GetFreePage_loop b n i = BitMap.Find_loop b n i := by
  induction n with
  | zero => intro i; rfl
  | succ n ih =>
      intro i
      simp only [SwapManager.GetFreePage_loop, BitMap.Find_loop, ih]

/-- `Mark` on a bit inside the bitmap sets that bit and no other. -/
theorem BitMap.Mark_Test (b : BitMap) (hwf : b.numBits ≤ b.map.length * BITS_IN_WORD)
    (i : Nat) (hi : i < b.numBits) :
    ∃ b', b.Mark i = some b' ∧ b'.numBits = b.numBits ∧ b'.map.length = b.map.length
      ∧ b'.Test i = some true ∧ ∀ j : Nat, j ≠ i → b'.Test j = b.Test j := by
  have hlen : ((i : Int)).toNat / BITS_IN_WORD < b.map.length := by
    simp only [Int.toNat_ofNat, BITS_IN_WORD] at hwf ⊢
    omega
  obtain ⟨b', hm, hnb, _, hl, hbits⟩ :=
    BitMap.Mark_spec b i (by omega) (by exact_mod_cast hi) hlen
  have htest : ∀ j : Nat, b'.Test j
      = if j < b.numBits then
          some ((b.map.getD (j / BITS_IN_WORD) 0).testBit (j % BITS_IN_WORD) || decide (j = i))
        else none := by
    intro j
    by_cases hj : j < b.numBits
    · rw [BitMap.Test_eq_testBit b' j (by omega) (by rw [hnb]; exact_mod_cast hj)]
      simp only [Int.toNat_ofNat, hbits, hj, if_true]
    · have : ¬ ((0 : Int) ≤ j ∧ (j : Int) < b'.numBits) := by
        rw [hnb]; intro hc; exact hj (by exact_mod_cast hc.2)
      simp only [BitMap.Test, this, if_false, hj]
  refine ⟨b', hm, hnb, hl, ?_, ?_⟩
  · rw [htest i]; simp [hi]
  · intro j hji
    rw [htest j]
    by_cases hj : j < b.numBits
    · rw [BitMap.Test_eq_testBit b j (by omega) (by exact_mod_cast hj)]
      simp [hj, hji]
    · have : ¬ ((0 : Int) ≤ j ∧ (j : Int) < b.numBits) := by
        intro hc; exact hj (by exact_mod_cast hc.2)
      simp only [BitMap.Test, this, if_false, hj]

/-- C24: `PutPageSwap(s, buf)` on a swap manager whose bitmap has `NUM_SECTORS`
bits.  If `s` is not the sentinel `(uint32_t) INVALID_SECTOR`, `buf` is written
to sector `s`, `s` is returned (as an `int`: `s` itself when `s < 2^31`) and
the bitmap is unchanged.  If `s` is the sentinel and `i` is the
lowest-numbered free sector, bit `i` is marked and no other, `buf` is written
to sector `i` and `i` is returned.  If `s` is the sentinel and no sector is
free, `INVALID_SECTOR` is returned, nothing is written and the bitmap is
unchanged. -/
theorem C24_PutPageSwap {D B : Type} (WriteSector : D → Nat → B → Option D) (cfg : Config)
    (m : SwapManager D) (buf : B) (hbits : m.page_flags.numBits = cfg.NUM_SECTORS)
    (hwf : m.page_flags.numBits ≤ m.page_flags.map.length * BITS_IN_WORD)
    (hN : cfg.NUM_SECTORS ≤ 2 ^ 31) :
    (∀ s : Nat, s ≠ 2 ^ 32 - 1 →
        SwapManager.PutPageSwap WriteSector cfg m s buf
            = (WriteSector m.swap_disk s buf).map (fun d => (toInt32 s, ⟨d, m.page_flags⟩))
          ∧ (s < 2 ^ 31 → toInt32 s = (s : Int)))
    ∧ (∀ i : Nat, i < cfg.NUM_SECTORS → m.page_flags.Test i = some false →
        (∀ j : Nat, j < i → m.page_flags.Test j = some true) →
        ∃ b', m.page_flags.Mark i = some b' ∧ b'.Test i = some true
          ∧ (∀ j : Nat, j ≠ i → b'.Test j = m.page_flags.Test j)
          ∧ SwapManager.PutPageSwap WriteSector cfg m (2 ^ 32 - 1) buf
              = (WriteSector m.swap_disk i buf).map (fun d => ((i : Int), ⟨d, b'⟩)))
    ∧ ((∀ j : Nat, j < cfg.NUM_SECTORS → m.page_flags.Test j = some true) →
        SwapManager.PutPageSwap WriteSector cfg m (2 ^ 32 - 1) buf = some (INVALID_SECTOR, m)) := by
  have hsent : (INVALID_SECTOR % 2 ^ 32).toNat = 2 ^ 32 - 1 := by decide
  refine ⟨?_, ?_, ?_⟩
  · intro s hs
    refine ⟨?_, fun h => toInt32_of_lt s h⟩
    unfold SwapManager.PutPageSwap
    rw [hsent, if_pos hs]
  · intro i hi hclear hset
    obtain ⟨b', hm, _, _, ht, hother⟩ :=
      BitMap.Mark_Test m.page_flags hwf i (by omega)
    refine ⟨b', hm, ht, hother, ?_⟩
    have hfree : m.GetFreePage cfg = some ((i : Int), ⟨m.swap_disk, b'⟩) := by
      unfold SwapManager.GetFreePage
      rw [SwapManager.GetFreePage_loop_eq,
        BitMap.Find_loop_first m.page_flags cfg.NUM_SECTORS 0 i (Nat.zero_le _) (by omega) hclear
          (fun j _ hj => hset j hj), hm]
      rfl
    have hi31 : i < 2 ^ 31 := by omega
    have hmod : ((i : Int) % 2 ^ 32).toNat = i := by omega
    unfold SwapManager.PutPageSwap
    rw [hsent, if_neg (by simp), hfree]
    simp only [hmod]
    rw [if_neg (by omega), toInt32_of_lt i hi31]
  · intro hfull
    have hfree : m.GetFreePage cfg = some (ERROR, m) := by
      unfold SwapManager.GetFreePage
      rw [SwapManager.GetFreePage_loop_eq,
        BitMap.Find_loop_full m.page_flags cfg.NUM_SECTORS 0 (fun j _ hj => hfull j (by omega))]
      rfl
    unfold SwapManager.PutPageSwap
    rw [hsent, if_neg (by simp), hfree]
    simp only []
    rw [if_pos (by decide)]

/-- Witness for C24 on a swap disk of 8 sectors with sectors 0, 1, 2 in use:
`PutPageSwap(5, buf)` writes sector 5 and returns 5; `PutPageSwap` on the
sentinel takes sector 3. -/
theorem C24_PutPageSwap_witness :
    SwapManager.PutPageSwap SampleSwap.WriteSector ⟨2, 8, 2⟩ SampleSwap.manager 5 [1, 2]
        = some (5, ⟨[[10], [11], [12], [], [], [1, 2], [], []], ⟨8, 1, [7]⟩⟩)
      ∧ ∃ b', BitMap.Mark ⟨8, 1, [7]⟩ (3 : Nat) = some b'
          ∧ SwapManager.PutPageSwap SampleSwap.WriteSector ⟨2, 8, 2⟩ SampleSwap.manager
              (2 ^ 32 - 1) [1, 2]
            = some (3, ⟨[[10], [11], [12], [1, 2], [], [], [], []], b'⟩) := by
  have h := C24_PutPageSwap SampleSwap.WriteSector ⟨2, 8, 2⟩ SampleSwap.manager [1, 2]
    (by decide) (by decide) (by decide)
  refine ⟨?_, ?_⟩
  · rw [(h.1 5 (by decide)).1]
    rfl
  · obtain ⟨b', hm, _, _, hput⟩ := h.2.1 3 (by decide) (by decide)
      (fun j hj => by interval_cases j <;> decide)
    exact ⟨b', hm, by rw [hput]; rfl⟩

/-! ## GetStringParam (C30) -/

/-- A character is NUL exactly when the byte is. -/
theorem toChar_eq_zero (c : Nat) (h : c < 256) : toChar c = 0 ↔ c = 0 := by
  unfold toChar
  split <;> omega

/-- Once `c` is NUL the loop of `GetStringParam` stops. -/
theorem GetStringParam_loop_zero (ReadMem : Nat → Option Nat) (n addr : Nat)
    (dest : Nat → Int) (i : Nat) (reads : List Nat) :
    GetStringParam_loop ReadMem n addr dest i 0 reads = (dest, reads) := by
  cases n <;> simp [GetStringParam_loop]

/-- The loop of `GetStringParam` entered with `c ≠ 0` and `n` turns left
copies `r ≤ n` characters from consecutive addresses into `dest[i..i+r-1]`,
none of the first `r - 1` being NUL, and stops either after `n` characters or
on a NUL. -/
theorem GetStringParam_loop_spec (ReadMem : Nat → Option Nat) (mem : Nat → Nat)
    (hread : ∀ a, ReadMem a = some (mem a)) (n : Nat) :
    ∀ (addr : Nat) (dest : Nat → Int) (i c : Nat) (reads : List Nat), c ≠ 0 → addr < 2 ^ 64 →
      ∃ r : Nat, r ≤ n ∧ (n = 0 ∨ 1 ≤ r)
        ∧ (GetStringParam_loop ReadMem n addr dest i c reads).2
            = reads ++ (List.range r).map (fun j => (addr + j) % 2 ^ 64)
        ∧ (∀ j : Nat, (GetStringParam_loop ReadMem n addr dest i c reads).1 j
            = if i ≤ j ∧ j < i + r then toChar (mem ((addr + (j - i)) % 2 ^ 64)) else dest j)
        ∧ (∀ s : Nat, s + 1 < r → mem ((addr + s) % 2 ^ 64) ≠ 0)
        ∧ (r = n ∨ (1 ≤ r ∧ mem ((addr + (r - 1)) % 2 ^ 64) = 0)) := by
  induction n with
  | zero =>
      intro addr dest i c reads _ _
      refine ⟨0, Nat.le_refl _, Or.inl rfl, by simp [GetStringParam_loop], ?_, ?_, Or.inl rfl⟩
      · intro j
        simp only [GetStringParam_loop]
        rw [if_neg (by omega)]
      · intro s hs
        omega
  | succ n ih =>
      intro addr dest i c reads hc haddr
      have hstep : GetStringParam_loop ReadMem (n + 1) addr dest i c reads
          = GetStringParam_loop ReadMem n ((addr + 1) % 2 ^ 64)
              (Function.update dest i (toChar (mem addr))) (i + 1) (mem addr)
              (reads ++ [addr]) := by
        simp only [GetStringParam_loop, hread, Option.getD_some, hc, ne_eq, not_false_eq_true,
          if_true]
      rw [hstep]
      have h0 : (addr + 0) % 2 ^ 64 = addr := by
        rw [Nat.add_zero]
        exact Nat.mod_eq_of_lt haddr
      by_cases hz : mem addr = 0
      · have hr1 : List.range 1 = [0] := rfl
        rw [hz, GetStringParam_loop_zero]
        dsimp only
        refine ⟨1, by omega, Or.inr (Nat.le_refl _), ?_, ?_, ?_, Or.inr ⟨Nat.le_refl _, ?_⟩⟩
        · rw [hr1, List.map_cons, List.map_nil, h0]
        · intro j
          by_cases hj : j = i
          · subst hj
            have : j ≤ j ∧ j < j + 1 := by omega
            rw [Function.update_same, if_pos this, Nat.sub_self, h0, hz]
          · rw [Function.update_noteq hj]
            have : ¬ (i ≤ j ∧ j < i + 1) := by omega
            rw [if_neg this]
        · intro s hs
          omega
        · rw [Nat.sub_self, h0]
          exact hz
      · obtain ⟨r, hr, _, hreads, hdest, hnz, hstop⟩ :=
          ih ((addr + 1) % 2 ^ 64) (Function.update dest i (toChar (mem addr))) (i + 1)
            (mem addr) (reads ++ [addr]) hz (Nat.mod_lt _ (by decide))
        have hshift : ∀ t : Nat, ((addr + 1) % 2 ^ 64 + t) % 2 ^ 64 = (addr + (t + 1)) % 2 ^ 64 := by
          intro t
          omega
        refine ⟨r + 1, by omega, Or.inr (by omega), ?_, ?_, ?_, ?_⟩
        · rw [hreads, List.range_succ_eq_map, List.map_cons, List.map_map, List.append_assoc]
          simp only [List.singleton_append, h0]
          congr 2
          apply List.map_congr_left
          intro t _
          simp only [Function.comp_apply, Nat.succ_eq_add_one]
          exact hshift t
        · intro j
          rw [hdest j]
          by_cases hj : j = i
          · subst hj
            have : ¬ (j + 1 ≤ j ∧ j < j + 1 + r) := by omega
            rw [if_neg this, Function.update_same]
            have : j ≤ j ∧ j < j + (r + 1) := by omega
            rw [if_pos this, Nat.sub_self, h0]
          · rw [Function.update_noteq hj]
            by_cases hin : i + 1 ≤ j ∧ j < i + 1 + r
            · have : i ≤ j ∧ j < i + (r + 1) := by omega
              rw [if_pos hin, if_pos this, hshift]
              congr 3
              omega
            · have : ¬ (i ≤ j ∧ j < i + (r + 1)) := by omega
              rw [if_neg hin, if_neg this]
        · intro s hs
          cases s with
          | zero => rw [h0]; exact hz
          | succ s =>
              have := hnz s (by omega)
              rw [hshift] at this
              exact this
        · rcases hstop with hstop | ⟨hr1, hstop⟩
          · exact Or.inl (by omega)
          · refine Or.inr ⟨by omega, ?_⟩
            rw [hshift] at hstop
            have : r - 1 + 1 = r + 1 - 1 := by omega
            rw [this] at hstop
            exact hstop

/-- The C string of an array whose first `q` cells are not NUL and that either
has `q` cells or holds a NUL in cell `q`. -/
theorem cstring_eq_map (s : Nat → Int) (q : Nat) :
    ∀ (k n : Nat), (∀ t : Nat, t < q → s (k + t) ≠ 0) → q ≤ n → (q = n ∨ s (k + q) = 0) →
      cstring s k n = (List.range q).map (fun t => s (k + t)) := by
  induction q with
  | zero =>
      intro k n _ _ hstop
      cases n with
      | zero => rfl
      | succ n =>
          rcases hstop with h | h
          · omega
          · simp only [cstring, Nat.add_zero] at h ⊢
            rw [if_pos h]
            rfl
  | succ q ih =>
      intro k n hnz hq hstop
      cases n with
      | zero => omega
      | succ n =>
          have h0 := hnz 0 (by omega)
          rw [Nat.add_zero] at h0
          simp only [cstring, if_neg h0]
          rw [ih (k + 1) n (fun t ht => by
                have := hnz (t + 1) (by omega)
                rwa [show k + (t + 1) = k + 1 + t by omega] at this) (by omega)
              (by
                rcases hstop with h | h
                · exact Or.inl (by omega)
                · exact Or.inr (by rwa [show k + (q + 1) = k + 1 + q by omega] at h)),
            List.range_succ_eq_map, List.map_cons, List.map_map, Nat.add_zero]
          congr 1
          apply List.map_congr_left
          intro t _
          simp only [Function.comp_apply, Nat.succ_eq_add_one]
          congr 1
          omega

/-- C30: for every user address `addr` and every `maxlen ≥ 1`, when the user
memory is readable (`ReadMem` delivers its bytes), `GetStringParam(addr, dest,
maxlen)` returns after reading at most `maxlen` bytes, at consecutive
addresses from `addr`; it leaves every cell of `dest` from index `maxlen` on
as it was, leaves `dest[maxlen-1] = 0`, and the C string then held in `dest`
is the user string at `addr` cut after `maxlen − 1` characters. -/
theorem C30_GetStringParam (ReadMem : Nat → Option Nat) (mem : Nat → Nat)
    (hread : ∀ a, ReadMem a = some (mem a)) (hbyte : ∀ a, mem a < 256)
    (addr : Nat) (haddr : addr < 2 ^ 64) (dest : Nat → Int) (maxlen : Nat) (h1 : 1 ≤ maxlen) :
    ∃ (dest' : Nat → Int) (reads : List Nat),
      GetStringParam ReadMem addr dest (maxlen : Int) = some (dest', reads)
        ∧ reads.length ≤ maxlen
        ∧ reads = (List.range reads.length).map (fun j => (addr + j) % 2 ^ 64)
        ∧ (∀ j : Nat, maxlen ≤ j → dest' j = dest j)
        ∧ dest' (maxlen - 1) = 0
        ∧ cstring dest' 0 maxlen
            = cstring (fun j => toChar (mem ((addr + j) % 2 ^ 64))) 0 (maxlen - 1) := by
  obtain ⟨r, hr, hr1, hreads, hdest, hnz, hstop⟩ :=
    GetStringParam_loop_spec ReadMem mem hread maxlen addr dest 0 1 [] (by decide) haddr
  have hr1 : 1 ≤ r := by
    rcases hr1 with h | h
    · omega
    · exact h
  have hget : GetStringParam ReadMem addr dest (maxlen : Int)
      = some (Function.update (GetStringParam_loop ReadMem maxlen addr dest 0 1 []).1
          (maxlen - 1) 0, (GetStringParam_loop ReadMem maxlen addr dest 0 1 []).2) := by
    unfold GetStringParam
    rw [if_pos (by omega), Int.toNat_ofNat]
  refine ⟨_, _, hget, ?_, ?_, ?_, ?_, ?_⟩
  · rw [hreads]
    simp only [List.nil_append, List.length_map, List.length_range]
    exact hr
  · rw [hreads]
    simp only [List.nil_append, List.length_map, List.length_range]
  · intro j hj
    rw [Function.update_noteq (by omega), hdest j]
    rw [if_neg (by omega)]
  · rw [Function.update_same]
  · have hq : ∀ (s : Nat → Int), (∀ t : Nat, t < r - 1 → s t = toChar (mem ((addr + t) % 2 ^ 64)))
        → ∀ n : Nat, r - 1 ≤ n → (r - 1 = n ∨ s (r - 1) = 0)
        → cstring s 0 n
            = (List.range (r - 1)).map (fun t => toChar (mem ((addr + t) % 2 ^ 64))) := by
      intro s hs n hn hstop'
      rw [cstring_eq_map s (r - 1) 0 n
        (fun t ht => by
          rw [Nat.zero_add, hs t ht]
          intro hc
          exact hnz t (by omega) ((toChar_eq_zero _ (hbyte _)).mp hc))
        hn (by rw [Nat.zero_add]; exact hstop')]
      apply List.map_congr_left
      intro t ht
      rw [Nat.zero_add, hs t (List.mem_range.mp ht)]
    rw [hq _ (fun t ht => by
          rw [Function.update_noteq (by omega), hdest t, if_pos (by omega), Nat.sub_zero])
        maxlen (by omega)
        (by
          by_cases hrm : r = maxlen
          · right
            rw [hrm, Function.update_same]
          · right
            rcases hstop with h | ⟨_, h⟩
            · exact absurd h hrm
            · rw [Function.update_noteq (by omega), hdest (r - 1), if_pos (by omega),
                Nat.sub_zero, h]
              rfl),
      hq _ (fun t _ => rfl) (maxlen - 1) (by omega)
        (by
          by_cases hrm : r = maxlen
          · left
            omega
          · right
            rcases hstop with h | ⟨_, h⟩
            · exact absurd h hrm
            · simp only [h]
              rfl)]

/-- Witness for C30: the user memory holds `hello` at address 1000; with
`maxlen = 4` the kernel buffer receives `hel` and a NUL after four reads, with
`maxlen = 8` it receives `hello` after six reads. -/
theorem C30_GetStringParam_witness :
    (∃ (dest' : Nat → Int) (reads : List Nat),
        GetStringParam (fun a => some (SampleSys.mem a)) 1000 (fun _ => 9) 4 = some (dest', reads)
          ∧ reads.length ≤ 4
          ∧ reads = (List.range reads.length).map (fun j => (1000 + j) % 2 ^ 64)
          ∧ (∀ j : Nat, 4 ≤ j → dest' j = 9)
          ∧ dest' (4 - 1) = 0
          ∧ cstring dest' 0 4
              = cstring (fun j => toChar (SampleSys.mem ((1000 + j) % 2 ^ 64))) 0 (4 - 1))
      ∧ cstring (fun j => toChar (SampleSys.mem ((1000 + j) % 2 ^ 64))) 0 (4 - 1)
          = [104, 101, 108]
      ∧ (GetStringParam (fun a => some (SampleSys.mem a)) 1000 (fun _ => 9) 8).map
          (fun r => (cstring r.1 0 8, r.2))
          = some ([104, 101, 108, 108, 111], [1000, 1001, 1002, 1003, 1004, 1005]) :=
  ⟨C30_GetStringParam (fun a => some (SampleSys.mem a)) SampleSys.mem (fun _ => rfl)
      (fun a => by
        unfold SampleSys.mem
        rcases Nat.lt_or_ge (a - 1000) 6 with h | h
        · interval_cases (a - 1000) <;> simp
        · rw [List.getD_eq_default _ _ (by simpa using h)]
          decide)
      1000 (by decide) (fun _ => 9) 4 (by decide),
    by decide, by decide⟩

/-! ## System calls on files, console and threads (C26 to C29) -/

set_option maxRecDepth 100000 in
/-- C26 (code at the failing input): user memory holds the name `hello` at
address 1000, register 10 holds 1000 and no file of that name exists, so
`OpenFileTable::Open` returns no handle: the `Open` system call sets the last
error to `OPENFILE_ERROR` with the name as context, but register 10 receives
0, the initial value of `ret`, not −1. -/
theorem C26_Open_failure_returns_zero :
    (OpenFileTable.Open Sample.cfg Sample.fsys Sample.disk OpenFileTable.new
        (CString.ofChars [104, 101, 108, 108, 111])).1 = none
      ∧ (SC_OPEN SampleSys.consts Sample.cfg Sample.fsys (SampleSys.state 1000 0 0)).map
          (fun s => (s.int_registers 10, s.g_syscall_error))
        = some (0, ⟨OPENFILE_ERROR, [104, 101, 108, 108, 111]⟩) := by
  decide

/-- The array `buffer` of `SC_WRITE` has `n` cells, and cell `j` holds the
byte the MMU delivers at `addr + j`. -/
theorem SC_WRITE_fill_spec (memory : Nat → Option Nat) (n : Nat) :
    ∀ (addr c : Nat), addr < 2 ^ 64 →
      (SC_WRITE_fill memory n addr c).length = n
        ∧ ∀ (j b : Nat), j < n → memory ((addr + j) % 2 ^ 64) = some b →
            (SC_WRITE_fill memory n addr c)[j]? = some (toChar b) := by
  induction n with
  | zero =>
      intro addr c _
      exact ⟨rfl, fun j b hj _ => by omega⟩
  | succ n ih =>
      intro addr c haddr
      obtain ⟨hlen, hget⟩ := ih ((addr + 1) % 2 ^ 64) ((memory addr).getD c)
        (Nat.mod_lt _ (by decide))
      refine ⟨by simp only [SC_WRITE_fill, List.length_cons, hlen], ?_⟩
      intro j b hj hb
      cases j with
      | zero =>
          rw [Nat.add_zero, Nat.mod_eq_of_lt haddr] at hb
          simp only [SC_WRITE_fill, List.getElem?_cons_zero, hb, Option.getD_some]
      | succ j =>
          simp only [SC_WRITE_fill, List.getElem?_cons_succ]
          apply hget j b (by omega)
          rw [← hb]
          congr 1
          omega

/-- C28 (the claim fails on a descriptor that does not fit 32 bits): in the
sample state a thread and a file are registered under the identifiers 3 and 4,
and nothing is registered under `2^32 + 4`.  The descriptor, an `int64_t`, is
handed to `SearchObject(int32_t)`, which receives 4: `Close(2^32 + 4)` returns
`NO_ERROR` and removes the file from the registry, and `Read` on the same
descriptor reads the file (0 bytes here) and clears the last error. -/
theorem C28_descriptor_is_truncated :
    (SampleSys.fileState (2 ^ 32 + 4)).g_object_addrs.SearchObject (2 ^ 32 + 4) = none
      ∧ (SC_CLOSE SampleSys.env SampleSys.consts Sample.cfg
            (SampleSys.fileState (2 ^ 32 + 4))).map
          (fun s => (s.int_registers 10, s.g_syscall_error.lastError, s.g_object_addrs))
          = some (NO_ERROR, NO_ERROR, ⟨5, [(3, 50)]⟩)
      ∧ ((SC_READ SampleSys.env SampleSys.consts
            { SampleSys.fileState 0 with int_registers := fun _ => 2 ^ 32 + 4 }).int_registers 10,
          (SC_READ SampleSys.env SampleSys.consts
            { SampleSys.fileState 0 with int_registers := fun _ => 2 ^ 32 + 4 }).g_syscall_error.lastError)
          = (0, NO_ERROR) := by
  decide

/-- C28 (amended): for each of the `Read`, `Write`, `Seek` and `Close` system
calls, when the descriptor `d ≥ 3` (a 64-bit register value, with the console
on descriptors 0 and 1) is one under whose conversion to a 32-bit `int`, the
value `SearchObject` receives, the object registry holds no object of type
`FILE_TYPE`, register 10 receives −1, the last error becomes `INVALID_FILE_ID`
(with the decimal digits of `d` as context) and nothing else changes: user
memory, the object registry, the open-file table, the disk and the console are
as before. -/
theorem C28_invalid_file_descriptor (env : SysEnv) (c : SysConfig) (cfg : Config) (s : Sys)
    (d : Int) (hci : c.CONSOLE_INPUT = 0) (hco : c.CONSOLE_OUTPUT = 1) (h3 : 3 ≤ d)
    (h64 : d < 2 ^ 63)
    (hnone : ∀ p : Nat, s.g_object_addrs.SearchObject (toInt32 d) = some p →
      s.type p ≠ c.FILE_TYPE) :
    (s.int_registers 12 = d →
        SC_READ env c s
          = ⟨Function.update s.int_registers 10 ERROR, s.memory,
              ⟨INVALID_FILE_ID, sprintf_d d⟩, s.g_object_addrs, s.type, s.file, s.heap_top,
              s.g_open_file_table, s.disk, s.console⟩)
    ∧ (s.int_registers 12 = d →
        SC_WRITE env c s
          = ⟨Function.update s.int_registers 10 ERROR, s.memory,
              ⟨INVALID_FILE_ID, sprintf_d d⟩, s.g_object_addrs, s.type, s.file, s.heap_top,
              s.g_open_file_table, s.disk, s.console⟩)
    ∧ (s.int_registers 11 = d →
        SC_SEEK env c s
          = ⟨Function.update s.int_registers 10 ERROR, s.memory,
              ⟨INVALID_FILE_ID, sprintf_d d⟩, s.g_object_addrs, s.type, s.file, s.heap_top,
              s.g_open_file_table, s.disk, s.console⟩)
    ∧ (s.int_registers 10 = d →
        SC_CLOSE env c cfg s
          = some ⟨Function.update s.int_registers 10 ERROR, s.memory,
              ⟨INVALID_FILE_ID, sprintf_d d⟩, s.g_object_addrs, s.type, s.file, s.heap_top,
              s.g_open_file_table, s.disk, s.console⟩) := by
  have h64' : toInt64 d = d := by
    unfold toInt64
    omega
  refine ⟨?_, ?_, ?_, ?_⟩
  · intro hd
    unfold SC_READ
    simp only [Sys.ReadIntRegister, hd]
    rw [if_pos (by rw [hci]; omega)]
    cases hs : s.g_object_addrs.SearchObject (toInt32 d) with
    | none => rfl
    | some p =>
        dsimp only
        rw [if_neg (hnone p hs)]
        rfl
  · intro hd
    unfold SC_WRITE
    simp only [Sys.ReadIntRegister, hd, h64']
    rw [if_pos (by rw [hco]; omega)]
    cases hs : s.g_object_addrs.SearchObject (toInt32 d) with
    | none => rfl
    | some p =>
        dsimp only
        rw [if_neg (hnone p hs)]
        rfl
  · intro hd
    unfold SC_SEEK
    simp only [Sys.ReadIntRegister, hd]
    rw [if_pos (by rw [hco]; omega)]
    cases hs : s.g_object_addrs.SearchObject (toInt32 d) with
    | none => rfl
    | some p =>
        dsimp only
        rw [if_neg (hnone p hs)]
        rfl
  · intro hd
    unfold SC_CLOSE
    simp only [Sys.ReadIntRegister, hd]
    cases hs : s.g_object_addrs.SearchObject (toInt32 d) with
    | none => rfl
    | some p =>
        dsimp only
        rw [if_neg (hnone p hs)]
        rfl

/-- Witness for C28: in the sample state, nothing is registered under
descriptor 5 and the object registered under descriptor 3 is a thread; `Read`
on descriptor 5 and `Close` on descriptor 3 fail with `INVALID_FILE_ID`. -/
theorem C28_invalid_file_descriptor_witness :
    SC_READ SampleSys.env SampleSys.consts (SampleSys.state 1000 3 5)
        = ⟨Function.update (SampleSys.state 1000 3 5).int_registers 10 ERROR,
            (SampleSys.state 1000 3 5).memory, ⟨INVALID_FILE_ID, sprintf_d 5⟩,
            (SampleSys.state 1000 3 5).g_object_addrs, (SampleSys.state 1000 3 5).type,
            (SampleSys.state 1000 3 5).file, (SampleSys.state 1000 3 5).heap_top,
            (SampleSys.state 1000 3 5).g_open_file_table, (SampleSys.state 1000 3 5).disk,
            (SampleSys.state 1000 3 5).console⟩
      ∧ SC_CLOSE SampleSys.env SampleSys.consts Sample.cfg (SampleSys.state 3 0 0)
        = some ⟨Function.update (SampleSys.state 3 0 0).int_registers 10 ERROR,
            (SampleSys.state 3 0 0).memory, ⟨INVALID_FILE_ID, sprintf_d 3⟩,
            (SampleSys.state 3 0 0).g_object_addrs, (SampleSys.state 3 0 0).type,
            (SampleSys.state 3 0 0).file, (SampleSys.state 3 0 0).heap_top,
            (SampleSys.state 3 0 0).g_open_file_table, (SampleSys.state 3 0 0).disk,
            (SampleSys.state 3 0 0).console⟩ :=
  ⟨(C28_invalid_file_descriptor SampleSys.env SampleSys.consts Sample.cfg
      (SampleSys.state 1000 3 5) 5 rfl rfl (by decide) (by decide)
      (fun p h => by
        have h5 : (SampleSys.state 1000 3 5).g_object_addrs.SearchObject (toInt32 5) = none := by
          decide
        rw [h5] at h
        cases h)).1 rfl,
   (C28_invalid_file_descriptor SampleSys.env SampleSys.consts Sample.cfg
      (SampleSys.state 3 0 0) 3 rfl rfl (by decide) (by decide)
      (fun p h => by
        have h3 : (SampleSys.state 3 0 0).g_object_addrs.SearchObject (toInt32 3) = some 50 := by
          decide
        rw [h3] at h
        cases h
        decide)).2.2.2 rfl⟩

/-- C27 (descriptor 2 in the code): in the sample state, with the console
output on descriptor 1, a `Write` of 3 bytes on descriptor 2 hands nothing to
the console driver: register 10 receives −1 and the last error is
`INVALID_FILE_ID`. -/
theorem C27_Write_descriptor_2_is_invalid :
    ((SC_WRITE SampleSys.env SampleSys.consts (SampleSys.state 1000 3 2)).int_registers 10,
      (SC_WRITE SampleSys.env SampleSys.consts (SampleSys.state 1000 3 2)).g_syscall_error.lastError,
      (SC_WRITE SampleSys.env SampleSys.consts (SampleSys.state 1000 3 2)).console)
      = (ERROR, INVALID_FILE_ID, []) := by
  decide

/-- C27 (amended): for every `Write` system call whose descriptor is 1, the
console output, and whose size is `n ≥ 0`: the array of the `n` bytes read from
user memory at the address held in register 10 is handed to `PutString`,
register 10 receives `n`, the last error is cleared to `NO_ERROR` and nothing
else changes.  On descriptor 2, when the registry holds no file under
identifier 2, nothing is handed to the console: register 10 receives −1 and
the last error is `INVALID_FILE_ID`. -/
theorem C27_Write_console (env : SysEnv) (c : SysConfig) (s : Sys) (n : Nat)
    (hco : c.CONSOLE_OUTPUT = 1) (hn : toInt32 (s.int_registers 11) = (n : Int)) :
    (s.int_registers 12 = 1 →
        SC_WRITE env c s
            = ⟨Function.update s.int_registers 10 (n : Int), s.memory, ⟨NO_ERROR, []⟩,
                s.g_object_addrs, s.type, s.file, s.heap_top, s.g_open_file_table, s.disk,
                s.console ++ [s.writeBuffer]⟩
          ∧ s.writeBuffer.length = n
          ∧ ∀ (j b : Nat), j < n →
              s.memory (((s.int_registers 10 % 2 ^ 64).toNat + j) % 2 ^ 64) = some b →
              s.writeBuffer[j]? = some (toChar b))
    ∧ (s.int_registers 12 = 2 →
        (∀ p : Nat, s.g_object_addrs.SearchObject 2 = some p → s.type p ≠ c.FILE_TYPE) →
        SC_WRITE env c s
          = ⟨Function.update s.int_registers 10 ERROR, s.memory,
              ⟨INVALID_FILE_ID, sprintf_d 2⟩, s.g_object_addrs, s.type, s.file, s.heap_top,
              s.g_open_file_table, s.disk, s.console⟩) := by
  have haddr : (s.int_registers 10 % 2 ^ 64).toNat < 2 ^ 64 := by omega
  obtain ⟨hlen, hget⟩ := SC_WRITE_fill_spec s.memory n (s.int_registers 10 % 2 ^ 64).toNat 0 haddr
  have hbuf : s.writeBuffer = SC_WRITE_fill s.memory n (s.int_registers 10 % 2 ^ 64).toNat 0 := by
    unfold Sys.writeBuffer
    rw [Sys.ReadIntRegister, Sys.ReadIntRegister, hn, Int.toNat_ofNat]
  refine ⟨?_, ?_⟩
  · intro hd
    refine ⟨?_, by rw [hbuf]; exact hlen, by rw [hbuf]; exact hget⟩
    unfold SC_WRITE
    simp only [Sys.ReadIntRegister, hd, hn, hco]
    rw [if_neg (by decide), if_pos (by decide)]
    unfold Sys.PutString Sys.SetMsg Sys.WriteIntRegister SyscallError.SetMsg
    simp only [Int.toNat_ofNat]
    rw [List.take_of_length_le (by rw [hbuf, hlen])]
  · intro hd hnone
    have h2 : toInt32 2 = 2 := by decide
    unfold SC_WRITE
    simp only [Sys.ReadIntRegister, hd, hco, h2]
    rw [if_pos (by decide)]
    have h64 : toInt64 2 = 2 := by decide
    cases hs : s.g_object_addrs.SearchObject 2 with
    | none =>
        rw [h64]
        rfl
    | some p =>
        dsimp only
        rw [if_neg (hnone p hs), h64]
        rfl

/-- Witness for C27: in the sample state a `Write` of the 3 bytes at address
1000 on descriptor 1 hands `hel` to the console and returns 3. -/
theorem C27_Write_console_witness :
    (SC_WRITE SampleSys.env SampleSys.consts (SampleSys.state 1000 3 1)).console
        = [[104, 101, 108]]
      ∧ (SC_WRITE SampleSys.env SampleSys.consts (SampleSys.state 1000 3 1)).int_registers 10
        = 3 := by
  have h := ((C27_Write_console SampleSys.env SampleSys.consts (SampleSys.state 1000 3 1) 3 rfl
    (by decide)).1 rfl).1
  rw [h]
  exact ⟨by decide, by decide⟩

/-- C29 (the code on an identifier that is not a thread): in the sample state
nothing is registered under identifier 7; `Join(7)` leaves 0 in register 10
and `NO_ERROR` as last error, not −1 and `INVALID_THREAD_ID`. -/
theorem C29_Join_bad_identifier_returns_zero :
    (SampleSys.state 7 0 0).g_object_addrs.SearchObject (toInt32 7) = none
      ∧ ((SC_JOIN SampleSys.env SampleSys.consts (SampleSys.state 7 0 0)).int_registers 10,
          (SC_JOIN SampleSys.env SampleSys.consts (SampleSys.state 7 0 0)).g_syscall_error)
        = (NO_ERROR, ⟨NO_ERROR, []⟩) := by
  decide

/-- C29 (amended): for every `Join` system call whose argument, converted to a
32-bit `int` (the value `SearchObject` receives), is not the identifier of a
registered object of type `THREAD_TYPE`, register 10 receives `NO_ERROR` (0),
the last error is cleared to `NO_ERROR`, no thread is joined and nothing else
changes. -/
theorem C29_Join_bad_identifier (env : SysEnv) (c : SysConfig) (s : Sys)
    (hnone : ∀ p : Nat, s.g_object_addrs.SearchObject (toInt32 (s.int_registers 10)) = some p →
      s.type p ≠ c.THREAD_TYPE) :
    SC_JOIN env c s
      = ⟨Function.update s.int_registers 10 NO_ERROR, s.memory, ⟨NO_ERROR, []⟩,
          s.g_object_addrs, s.type, s.file, s.heap_top, s.g_open_file_table, s.disk,
          s.console⟩ := by
  unfold SC_JOIN
  simp only [Sys.ReadIntRegister]
  cases hs : s.g_object_addrs.SearchObject (toInt32 (s.int_registers 10)) with
  | none => rfl
  | some p =>
      dsimp only
      rw [if_neg (hnone p hs)]
      rfl

/-- Witness for C29: `Join(7)` in the sample state, where nothing is
registered under identifier 7. -/
theorem C29_Join_bad_identifier_witness :
    (SC_JOIN SampleSys.env SampleSys.consts (SampleSys.state 7 0 0)).int_registers 10 = NO_ERROR
      ∧ (SC_JOIN SampleSys.env SampleSys.consts (SampleSys.state 7 0 0)).g_syscall_error
        = ⟨NO_ERROR, []⟩ := by
  have h := C29_Join_bad_identifier SampleSys.env SampleSys.consts (SampleSys.state 7 0 0)
    (fun p h => by
      have h7 : (SampleSys.state 7 0 0).g_object_addrs.SearchObject
          (toInt32 ((SampleSys.state 7 0 0).int_registers 10)) = none := by decide
      rw [h7] at h
      cases h)
  rw [h]
  exact ⟨by decide, rfl⟩

/-! ## StackAllocate (C22) -/

/-- One turn of the loop of `StackAllocate` for the virtual page `i`, when it
returns: the head `p` of the free list, a free frame, is taken and set up for
`(this, i)`, entry `i` of the translation table becomes valid, readable and
writable, not in swap, with `addrDisk = INVALID_SECTOR` and `physicalPage = p`
(`U` and `M` are kept), and the `PageSize` bytes of the frame are zeroed. -/
theorem AddrSpace.StackAllocate_page_spec (cfg : VMConfig) (hN : cfg.NumPhysPages ≤ 2 ^ 31)
    (this : Nat) (k k' : VM) (i : Nat)
    (h : AddrSpace.StackAllocate_page cfg this k i = some k') :
    ∃ (p : Nat) (rest : List Nat) (tt : TranslationTable),
      k.g_physical_mem_manager.free_page_list = p :: rest ∧ p < cfg.NumPhysPages
        ∧ (k.g_physical_mem_manager.tpr p).free = true
        ∧ (k.addrspace this).translationTable = some tt ∧ i < tt.maxNumPages
        ∧ k' = ⟨⟨Function.update k.g_physical_mem_manager.tpr p ⟨false, true, i, some this⟩,
                  rest, k.g_physical_mem_manager.i_clock⟩,
                Function.update k.addrspace this
                  ⟨some ⟨tt.maxNumPages, Function.update tt.pageTable i
                      ⟨true, (tt.pageTable i).U, (tt.pageTable i).M, true, true, (p : Int), false,
                        INVALID_SECTOR, false⟩⟩,
                    (k.addrspace this).freePageId, (k.addrspace this).CodeStartAddress,
                    (k.addrspace this).nb_mapped_files⟩,
                memset k.mainMemory (cfg.frameAddress (p : Int)) 0 cfg.PageSize,
                k.numMemoryAccess + 1⟩ := by
  simp only [AddrSpace.StackAllocate_page, Option.bind_eq_bind, Option.bind_eq_some,
    Option.pure_def, Option.some.injEq] at h
  obtain ⟨⟨pp, k1⟩, hsetup, t0, ht0, t1, h1, phys, hphys, t2, h2, t3, h3, t4, h4, t5, h5, t6, h6,
    t7, h7, hk'⟩ := h
  obtain ⟨p, rest, hl, hp, hfree, hpp, hk1⟩ :=
    AddrSpace.FindFreePage_setup_cases cfg hN k k1 this i pp hsetup
  simp only at ht0 h1 hk'
  obtain ⟨hi, e1⟩ := TranslationTable.modify_eq_some _ _ _ _ h1
  obtain ⟨_, e2⟩ := TranslationTable.modify_eq_some _ _ _ _ h2
  obtain ⟨_, e3⟩ := TranslationTable.modify_eq_some _ _ _ _ h3
  obtain ⟨_, e4⟩ := TranslationTable.modify_eq_some _ _ _ _ h4
  obtain ⟨_, e5⟩ := TranslationTable.modify_eq_some _ _ _ _ h5
  obtain ⟨_, e6⟩ := TranslationTable.modify_eq_some _ _ _ _ h6
  obtain ⟨_, e7⟩ := TranslationTable.modify_eq_some _ _ _ _ h7
  have hphys' : phys = (p : Int) := by
    rw [e1, hpp] at hphys
    simp only [TranslationTable.getPhysicalPage, TranslationTable.read] at hphys
    rw [if_pos hi] at hphys
    simp only [Function.update_same, Option.some.injEq] at hphys
    exact hphys.symm
  subst e1 e2 e3 e4 e5 e6 e7 hpp hphys'
  simp only [Function.update_same, Function.update_idem] at hk'
  rw [hk1] at ht0 hk'
  simp only at ht0 hk'
  exact ⟨p, rest, t0, hl, hp, hfree, ht0, hi, hk'.symm⟩

/-- The loop of `StackAllocate` over the `m` pages from `i0`, when it returns:
it has taken the first `m` frames of the free list, which were free, are
distinct and lie below `NumPhysPages`; page `i0 + j` is mapped on the `j`-th of
them as `StackAllocate_page_spec` says and no other page of the table changes;
each frame taken is set up for its page and locked, and its bytes are zero. -/
theorem AddrSpace.StackAllocate_loop_spec (cfg : VMConfig) (hN : cfg.NumPhysPages ≤ 2 ^ 31)
    (this : Nat) (m : Nat) :
    ∀ (i0 : Nat) (k k' : VM) (tt : TranslationTable),
      AddrSpace.StackAllocate_loop cfg this m i0 k = some k' →
      (k.addrspace this).translationTable = some tt →
      ∃ (frames rest : List Nat) (tt' : TranslationTable),
        k.g_physical_mem_manager.free_page_list = frames ++ rest ∧ frames.length = m
          ∧ frames.Nodup
          ∧ (∀ f ∈ frames, f < cfg.NumPhysPages ∧ (k.g_physical_mem_manager.tpr f).free = true)
          ∧ k'.g_physical_mem_manager.free_page_list = rest
          ∧ (∀ j : Nat, j < m →
              k'.g_physical_mem_manager.tpr (frames.getD j 0) = ⟨false, true, i0 + j, some this⟩)
          ∧ (∀ f : Nat, f ∉ frames →
              k'.g_physical_mem_manager.tpr f = k.g_physical_mem_manager.tpr f)
          ∧ (m = 0 ∨ i0 + m ≤ tt.maxNumPages)
          ∧ (k'.addrspace this).translationTable = some tt'
          ∧ tt'.maxNumPages = tt.maxNumPages
          ∧ (∀ vp : Nat, tt'.pageTable vp
              = if i0 ≤ vp ∧ vp < i0 + m then
                  ⟨true, (tt.pageTable vp).U, (tt.pageTable vp).M, true, true,
                    ((frames.getD (vp - i0) 0 : Nat) : Int), false, INVALID_SECTOR, false⟩
                else tt.pageTable vp)
          ∧ (k'.addrspace this).freePageId = (k.addrspace this).freePageId
          ∧ (∀ a : Nat, a ≠ this → k'.addrspace a = k.addrspace a)
          ∧ (∀ j : Nat, j < m → ∀ off : Nat, off < cfg.PageSize →
              k'.mainMemory (cfg.frameAddress ((frames.getD j 0 : Nat) : Int) + off) = 0)
          ∧ (∀ a : Nat, k.mainMemory a = 0 → k'.mainMemory a = 0) := by
  induction m with
  | zero =>
      intro i0 k k' tt h htt
      simp only [AddrSpace.StackAllocate_loop, Option.some.injEq] at h
      subst h
      refine ⟨[], k.g_physical_mem_manager.free_page_list, tt, rfl, rfl, List.nodup_nil,
        fun f hf => absurd hf (List.not_mem_nil f), rfl, fun j hj => absurd hj (Nat.not_lt_zero j),
        fun _ _ => rfl, Or.inl rfl, htt, rfl, fun vp => ?_, rfl, fun _ _ => rfl,
        fun j hj => absurd hj (Nat.not_lt_zero j), fun _ ha => ha⟩
      rw [if_neg (by omega)]
  | succ m ih =>
      intro i0 k k' tt h htt
      simp only [AddrSpace.StackAllocate_loop] at h
      cases hpage : AddrSpace.StackAllocate_page cfg this k i0 with
      | none => simp [hpage] at h
      | some k1 =>
          simp only [hpage] at h
          obtain ⟨p, rest0, tt0, hl, hp, hfree, htt0, hi0, hk1⟩ :=
            AddrSpace.StackAllocate_page_spec cfg hN this k k1 i0 hpage
          rw [htt] at htt0
          simp only [Option.some.injEq] at htt0
          subst htt0
          have htt1 : (k1.addrspace this).translationTable
              = some ⟨tt.maxNumPages, Function.update tt.pageTable i0
                  ⟨true, (tt.pageTable i0).U, (tt.pageTable i0).M, true, true, (p : Int), false,
                    INVALID_SECTOR, false⟩⟩ := by
            rw [hk1]
            simp only [Function.update_same]
          obtain ⟨frames, rest, tt', hl1, hlen, hnd, hfr, hrest, htpr, htpro, hb, htt', hmax, hpt,
            hfp, hoth, hzero, hkeep⟩ := ih (i0 + 1) k1 k' _ h htt1
          have hl1' : rest0 = frames ++ rest := by
            rw [hk1] at hl1
            exact hl1
          have hk1tpr : k1.g_physical_mem_manager.tpr
              = Function.update k.g_physical_mem_manager.tpr p ⟨false, true, i0, some this⟩ := by
            rw [hk1]
          have hpnot : p ∉ frames := by
            intro hpin
            have := (hfr p hpin).2
            rw [hk1tpr, Function.update_same] at this
            cases this
          have hb' : i0 + (m + 1) ≤ tt.maxNumPages := by
            rcases hb with hb | hb
            · omega
            · have hb2 : i0 + 1 + m ≤ tt.maxNumPages := hb
              omega
          refine ⟨p :: frames, rest, tt', by rw [hl, hl1']; rfl, by simp [hlen],
            List.nodup_cons.mpr ⟨hpnot, hnd⟩, ?_, hrest, ?_, ?_, Or.inr hb', htt', hmax,
            ?_, ?_, ?_, ?_, ?_⟩
          · intro f hf
            rcases List.mem_cons.mp hf with hf | hf
            · rw [hf]
              exact ⟨hp, hfree⟩
            · have hne : f ≠ p := fun hc => hpnot (hc ▸ hf)
              have := hfr f hf
              rw [hk1tpr, Function.update_noteq hne] at this
              exact this
          · intro j hj
            cases j with
            | zero =>
                simp only [List.getD_cons_zero, Nat.add_zero]
                rw [htpro p hpnot, hk1tpr, Function.update_same]
            | succ j =>
                simp only [List.getD_cons_succ]
                rw [htpr j (by omega)]
                congr 1
                omega
          · intro f hf
            have hne : f ≠ p := fun hc => hf (hc ▸ List.mem_cons_self p frames)
            rw [htpro f (fun hc => hf (List.mem_cons_of_mem p hc)), hk1tpr,
              Function.update_noteq hne]
          · intro vp
            rw [hpt vp]
            by_cases hvp : vp = i0
            · subst hvp
              rw [if_neg (by omega), if_pos (by omega)]
              simp only [Function.update_same, Nat.sub_self, List.getD_cons_zero]
            · simp only [Function.update_noteq hvp]
              by_cases hin : i0 + 1 ≤ vp ∧ vp < i0 + 1 + m
              · rw [if_pos hin, if_pos (by omega)]
                have hsub : vp - i0 = (vp - (i0 + 1)) + 1 := by omega
                rw [hsub, List.getD_cons_succ]
              · rw [if_neg hin, if_neg (by omega)]
          · rw [hfp, hk1]
            simp only [Function.update_same]
          · intro a ha
            rw [hoth a ha, hk1]
            simp only [Function.update_noteq ha]
          · intro j hj off hoff
            cases j with
            | zero =>
                simp only [List.getD_cons_zero]
                apply hkeep
                rw [hk1]
                simp only [memset]
                rw [if_pos (by omega)]
            | succ j =>
                simp only [List.getD_cons_succ]
                exact hzero j (by omega) off hoff
          · intro a ha
            apply hkeep
            rw [hk1]
            simp only [memset]
            split
            · rfl
            · exact ha

/-- `Alloc` on an address space that has a translation table. -/
theorem AddrSpace.Alloc_spec (a : AddrSpace) (tt : TranslationTable)
    (htt : a.translationTable = some tt) (numPages : Int) :
    a.Alloc numPages
      = if a.freePageId + numPages ≥ tt.getMaxNumPages then some (INVALID_PAGE, a)
        else some (a.freePageId,
          ⟨a.translationTable, a.freePageId + numPages, a.CodeStartAddress, a.nb_mapped_files⟩) := by
  unfold AddrSpace.Alloc
  rw [htt]

/-- The parts of a call of `StackAllocate` that returns: the two calls of
`Alloc`, the `ASSERT` and the loop. -/
theorem AddrSpace.StackAllocate_cases (cfg : VMConfig) (this : Nat) (k k' : VM)
    (stackpointer : Int) (h : AddrSpace.StackAllocate cfg k this = some (stackpointer, k')) :
    ∃ (blankaddr stackBasePage : Int) (a1 a2 : AddrSpace),
      (k.addrspace this).Alloc STACK_BLANK_LEN = some (blankaddr, a1)
        ∧ a1.Alloc (AddrSpace.StackAllocate_numPages cfg) = some (stackBasePage, a2)
        ∧ 0 ≤ stackBasePage
        ∧ AddrSpace.StackAllocate_loop cfg this (AddrSpace.StackAllocate_numPages cfg).toNat
            stackBasePage.toNat
            ⟨k.g_physical_mem_manager, Function.update k.addrspace this a2, k.mainMemory,
              k.numMemoryAccess⟩ = some k'
        ∧ stackpointer
            = toInt32 ((((stackBasePage + AddrSpace.StackAllocate_numPages cfg)
                * cfg.PageSize) % 2 ^ 32 - 16) % 2 ^ 64) := by
  unfold AddrSpace.StackAllocate at h
  cases halloc1 : (k.addrspace this).Alloc STACK_BLANK_LEN with
  | none =>
      rw [halloc1] at h
      cases h
  | some r1 =>
      obtain ⟨blankaddr, a1⟩ := r1
      rw [halloc1] at h
      dsimp only at h
      cases halloc2 : a1.Alloc (AddrSpace.StackAllocate_numPages cfg) with
      | none =>
          rw [halloc2] at h
          cases h
      | some r2 =>
          obtain ⟨stackBasePage, a2⟩ := r2
          rw [halloc2] at h
          dsimp only at h
          by_cases h3 : ¬ stackBasePage ≥ 0
          · rw [if_pos h3] at h
            cases h
          · rw [if_neg h3] at h
            cases hloop : AddrSpace.StackAllocate_loop cfg this
                (AddrSpace.StackAllocate_numPages cfg).toNat stackBasePage.toNat
                (⟨k.g_physical_mem_manager, Function.update k.addrspace this a2, k.mainMemory,
                  k.numMemoryAccess⟩ : VM) with
            | none =>
                rw [hloop] at h
                cases h
            | some k1 =>
                rw [hloop] at h
                dsimp only at h
                have hk : k1 = k' := (Prod.mk.inj (Option.some.inj h)).2
                have hsp := (Prod.mk.inj (Option.some.inj h)).1
                rw [← hk]
                refine ⟨blankaddr, stackBasePage, a1, a2, ?_, ?_, by omega, ?_, hsp.symm⟩
                · exact rfl
                · exact halloc2
                · exact hloop

/-- The number of stack pages is `⌈UserStackSize / PageSize⌉` when the sizes
fit an `int`. -/
theorem AddrSpace.StackAllocate_numPages_eq (cfg : VMConfig)
    (hU : cfg.UserStackSize + cfg.PageSize ≤ 2 ^ 31) :
    AddrSpace.StackAllocate_numPages cfg
        = ((divRoundUp cfg.UserStackSize cfg.PageSize : Nat) : Int)
      ∧ divRoundUp cfg.UserStackSize cfg.PageSize < 2 ^ 31 := by
  have hlt : cfg.UserStackSize + cfg.PageSize - 1 < 2 ^ 31 := by omega
  have hdiv : divRoundUp cfg.UserStackSize cfg.PageSize < 2 ^ 31 :=
    lt_of_le_of_lt (Nat.div_le_self _ _) hlt
  refine ⟨?_, hdiv⟩
  unfold AddrSpace.StackAllocate_numPages divRoundUp32
  rw [Nat.mod_eq_of_lt (by omega)]
  exact toInt32_of_lt _ hdiv

/-- The index of a frame below `NumPhysPages` into `mainMemory` is
`frame * PageSize` when the physical memory fits 32 bits. -/
theorem VMConfig.frameAddress_eq (cfg : VMConfig) (f : Nat)
    (hlt : f * cfg.PageSize < 2 ^ 32) :
    cfg.frameAddress ((f : Nat) : Int) = f * cfg.PageSize := by
  unfold VMConfig.frameAddress
  have hc : ((f : Nat) : Int) * (cfg.PageSize : Int) = ((f * cfg.PageSize : Nat) : Int) := by
    push_cast
    rfl
  rw [hc]
  generalize f * cfg.PageSize = v at hlt ⊢
  omega

/-- The value `(stackBasePage + numPages) * PageSize - 4 * sizeof(int)`
returned by `StackAllocate`, when the product fits an `int`. -/
theorem AddrSpace.StackAllocate_result (v : Nat) (hv : v < 2 ^ 31) :
    toInt32 ((((v : Nat) : Int) % 2 ^ 32 - 16) % 2 ^ 64) = (v : Int) - 16 := by
  unfold toInt32
  omega

/-- The second `Alloc` and the loop of `StackAllocate`, on an address space
whose `freePageId` is `q` after the first `Alloc`, when the `ASSERT` passes
and the loop returns: the stack starts at page `q` and ends below the end of
the table, `freePageId` becomes `q + n`, each page `q + i`, `i < n`, is mapped
on the `i`-th of `n` distinct frames below `NumPhysPages`, whose bytes are all
zero, and no other entry of the table changes. -/
theorem AddrSpace.StackAllocate_stack (cfg : VMConfig) (k k' : VM) (this : Nat)
    (tt : TranslationTable) (q n : Nat) (a1 a2 : AddrSpace) (stackBasePage : Int)
    (hN : cfg.NumPhysPages ≤ 2 ^ 31) (hmem : cfg.NumPhysPages * cfg.PageSize ≤ 2 ^ 32)
    (hM : tt.maxNumPages < 2 ^ 31)
    (ha1tt : a1.translationTable = some tt) (ha1fp : a1.freePageId = (q : Int))
    (hA2 : a1.Alloc (n : Int) = some (stackBasePage, a2))
    (hsbp : 0 ≤ stackBasePage)
    (hloop : AddrSpace.StackAllocate_loop cfg this n stackBasePage.toNat
        ⟨k.g_physical_mem_manager, Function.update k.addrspace this a2, k.mainMemory,
          k.numMemoryAccess⟩ = some k') :
    stackBasePage = (q : Int) ∧ q + n < tt.maxNumPages
      ∧ ∃ (tt' : TranslationTable) (frames : List Nat),
        (k'.addrspace this).translationTable = some tt'
          ∧ (k'.addrspace this).freePageId = ((q + n : Nat) : Int)
          ∧ frames.length = n
          ∧ frames.Nodup
          ∧ (∀ i : Nat, i < n →
              frames.getD i 0 < cfg.NumPhysPages
                ∧ tt'.pageTable (q + i)
                    = ⟨true, (tt.pageTable (q + i)).U, (tt.pageTable (q + i)).M, true, true,
                        ((frames.getD i 0 : Nat) : Int), false, INVALID_SECTOR, false⟩
                ∧ ∀ off : Nat, off < cfg.PageSize →
                    k'.mainMemory (frames.getD i 0 * cfg.PageSize + off) = 0)
          ∧ (∀ vp : Nat, vp < q ∨ q + n ≤ vp → tt'.pageTable vp = tt.pageTable vp) := by
  have hgm : tt.getMaxNumPages = (tt.maxNumPages : Int) := toInt32_of_lt _ hM
  rw [AddrSpace.Alloc_spec a1 tt ha1tt, ha1fp, hgm] at hA2
  clear hgm
  by_cases c2 : (q : Int) + (n : Int) ≥ (tt.maxNumPages : Int)
  · rw [if_pos c2] at hA2
    have hb : INVALID_PAGE = stackBasePage := (Prod.mk.inj (Option.some.inj hA2)).1
    have hinv : INVALID_PAGE = -1 := rfl
    omega
  · rw [if_neg c2] at hA2
    have hb : (q : Int) = stackBasePage := (Prod.mk.inj (Option.some.inj hA2)).1
    have ha2 : (⟨a1.translationTable, (q : Int) + (n : Int), a1.CodeStartAddress,
        a1.nb_mapped_files⟩ : AddrSpace) = a2 := (Prod.mk.inj (Option.some.inj hA2)).2
    have hbn : stackBasePage.toNat = q := by omega
    rw [hbn] at hloop
    have htt2 : ((⟨k.g_physical_mem_manager, Function.update k.addrspace this a2, k.mainMemory,
        k.numMemoryAccess⟩ : VM).addrspace this).translationTable = some tt := by
      show (Function.update k.addrspace this a2 this).translationTable = some tt
      rw [Function.update_same, ← ha2]
      exact ha1tt
    obtain ⟨frames, rest, tt', -, hlen, hnodup, hfr, -, -, -, -, htt', -, hpt, hfp, -, hz, -⟩ :=
      AddrSpace.StackAllocate_loop_spec cfg hN this n q _ k' tt hloop htt2
    have hfp2 : (k'.addrspace this).freePageId = (q : Int) + (n : Int) := by
      rw [hfp]
      show (Function.update k.addrspace this a2 this).freePageId = _
      rw [Function.update_same, ← ha2]
    have hget : ∀ i : Nat, i < n → frames.getD i 0 < cfg.NumPhysPages := by
      intro i hi
      have hi2 : i < frames.length := by omega
      rw [List.getD_eq_getElem _ _ hi2]
      exact (hfr _ (List.getElem_mem hi2)).1
    refine ⟨hb.symm, by omega, tt', frames, htt', ?_, hlen, hnodup, ?_, ?_⟩
    · rw [hfp2]
      push_cast
      rfl
    · intro i hi
      refine ⟨hget i hi, ?_, ?_⟩
      · rw [hpt, if_pos (by omega)]
        have hsub : q + i - q = i := by omega
        rw [hsub]
      · intro off hoff
        have hf := hget i hi
        have hmul : (frames.getD i 0 + 1) * cfg.PageSize ≤ cfg.NumPhysPages * cfg.PageSize :=
          Nat.mul_le_mul_right _ hf
        have hlt : frames.getD i 0 * cfg.PageSize < 2 ^ 32 := by
          rw [Nat.add_mul, Nat.one_mul] at hmul
          omega
        rw [← VMConfig.frameAddress_eq cfg _ hlt]
        exact hz i hi off hoff
    · intro vp hvp
      rw [hpt, if_neg (by omega)]

/-- C22 (amended): on an address space with `freePageId = p` whose pages
`p..p+3` are untouched (entries as constructed), with `n = ⌈UserStackSize /
PageSize⌉` and a table of `maxNumPages` pages, a call of `StackAllocate` that
returns has put the stack on the `n` pages from `q`, where `q = p + 4` when the
four guard pages fit (`p + 4 < maxNumPages`) and `q = p` when they do not (the
result of `Alloc(4)` is never tested); the stack ends below the end of the
table (`q + n < maxNumPages`), `freePageId = q + n`, each page `q + i`,
`i < n`, is valid, readable, writable, not swapped, with `addrDisk = -1`, on
the `i`-th of `n` distinct frames below `NumPhysPages`, whose bytes are all
zero, every other entry of the table is unchanged, so that the entries
`p..p+3` stay as constructed (not valid, neither readable nor writable) when
the guard pages fit, and the value returned is `(q + n) * PageSize - 16`. -/
theorem C22_StackAllocate (cfg : VMConfig) (k k' : VM) (this : Nat) (tt : TranslationTable)
    (p : Nat) (stackpointer : Int)
    (hPS : 0 < cfg.PageSize) (hU : cfg.UserStackSize + cfg.PageSize ≤ 2 ^ 31)
    (hN : cfg.NumPhysPages ≤ 2 ^ 31) (hmem : cfg.NumPhysPages * cfg.PageSize ≤ 2 ^ 32)
    (htt : (k.addrspace this).translationTable = some tt)
    (hvs : tt.maxNumPages * cfg.PageSize < 2 ^ 31)
    (hp : (k.addrspace this).freePageId = (p : Int))
    (hfresh : ∀ i : Nat, i < 4 → tt.pageTable (p + i) = PageTableEntry.new)
    (hret : AddrSpace.StackAllocate cfg k this = some (stackpointer, k')) :
    ∃ (q : Nat) (tt' : TranslationTable) (frames : List Nat),
      ((p + 4 < tt.maxNumPages ∧ q = p + 4
          ∧ ∀ i : Nat, i < 4 → tt'.pageTable (p + i) = PageTableEntry.new)
        ∨ (tt.maxNumPages ≤ p + 4 ∧ q = p))
        ∧ q + divRoundUp cfg.UserStackSize cfg.PageSize < tt.maxNumPages
        ∧ (k'.addrspace this).translationTable = some tt'
        ∧ (k'.addrspace this).freePageId
            = ((q + divRoundUp cfg.UserStackSize cfg.PageSize : Nat) : Int)
        ∧ frames.length = divRoundUp cfg.UserStackSize cfg.PageSize
        ∧ frames.Nodup
        ∧ (∀ i : Nat, i < divRoundUp cfg.UserStackSize cfg.PageSize →
            frames.getD i 0 < cfg.NumPhysPages
              ∧ tt'.pageTable (q + i)
                  = ⟨true, (tt.pageTable (q + i)).U, (tt.pageTable (q + i)).M, true, true,
                      ((frames.getD i 0 : Nat) : Int), false, INVALID_SECTOR, false⟩
              ∧ ∀ off : Nat, off < cfg.PageSize →
                  k'.mainMemory (frames.getD i 0 * cfg.PageSize + off) = 0)
        ∧ (∀ vp : Nat, vp < q ∨ q + divRoundUp cfg.UserStackSize cfg.PageSize ≤ vp →
            tt'.pageTable vp = tt.pageTable vp)
        ∧ stackpointer
            = (((q + divRoundUp cfg.UserStackSize cfg.PageSize) * cfg.PageSize : Nat) : Int)
                - 16 := by
  obtain ⟨blankaddr, stackBasePage, a1, a2, hA1, hA2, hsbp, hloop, hsp⟩ :=
    AddrSpace.StackAllocate_cases cfg this k k' stackpointer hret
  obtain ⟨hn, hnlt⟩ := AddrSpace.StackAllocate_numPages_eq cfg hU
  generalize divRoundUp cfg.UserStackSize cfg.PageSize = n at hn hnlt ⊢
  have hM : tt.maxNumPages < 2 ^ 31 :=
    lt_of_le_of_lt (Nat.le_mul_of_pos_right _ hPS) hvs
  have hgm : tt.getMaxNumPages = (tt.maxNumPages : Int) := toInt32_of_lt _ hM
  have h4 : STACK_BLANK_LEN = 4 := rfl
  rw [AddrSpace.Alloc_spec _ tt htt, hp, hgm, h4] at hA1
  rw [hn] at hA2 hloop hsp
  rw [Int.toNat_ofNat] at hloop
  clear hn hgm
  revert hsp
  have hresult : ∀ q : Nat, stackBasePage = (q : Int) → q + n < tt.maxNumPages →
      stackpointer
          = toInt32 ((((stackBasePage + (n : Int)) * cfg.PageSize) % 2 ^ 32 - 16) % 2 ^ 64) →
      stackpointer = (((q + n) * cfg.PageSize : Nat) : Int) - 16 := by
    intro q hb hlt hsp
    rw [hsp, hb]
    clear hsp
    have hle : (q + n) * cfg.PageSize ≤ tt.maxNumPages * cfg.PageSize :=
      Nat.mul_le_mul_right _ (by omega)
    have hcast : ((q : Int) + (n : Int)) * (cfg.PageSize : Int)
        = (((q + n) * cfg.PageSize : Nat) : Int) := by
      push_cast
      ring
    rw [hcast]
    exact AddrSpace.StackAllocate_result _ (lt_of_le_of_lt hle hvs)
  by_cases c1 : (p : Int) + 4 ≥ (tt.maxNumPages : Int)
  · -- the guard pages do not fit: the stack takes their place
    rw [if_pos c1] at hA1
    have ha1 : k.addrspace this = a1 := (Prod.mk.inj (Option.some.inj hA1)).2
    obtain ⟨hb, hlt, tt', frames, htt', hfp, hlen, hnodup, hpages, hframe⟩ :=
      AddrSpace.StackAllocate_stack cfg k k' this tt p n a1 a2 stackBasePage hN hmem hM
        (by rw [← ha1]; exact htt) (by rw [← ha1]; exact hp) hA2 hsbp hloop
    intro hsp
    exact ⟨p, tt', frames, Or.inr ⟨by omega, rfl⟩, hlt, htt', hfp, hlen, hnodup, hpages, hframe,
      hresult p hb hlt hsp⟩
  · rw [if_neg c1] at hA1
    have ha1 : (⟨(k.addrspace this).translationTable, (p : Int) + 4,
        (k.addrspace this).CodeStartAddress, (k.addrspace this).nb_mapped_files⟩ : AddrSpace) = a1 :=
      (Prod.mk.inj (Option.some.inj hA1)).2
    obtain ⟨hb, hlt, tt', frames, htt', hfp, hlen, hnodup, hpages, hframe⟩ :=
      AddrSpace.StackAllocate_stack cfg k k' this tt (p + 4) n a1 a2 stackBasePage hN hmem hM
        (by rw [← ha1]; exact htt) (by rw [← ha1]; push_cast; rfl) hA2 hsbp hloop
    intro hsp
    refine ⟨p + 4, tt', frames, Or.inl ⟨by omega, rfl, ?_⟩, hlt, htt', hfp, hlen, hnodup, hpages,
      hframe, hresult (p + 4) hb hlt hsp⟩
    intro i hi
    rw [hframe (p + i) (Or.inl (by omega))]
    exact hfresh i hi

/-- C22 at a concrete input: the address space at address 7 of
`SampleVM.built` has `freePageId = 1` and a table of 16 pages; `StackAllocate`
returns the value `7 * 128 - 16 = 880`, and the theorem applies to this call
(the guard pages fit here, `1 + 4 < 16`, so the stack is on the pages 5 and
6). -/
theorem C22_StackAllocate_witness :
    AddrSpace.StackAllocate SampleVM.cfg SampleVM.built 7
        = some (SampleVM.stacked.1, SampleVM.stacked.2)
      ∧ SampleVM.stacked.1 = 880
      ∧ ∃ (q : Nat) (tt' : TranslationTable) (frames : List Nat),
        ((1 + 4 < SampleVM.builtTable.maxNumPages ∧ q = 1 + 4
            ∧ ∀ i : Nat, i < 4 → tt'.pageTable (1 + i) = PageTableEntry.new)
          ∨ (SampleVM.builtTable.maxNumPages ≤ 1 + 4 ∧ q = 1))
          ∧ q + divRoundUp SampleVM.cfg.UserStackSize SampleVM.cfg.PageSize
              < SampleVM.builtTable.maxNumPages
          ∧ (SampleVM.stacked.2.addrspace 7).translationTable = some tt'
          ∧ (SampleVM.stacked.2.addrspace 7).freePageId
              = ((q + divRoundUp SampleVM.cfg.UserStackSize SampleVM.cfg.PageSize : Nat) : Int)
          ∧ frames.length = divRoundUp SampleVM.cfg.UserStackSize SampleVM.cfg.PageSize
          ∧ frames.Nodup
          ∧ (∀ i : Nat, i < divRoundUp SampleVM.cfg.UserStackSize SampleVM.cfg.PageSize →
              frames.getD i 0 < SampleVM.cfg.NumPhysPages
                ∧ tt'.pageTable (q + i)
                    = ⟨true, (SampleVM.builtTable.pageTable (q + i)).U,
                        (SampleVM.builtTable.pageTable (q + i)).M, true, true,
                        ((frames.getD i 0 : Nat) : Int), false, INVALID_SECTOR, false⟩
                ∧ ∀ off : Nat, off < SampleVM.cfg.PageSize →
                    SampleVM.stacked.2.mainMemory (frames.getD i 0 * SampleVM.cfg.PageSize + off)
                      = 0)
          ∧ (∀ vp : Nat,
              vp < q ∨ q + divRoundUp SampleVM.cfg.UserStackSize SampleVM.cfg.PageSize ≤ vp →
              tt'.pageTable vp = SampleVM.builtTable.pageTable vp)
          ∧ SampleVM.stacked.1
              = (((q + divRoundUp SampleVM.cfg.UserStackSize SampleVM.cfg.PageSize)
                  * SampleVM.cfg.PageSize : Nat) : Int) - 16 :=
  ⟨rfl, by decide,
    C22_StackAllocate SampleVM.cfg SampleVM.built SampleVM.stacked.2 7 SampleVM.builtTable 1
      SampleVM.stacked.1 (by decide) (by decide) (by decide) (by decide) rfl (by decide)
      (by decide) (by decide) rfl⟩

/-- C22 (the claim fails where the guard pages do not fit): the address space
built from `SampleVM.exec` in a virtual space of 5 pages has `freePageId = 1`;
`StackAllocate` returns although `Alloc(4)` for the guard pages fails
(`1 + 4 ≥ 5`, the result `blankaddr` is never tested): the two stack pages are
the pages 1 and 2, where the guard pages should be, `freePageId` ends at 3 and
the value returned is `3 * 128 - 16 = 368`, not `(1 + 4 + 2) * 128 - 16 = 880`. -/
theorem C22_StackAllocate_without_guard_pages :
    (SampleVM.built5.addrspace 7).freePageId = 1
      ∧ (SampleVM.built5.addrspace 7).translationTable.map
          (fun tt => (tt.maxNumPages, (tt.pageTable 1).valid, (tt.pageTable 2).valid))
          = some (5, false, false)
      ∧ (AddrSpace.StackAllocate SampleVM.cfg5 SampleVM.built5 7).map
          (fun r => (r.1, (r.2.addrspace 7).freePageId)) = some (368, 3)
      ∧ ((AddrSpace.StackAllocate SampleVM.cfg5 SampleVM.built5 7).bind
          (fun r => (r.2.addrspace 7).translationTable)).map
          (fun tt => ((tt.pageTable 1).valid, (tt.pageTable 1).writeAllowed,
            (tt.pageTable 2).valid, (tt.pageTable 2).writeAllowed))
          = some (true, true, true, true)
      ∧ ((1 + 4 + divRoundUp SampleVM.cfg5.UserStackSize SampleVM.cfg5.PageSize)
          * SampleVM.cfg5.PageSize : Int) - 16 = 880 := by
  decide

/-! ## Destruction of an address space (C23) -/

/-- `Clear` on a bit inside the bitmap clears that bit and no other. -/
theorem BitMap.Clear_Test (b : BitMap) (hwf : b.numBits ≤ b.map.length * BITS_IN_WORD)
    (i : Nat) (hi : i < b.numBits) :
    ∃ b', b.Clear i = some b' ∧ b'.numBits = b.numBits ∧ b'.map.length = b.map.length
      ∧ b'.Test i = some false ∧ ∀ j : Nat, j ≠ i → b'.Test j = b.Test j := by
  have hlen : ((i : Int)).toNat / BITS_IN_WORD < b.map.length := by
    simp only [Int.toNat_ofNat, BITS_IN_WORD] at hwf ⊢
    omega
  obtain ⟨b', hm, hnb, _, hl, hbits⟩ :=
    BitMap.Clear_spec b i (by omega) (by exact_mod_cast hi) hlen
  have htest : ∀ j : Nat, b'.Test j
      = if j < b.numBits then
          some ((b.map.getD (j / BITS_IN_WORD) 0).testBit (j % BITS_IN_WORD) && decide (j ≠ i))
        else none := by
    intro j
    by_cases hj : j < b.numBits
    · rw [BitMap.Test_eq_testBit b' j (by omega) (by rw [hnb]; exact_mod_cast hj)]
      simp only [Int.toNat_ofNat, hbits, hj, if_true]
    · have : ¬ ((0 : Int) ≤ j ∧ (j : Int) < b'.numBits) := by
        rw [hnb]; intro hc; exact hj (by exact_mod_cast hc.2)
      simp only [BitMap.Test, this, if_false, hj]
  refine ⟨b', hm, hnb, hl, ?_, ?_⟩
  · rw [htest i]; simp [hi]
  · intro j hji
    rw [htest j]
    by_cases hj : j < b.numBits
    · rw [BitMap.Test_eq_testBit b j (by omega) (by exact_mod_cast hj)]
      simp [hj, hji]
    · have : ¬ ((0 : Int) ≤ j ∧ (j : Int) < b.numBits) := by
        intro hc; exact hj (by exact_mod_cast hc.2)
      simp only [BitMap.Test, this, if_false, hj]

/-- The sector number `d` of a page-table entry, with `0 ≤ d < 2^31`, reaches
`BitMap::Clear` unchanged through the `uint32_t` parameter of
`ReleasePageSwap`. -/
theorem SwapManager.ReleasePageSwap_arg (d : Nat) (hd : d < 2 ^ 31) :
    toInt32 ((((d : Int) % 2 ^ 32).toNat : Nat) : Int) = (d : Int) := by
  unfold toInt32
  omega

/-- `ReleasePageSwap` on the sector `d` of a page-table entry, inside the
bitmap: the bit of `d` is cleared and no other, the disk is not touched. -/
theorem SwapManager.ReleasePageSwap_spec {D : Type} (m : SwapManager D)
    (hwf : m.page_flags.numBits ≤ m.page_flags.map.length * BITS_IN_WORD)
    (hbits : m.page_flags.numBits ≤ 2 ^ 31) (d : Nat) (hd : d < m.page_flags.numBits) :
    ∃ m', m.ReleasePageSwap (((d : Int) % 2 ^ 32).toNat) = some m'
      ∧ m'.swap_disk = m.swap_disk
      ∧ m'.page_flags.numBits = m.page_flags.numBits
      ∧ m'.page_flags.map.length = m.page_flags.map.length
      ∧ m'.page_flags.Test d = some false
      ∧ ∀ j : Nat, j ≠ d → m'.page_flags.Test j = m.page_flags.Test j := by
  obtain ⟨b', hc, hnb, hl, ht, ho⟩ := BitMap.Clear_Test m.page_flags hwf d hd
  refine ⟨⟨m.swap_disk, b'⟩, ?_, rfl, hnb, hl, ht, ho⟩
  unfold SwapManager.ReleasePageSwap
  rw [SwapManager.ReleasePageSwap_arg d (lt_of_lt_of_le hd hbits), hc]
  rfl

/-- `RemovePhysicalToVirtualMapping(f)` on a frame that is not free and whose
owner `a` has a translation table holding the page recorded for the frame. -/
theorem PhysicalMemManager.RemovePhysicalToVirtualMapping_eq (cfg : VMConfig) (k : VM)
    (f : Nat) (hf : f < cfg.NumPhysPages) (a : Nat) (tt : TranslationTable)
    (hfree : (k.g_physical_mem_manager.tpr f).free = false)
    (howner : (k.g_physical_mem_manager.tpr f).owner = some a)
    (htt : (k.addrspace a).translationTable = some tt)
    (hvp : (k.g_physical_mem_manager.tpr f).virtualPage < tt.maxNumPages) :
    PhysicalMemManager.RemovePhysicalToVirtualMapping cfg k f
      = some ⟨⟨Function.update k.g_physical_mem_manager.tpr f
                { k.g_physical_mem_manager.tpr f with free := true, locked := false },
               f :: k.g_physical_mem_manager.free_page_list,
               k.g_physical_mem_manager.i_clock⟩,
              Function.update k.addrspace a
                ⟨some ⟨tt.maxNumPages,
                    Function.update tt.pageTable
                      (k.g_physical_mem_manager.tpr f).virtualPage
                      { tt.pageTable (k.g_physical_mem_manager.tpr f).virtualPage with
                        valid := false }⟩,
                  (k.addrspace a).freePageId, (k.addrspace a).CodeStartAddress,
                  (k.addrspace a).nb_mapped_files⟩,
              k.mainMemory, k.numMemoryAccess⟩ := by
  simp [PhysicalMemManager.RemovePhysicalToVirtualMapping, hf, hfree, howner, htt,
    TranslationTable.clearBitValid, TranslationTable.modify, hvp, Listint.Prepend]

/-- An entry that is not valid is not changed by clearing its valid bit. -/
theorem PageTableEntry.clear_valid_of_not_valid (e : PageTableEntry) (h : e.valid = false) :
    { e with valid := false } = e := by
  cases e
  simp only at h
  subst h
  rfl

/-- The first statement of the loop of the destructor, on page `i` inside the
table of an address space whose back-links hold: it returns; the valid bit of
page `i` is cleared and nothing else of the table changes; if the page was
valid its frame becomes free and unlocked and is put at the head of the free
list, otherwise the frame table does not change; the back-links still hold. -/
theorem AddrSpace.delete_frame_spec (cfg : VMConfig) (hN : cfg.NumPhysPages ≤ 2 ^ 64)
    (this : Nat) (k : VM) (tt : TranslationTable) (i : Nat)
    (hbl : AddrSpace.BackLinked cfg this k)
    (htt : (k.addrspace this).translationTable = some tt) (hi : i < tt.maxNumPages) :
    ∃ (k1 : VM) (tt1 : TranslationTable),
      AddrSpace.delete_frame cfg this k i = some k1
        ∧ AddrSpace.BackLinked cfg this k1
        ∧ (k1.addrspace this).translationTable = some tt1
        ∧ tt1.maxNumPages = tt.maxNumPages
        ∧ (∀ vp : Nat, vp ≠ i → tt1.pageTable vp = tt.pageTable vp)
        ∧ tt1.pageTable i = { tt.pageTable i with valid := false }
        ∧ (k1.addrspace this).freePageId = (k.addrspace this).freePageId
        ∧ (∀ a : Nat, a ≠ this → k1.addrspace a = k.addrspace a)
        ∧ ((tt.pageTable i).valid = true →
            ∃ p : Nat, (tt.pageTable i).physicalPage = (p : Int) ∧ p < cfg.NumPhysPages
              ∧ k1.g_physical_mem_manager
                  = ⟨Function.update k.g_physical_mem_manager.tpr p
                      { k.g_physical_mem_manager.tpr p with free := true, locked := false },
                     p :: k.g_physical_mem_manager.free_page_list,
                     k.g_physical_mem_manager.i_clock⟩)
        ∧ ((tt.pageTable i).valid = false →
            k1.g_physical_mem_manager = k.g_physical_mem_manager) := by
  cases hv : (tt.pageTable i).valid with
  | false =>
      refine ⟨k, tt, ?_, hbl, htt, rfl, fun _ _ => rfl, ?_, rfl, fun _ _ => rfl,
        fun h => absurd h (by simp), fun _ => rfl⟩
      · simp [AddrSpace.delete_frame, htt, TranslationTable.getBitValid, TranslationTable.read,
          hi, hv]
      · rw [PageTableEntry.clear_valid_of_not_valid _ hv]
  | true =>
      obtain ⟨p, hp, hpN, hfree, howner, hvp⟩ := hbl tt htt i hv
      have hconv : (((p : Nat) : Int) % 2 ^ 64).toNat = p := by omega
      have hrm := PhysicalMemManager.RemovePhysicalToVirtualMapping_eq cfg k p hpN this tt
        hfree howner htt (by rw [hvp]; exact hi)
      rw [hvp] at hrm
      obtain ⟨k1, hk1, hrm1⟩ : ∃ k1 : VM, k1 = _
          ∧ PhysicalMemManager.RemovePhysicalToVirtualMapping cfg k p = some k1 := ⟨_, rfl, hrm⟩
      refine ⟨k1, ⟨tt.maxNumPages, Function.update tt.pageTable i
          { tt.pageTable i with valid := false }⟩, ?_, ?_, ?_, rfl, ?_, ?_, ?_, ?_, ?_, ?_⟩
      · simp only [AddrSpace.delete_frame, htt, TranslationTable.getBitValid,
          TranslationTable.getPhysicalPage, TranslationTable.read, hi, hv, if_true, hp, hconv]
        exact hrm1
      · subst hk1
        intro tt' htt' vp hvalid
        simp only [Function.update_same, Option.some.injEq] at htt'
        subst htt'
        have hne : vp ≠ i := by
          intro h
          subst h
          simp at hvalid
        simp only [Function.update_noteq hne] at hvalid ⊢
        obtain ⟨q, hq, hqN, hqf, hqo, hqv⟩ := hbl tt htt vp hvalid
        have hqp : q ≠ p := by
          intro h
          subst h
          omega
        exact ⟨q, hq, hqN, by simp only [Function.update_noteq hqp, hqf],
          by simp only [Function.update_noteq hqp, hqo],
          by simp only [Function.update_noteq hqp, hqv]⟩
      · subst hk1
        simp only [Function.update_same]
      · intro vp hne
        simp only [Function.update_noteq hne]
      · simp only [Function.update_same]
      · subst hk1
        simp only [Function.update_same]
      · subst hk1
        intro a ha
        simp only [Function.update_noteq ha]
      · subst hk1
        intro _
        exact ⟨p, hp, hpN, rfl⟩
      · intro h
        cases h

/-- The second statement of the loop of the destructor, on page `i` inside the
table: it returns when the sector of a page in the swap area lies inside the
bitmap; that sector is cleared and no other, and when the page is not in the
swap area (or its sector is negative) the swap manager does not change. -/
theorem AddrSpace.delete_swap_spec {D : Type} (this : Nat) (k : VM) (m : SwapManager D)
    (tt : TranslationTable) (i : Nat)
    (htt : (k.addrspace this).translationTable = some tt) (hi : i < tt.maxNumPages)
    (hwf : m.page_flags.numBits ≤ m.page_flags.map.length * BITS_IN_WORD)
    (hbits : m.page_flags.numBits ≤ 2 ^ 31)
    (hsw : (tt.pageTable i).swap = true → 0 ≤ (tt.pageTable i).addrDisk →
      (tt.pageTable i).addrDisk < (m.page_flags.numBits : Int)) :
    ∃ m1 : SwapManager D,
      AddrSpace.delete_swap this k m i = some m1
        ∧ m1.swap_disk = m.swap_disk
        ∧ m1.page_flags.numBits = m.page_flags.numBits
        ∧ m1.page_flags.map.length = m.page_flags.map.length
        ∧ ((tt.pageTable i).swap = true → 0 ≤ (tt.pageTable i).addrDisk →
            m1.page_flags.Test (tt.pageTable i).addrDisk = some false
              ∧ ∀ j : Nat, (j : Int) ≠ (tt.pageTable i).addrDisk →
                  m1.page_flags.Test j = m.page_flags.Test j)
        ∧ (¬ ((tt.pageTable i).swap = true ∧ 0 ≤ (tt.pageTable i).addrDisk) → m1 = m) := by
  cases hs : (tt.pageTable i).swap with
  | false =>
      refine ⟨m, ?_, rfl, rfl, rfl, fun h => absurd h (by simp), fun _ => rfl⟩
      simp [AddrSpace.delete_swap, htt, TranslationTable.getBitSwap, TranslationTable.read, hi, hs]
  | true =>
      by_cases hd : 0 ≤ (tt.pageTable i).addrDisk
      · obtain ⟨d, hdn⟩ := Int.eq_ofNat_of_zero_le hd
        have hlt : d < m.page_flags.numBits := by
          have := hsw hs hd
          rw [hdn] at this
          exact_mod_cast this
        obtain ⟨m1, hrel, hdisk, hnb, hlen, ht, ho⟩ :=
          SwapManager.ReleasePageSwap_spec m hwf hbits d hlt
        refine ⟨m1, ?_, hdisk, hnb, hlen, ?_, ?_⟩
        · simp only [AddrSpace.delete_swap, htt, TranslationTable.getBitSwap,
            TranslationTable.getAddrDisk, TranslationTable.read, hi, hs, if_true, hdn]
          rw [if_pos (by omega)]
          exact hrel
        · intro _ _
          rw [hdn]
          refine ⟨ht, fun j hj => ho j ?_⟩
          intro h
          exact hj (by rw [h])
        · intro h
          exact absurd ⟨rfl, hd⟩ h
      · refine ⟨m, ?_, rfl, rfl, rfl, fun _ h => absurd h hd, fun _ => rfl⟩
        simp only [AddrSpace.delete_swap, htt, TranslationTable.getBitSwap,
          TranslationTable.getAddrDisk, TranslationTable.read, hi, hs, if_true]
        rw [if_neg hd]

/-- The loop of the destructor over the `t` pages from `i0`, all inside the
table of an address space whose back-links hold, the sectors of its pages in
the swap area lying inside the bitmap: the loop returns; the valid bits of
these pages are cleared and nothing else of the table changes; the frame of
each of them that was valid is free and on the free list, every other frame
keeps its entry, frames that were free or on the free list stay so; the sector
of each of them that was in the swap area is clear, every other sector keeps
its bit, and sectors that were clear stay so. -/
theorem AddrSpace.delete_loop_spec {D : Type} (cfg : VMConfig) (hN : cfg.NumPhysPages ≤ 2 ^ 64)
    (this : Nat) (t : Nat) :
    ∀ (i0 : Nat) (k : VM) (m : SwapManager D) (tt : TranslationTable),
      AddrSpace.BackLinked cfg this k →
      (k.addrspace this).translationTable = some tt →
      i0 + t ≤ tt.maxNumPages →
      m.page_flags.numBits ≤ m.page_flags.map.length * BITS_IN_WORD →
      m.page_flags.numBits ≤ 2 ^ 31 →
      (∀ i : Nat, i0 ≤ i → i < i0 + t → (tt.pageTable i).swap = true →
        0 ≤ (tt.pageTable i).addrDisk →
        (tt.pageTable i).addrDisk < (m.page_flags.numBits : Int)) →
      ∃ (k' : VM) (m' : SwapManager D) (tt' : TranslationTable),
        AddrSpace.delete_loop cfg this t i0 (k, m) = some (k', m')
          ∧ (k'.addrspace this).translationTable = some tt'
          ∧ tt'.maxNumPages = tt.maxNumPages
          ∧ (∀ vp : Nat, tt'.pageTable vp
              = if i0 ≤ vp ∧ vp < i0 + t then { tt.pageTable vp with valid := false }
                else tt.pageTable vp)
          ∧ (k'.addrspace this).freePageId = (k.addrspace this).freePageId
          ∧ (∀ a : Nat, a ≠ this → k'.addrspace a = k.addrspace a)
          ∧ (∀ i : Nat, i0 ≤ i → i < i0 + t → (tt.pageTable i).valid = true →
              ∃ p : Nat, (tt.pageTable i).physicalPage = (p : Int) ∧ p < cfg.NumPhysPages
                ∧ (k'.g_physical_mem_manager.tpr p).free = true
                ∧ p ∈ k'.g_physical_mem_manager.free_page_list)
          ∧ (∀ f : Nat, (¬ ∃ i : Nat, i0 ≤ i ∧ i < i0 + t ∧ (tt.pageTable i).valid = true
                ∧ (tt.pageTable i).physicalPage = (f : Int)) →
              k'.g_physical_mem_manager.tpr f = k.g_physical_mem_manager.tpr f)
          ∧ (∀ f : Nat, (k.g_physical_mem_manager.tpr f).free = true →
              (k'.g_physical_mem_manager.tpr f).free = true)
          ∧ (∀ f : Nat, f ∈ k.g_physical_mem_manager.free_page_list →
              f ∈ k'.g_physical_mem_manager.free_page_list)
          ∧ m'.swap_disk = m.swap_disk
          ∧ m'.page_flags.numBits = m.page_flags.numBits
          ∧ m'.page_flags.map.length = m.page_flags.map.length
          ∧ (∀ i : Nat, i0 ≤ i → i < i0 + t → (tt.pageTable i).swap = true →
              0 ≤ (tt.pageTable i).addrDisk →
              m'.page_flags.Test (tt.pageTable i).addrDisk = some false)
          ∧ (∀ j : Nat, (¬ ∃ i : Nat, i0 ≤ i ∧ i < i0 + t ∧ (tt.pageTable i).swap = true
                ∧ (tt.pageTable i).addrDisk = (j : Int)) →
              m'.page_flags.Test j = m.page_flags.Test j)
          ∧ (∀ j : Nat, m.page_flags.Test j = some false →
              m'.page_flags.Test j = some false) := by
  induction t with
  | zero =>
      intro i0 k m tt _ htt _ _ _ _
      refine ⟨k, m, tt, rfl, htt, rfl, fun vp => ?_, rfl, fun _ _ => rfl,
        fun i h1 h2 => absurd h2 (by omega), fun _ _ => rfl, fun _ h => h, fun _ h => h,
        rfl, rfl, rfl, fun i h1 h2 => absurd h2 (by omega), fun _ _ => rfl, fun _ h => h⟩
      rw [if_neg (by omega)]
  | succ t ih =>
      intro i0 k m tt hbl htt hb hwf hbits hsw
      obtain ⟨k1, tt1, hfr, hbl1, htt1, hmax1, hoth1, hi01, hfp1, has1, hval1, hinv1⟩ :=
        AddrSpace.delete_frame_spec cfg hN this k tt i0 hbl htt (by omega)
      have hsw0 : (tt1.pageTable i0).swap = (tt.pageTable i0).swap := by rw [hi01]
      have had0 : (tt1.pageTable i0).addrDisk = (tt.pageTable i0).addrDisk := by rw [hi01]
      obtain ⟨m1, hsp, hdisk1, hnb1, hlen1, hclr1, hsame1⟩ :=
        AddrSpace.delete_swap_spec this k1 m tt1 i0 htt1 (by rw [hmax1]; omega) hwf hbits
          (by rw [hsw0, had0]; exact hsw i0 (le_refl _) (by omega))
      rw [hsw0, had0] at hclr1 hsame1
      have hb1 : i0 + 1 + t ≤ tt1.maxNumPages := by rw [hmax1]; omega
      obtain ⟨k', m', tt', hloop, htt', hmax', hpt', hfp', has', hfreed', hkeep', hmono',
          hlist', hdisk', hnb', hlen', hclr', hkeepb', hmonob'⟩ :=
        ih (i0 + 1) k1 m1 tt1 hbl1 htt1 hb1 (by rw [hnb1, hlen1]; exact hwf)
          (by rw [hnb1]; exact hbits)
          (fun i h1 h2 hs hd => by
            rw [hoth1 i (by omega)] at hs hd ⊢
            rw [hnb1]
            exact hsw i (by omega) (by omega) hs hd)
      refine ⟨k', m', tt', ?_, htt', hmax'.trans hmax1, ?_, hfp'.trans hfp1,
        fun a ha => (has' a ha).trans (has1 a ha), ?_, ?_, ?_, ?_, hdisk'.trans hdisk1,
        hnb'.trans hnb1, hlen'.trans hlen1, ?_, ?_, ?_⟩
      · simp only [AddrSpace.delete_loop, AddrSpace.delete_page, hfr, hsp, Option.map_some']
        exact hloop
      · intro vp
        rw [hpt' vp]
        by_cases hvp : vp = i0
        · subst hvp
          rw [if_neg (by omega), if_pos (by omega)]
          exact hi01
        · by_cases hr : i0 + 1 ≤ vp ∧ vp < i0 + 1 + t
          · rw [if_pos hr, if_pos (by omega), hoth1 vp hvp]
          · rw [if_neg hr, if_neg (by omega), hoth1 vp hvp]
      · intro i h1 h2 hv
        by_cases hii : i = i0
        · subst hii
          obtain ⟨p, hp, hpN, hpm⟩ := hval1 hv
          refine ⟨p, hp, hpN, hmono' p ?_, hlist' p ?_⟩
          · rw [hpm]
            simp only [Function.update_same]
          · rw [hpm]
            exact List.mem_cons_self _ _
        · have h := hfreed' i (by omega) (by omega) (by rw [hoth1 i hii]; exact hv)
          rw [hoth1 i hii] at h
          exact h
      · intro f hf
        have h1 : k'.g_physical_mem_manager.tpr f = k1.g_physical_mem_manager.tpr f := by
          refine hkeep' f ?_
          rintro ⟨i, a, b, c, d⟩
          rw [hoth1 i (by omega)] at c d
          exact hf ⟨i, by omega, by omega, c, d⟩
        rw [h1]
        cases hv : (tt.pageTable i0).valid with
        | false => rw [hinv1 hv]
        | true =>
            obtain ⟨p, hp, hpN, hpm⟩ := hval1 hv
            rw [hpm]
            have hfp : f ≠ p := by
              intro h
              subst h
              exact hf ⟨i0, le_refl _, by omega, hv, hp⟩
            simp only [Function.update_noteq hfp]
      · intro f hf
        apply hmono'
        cases hv : (tt.pageTable i0).valid with
        | false =>
            rw [hinv1 hv]
            exact hf
        | true =>
            obtain ⟨p, hp, hpN, hpm⟩ := hval1 hv
            rw [hpm]
            by_cases hfp : f = p
            · subst hfp
              simp only [Function.update_same]
            · simp only [Function.update_noteq hfp]
              exact hf
      · intro f hf
        apply hlist'
        cases hv : (tt.pageTable i0).valid with
        | false =>
            rw [hinv1 hv]
            exact hf
        | true =>
            obtain ⟨p, hp, hpN, hpm⟩ := hval1 hv
            rw [hpm]
            exact List.mem_cons_of_mem _ hf
      · intro i h1 h2 hs hd
        by_cases hii : i = i0
        · subst hii
          obtain ⟨d, hdn⟩ := Int.eq_ofNat_of_zero_le hd
          have h := (hclr1 hs hd).1
          rw [hdn] at h ⊢
          exact hmonob' d h
        · have h := hclr' i (by omega) (by omega) (by rw [hoth1 i hii]; exact hs)
            (by rw [hoth1 i hii]; exact hd)
          rw [hoth1 i hii] at h
          exact h
      · intro j hj
        have h1 : m'.page_flags.Test j = m1.page_flags.Test j := by
          refine hkeepb' j ?_
          rintro ⟨i, a, b, c, d⟩
          rw [hoth1 i (by omega)] at c d
          exact hj ⟨i, by omega, by omega, c, d⟩
        rw [h1]
        by_cases hc : (tt.pageTable i0).swap = true ∧ 0 ≤ (tt.pageTable i0).addrDisk
        · exact (hclr1 hc.1 hc.2).2 j (fun h => hj ⟨i0, le_refl _, by omega, hc.1, h.symm⟩)
        · rw [hsame1 hc]
      · intro j hj
        apply hmonob'
        by_cases hc : (tt.pageTable i0).swap = true ∧ 0 ≤ (tt.pageTable i0).addrDisk
        · by_cases hjd : (j : Int) = (tt.pageTable i0).addrDisk
          · rw [hjd]
            exact (hclr1 hc.1 hc.2).1
          · rw [(hclr1 hc.1 hc.2).2 j hjd]
            exact hj
        · rw [hsame1 hc]
          exact hj

/-- The back-links survive a change of the translation table that leaves the
valid entries as they were and makes no entry valid. -/
theorem AddrSpace.BackLinked.of_table (cfg : VMConfig) (this : Nat) (k k' : VM)
    (tt tt' : TranslationTable)
    (hpm : k'.g_physical_mem_manager = k.g_physical_mem_manager)
    (htt : (k.addrspace this).translationTable = some tt)
    (htt' : (k'.addrspace this).translationTable = some tt')
    (hent : ∀ vp : Nat, (tt'.pageTable vp).valid = true → tt'.pageTable vp = tt.pageTable vp)
    (hb : AddrSpace.BackLinked cfg this k) : AddrSpace.BackLinked cfg this k' := by
  intro t h vp hvalid
  rw [htt'] at h
  simp only [Option.some.injEq] at h
  subst h
  have e := hent vp hvalid
  rw [e] at hvalid ⊢
  rw [hpm]
  exact hb tt htt vp hvalid

/-- C23: destroying the address space at `this`, whose translation table is
`tt`, in a state where its back-links hold (every valid page refers to a frame
that is not free, is owned by it and records the page), `freePageId` does not
exceed the size of the table and the sectors of its pages in the swap area lie
inside the swap bitmap.  The destructor returns; for every page below
`freePageId` whose valid bit was set, its frame is afterwards free and on the
free list; for every page below `freePageId` whose swap bit was set with
`addrDisk ≥ 0`, the sector `addrDisk` is afterwards clear in the swap bitmap;
the entry of every frame that is not owned by this address space, and more
precisely of every frame that is not the frame of such a valid page, is
unchanged, the frames on the free list stay on it; every sector that is not the
sector of such a page in the swap area keeps its bit, the swap disk is not
written, and the other address spaces are unchanged. -/
theorem C23_delete_address_space {D : Type} (cfg : VMConfig) (hN : cfg.NumPhysPages ≤ 2 ^ 64)
    (this : Nat) (k : VM) (m : SwapManager D) (tt : TranslationTable)
    (hbl : AddrSpace.BackLinked cfg this k)
    (htt : (k.addrspace this).translationTable = some tt)
    (hfp : (k.addrspace this).freePageId ≤ (tt.maxNumPages : Int))
    (hwf : m.page_flags.numBits ≤ m.page_flags.map.length * BITS_IN_WORD)
    (hbits : m.page_flags.numBits ≤ 2 ^ 31)
    (hsw : ∀ i : Nat, (i : Int) < (k.addrspace this).freePageId →
      (tt.pageTable i).swap = true → 0 ≤ (tt.pageTable i).addrDisk →
      (tt.pageTable i).addrDisk < (m.page_flags.numBits : Int)) :
    ∃ (k' : VM) (m' : SwapManager D),
      AddrSpace.delete cfg this (k, m) = some (k', m')
        ∧ (∀ i : Nat, (i : Int) < (k.addrspace this).freePageId →
            (tt.pageTable i).valid = true →
            ∃ p : Nat, (tt.pageTable i).physicalPage = (p : Int) ∧ p < cfg.NumPhysPages
              ∧ (k'.g_physical_mem_manager.tpr p).free = true
              ∧ p ∈ k'.g_physical_mem_manager.free_page_list)
        ∧ (∀ i : Nat, (i : Int) < (k.addrspace this).freePageId →
            (tt.pageTable i).swap = true → 0 ≤ (tt.pageTable i).addrDisk →
            m'.page_flags.Test (tt.pageTable i).addrDisk = some false)
        ∧ (∀ f : Nat, (k.g_physical_mem_manager.tpr f).owner ≠ some this →
            k'.g_physical_mem_manager.tpr f = k.g_physical_mem_manager.tpr f)
        ∧ (∀ f : Nat, (¬ ∃ i : Nat, (i : Int) < (k.addrspace this).freePageId
              ∧ (tt.pageTable i).valid = true ∧ (tt.pageTable i).physicalPage = (f : Int)) →
            k'.g_physical_mem_manager.tpr f = k.g_physical_mem_manager.tpr f)
        ∧ (∀ f : Nat, f ∈ k.g_physical_mem_manager.free_page_list →
            f ∈ k'.g_physical_mem_manager.free_page_list)
        ∧ (∀ j : Nat, (¬ ∃ i : Nat, (i : Int) < (k.addrspace this).freePageId
              ∧ (tt.pageTable i).swap = true ∧ (tt.pageTable i).addrDisk = (j : Int)) →
            m'.page_flags.Test j = m.page_flags.Test j)
        ∧ m'.swap_disk = m.swap_disk
        ∧ (∀ a : Nat, a ≠ this → k'.addrspace a = k.addrspace a) := by
  obtain ⟨k', m', tt', hloop, -, -, -, -, has, hfreed, hkeep, -, hlist, hdisk, -, -, hclr,
      hkeepb, -⟩ :=
    AddrSpace.delete_loop_spec cfg hN this (k.addrspace this).freePageId.toNat 0 k m tt hbl htt
      (by omega) hwf hbits (fun i _ h2 hs hd => hsw i (by omega) hs hd)
  have hkeep2 : ∀ f : Nat, (¬ ∃ i : Nat, (i : Int) < (k.addrspace this).freePageId
      ∧ (tt.pageTable i).valid = true ∧ (tt.pageTable i).physicalPage = (f : Int)) →
      k'.g_physical_mem_manager.tpr f = k.g_physical_mem_manager.tpr f := by
    intro f hf
    refine hkeep f ?_
    rintro ⟨i, _, b, c, d⟩
    exact hf ⟨i, by omega, c, d⟩
  refine ⟨k', m', ?_, fun i hi hv => hfreed i (Nat.zero_le _) (by omega) hv,
    fun i hi hs hd => hclr i (Nat.zero_le _) (by omega) hs hd, ?_, hkeep2, hlist, ?_, hdisk,
    has⟩
  · unfold AddrSpace.delete
    simp only [htt]
    exact hloop
  · intro f hf
    refine hkeep2 f ?_
    rintro ⟨i, _, c, d⟩
    obtain ⟨p, hp, _, _, howner, _⟩ := hbl tt htt i c
    rw [hp] at d
    have hpf : p = f := by exact_mod_cast d
    subst hpf
    exact hf howner
  · intro j hj
    refine hkeepb j ?_
    rintro ⟨i, _, b, c, d⟩
    exact hj ⟨i, by omega, c, d⟩

/-- C23 at a concrete input: the address space at address 7 of
`SampleVM.swapped` (pages 0, 5 and 6 valid on frames 0, 1 and 2, page 2 in the
swap area on sector 1, `freePageId = 7`) is destroyed with the swap manager
`SampleSwap.manager` (sectors 0, 1, 2 in use): afterwards frame 0 is free
and on the free list, sector 1 is clear, sector 0 keeps its bit and frame 3,
which the address space never held, keeps its entry. -/
theorem C23_delete_address_space_witness :
    ∃ (k' : VM) (m' : SwapManager (List (List Nat))),
      AddrSpace.delete SampleVM.cfg 7 (SampleVM.swapped, SampleSwap.manager) = some (k', m')
        ∧ (k'.g_physical_mem_manager.tpr 0).free = true
        ∧ 0 ∈ k'.g_physical_mem_manager.free_page_list
        ∧ m'.page_flags.Test 1 = some false
        ∧ m'.page_flags.Test 0 = some true
        ∧ k'.g_physical_mem_manager.tpr 3 = SampleVM.swapped.g_physical_mem_manager.tpr 3 := by
  have hb0 : AddrSpace.BackLinked SampleVM.cfg 7 SampleVM.stacked.2 :=
    AddrSpace.backLinked_of_Built SampleVM.cfg (by decide) 7 SampleVM.stacked.2
      (@AddrSpace.Built.stack SampleVM.cfg 7 SampleVM.built SampleVM.stacked.2 SampleVM.stacked.1
        (@AddrSpace.Built.ctor SampleVM.cfg 7 SampleVM.boot SampleVM.built (some SampleVM.exec)
          rfl) rfl)
  have hb : AddrSpace.BackLinked SampleVM.cfg 7 SampleVM.swapped := by
    refine AddrSpace.BackLinked.of_table SampleVM.cfg 7 SampleVM.stacked.2 SampleVM.swapped
      SampleVM.stackedTable SampleVM.swappedTable rfl rfl rfl ?_ hb0
    intro vp hv
    by_cases h2 : vp = 2
    · subst h2
      exact absurd hv (by decide)
    · exact Function.update_noteq h2 _ _
  obtain ⟨k', m', hdel, hfreed, hclr, -, hkeep, -, hkeepb, -, -⟩ :=
    C23_delete_address_space SampleVM.cfg (by decide) 7 SampleVM.swapped SampleSwap.manager
      SampleVM.swappedTable hb rfl (by decide) (by decide) (by decide)
      (fun i hi => by
        have hi7 : i < 7 := by
          have h7 : (SampleVM.swapped.addrspace 7).freePageId = 7 := by decide
          rw [h7] at hi
          exact_mod_cast hi
        interval_cases i <;> decide)
  obtain ⟨p, hp, -, hfree, hmem⟩ := hfreed 0 (by decide) (by decide)
  have hp0 : p = 0 := by
    have h0 : (SampleVM.swappedTable.pageTable 0).physicalPage = 0 := by decide
    rw [h0] at hp
    exact_mod_cast hp.symm
  subst hp0
  refine ⟨k', m', hdel, hfree, hmem, hclr 2 (by decide) (by decide) (by decide), ?_, ?_⟩
  · have h := hkeepb 0 (by
      rintro ⟨i, hi, hs, hd⟩
      have hi7 : i < 7 := by
        have h7 : (SampleVM.swapped.addrspace 7).freePageId = 7 := by decide
        rw [h7] at hi
        exact_mod_cast hi
      revert hs hd
      interval_cases i <;> decide)
    rw [show ((0 : Nat) : Int) = 0 from rfl] at h
    rw [h]
    decide
  · refine hkeep 3 ?_
    rintro ⟨i, hi, hv, hd⟩
    have hi7 : i < 7 := by
      have h7 : (SampleVM.swapped.addrspace 7).freePageId = 7 := by decide
      rw [h7] at hi
      exact_mod_cast hi
    revert hv hd
    interval_cases i <;> decide

/-! ## Condition::Signal and Condition::Broadcast (C33) -/

/-- The loop of `Broadcast` appends the whole wait queue, in order, to the
ready list and empties the queue. -/
theorem Condition.Broadcast_loop_eq (q : List Thread) :
    ∀ k : Kernel, Condition.Broadcast_loop k q
      = (⟨k.level, k.readyList ++ q, k.g_current_thread⟩, []) := by
  induction q with
  | nil =>
      intro k
      simp [Condition.Broadcast_loop]
  | cons t rest ih =>
      intro k
      simp [Condition.Broadcast_loop, ih, Scheduler.ReadyToRun]

/-- C33: `Signal` on a wait queue `t :: rest` puts exactly the head `t` at the
tail of the ready list and leaves `rest` waiting in its order; on an empty
queue it changes neither the queue nor the ready list; `Broadcast` puts every
waiting thread at the tail of the ready list, in queue order, and leaves the
wait queue empty.  Both return with the interrupt level `INTERRUPTS_ON`. -/
theorem C33_Signal_and_Broadcast (k : Kernel) (t : Thread) (rest q : List Thread) :
    Condition.Signal k ⟨t :: rest⟩
        = .returned ⟨.INTERRUPTS_ON, k.readyList ++ [t], k.g_current_thread⟩ ⟨rest⟩
      ∧ Condition.Signal k ⟨[]⟩
        = .returned ⟨.INTERRUPTS_ON, k.readyList, k.g_current_thread⟩ ⟨[]⟩
      ∧ Condition.Broadcast k ⟨q⟩
        = .returned ⟨.INTERRUPTS_ON, k.readyList ++ q, k.g_current_thread⟩ ⟨[]⟩ := by
  refine ⟨?_, ?_, ?_⟩
  · simp [Condition.Signal, Listint.IsEmpty, Listint.Remove, Interrupt.SetStatus,
      Scheduler.ReadyToRun]
  · simp [Condition.Signal, Listint.IsEmpty, Interrupt.SetStatus]
  · simp [Condition.Broadcast, Condition.Broadcast_loop_eq, Interrupt.SetStatus]

/-! ## Mutual exclusion of Lock (C37) -/

/-- Along every call of `Acquire` and `Release`, `free` is true exactly when
`owner` is `NULL`. -/
theorem Lock.free_iff_owner_of_reachable (l : Lock) (h : Lock.Reachable l) :
    l.free = true ↔ l.owner = none := by
  induction h with
  | init => simp [Lock.new]
  | @Acquire_returned l l' k k' _ hstep ih =>
      unfold Lock.Acquire Lock.Acquire_loop at hstep
      split at hstep
      · cases hstep
      · injection hstep with _ hl
        subst hl
        simp
  | @Acquire_sleeping l l' k k' _ hstep ih =>
      unfold Lock.Acquire Lock.Acquire_loop at hstep
      split at hstep
      · injection hstep with _ hl
        subst hl
        exact ih
      · cases hstep
  | @Acquire_wakeup_returned l l' k k' _ hstep ih =>
      unfold Lock.Acquire_wakeup Lock.Acquire_loop at hstep
      split at hstep
      · cases hstep
      · injection hstep with _ hl
        subst hl
        simp
  | @Acquire_wakeup_sleeping l l' k k' _ hstep ih =>
      unfold Lock.Acquire_wakeup Lock.Acquire_loop at hstep
      split at hstep
      · injection hstep with _ hl
        subst hl
        exact ih
      · cases hstep
  | @Release_returned l l' k k' _ hstep ih =>
      unfold Lock.Release at hstep
      simp only at hstep
      split at hstep
      · cases hstep
      · split at hstep
        · split at hstep
          · injection hstep with _ hl
            subst hl
            exact ih
          · cases hstep
        · injection hstep with _ hl
          subst hl
          simp

/-- C37: in every state of a lock reachable from a new `Lock` through
`Acquire` and `Release` calls, `free` is true exactly when `owner` is `NULL`;
and whenever `Acquire` returns to a thread (at once, or after the thread has
slept and been woken up), the lock was free and without owner immediately
before, and afterwards it is not free and its owner is that thread: while a
thread owns the lock no other `Acquire` returns. -/
theorem C37_Lock_mutual_exclusion (l : Lock) (h : Lock.Reachable l) :
    (l.free = true ↔ l.owner = none)
      ∧ ∀ (k k' : Kernel) (l' : Lock),
          (Lock.Acquire k l = .returned k' l' ∨ Lock.Acquire_wakeup k l = .returned k' l') →
          l.free = true ∧ l.owner = none ∧ l'.free = false
            ∧ l'.owner = some k.g_current_thread
            ∧ (l'.free = true ↔ l'.owner = none) := by
  have hinv := Lock.free_iff_owner_of_reachable l h
  refine ⟨hinv, ?_⟩
  intro k k' l' hret
  have hloop : ∃ k0 : Kernel, k0.g_current_thread = k.g_current_thread
      ∧ Lock.Acquire_loop k0 l = .returned k' l' := by
    cases hret with
    | inl h1 => exact ⟨Interrupt.SetStatus k .INTERRUPTS_OFF, rfl, h1⟩
    | inr h2 => exact ⟨k, rfl, h2⟩
  obtain ⟨k0, hk0, hl⟩ := hloop
  unfold Lock.Acquire_loop at hl
  split at hl
  · cases hl
  · rename_i hfree
    injection hl with _ hl'
    subst hl'
    have hf : l.free = true := by simpa using hfree
    exact ⟨hf, hinv.mp hf, rfl, by rw [hk0], by simp⟩

/-- Witness for C37: thread 1 acquires a new lock; the lock is then not free
and owned by thread 1, and an `Acquire` by thread 2 does not return. -/
theorem C37_Lock_mutual_exclusion_witness :
    ((Lock.new.free = true ↔ Lock.new.owner = none)
      ∧ ∀ (k k' : Kernel) (l' : Lock),
          (Lock.Acquire k Lock.new = .returned k' l'
            ∨ Lock.Acquire_wakeup k Lock.new = .returned k' l') →
          Lock.new.free = true ∧ Lock.new.owner = none ∧ l'.free = false
            ∧ l'.owner = some k.g_current_thread
            ∧ (l'.free = true ↔ l'.owner = none))
      ∧ Lock.Acquire ⟨.INTERRUPTS_ON, [], 1⟩ Lock.new
          = .returned ⟨.INTERRUPTS_ON, [], 1⟩ ⟨false, some 1, []⟩
      ∧ Lock.Acquire ⟨.INTERRUPTS_ON, [], 2⟩ ⟨false, some 1, []⟩
          = .sleeping ⟨.INTERRUPTS_OFF, [], 2⟩ ⟨false, some 1, [2]⟩ :=
  ⟨C37_Lock_mutual_exclusion Lock.new Lock.Reachable.init, by decide, by decide⟩

/-! ## GetLengthParam (C40) -/

set_option maxRecDepth 100000 in
/-- C40 (code at the failing input): user memory holds the five characters of
`hello` followed by a NUL at address 1000.  `GetLengthParam(1000)` returns
7 = n + 2, not n + 1 = 6: the loop counts the NUL it reads (`i = n + 1` at its
exit) and the function returns `i + 1`.  On the empty string at address 1005
it returns 2. -/
theorem C40_GetLengthParam_counts_the_NUL_twice :
    (List.range 6).map (fun j => SampleSys.mem (1000 + j)) = [104, 101, 108, 108, 111, 0]
      ∧ GetLengthParam (fun a => some (SampleSys.mem a)) 1000 = some 7
      ∧ GetLengthParam (fun a => some (SampleSys.mem a)) 1005 = some 2 := by
  decide

/-! ## The branch offset decoded by Instruction::Decode (C38) -/

/-- Masking with `b` consecutive ones from bit `a` keeps the bits `a` to
`a + b - 1` in place. -/
theorem Nat.and_shifted_mask (y a b : Nat) :
    y &&& (2 ^ a * (2 ^ b - 1)) = 2 ^ a * (y / 2 ^ a % 2 ^ b) := by
  apply Nat.eq_of_testBit_eq
  intro i
  rw [Nat.testBit_and, Nat.testBit_mul_pow_two, Nat.testBit_mul_pow_two,
    Nat.testBit_two_pow_sub_one, Nat.testBit_mod_two_pow, ← Nat.shiftRight_eq_div_pow,
    Nat.testBit_shiftRight]
  by_cases h : i ≥ a
  · have hi : a + (i - a) = i := by omega
    rw [hi]
    cases y.testBit i <;> simp [h]
  · simp [h]

/-- The four masked fields of `imm13`, as quotients and remainders. -/
theorem Instruction.Decode_imm13_fields (value : Nat) :
    (value >>> 19) &&& 0x1000 = (value / 2 ^ 31 % 2) * 2 ^ 12
      ∧ (value >>> 20) &&& 0x7e0 = (value / 2 ^ 25 % 2 ^ 6) * 2 ^ 5
      ∧ (value >>> 7) &&& 0x1e = (value / 2 ^ 8 % 2 ^ 4) * 2 ^ 1
      ∧ ((value <<< 4) % 2 ^ 64) &&& 0x800 = (value / 2 ^ 7 % 2) * 2 ^ 11 := by
  have h1 := Nat.and_shifted_mask (value >>> 19) 12 1
  have h2 := Nat.and_shifted_mask (value >>> 20) 5 6
  have h3 := Nat.and_shifted_mask (value >>> 7) 1 4
  have h4 := Nat.and_shifted_mask ((value <<< 4) % 2 ^ 64) 11 1
  rw [Nat.shiftRight_eq_div_pow] at h1 h2 h3
  rw [Nat.shiftLeft_eq] at h4
  rw [Nat.shiftRight_eq_div_pow, Nat.shiftRight_eq_div_pow, Nat.shiftRight_eq_div_pow,
    Nat.shiftLeft_eq]
  norm_num at h1 h2 h3 h4 ⊢
  refine ⟨?_, ?_, ?_, ?_⟩
  · rw [h1]; omega
  · rw [h2]; omega
  · rw [h3]; omega
  · rw [h4]; omega

/-- C38: for every instruction word `w` (every value of the field `value`),
after `Instruction::Decode` the field `imm13_signed` equals the RISC-V B-type
branch offset of `w`: the two's-complement 13-bit value whose bit 12 is
`w[31]`, bits 10:5 are `w[30:25]`, bits 4:1 are `w[11:8]`, bit 11 is `w[7]`
and bit 0 is 0; it is even and lies in `[-4096, 4094]`. -/
theorem C38_imm13_signed_is_btype_offset (w : Nat) :
    Instruction.Decode_imm13_signed w = Instruction.btype_offset w
      ∧ Instruction.btype_offset w % 2 = 0
      ∧ -4096 ≤ Instruction.btype_offset w ∧ Instruction.btype_offset w ≤ 4094 := by
  obtain ⟨h1, h2, h3, h4⟩ := Instruction.Decode_imm13_fields w
  have hb31 : w / 2 ^ 31 % 2 < 2 := Nat.mod_lt _ (by decide)
  have hb7 : w / 2 ^ 7 % 2 < 2 := Nat.mod_lt _ (by decide)
  have hb25 : w / 2 ^ 25 % 2 ^ 6 < 2 ^ 6 := Nat.mod_lt _ (by decide)
  have hb8 : w / 2 ^ 8 % 2 ^ 4 < 2 ^ 4 := Nat.mod_lt _ (by decide)
  unfold Instruction.Decode_imm13_signed Instruction.Decode_imm13 Instruction.btype_offset
  rw [h1, h2, h3, h4]
  generalize w / 2 ^ 31 % 2 = a at hb31 ⊢
  generalize w / 2 ^ 7 % 2 = b at hb7 ⊢
  generalize w / 2 ^ 25 % 2 ^ 6 = c at hb25 ⊢
  generalize w / 2 ^ 8 % 2 ^ 4 = d at hb8 ⊢
  unfold toInt16
  have ha : a = 0 ∨ a = 1 := by omega
  rcases ha with ha | ha
  · subst ha
    rw [if_neg (by omega)]
    refine ⟨?_, ?_, ?_, ?_⟩
    · split <;> omega
    · omega
    · omega
    · omega
  · subst ha
    rw [if_pos rfl]
    refine ⟨?_, ?_, ?_, ?_⟩
    · split <;> omega
    · omega
    · omega
    · omega

/-! ## The power-of-two check of the configuration (C34) -/

/-- C34 (code at the failing input): the configuration file sets
`SectorSize = 0` and leaves `PageSize` at its default 128.  The constructor
completes, with `SectorSize = PageSize = 0`: `power_of_two(0)` is true, since
`0 & (0 - 1) == 0`, although 0 is not a power of two. -/
theorem C34_sector_size_zero_is_accepted :
    power_of_two 0 = true
      ∧ Config.Config_check 0 128 = some (0, 0)
      ∧ ∀ k : Nat, 2 ^ k ≠ 0 := by
  refine ⟨by decide, by decide, fun k => ?_⟩
  exact (Nat.two_pow_pos k).ne'

/-! ## The checks of the ELF header (C31) -/

/-- C31 (a header the claim rejects): on a little-endian host, a well-formed
32-bit header whose data-encoding byte is `ELFDATANONE` (0), which names no
byte order, is reported `NO_ERROR`: every value other than `ELFDATA2MSB` is
taken as little-endian. -/
theorem C31_ELFDATANONE_is_accepted :
    (SampleElf.header32 ELFDATANONE).e_ident EI_DATA = ELFDATANONE
      ∧ ElfFile.CheckELF32Header SampleElf.littleHost (SampleElf.header32 ELFDATANONE)
        = NO_ERROR
      ∧ ElfFile.CheckELF32Header SampleElf.littleHost (SampleElf.header32 77) = NO_ERROR := by
  decide

/-- The common checks report `NO_ERROR` exactly for the headers that pass
each of them, and one of the two error codes otherwise. -/
theorem ElfFile.CheckELFHeader_spec (en : Endianess) (ELFCLASS sizeof_Ehdr sizeof_Shdr : Nat)
    (elfHdr : Elf_Ehdr) :
    (ElfFile.CheckELFHeader en ELFCLASS sizeof_Ehdr sizeof_Shdr elfHdr = NO_ERROR ↔
        (elfHdr.e_ident EI_MAG0 = 0x7f ∧ elfHdr.e_ident EI_MAG1 = 'E'.toNat
          ∧ elfHdr.e_ident EI_MAG2 = 'L'.toNat ∧ elfHdr.e_ident EI_MAG3 = 'F'.toNat)
        ∧ elfHdr.e_ident EI_CLASS = ELFCLASS
        ∧ elfHdr.e_ident EI_VERSION = EV_CURRENT
        ∧ ((elfHdr.e_ident EI_DATA = ELFDATA2MSB ∧ en.host_endianess = en.IS_BIG_ENDIAN)
            ∨ (elfHdr.e_ident EI_DATA ≠ ELFDATA2MSB ∧ en.host_endianess = en.IS_LITTLE_ENDIAN))
        ∧ elfHdr.e_machine = EM_RISC
        ∧ elfHdr.e_type = ET_EXEC
        ∧ elfHdr.e_ehsize = sizeof_Ehdr ∧ elfHdr.e_shentsize = sizeof_Shdr
        ∧ sizeof_Ehdr ≤ elfHdr.e_shoff ∧ elfHdr.e_shstrndx < elfHdr.e_shnum)
      ∧ (ElfFile.CheckELFHeader en ELFCLASS sizeof_Ehdr sizeof_Shdr elfHdr = NO_ERROR
          ∨ ElfFile.CheckELFHeader en ELFCLASS sizeof_Ehdr sizeof_Shdr elfHdr
              = EXEC_FILE_FORMAT_ERROR
          ∨ ElfFile.CheckELFHeader en ELFCLASS sizeof_Ehdr sizeof_Shdr elfHdr
              = WRONG_FILE_ENDIANESS) := by
  unfold ElfFile.CheckELFHeader
  have hne1 : EXEC_FILE_FORMAT_ERROR ≠ NO_ERROR := by decide
  have hne2 : WRONG_FILE_ENDIANESS ≠ NO_ERROR := by decide
  by_cases hm : elfHdr.e_ident EI_MAG0 ≠ 0x7f ∨ elfHdr.e_ident EI_MAG1 ≠ 'E'.toNat
      ∨ elfHdr.e_ident EI_MAG2 ≠ 'L'.toNat ∨ elfHdr.e_ident EI_MAG3 ≠ 'F'.toNat
  · rw [if_pos hm]
    refine ⟨⟨fun h => absurd h hne1, fun h => ?_⟩, Or.inr (Or.inl rfl)⟩
    exfalso
    rcases hm with h0 | h1 | h2 | h3
    · exact h0 h.1.1
    · exact h1 h.1.2.1
    · exact h2 h.1.2.2.1
    · exact h3 h.1.2.2.2
  rw [if_neg hm]
  by_cases hc : elfHdr.e_ident EI_CLASS ≠ ELFCLASS ∨ elfHdr.e_ident EI_VERSION ≠ EV_CURRENT
  · rw [if_pos hc]
    refine ⟨⟨fun h => absurd h hne1, fun h => ?_⟩, Or.inr (Or.inl rfl)⟩
    exfalso
    rcases hc with h0 | h1
    · exact h0 h.2.1
    · exact h1 h.2.2.1
  rw [if_neg hc]
  dsimp only
  by_cases he : (if elfHdr.e_ident EI_DATA = ELFDATA2MSB then en.IS_BIG_ENDIAN
      else en.IS_LITTLE_ENDIAN) ≠ en.host_endianess
  · rw [if_pos he]
    refine ⟨⟨fun h => absurd h hne2, fun h => ?_⟩, Or.inr (Or.inr rfl)⟩
    exfalso
    apply he
    rcases h.2.2.2.1 with ⟨hd, hh⟩ | ⟨hd, hh⟩
    · rw [if_pos hd, hh]
    · rw [if_neg hd, hh]
  rw [if_neg he]
  by_cases hx : elfHdr.e_machine ≠ EM_RISC ∨ elfHdr.e_type ≠ ET_EXEC
  · rw [if_pos hx]
    refine ⟨⟨fun h => absurd h hne1, fun h => ?_⟩, Or.inr (Or.inl rfl)⟩
    exfalso
    rcases hx with h0 | h1
    · exact h0 h.2.2.2.2.1
    · exact h1 h.2.2.2.2.2.1
  rw [if_neg hx]
  by_cases hs : elfHdr.e_ehsize ≠ sizeof_Ehdr ∨ elfHdr.e_shentsize ≠ sizeof_Shdr
  · rw [if_pos hs]
    refine ⟨⟨fun h => absurd h hne1, fun h => ?_⟩, Or.inr (Or.inl rfl)⟩
    exfalso
    rcases hs with h0 | h1
    · exact h0 h.2.2.2.2.2.2.1
    · exact h1 h.2.2.2.2.2.2.2.1
  rw [if_neg hs]
  by_cases ho : elfHdr.e_shoff < sizeof_Ehdr
  · rw [if_pos ho]
    refine ⟨⟨fun h => absurd h hne1, fun h => ?_⟩, Or.inr (Or.inl rfl)⟩
    exact absurd h.2.2.2.2.2.2.2.2.1 (by omega)
  rw [if_neg ho]
  by_cases hn : elfHdr.e_shstrndx ≥ elfHdr.e_shnum
  · rw [if_pos hn]
    refine ⟨⟨fun h => absurd h hne1, fun h => ?_⟩, Or.inr (Or.inl rfl)⟩
    exact absurd h.2.2.2.2.2.2.2.2.2 (by omega)
  rw [if_neg hn]
  refine ⟨⟨fun _ => ?_, fun _ => rfl⟩, Or.inl rfl⟩
  have hm' : elfHdr.e_ident EI_MAG0 = 0x7f ∧ elfHdr.e_ident EI_MAG1 = 'E'.toNat
      ∧ elfHdr.e_ident EI_MAG2 = 'L'.toNat ∧ elfHdr.e_ident EI_MAG3 = 'F'.toNat := by
    refine ⟨?_, ?_, ?_, ?_⟩
    · by_contra h; exact hm (Or.inl h)
    · by_contra h; exact hm (Or.inr (Or.inl h))
    · by_contra h; exact hm (Or.inr (Or.inr (Or.inl h)))
    · by_contra h; exact hm (Or.inr (Or.inr (Or.inr h)))
  have hc1 : elfHdr.e_ident EI_CLASS = ELFCLASS := by
    by_contra h; exact hc (Or.inl h)
  have hc2 : elfHdr.e_ident EI_VERSION = EV_CURRENT := by
    by_contra h; exact hc (Or.inr h)
  have he' : (if elfHdr.e_ident EI_DATA = ELFDATA2MSB then en.IS_BIG_ENDIAN
      else en.IS_LITTLE_ENDIAN) = en.host_endianess := by
    by_contra h; exact he h
  have hx1 : elfHdr.e_machine = EM_RISC := by
    by_contra h; exact hx (Or.inl h)
  have hx2 : elfHdr.e_type = ET_EXEC := by
    by_contra h; exact hx (Or.inr h)
  have hs1 : elfHdr.e_ehsize = sizeof_Ehdr := by
    by_contra h; exact hs (Or.inl h)
  have hs2 : elfHdr.e_shentsize = sizeof_Shdr := by
    by_contra h; exact hs (Or.inr h)
  refine ⟨hm', hc1, hc2, ?_, hx1, hx2, hs1, hs2, by omega, by omega⟩
  by_cases hd : elfHdr.e_ident EI_DATA = ELFDATA2MSB
  · rw [if_pos hd] at he'
    exact Or.inl ⟨hd, he'.symm⟩
  · rw [if_neg hd] at he'
    exact Or.inr ⟨hd, he'.symm⟩

/-- C31 (amended): `CheckELF32Header` and `CheckELF64Header` report `NO_ERROR`
exactly for the headers whose magic is `0x7f 'E' 'L' 'F'`, whose class byte
matches the header width, whose version byte is `EV_CURRENT`, whose
data-encoding byte is `ELFDATA2MSB` on a big-endian host and is anything else
on a little-endian host (`ELFDATA2LSB`, but also `ELFDATANONE` or an unknown
value), whose machine is `EM_RISC`, whose type is `ET_EXEC`, and whose sizes
`e_ehsize` and `e_shentsize`, offset `e_shoff` and index `e_shstrndx` are
consistent; every other header is reported `EXEC_FILE_FORMAT_ERROR` or
`WRONG_FILE_ENDIANESS`. -/
theorem C31_CheckELFHeader (en : Endianess) (elfHdr : Elf_Ehdr) :
    ((ElfFile.CheckELF32Header en elfHdr = NO_ERROR ↔
        (elfHdr.e_ident EI_MAG0 = 0x7f ∧ elfHdr.e_ident EI_MAG1 = 'E'.toNat
          ∧ elfHdr.e_ident EI_MAG2 = 'L'.toNat ∧ elfHdr.e_ident EI_MAG3 = 'F'.toNat)
        ∧ elfHdr.e_ident EI_CLASS = ELFCLASS32
        ∧ elfHdr.e_ident EI_VERSION = EV_CURRENT
        ∧ ((elfHdr.e_ident EI_DATA = ELFDATA2MSB ∧ en.host_endianess = en.IS_BIG_ENDIAN)
            ∨ (elfHdr.e_ident EI_DATA ≠ ELFDATA2MSB ∧ en.host_endianess = en.IS_LITTLE_ENDIAN))
        ∧ elfHdr.e_machine = EM_RISC
        ∧ elfHdr.e_type = ET_EXEC
        ∧ elfHdr.e_ehsize = 52 ∧ elfHdr.e_shentsize = 40
        ∧ 52 ≤ elfHdr.e_shoff ∧ elfHdr.e_shstrndx < elfHdr.e_shnum)
      ∧ (ElfFile.CheckELF32Header en elfHdr = NO_ERROR
          ∨ ElfFile.CheckELF32Header en elfHdr = EXEC_FILE_FORMAT_ERROR
          ∨ ElfFile.CheckELF32Header en elfHdr = WRONG_FILE_ENDIANESS))
    ∧ ((ElfFile.CheckELF64Header en elfHdr = NO_ERROR ↔
        (elfHdr.e_ident EI_MAG0 = 0x7f ∧ elfHdr.e_ident EI_MAG1 = 'E'.toNat
          ∧ elfHdr.e_ident EI_MAG2 = 'L'.toNat ∧ elfHdr.e_ident EI_MAG3 = 'F'.toNat)
        ∧ elfHdr.e_ident EI_CLASS = ELFCLASS64
        ∧ elfHdr.e_ident EI_VERSION = EV_CURRENT
        ∧ ((elfHdr.e_ident EI_DATA = ELFDATA2MSB ∧ en.host_endianess = en.IS_BIG_ENDIAN)
            ∨ (elfHdr.e_ident EI_DATA ≠ ELFDATA2MSB ∧ en.host_endianess = en.IS_LITTLE_ENDIAN))
        ∧ elfHdr.e_machine = EM_RISC
        ∧ elfHdr.e_type = ET_EXEC
        ∧ elfHdr.e_ehsize = 64 ∧ elfHdr.e_shentsize = 64
        ∧ 64 ≤ elfHdr.e_shoff ∧ elfHdr.e_shstrndx < elfHdr.e_shnum)
      ∧ (ElfFile.CheckELF64Header en elfHdr = NO_ERROR
          ∨ ElfFile.CheckELF64Header en elfHdr = EXEC_FILE_FORMAT_ERROR
          ∨ ElfFile.CheckELF64Header en elfHdr = WRONG_FILE_ENDIANESS)) :=
  ⟨ElfFile.CheckELFHeader_spec en ELFCLASS32 52 40 elfHdr,
    ElfFile.CheckELFHeader_spec en ELFCLASS64 64 64 elfHdr⟩

/-- C31 at concrete inputs: on a little-endian host the sample 32-bit header
with data-encoding byte `ELFDATA2LSB` is reported `NO_ERROR`, and it is not
reported `NO_ERROR` by `CheckELF64Header`, its class byte being
`ELFCLASS32`. -/
theorem C31_CheckELFHeader_witness :
    ElfFile.CheckELF32Header SampleElf.littleHost (SampleElf.header32 ELFDATA2LSB) = NO_ERROR
      ∧ ElfFile.CheckELF64Header SampleElf.littleHost (SampleElf.header32 ELFDATA2LSB)
        ≠ NO_ERROR :=
  ⟨(C31_CheckELFHeader SampleElf.littleHost (SampleElf.header32 ELFDATA2LSB)).1.1.mpr
      (by decide),
    fun h =>
      absurd ((C31_CheckELFHeader SampleElf.littleHost
        (SampleElf.header32 ELFDATA2LSB)).2.1.mp h).2.1 (by decide)⟩

/-! ## Print (C32) -/

/-- The number read by `%x` for a byte of the file. -/
theorem Print_promote_toNat (char_signed : Bool) (b : Nat) (hb : b < 256) :
    (Print_promote char_signed b % 2 ^ 32).toNat
      = if char_signed = true ∧ 128 ≤ b then 2 ^ 32 - 256 + b else b := by
  unfold Print_promote toChar
  cases char_signed
  · simp only [Bool.false_eq_true, if_false, false_and]
    omega
  · simp only [if_true, true_and]
    split <;> split <;> omega

/-- A list is its first `k` items followed by what is left after as many
items as were taken. -/
theorem List.take_append_drop_length_take {α : Type} (l : List α) (k : Nat) :
    l.take k ++ l.drop (l.take k).length = l := by
  rw [List.length_take]
  by_cases h : k ≤ l.length
  · rw [Nat.min_eq_left h, List.take_append_drop]
  · rw [Nat.min_eq_right (by omega), List.drop_length, List.append_nil,
      List.take_of_length_le (by omega)]

/-- The loop of `Print`, given at least one turn more than there are bytes
left, writes the bytes left in order. -/
theorem Print_loop_spec (char_signed : Bool) (contents : List Nat) (n : Nat) :
    ∀ (seekPosition : Nat) (out : List Char), contents.length - seekPosition < n →
      Print_loop char_signed contents n seekPosition out
        = some (out ++ ((contents.drop seekPosition).map
            (fun b => printf_1x (Print_promote char_signed b))).flatten) := by
  induction n with
  | zero =>
      intro seekPosition out h
      omega
  | succ n ih =>
      intro seekPosition out h
      unfold Print_loop OpenFile.Read
      by_cases hlen : ((contents.drop seekPosition).take TransferSize).length > 0
      · rw [if_pos hlen]
        have hpos : seekPosition < contents.length := by
          by_contra hc
          rw [List.drop_eq_nil_of_le (by omega)] at hlen
          simp at hlen
        rw [ih _ _ (by omega), List.append_assoc, ← List.flatten_append, ← List.map_append,
          ← List.drop_drop]
        rw [List.take_append_drop_length_take]
      · rw [if_neg hlen]
        have hnil : contents.drop seekPosition = [] := by
          cases hd : contents.drop seekPosition with
          | nil => rfl
          | cons a l =>
              rw [hd] at hlen
              simp [TransferSize] at hlen
        rw [hnil]
        simp

/-- The output of `Print` for every Nachos file, given by its bytes: for each
byte of the file in order one number in lowercase hexadecimal without leading
zeros followed by one space.  The number is the value 0..255 of the byte where
plain `char` is unsigned, and for the bytes `0x00..0x7f`; where plain `char`
is signed, a byte `b` in `0x80..0xff` is written as the 32-bit number
`0xffffff00 + b` (`ffffff80` to `ffffffff`). -/
theorem Print_output (char_signed : Bool) (contents : List Nat)
    (hbytes : ∀ b ∈ contents, b < 256) :
    Print char_signed contents
      = some ((contents.map (fun b =>
          Nat.toDigits 16 (if char_signed = true ∧ 128 ≤ b then 2 ^ 32 - 256 + b else b)
            ++ [' '])).flatten) := by
  unfold Print
  rw [Print_loop_spec char_signed contents _ 0 [] (by omega), List.drop_zero, List.nil_append]
  congr 2
  apply List.map_congr_left
  intro b hb
  unfold printf_1x
  rw [Print_promote_toNat char_signed b (hbytes b hb)]

/-- The file of the four bytes `0x00 0x7f 0x80 0xff` is printed as
`0 7f ffffff80 ffffffff ` where plain `char` is signed, and as `0 7f 80 ff `
where it is unsigned. -/
theorem Print_output_sample :
    Print true [0x00, 0x7f, 0x80, 0xff] = some "0 7f ffffff80 ffffffff ".toList
      ∧ Print false [0x00, 0x7f, 0x80, 0xff] = some "0 7f 80 ff ".toList := by
  refine ⟨?_, ?_⟩
  · rw [Print_output true [0x00, 0x7f, 0x80, 0xff] (by decide)]
    decide
  · rw [Print_output false [0x00, 0x7f, 0x80, 0xff] (by decide)]
    decide

set_option maxRecDepth 100000 in
/-- C32 (code at the failing input): on a host where plain `char` is signed,
for the file holding the 256 bytes `0x00..0xff`, the output has 1520
characters, starts with `0 1 2 ` and goes on as the claim says up to `7f `,
but the byte `0x80` is written `ffffff80 ` and the last token is `ffffffff`,
not `ff`: the `char` of `buffer[i]` is sign-extended before `%x` reads it. -/
theorem C32_Print_sign_extends :
    (Print true (List.range 256)).map
        (fun out => (out.length, out.take 6, (out.drop 365).take 12, out.drop (out.length - 9)))
      = some (1520, "0 1 2 ".toList, "7f ffffff80 ".toList, "ffffffff ".toList) := by
  decide

/-! ## Frames obtained for a program and its stacks are locked (C39) -/

/-- A property of the states that every page-mapping step keeps is kept by
the loop of `StackAllocate`. -/
theorem AddrSpace.StackAllocate_loop_keeps (cfg : VMConfig) (hN : cfg.NumPhysPages ≤ 2 ^ 31)
    (this : Nat) (Inv : VM → Prop)
    (hstep : ∀ (k k' : VM) (i : Nat), AddrSpace.MapsPage cfg this k i k' → Inv k → Inv k')
    (n : Nat) :
    ∀ (i : Nat) (k k' : VM), AddrSpace.StackAllocate_loop cfg this n i k = some k' →
      Inv k → Inv k' := by
  induction n with
  | zero =>
      intro i k k' h hb
      simp only [AddrSpace.StackAllocate_loop, Option.some.injEq] at h
      rw [← h]
      exact hb
  | succ n ih =>
      intro i k k' h hb
      simp only [AddrSpace.StackAllocate_loop] at h
      cases hpage : AddrSpace.StackAllocate_page cfg this k i with
      | none => simp [hpage] at h
      | some k1 =>
          simp only [hpage] at h
          exact ih (i + 1) k1 k' h
            (hstep k k1 i (AddrSpace.StackAllocate_page_MapsPage cfg hN this k k1 i hpage) hb)

/-- A property of the states that every page-mapping step keeps is kept by
the page loop of the constructor. -/
theorem AddrSpace.loadSection_loop_keeps (cfg : VMConfig) (hN : cfg.NumPhysPages ≤ 2 ^ 31)
    (this : Nat) (Inv : VM → Prop)
    (hstep : ∀ (k k' : VM) (i : Nat), AddrSpace.MapsPage cfg this k i k' → Inv k → Inv k')
    (exec_file : Executable) (sec : ElfSection) (n : Nat) :
    ∀ (pgdisk virt_page : Nat) (k k' : VM),
      AddrSpace.loadSection_loop cfg this exec_file sec n pgdisk virt_page k = some k' →
      Inv k → Inv k' := by
  induction n with
  | zero =>
      intro pgdisk virt_page k k' h hb
      simp only [AddrSpace.loadSection_loop, Option.some.injEq] at h
      rw [← h]
      exact hb
  | succ n ih =>
      intro pgdisk virt_page k k' h hb
      simp only [AddrSpace.loadSection_loop] at h
      cases hpage : AddrSpace.loadPage cfg this exec_file sec k pgdisk virt_page with
      | none => simp [hpage] at h
      | some k1 =>
          simp only [hpage] at h
          exact ih _ _ k1 k' h
            (hstep k k1 virt_page
              (AddrSpace.loadPage_MapsPage cfg hN this exec_file sec k k1 pgdisk virt_page hpage)
              hb)

/-- A property of the states that every page-mapping step keeps is kept by
the section loop of the constructor. -/
theorem AddrSpace.loadSections_keeps (cfg : VMConfig) (hN : cfg.NumPhysPages ≤ 2 ^ 31)
    (this : Nat) (Inv : VM → Prop)
    (hstep : ∀ (k k' : VM) (i : Nat), AddrSpace.MapsPage cfg this k i k' → Inv k → Inv k')
    (exec_file : Executable) (sections : List ElfSection) :
    ∀ (k k' : VM), sections.foldlM (AddrSpace.loadSection cfg this exec_file) k = some k' →
      Inv k → Inv k' := by
  induction sections with
  | nil =>
      intro k k' h hb
      simp only [List.foldlM_nil, Option.pure_def, Option.some.injEq] at h
      rw [← h]
      exact hb
  | cons sec sections ih =>
      intro k k' h hb
      simp only [List.foldlM_cons, Option.bind_eq_bind, Option.bind_eq_some] at h
      obtain ⟨k1, h1, h2⟩ := h
      refine ih k1 k' h2 ?_
      unfold AddrSpace.loadSection at h1
      split at h1
      · simp only [Option.some.injEq] at h1
        rw [← h1]
        exact hb
      · split at h1
        · simp only [Option.some.injEq] at h1
          rw [← h1]
          exact hb
        · split at h1
          · cases h1
          · exact AddrSpace.loadSection_loop_keeps cfg hN this Inv hstep exec_file sec _ _ _ k k1
              h1 hb

/-- A property of the states that depends only on the frame table and on the
translation table of `this`, that holds with a fresh translation table and
that every page-mapping step keeps, holds after the constructor. -/
theorem AddrSpace.new_keeps (cfg : VMConfig) (hN : cfg.NumPhysPages ≤ 2 ^ 31)
    (this : Nat) (Inv : VM → Prop)
    (hstep : ∀ (k k' : VM) (i : Nat), AddrSpace.MapsPage cfg this k i k' → Inv k → Inv k')
    (hsame : ∀ k k' : VM, k'.g_physical_mem_manager = k.g_physical_mem_manager →
      (k'.addrspace this).translationTable = (k.addrspace this).translationTable →
      Inv k → Inv k')
    (k0 k : VM) (exec_file : Option Executable)
    (hfresh : ∀ k1 : VM, k1.g_physical_mem_manager = k0.g_physical_mem_manager →
      (k1.addrspace this).translationTable = some (TranslationTable.new cfg) → Inv k1)
    (h : AddrSpace.new cfg k0 this exec_file = some k) : Inv k := by
  unfold AddrSpace.new at h
  cases exec_file with
  | none =>
      simp only [Option.some.injEq] at h
      apply hfresh
      · rw [← h]
      · rw [← h]
        simp only [Function.update_same]
  | some exec_file =>
      dsimp only at h
      by_cases h1 : exec_file.EI_CLASS ≠ ELFCLASS32 ∧ exec_file.EI_CLASS ≠ ELFCLASS64
      · rw [if_pos h1] at h
        cases h
      · rw [if_neg h1] at h
        by_cases h2 : exec_file.err ≠ NO_ERROR
        · rw [if_pos h2] at h
          cases h
        · rw [if_neg h2] at h
          cases halloc : AddrSpace.Alloc ⟨some (TranslationTable.new cfg), 0, 0, 0⟩
              (toInt32 ((divRoundUp64 (AddrSpace.mem_topaddr exec_file.sections)
                cfg.PageSize : Nat) : Int)) with
          | none =>
              rw [halloc] at h
              cases h
          | some r =>
              obtain ⟨base_addr, a⟩ := r
              rw [halloc] at h
              dsimp only at h
              by_cases h3 : base_addr ≠ 0
              · rw [if_pos h3] at h
                cases h
              · rw [if_neg h3] at h
                have htt := AddrSpace.Alloc_translationTable _ _ _ _ halloc
                cases hload : List.foldlM (AddrSpace.loadSection cfg this exec_file)
                    (⟨k0.g_physical_mem_manager, Function.update k0.addrspace this a,
                      k0.mainMemory, k0.numMemoryAccess⟩ : VM) exec_file.sections with
                | none =>
                    rw [hload] at h
                    cases h
                | some k1 =>
                    rw [hload] at h
                    dsimp only at h
                    have hk : k = ⟨k1.g_physical_mem_manager,
                        Function.update k1.addrspace this
                          ⟨(k1.addrspace this).translationTable, (k1.addrspace this).freePageId,
                            toInt32 (exec_file.entry : Int), 0⟩,
                        k1.mainMemory, k1.numMemoryAccess⟩ := (Option.some.inj h).symm
                    have h1 := AddrSpace.loadSections_keeps cfg hN this Inv hstep exec_file
                      exec_file.sections _ k1 hload
                      (hfresh _ rfl
                        (by dsimp only; rw [Function.update_same]; exact htt))
                    refine hsame k1 k ?_ ?_ h1
                    · rw [hk]
                    · rw [hk]
                      dsimp only
                      rw [Function.update_same]

/-- A property of the states that depends only on the frame table and on the
translation table of `this` and that every page-mapping step keeps is kept by
`StackAllocate`. -/
theorem AddrSpace.StackAllocate_keeps (cfg : VMConfig) (hN : cfg.NumPhysPages ≤ 2 ^ 31)
    (this : Nat) (Inv : VM → Prop)
    (hstep : ∀ (k k' : VM) (i : Nat), AddrSpace.MapsPage cfg this k i k' → Inv k → Inv k')
    (hsame : ∀ k k' : VM, k'.g_physical_mem_manager = k.g_physical_mem_manager →
      (k'.addrspace this).translationTable = (k.addrspace this).translationTable →
      Inv k → Inv k')
    (k k' : VM) (stackpointer : Int)
    (h : AddrSpace.StackAllocate cfg k this = some (stackpointer, k'))
    (hb : Inv k) : Inv k' := by
  obtain ⟨blankaddr, stackBasePage, a1, a2, halloc1, halloc2, _, hloop, _⟩ :=
    AddrSpace.StackAllocate_cases cfg this k k' stackpointer h
  refine AddrSpace.StackAllocate_loop_keeps cfg hN this Inv hstep _ _ _ k' hloop ?_
  refine hsame k _ rfl ?_ hb
  dsimp only
  rw [Function.update_same, AddrSpace.Alloc_translationTable _ _ _ _ halloc2,
    AddrSpace.Alloc_translationTable _ _ _ _ halloc1]

/-- A page-mapping step takes a free frame and leaves it locked. -/
theorem AddrSpace.takesLocked_step (cfg : VMConfig) (this : Nat) (k0 k k' : VM) (i : Nat)
    (hm : AddrSpace.MapsPage cfg this k i k') (hb : AddrSpace.TakesLocked this k0 k) :
    AddrSpace.TakesLocked this k0 k' := by
  obtain ⟨p, rest, tt, e, _, _, hfree, _, hpm, _, _, _⟩ := hm
  intro f
  rw [hpm]
  by_cases hf : f = p
  · subst hf
    right
    rcases hb f with h | h
    · refine ⟨?_, ?_, ?_, ?_⟩
      · rw [← h]
        exact hfree
      · simp only [Function.update_same]
      · simp only [Function.update_same]
      · simp only [Function.update_same]
    · rw [h.2.1] at hfree
      cases hfree
  · simp only [Function.update_noteq hf]
    exact hb f

/-- A page-mapping step keeps the frames of the valid pages locked. -/
theorem AddrSpace.lockedLinked_step (cfg : VMConfig) (this : Nat) (k k' : VM) (i : Nat)
    (hm : AddrSpace.MapsPage cfg this k i k') (hb : AddrSpace.LockedLinked this k) :
    AddrSpace.LockedLinked this k' := by
  obtain ⟨p, rest, tt, e, _, _, hfree, htt, hpm, htt', _, hph⟩ := hm
  intro tt' h' vp hvalid
  rw [htt'] at h'
  simp only [Option.some.injEq] at h'
  subst h'
  rw [hpm]
  by_cases hvp : vp = i
  · subst hvp
    refine ⟨p, ?_, ?_, ?_⟩
    · simp only [Function.update_same, hph]
    · simp only [Function.update_same]
    · simp only [Function.update_same]
  · simp only [Function.update_noteq hvp] at hvalid ⊢
    obtain ⟨q, hq, hqf, hql⟩ := hb tt htt vp hvalid
    have hqp : q ≠ p := by
      intro hEq
      rw [hEq, hfree] at hqf
      cases hqf
    exact ⟨q, hq, by simp only [Function.update_noteq hqp, hqf],
      by simp only [Function.update_noteq hqp, hql]⟩

/-- The frames of the valid pages depend only on the frame table and on the
translation table. -/
theorem AddrSpace.lockedLinked_of_same (this : Nat) (k k' : VM)
    (hpm : k'.g_physical_mem_manager = k.g_physical_mem_manager)
    (htt : (k'.addrspace this).translationTable = (k.addrspace this).translationTable)
    (hb : AddrSpace.LockedLinked this k) : AddrSpace.LockedLinked this k' := by
  intro tt h' vp hvalid
  rw [htt] at h'
  rw [hpm]
  exact hb tt h' vp hvalid

/-- With a fresh translation table no page is valid. -/
theorem AddrSpace.lockedLinked_fresh (cfg : VMConfig) (this : Nat) (k : VM)
    (h : (k.addrspace this).translationTable = some (TranslationTable.new cfg)) :
    AddrSpace.LockedLinked this k := by
  intro tt htt vp hvalid
  rw [h] at htt
  simp only [Option.some.injEq] at htt
  subst htt
  simp [TranslationTable.new, PageTableEntry.new] at hvalid

/-- In every state in which the address space has been constructed and
`StackAllocate` called on it any number of times, the frames of its valid
pages are locked. -/
theorem AddrSpace.lockedLinked_of_Built (cfg : VMConfig) (hN : cfg.NumPhysPages ≤ 2 ^ 31)
    (this : Nat) (k : VM) (h : AddrSpace.Built cfg this k) : AddrSpace.LockedLinked this k := by
  induction h with
  | @ctor k0 k exec_file hnew =>
      exact AddrSpace.new_keeps cfg hN this (AddrSpace.LockedLinked this)
        (fun k k' i => AddrSpace.lockedLinked_step cfg this k k' i)
        (AddrSpace.lockedLinked_of_same this) k0 k exec_file
        (fun k1 _ h1 => AddrSpace.lockedLinked_fresh cfg this k1 h1) hnew
  | @stack k k' sp _ hstack ih =>
      exact AddrSpace.StackAllocate_keeps cfg hN this (AddrSpace.LockedLinked this)
        (fun k k' i => AddrSpace.lockedLinked_step cfg this k k' i)
        (AddrSpace.lockedLinked_of_same this) k k' sp hstack ih

/-- C39: when the constructor of the address space at `this` or
`StackAllocate` returns, every frame of the machine either keeps its entry or
was free before and is now not free, locked and owned by this address space:
each frame the operation obtained still has `locked = true`.  So in every state
in which the address space has been constructed and `StackAllocate` called on
it any number of times, each valid page of the address space refers to a frame
that is not free and is locked (frame numbers fit an `int`:
`NumPhysPages ≤ 2^31`). -/
theorem C39_obtained_frames_stay_locked (cfg : VMConfig) (hN : cfg.NumPhysPages ≤ 2 ^ 31)
    (this : Nat) (k k' : VM) :
    (∀ exec_file : Option Executable, AddrSpace.new cfg k this exec_file = some k' →
        ∀ f : Nat,
          k'.g_physical_mem_manager.tpr f = k.g_physical_mem_manager.tpr f
            ∨ ((k.g_physical_mem_manager.tpr f).free = true
                ∧ (k'.g_physical_mem_manager.tpr f).free = false
                ∧ (k'.g_physical_mem_manager.tpr f).locked = true
                ∧ (k'.g_physical_mem_manager.tpr f).owner = some this))
      ∧ (∀ stackpointer : Int, AddrSpace.StackAllocate cfg k this = some (stackpointer, k') →
        ∀ f : Nat,
          k'.g_physical_mem_manager.tpr f = k.g_physical_mem_manager.tpr f
            ∨ ((k.g_physical_mem_manager.tpr f).free = true
                ∧ (k'.g_physical_mem_manager.tpr f).free = false
                ∧ (k'.g_physical_mem_manager.tpr f).locked = true
                ∧ (k'.g_physical_mem_manager.tpr f).owner = some this))
      ∧ (AddrSpace.Built cfg this k →
        ∀ tt, (k.addrspace this).translationTable = some tt →
          ∀ vp, (tt.pageTable vp).valid = true →
            ∃ p : Nat, (tt.pageTable vp).physicalPage = (p : Int)
              ∧ (k.g_physical_mem_manager.tpr p).free = false
              ∧ (k.g_physical_mem_manager.tpr p).locked = true) := by
  have hsame : ∀ k1 k2 : VM, k2.g_physical_mem_manager = k1.g_physical_mem_manager →
      (k2.addrspace this).translationTable = (k1.addrspace this).translationTable →
      AddrSpace.TakesLocked this k k1 → AddrSpace.TakesLocked this k k2 := by
    intro k1 k2 hpm _ h f
    rw [hpm]
    exact h f
  refine ⟨?_, ?_, ?_⟩
  · intro exec_file hnew
    exact AddrSpace.new_keeps cfg hN this (AddrSpace.TakesLocked this k)
      (fun k1 k2 i => AddrSpace.takesLocked_step cfg this k k1 k2 i) hsame k k' exec_file
      (fun k1 hpm _ f => Or.inl (by rw [hpm])) hnew
  · intro stackpointer hstack
    exact AddrSpace.StackAllocate_keeps cfg hN this (AddrSpace.TakesLocked this k)
      (fun k1 k2 i => AddrSpace.takesLocked_step cfg this k k1 k2 i) hsame k k' stackpointer
      hstack (fun f => Or.inl rfl)
  · intro hbuilt
    exact AddrSpace.lockedLinked_of_Built cfg hN this k hbuilt

/-- C39 on the sample machine: the constructor of the address space at address
7 takes frame 0, which was free, and leaves it locked; `StackAllocate` then
takes the frames 1 and 2 and leaves them locked; frame 3 is never taken and
stays free and unlocked. -/
theorem C39_obtained_frames_stay_locked_witness :
    ((SampleVM.boot.g_physical_mem_manager.tpr 0).free = true
      ∧ (SampleVM.built.g_physical_mem_manager.tpr 0).free = false
      ∧ (SampleVM.built.g_physical_mem_manager.tpr 0).locked = true)
    ∧ (List.range 4).map (fun f => ((SampleVM.stacked.2.g_physical_mem_manager.tpr f).free,
        (SampleVM.stacked.2.g_physical_mem_manager.tpr f).locked))
      = [(false, true), (false, true), (false, true), (true, false)] := by
  have h := (C39_obtained_frames_stay_locked SampleVM.cfg (by decide) 7 SampleVM.boot
    SampleVM.built).1 (some SampleVM.exec) rfl 0
  refine ⟨?_, by decide⟩
  rcases h with h | h
  · exact absurd (congrArg tpr_c.free h) (by decide)
  · exact ⟨h.1, h.2.1, h.2.2.1⟩

/-! ## A closed file identifier stays invalid (C35) -/

/-- The counter after an increment: it stays a 32-bit `int`, and unless it
wraps to a negative value it is the successor. -/
theorem toInt32_succ (L : Int) (h0 : 0 ≤ L) (h1 : L < 2 ^ 31) :
    toInt32 (L + 1) < 2 ^ 31 ∧ (0 ≤ toInt32 (L + 1) → toInt32 (L + 1) = L + 1) := by
  unfold toInt32
  omega

/-- A 64-bit register whose low 32 bits read as an `int` of at least 3 is
neither 0 nor 1, also as a `uint64_t`. -/
theorem toInt32_ge_three (d : Int) (h : 3 ≤ toInt32 d) :
    d ≠ 0 ∧ d ≠ 1 ∧ d % 2 ^ 64 > 1 % 2 ^ 64 := by
  unfold toInt32 at h
  omega

/-- The pairs of a map after an assignment are the pair assigned and pairs of
the map before. -/
theorem ObjAddr.mem_assign (ids : List (Int × Nat)) (id : Int) (ptr : Nat) (e : Int × Nat)
    (h : e ∈ ObjAddr.assign ids id ptr) : e = (id, ptr) ∨ e ∈ ids := by
  induction ids with
  | nil =>
      simp only [ObjAddr.assign, List.mem_singleton] at h
      exact Or.inl h
  | cons a rest ih =>
      obtain ⟨i, p⟩ := a
      simp only [ObjAddr.assign] at h
      split at h
      · rcases List.mem_cons.mp h with h1 | h1
        · exact Or.inl h1
        · exact Or.inr h1
      · split at h
        · rcases List.mem_cons.mp h with h1 | h1
          · exact Or.inl h1
          · exact Or.inr (List.mem_cons_of_mem _ h1)
        · rcases List.mem_cons.mp h with h1 | h1
          · exact Or.inr (by rw [h1]; exact List.mem_cons_self _ _)
          · rcases ih h1 with h2 | h2
            · exact Or.inl h2
            · exact Or.inr (List.mem_cons_of_mem _ h2)

/-- `SearchObject` finds nothing under an identifier that no pair carries, and
what it finds is the object of a pair of the map. -/
theorem ObjAddr.SearchObject_spec (o : ObjAddr) (id : Int) :
    ((∀ e ∈ o.ids, e.1 ≠ id) → o.SearchObject id = none)
      ∧ (∀ p : Nat, o.SearchObject id = some p → ∃ e ∈ o.ids, e.1 = id) := by
  unfold ObjAddr.SearchObject
  refine ⟨fun h => ?_, fun p hp => ?_⟩
  · rw [List.find?_eq_none.mpr (fun e he => by simpa using h e he)]
    rfl
  · cases hf : o.ids.find? (fun e => decide (e.1 = id)) with
    | none =>
        rw [hf] at hp
        cases hp
    | some e =>
        exact ⟨e, List.mem_of_find?_eq_some hf, by simpa using List.find?_some hf⟩

/-- The removals keep only pairs of the map. -/
theorem ObjAddr.mem_RemoveObjectPtr (o : ObjAddr) (ptr : Nat) (e : Int × Nat)
    (h : e ∈ (o.RemoveObjectPtr ptr).ids) : e ∈ o.ids := by
  unfold ObjAddr.RemoveObjectPtr at h
  split at h
  · exact h
  · split at h
    · exact (List.mem_filter.mp h).1
    · exact h

/-- A retired identifier stays retired along any run of calls on the
registry. -/
theorem ObjAddr.retired_of_run (id : Int) (ops : List ObjOp) :
    ∀ (o o' : ObjAddr) (ids : List Int), ObjAddr.Retired id o →
      ObjAddr.run o ops = some (ids, o') → ObjAddr.Retired id o' := by
  induction ops with
  | nil =>
      intro o o' ids hr h
      simp only [ObjAddr.run, Option.some.injEq, Prod.mk.injEq] at h
      rw [← h.2]
      exact hr
  | cons op ops ih =>
      intro o o' ids hr h
      cases op with
      | AddObject ptr =>
          simp only [ObjAddr.run] at h
          cases hadd : o.AddObject ptr with
          | none =>
              rw [hadd] at h
              cases h
          | some r =>
              obtain ⟨newid, o1⟩ := r
              rw [hadd] at h
              dsimp only at h
              cases hrun : ObjAddr.run o1 ops with
              | none =>
                  rw [hrun] at h
                  cases h
              | some r2 =>
                  obtain ⟨ids2, o2⟩ := r2
                  rw [hrun] at h
                  dsimp only at h
                  have ho : o2 = o' := (Prod.mk.inj (Option.some.inj h)).2
                  rw [← ho]
                  refine ih o1 o2 ids2 ?_ hrun
                  unfold ObjAddr.AddObject at hadd
                  by_cases hneg : o.last_id < 0
                  · rw [if_pos hneg] at hadd
                    cases hadd
                  · rw [if_neg hneg] at hadd
                    have ho1 : (⟨toInt32 (o.last_id + 1),
                        ObjAddr.assign o.ids o.last_id ptr⟩ : ObjAddr) = o1 :=
                      (Prod.mk.inj (Option.some.inj hadd)).2
                    obtain ⟨hids, hlt, hbound⟩ := hr
                    obtain ⟨hs1, hs2⟩ := toInt32_succ o.last_id (by omega) hbound
                    rw [← ho1]
                    refine ⟨?_, ?_, hs1⟩
                    · intro e he
                      rcases ObjAddr.mem_assign _ _ _ _ he with h1 | h1
                      · rw [h1]
                        have := hlt (by omega)
                        show o.last_id ≠ id
                        omega
                      · exact hids e h1
                    · intro hpos
                      have h2 := hs2 hpos
                      have h3 := hlt (by omega)
                      show id < toInt32 (o.last_id + 1)
                      rw [h2]
                      omega
      | RemoveObject rid =>
          simp only [ObjAddr.run] at h
          refine ih (o.RemoveObject rid) o' ids ?_ h
          exact ⟨fun e he => hr.1 e (List.mem_filter.mp he).1, hr.2.1, hr.2.2⟩
      | RemoveObjectPtr ptr =>
          simp only [ObjAddr.run] at h
          refine ih (o.RemoveObjectPtr ptr) o' ids ?_ h
          refine ⟨fun e he => hr.1 e (ObjAddr.mem_RemoveObjectPtr o ptr e he), ?_, ?_⟩
          · rw [ObjAddr.RemoveObjectPtr_last_id]
            exact hr.2.1
          · rw [ObjAddr.RemoveObjectPtr_last_id]
            exact hr.2.2

/-- Along any run of calls on the registry the identifiers registered are at
least 3 and lie below the counter. -/
theorem ObjAddr.wf_of_run (ops : List ObjOp) :
    ∀ (o o' : ObjAddr) (ids : List Int), ObjAddr.WF o →
      ObjAddr.run o ops = some (ids, o') → ObjAddr.WF o' := by
  induction ops with
  | nil =>
      intro o o' ids hr h
      simp only [ObjAddr.run, Option.some.injEq, Prod.mk.injEq] at h
      rw [← h.2]
      exact hr
  | cons op ops ih =>
      intro o o' ids hr h
      cases op with
      | AddObject ptr =>
          simp only [ObjAddr.run] at h
          cases hadd : o.AddObject ptr with
          | none =>
              rw [hadd] at h
              cases h
          | some r =>
              obtain ⟨newid, o1⟩ := r
              rw [hadd] at h
              dsimp only at h
              cases hrun : ObjAddr.run o1 ops with
              | none =>
                  rw [hrun] at h
                  cases h
              | some r2 =>
                  obtain ⟨ids2, o2⟩ := r2
                  rw [hrun] at h
                  dsimp only at h
                  have ho : o2 = o' := (Prod.mk.inj (Option.some.inj h)).2
                  rw [← ho]
                  refine ih o1 o2 ids2 ?_ hrun
                  unfold ObjAddr.AddObject at hadd
                  by_cases hneg : o.last_id < 0
                  · rw [if_pos hneg] at hadd
                    cases hadd
                  · rw [if_neg hneg] at hadd
                    have ho1 : (⟨toInt32 (o.last_id + 1),
                        ObjAddr.assign o.ids o.last_id ptr⟩ : ObjAddr) = o1 :=
                      (Prod.mk.inj (Option.some.inj hadd)).2
                    obtain ⟨hids, h3, hbound⟩ := hr
                    obtain ⟨hs1, hs2⟩ := toInt32_succ o.last_id (by omega) hbound
                    rw [← ho1]
                    refine ⟨?_, ?_, hs1⟩
                    · intro e he
                      rcases ObjAddr.mem_assign _ _ _ _ he with h1 | h1
                      · rw [h1]
                        have h4 := h3 (by omega)
                        refine ⟨h4, fun hpos => ?_⟩
                        have h2 := hs2 hpos
                        show o.last_id < toInt32 (o.last_id + 1)
                        rw [h2]
                        omega
                      · refine ⟨(hids e h1).1, fun hpos => ?_⟩
                        have h2 := hs2 hpos
                        have h5 := (hids e h1).2 (by omega)
                        show e.1 < toInt32 (o.last_id + 1)
                        rw [h2]
                        omega
                    · intro hpos
                      have h2 := hs2 hpos
                      have h4 := h3 (by omega)
                      show 3 ≤ toInt32 (o.last_id + 1)
                      rw [h2]
                      omega
      | RemoveObject rid =>
          simp only [ObjAddr.run] at h
          refine ih (o.RemoveObject rid) o' ids ?_ h
          exact ⟨fun e he => hr.1 e (List.mem_filter.mp he).1, hr.2.1, hr.2.2⟩
      | RemoveObjectPtr ptr =>
          simp only [ObjAddr.run] at h
          refine ih (o.RemoveObjectPtr ptr) o' ids ?_ h
          refine ⟨fun e he => ?_, ?_, ?_⟩
          · rw [ObjAddr.RemoveObjectPtr_last_id]
            exact hr.1 e (ObjAddr.mem_RemoveObjectPtr o ptr e he)
          · rw [ObjAddr.RemoveObjectPtr_last_id]
            exact hr.2.1
          · rw [ObjAddr.RemoveObjectPtr_last_id]
            exact hr.2.2

/-- A `Close` system call that succeeds found a file under the identifier and
leaves the registry without it. -/
theorem SC_CLOSE_success (env : SysEnv) (c : SysConfig) (cfg : Config) (s s1 : Sys)
    (hdel : ∀ (s : Sys) (p : Nat), (env.delete s p).g_object_addrs = s.g_object_addrs)
    (hclose : SC_CLOSE env c cfg s = some s1) (hok : s1.int_registers 10 = NO_ERROR) :
    (∃ p : Nat, s.g_object_addrs.SearchObject (toInt32 (s.int_registers 10)) = some p)
      ∧ s1.g_object_addrs = s.g_object_addrs.RemoveObject (toInt32 (s.int_registers 10)) := by
  have hne : (ERROR : Int) ≠ NO_ERROR := by decide
  unfold SC_CLOSE at hclose
  simp only [Sys.ReadIntRegister] at hclose
  cases hs : s.g_object_addrs.SearchObject (toInt32 (s.int_registers 10)) with
  | none =>
      rw [hs] at hclose
      dsimp only at hclose
      have h1 := Option.some.inj hclose
      rw [← h1] at hok
      simp only [Sys.SetMsg, Sys.WriteIntRegister, Function.update_same] at hok
      exact absurd hok hne
  | some p =>
      rw [hs] at hclose
      dsimp only at hclose
      by_cases ht : s.type p = c.FILE_TYPE
      · rw [if_pos ht] at hclose
        cases hc : OpenFileTable.Close cfg s.disk s.g_open_file_table (s.file p).name with
        | none =>
            rw [hc] at hclose
            cases hclose
        | some r =>
            rw [hc] at hclose
            dsimp only at hclose
            have h1 := Option.some.inj hclose
            refine ⟨⟨p, rfl⟩, ?_⟩
            rw [← h1]
            simp only [Sys.SetMsg, Sys.WriteIntRegister, hdel]
      · rw [if_neg ht] at hclose
        have h1 := Option.some.inj hclose
        rw [← h1] at hok
        simp only [Sys.SetMsg, Sys.WriteIntRegister, Function.update_same] at hok
        exact absurd hok hne

/-- C35: the registry of the state `s` comes from the fresh registry through
any calls, and a `Close` system call on the file identifier `d` (the value of
register 10) succeeds in `s`.  Whatever calls are then made on the registry
(`AddObject`, `RemoveObject`), in every later state the `Read`, `Write`, `Seek`
and `Close` system calls on the same identifier `d` return −1 with
`INVALID_FILE_ID`.  The console is on descriptors 0 and 1; `delete file`
(filesys/openfile.cc is not among the sources) is taken not to touch the
registry. -/
theorem C35_closed_identifier_stays_invalid (env : SysEnv) (c : SysConfig) (cfg : Config)
    (s s1 : Sys) (d : Int) (ops0 ops : List ObjOp) (ids0 ids : List Int) (o2 : ObjAddr)
    (hci : c.CONSOLE_INPUT = 0) (hco : c.CONSOLE_OUTPUT = 1)
    (hdel : ∀ (s : Sys) (p : Nat), (env.delete s p).g_object_addrs = s.g_object_addrs)
    (hreg : ObjAddr.run ObjAddr.new ops0 = some (ids0, s.g_object_addrs))
    (hd : s.int_registers 10 = d)
    (hclose : SC_CLOSE env c cfg s = some s1) (hok : s1.int_registers 10 = NO_ERROR)
    (hrun : ObjAddr.run s1.g_object_addrs ops = some (ids, o2)) :
    ∀ s2 : Sys, s2.g_object_addrs = o2 →
      (s2.int_registers 12 = d →
          (SC_READ env c s2).int_registers 10 = ERROR
            ∧ (SC_READ env c s2).g_syscall_error.lastError = INVALID_FILE_ID)
        ∧ (s2.int_registers 12 = d →
          (SC_WRITE env c s2).int_registers 10 = ERROR
            ∧ (SC_WRITE env c s2).g_syscall_error.lastError = INVALID_FILE_ID)
        ∧ (s2.int_registers 11 = d →
          (SC_SEEK env c s2).int_registers 10 = ERROR
            ∧ (SC_SEEK env c s2).g_syscall_error.lastError = INVALID_FILE_ID)
        ∧ (s2.int_registers 10 = d →
          ∃ s3 : Sys, SC_CLOSE env c cfg s2 = some s3 ∧ s3.int_registers 10 = ERROR
            ∧ s3.g_syscall_error.lastError = INVALID_FILE_ID) := by
  obtain ⟨⟨p, hfound⟩, hreg1⟩ := SC_CLOSE_success env c cfg s s1 hdel hclose hok
  rw [hd] at hfound hreg1
  have hwf : ObjAddr.WF s.g_object_addrs :=
    ObjAddr.wf_of_run ops0 ObjAddr.new s.g_object_addrs ids0
      ⟨fun e he => absurd he (List.not_mem_nil e), fun _ => by decide, by decide⟩ hreg
  obtain ⟨e, he, heid⟩ := (ObjAddr.SearchObject_spec s.g_object_addrs (toInt32 d)).2 p hfound
  have h3 : 3 ≤ toInt32 d := by
    rw [← heid]
    exact (hwf.1 e he).1
  have hret1 : ObjAddr.Retired (toInt32 d) s1.g_object_addrs := by
    rw [hreg1]
    refine ⟨fun e' he' => ?_, fun hpos => ?_, hwf.2.2⟩
    · have := (List.mem_filter.mp he').2
      simpa using this
    · rw [← heid]
      exact (hwf.1 e he).2 hpos
  have hret2 := ObjAddr.retired_of_run (toInt32 d) ops s1.g_object_addrs o2 ids hret1 hrun
  obtain ⟨hd0, hd1, hdu⟩ := toInt32_ge_three d h3
  intro s2 hs2
  have hnone : s2.g_object_addrs.SearchObject (toInt32 d) = none := by
    rw [hs2]
    exact (ObjAddr.SearchObject_spec o2 (toInt32 d)).1 hret2.1
  refine ⟨?_, ?_, ?_, ?_⟩
  · intro hr
    unfold SC_READ
    simp only [Sys.ReadIntRegister, hr]
    rw [if_pos (by rw [hci]; exact hd0), hnone]
    exact ⟨by simp only [Sys.WriteIntRegister, Function.update_same], rfl⟩
  · intro hr
    unfold SC_WRITE
    simp only [Sys.ReadIntRegister, hr]
    rw [if_pos (by rw [hco]; exact hdu), hnone]
    exact ⟨by simp only [Sys.WriteIntRegister, Function.update_same], rfl⟩
  · intro hr
    unfold SC_SEEK
    simp only [Sys.ReadIntRegister, hr]
    by_cases hgt : d > c.CONSOLE_OUTPUT
    · rw [if_pos hgt, hnone]
      exact ⟨by simp only [Sys.WriteIntRegister, Function.update_same], rfl⟩
    · rw [if_neg hgt]
      exact ⟨by simp only [Sys.SetMsg, Sys.WriteIntRegister, Function.update_same], rfl⟩
  · intro hr
    unfold SC_CLOSE
    simp only [Sys.ReadIntRegister, hr]
    rw [hnone]
    exact ⟨_, rfl, by simp only [Sys.SetMsg, Sys.WriteIntRegister, Function.update_same], rfl⟩

set_option maxRecDepth 100000 in
/-- C35 at a concrete input: the file registered under identifier 4 is closed;
two objects are then registered (under 5 and 6) and the thread under 3 is
removed; in the later state `Read`, `Write`, `Seek` and `Close` on identifier
4 return −1 with `INVALID_FILE_ID`. -/
theorem C35_closed_identifier_stays_invalid_witness :
    SampleSys.closed.int_registers 10 = NO_ERROR
      ∧ SampleSys.closed.g_object_addrs = ⟨5, [(3, 50)]⟩
      ∧ (SC_READ SampleSys.env SampleSys.consts (SampleSys.later 4)).int_registers 10 = ERROR
      ∧ (SC_READ SampleSys.env SampleSys.consts (SampleSys.later 4)).g_syscall_error.lastError
        = INVALID_FILE_ID
      ∧ (SC_WRITE SampleSys.env SampleSys.consts (SampleSys.later 4)).int_registers 10 = ERROR
      ∧ (SC_SEEK SampleSys.env SampleSys.consts (SampleSys.later 4)).int_registers 10 = ERROR
      ∧ ∃ s3 : Sys, SC_CLOSE SampleSys.env SampleSys.consts Sample.cfg (SampleSys.later 4)
            = some s3 ∧ s3.int_registers 10 = ERROR
          ∧ s3.g_syscall_error.lastError = INVALID_FILE_ID := by
  have hok : SampleSys.closed.int_registers 10 = NO_ERROR := by decide
  have h := C35_closed_identifier_stays_invalid SampleSys.env SampleSys.consts Sample.cfg
    (SampleSys.fileState 4) SampleSys.closed 4
    [ObjOp.AddObject 50, ObjOp.AddObject 60]
    [ObjOp.AddObject 70, ObjOp.RemoveObject 3, ObjOp.AddObject 80] [3, 4] [5, 6]
    ⟨7, [(5, 70), (6, 80)]⟩ rfl rfl (fun _ _ => rfl) (by decide) rfl rfl hok (by decide)
    (SampleSys.later 4) rfl
  exact ⟨hok, by decide, (h.1 rfl).1, (h.1 rfl).2, (h.2.1 rfl).1, (h.2.2.1 rfl).1, h.2.2.2 rfl⟩

/-! ## Directory::List (C36) -/

/-- The branch drawn at depth `d ≥ 3`, from the index that leaves `n` spaces
to write: `n` spaces followed by `+--`. -/
theorem Directory.List_branch_spaces (d n : Nat) :
    ∀ j : Nat, j + n + 3 = d →
      Directory.List_branch (d : Int) (n + 3) (j : Int)
        = List.replicate n ' ' ++ ['+', '-', '-'] := by
  induction n with
  | zero =>
      intro j hj
      have h0 : ¬ ((j : Int) < (d : Int) - 3) := by omega
      have h1 : (j : Int) = (d : Int) - 3 := by omega
      have h2 : ¬ ((j : Int) > (d : Int) - 3) := by omega
      have h3 : ¬ ((j : Int) + 1 < (d : Int) - 3) := by omega
      have h4 : ¬ ((j : Int) + 1 = (d : Int) - 3) := by omega
      have h5 : (j : Int) + 1 > (d : Int) - 3 := by omega
      have h6 : ¬ ((j : Int) + 1 + 1 < (d : Int) - 3) := by omega
      have h7 : ¬ ((j : Int) + 1 + 1 = (d : Int) - 3) := by omega
      have h8 : (j : Int) + 1 + 1 > (d : Int) - 3 := by omega
      simp only [Directory.List_branch, if_neg h0, if_pos h1, if_neg h2, if_neg h3, if_neg h4,
        if_pos h5, if_neg h6, if_neg h7, if_pos h8]
      rfl
  | succ n ih =>
      intro j hj
      have h0 : (j : Int) < (d : Int) - 3 := by omega
      have h1 : ¬ ((j : Int) = (d : Int) - 3) := by omega
      have h2 : ¬ ((j : Int) > (d : Int) - 3) := by omega
      have hnext := ih (j + 1) (by omega)
      rw [show n + 1 + 3 = (n + 3) + 1 from rfl]
      rw [Directory.List_branch, if_pos h0, if_neg h1, if_neg h2]
      rw [show ((j : Int) + 1) = ((j + 1 : Nat) : Int) from by push_cast; rfl, hnext]
      rfl

/-- The branch drawn by `List` at depth `4·L`: nothing at level 0, and at
level `L ≥ 1` the `4·L − 3` spaces followed by `+--`. -/
theorem Directory.List_branch_spec (L : Nat) :
    Directory.List_branch ((4 * L : Nat) : Int) ((4 * L : Nat) : Int).toNat 0
      = if L = 0 then [] else List.replicate (4 * L - 3) ' ' ++ ['+', '-', '-'] := by
  rw [Int.toNat_ofNat]
  by_cases hL : L = 0
  · subst hL
    rfl
  · rw [if_neg hL]
    have h := Directory.List_branch_spaces (4 * L) (4 * L - 3) 0 (by omega)
    rw [show 4 * L - 3 + 3 = 4 * L from by omega] at h
    exact h

/-- `FetchFrom` on a file of at least as many entries as the table has
replaces the whole table by the first entries of the file. -/
theorem Directory.FetchFrom_table (d : Directory) (file : List DirectoryEntry)
    (h : d.table.length ≤ file.length) :
    (d.FetchFrom file).table = file.take d.table.length := by
  unfold Directory.FetchFrom OpenFile.ReadAt Directory.tableSize
  simp only
  rw [List.length_take, Nat.min_eq_left h, List.drop_length, List.append_nil]

/-- Once a turn of the loop has failed, the loop fails. -/
theorem Directory.List_entry_foldl_none (M : Nat) (disk : Disk)
    (List_rec : List DirectoryEntry → CString → Int → Option (List Char))
    (name : CString) (depth : Int) (entries : List DirectoryEntry) :
    entries.foldl (Directory.List_entry M disk List_rec name depth) none = none := by
  induction entries with
  | nil => rfl
  | cons e rest ih =>
      rw [List.foldl_cons]
      exact ih

/-- The loop of `List` at depth `4·L` writes the lines of the claim, when the
recursive call and the listing of the subdirectories agree on every
subdirectory of the table, the files of the subdirectories fill the local
directory and the paths fit their array. -/
theorem Directory.List_entry_foldl_spec (cfg : Config) (M : Nat) (disk : Disk)
    (List_rec : List DirectoryEntry → CString → Int → Option (List Char))
    (sub : List DirectoryEntry → Option (List Char)) (name : CString) (L : Nat)
    (entries : List DirectoryEntry) :
    ∀ (out : List Char) (dir : Directory), dir.table.length = cfg.NumDirEntries →
      (∀ e ∈ entries, e.inUse = true → (OpenFile.new disk e.sector).IsDir = true →
        cfg.NumDirEntries ≤ (disk.dirFile e.sector).length
          ∧ name.length + e.name.length < M
          ∧ List_rec ((disk.dirFile e.sector).take cfg.NumDirEntries) (name ++ e.name)
              (((4 * L : Nat) : Int) + 4)
            = sub ((disk.dirFile e.sector).take cfg.NumDirEntries)) →
      (entries.foldl (Directory.List_entry M disk List_rec name ((4 * L : Nat) : Int))
          (some (out, dir))).map Prod.fst
        = (Directory.tree_entries cfg disk sub L entries).map (fun r => out ++ r) := by
  induction entries with
  | nil =>
      intro out dir _ _
      simp [Directory.tree_entries]
  | cons e rest ih =>
      intro out dir hlen h
      have hrest : ∀ e' ∈ rest, e'.inUse = true → (OpenFile.new disk e'.sector).IsDir = true →
          cfg.NumDirEntries ≤ (disk.dirFile e'.sector).length
            ∧ name.length + e'.name.length < M
            ∧ List_rec ((disk.dirFile e'.sector).take cfg.NumDirEntries) (name ++ e'.name)
                (((4 * L : Nat) : Int) + 4)
              = sub ((disk.dirFile e'.sector).take cfg.NumDirEntries) :=
        fun e' he' => h e' (List.mem_cons_of_mem _ he')
      rw [List.foldl_cons]
      by_cases hu : e.inUse = true
      · by_cases hd : (OpenFile.new disk e.sector).IsDir = true
        · obtain ⟨hfile, hfit, hrec⟩ := h e (List.mem_cons_self _ _) hu hd
          have htab : (dir.FetchFrom (disk.dirFile e.sector)).table
              = (disk.dirFile e.sector).take cfg.NumDirEntries := by
            rw [Directory.FetchFrom_table dir _ (by rw [hlen]; exact hfile), hlen]
          have hlen' : (dir.FetchFrom (disk.dirFile e.sector)).table.length
              = cfg.NumDirEntries := by
            rw [htab, List.length_take, Nat.min_eq_left hfile]
          cases hs : sub ((disk.dirFile e.sector).take cfg.NumDirEntries) with
          | none =>
              have hstep : Directory.List_entry M disk List_rec name ((4 * L : Nat) : Int)
                  (some (out, dir)) e = none := by
                simp only [Directory.List_entry, hu, hd, if_true, hfit, htab, hrec, hs]
              rw [hstep, Directory.List_entry_foldl_none]
              simp [Directory.tree_entries, hu, hd, hs]
          | some s =>
              have hstep : Directory.List_entry M disk List_rec name ((4 * L : Nat) : Int)
                  (some (out, dir)) e
                  = some (out ++ Directory.List_branch ((4 * L : Nat) : Int)
                      ((4 * L : Nat) : Int).toNat 0 ++ e.name ++ ['(', 'D', ')', '\n'] ++ s,
                    dir.FetchFrom (disk.dirFile e.sector)) := by
                simp only [Directory.List_entry, hu, hd, if_true, hfit, htab, hrec, hs]
              rw [hstep, ih _ _ hlen' hrest, Directory.List_branch_spec]
              simp only [Directory.tree_entries, hu, hd, if_true, hs]
              cases Directory.tree_entries cfg disk sub L rest with
              | none => rfl
              | some r => simp [Directory.tree_line, List.append_assoc]
        · have hstep : Directory.List_entry M disk List_rec name ((4 * L : Nat) : Int)
              (some (out, dir)) e
              = some (out ++ Directory.List_branch ((4 * L : Nat) : Int)
                  ((4 * L : Nat) : Int).toNat 0 ++ e.name ++ ['\n'], dir) := by
            simp only [Directory.List_entry, hu, hd, if_true]
            rfl
          rw [hstep, ih _ _ hlen hrest, Directory.List_branch_spec]
          simp only [Directory.tree_entries, hu, hd, if_true]
          cases Directory.tree_entries cfg disk sub L rest with
          | none => rfl
          | some r => simp [Directory.tree_line, List.append_assoc]
      · have hstep : Directory.List_entry M disk List_rec name ((4 * L : Nat) : Int)
            (some (out, dir)) e = some (out, dir) := by
          simp only [Directory.List_entry, hu]
          rfl
        rw [hstep, ih _ _ hlen hrest]
        simp only [Directory.tree_entries, hu]
        rfl

/-- `List` at depth `4·L` writes the listing of the claim at level `L`. -/
theorem Directory.ListTree_eq_tree (cfg : Config) (M : Nat) (disk : Disk) (m : Nat)
    (hfile : ∀ s : Int, (OpenFile.new disk s).IsDir = true →
      cfg.NumDirEntries ≤ (disk.dirFile s).length)
    (hnames : ∀ (s : Int) (e : DirectoryEntry), e ∈ disk.dirFile s → e.name.length ≤ m)
    (fuel : Nat) :
    ∀ (table : List DirectoryEntry) (name : CString) (L : Nat),
      (∀ e ∈ table, e.name.length ≤ m) → name.length + fuel * m < M →
      Directory.ListTree cfg M disk fuel table name ((4 * L : Nat) : Int)
        = Directory.tree cfg disk fuel table L := by
  induction fuel with
  | zero =>
      intro table name L _ _
      rfl
  | succ fuel ih =>
      intro table name L htable hM
      rw [Directory.ListTree, Directory.tree]
      rw [Directory.List_entry_foldl_spec cfg M disk _
        (fun t => Directory.tree cfg disk fuel t (L + 1)) name L table [] _
        (by simp [Directory.new])]
      · simp
      · intro e he hu hd
        have hle := htable e he
        have hmul : (fuel + 1) * m = fuel * m + m := Nat.succ_mul fuel m
        refine ⟨hfile e.sector hd, by omega, ?_⟩
        rw [show ((4 * L : Nat) : Int) + 4 = ((4 * (L + 1) : Nat) : Int) from by
          push_cast; ring]
        refine ih _ _ _ (fun e' he' => hnames e.sector e' (List.mem_of_mem_take he')) ?_
        rw [List.length_append]
        omega

/-- The listing of the entries exists when the listing of every subdirectory
among them does. -/
theorem Directory.tree_entries_isSome (cfg : Config) (disk : Disk)
    (sub : List DirectoryEntry → Option (List Char)) (L : Nat) (entries : List DirectoryEntry)
    (h : ∀ e ∈ entries, e.inUse = true → (OpenFile.new disk e.sector).IsDir = true →
      (sub ((disk.dirFile e.sector).take cfg.NumDirEntries)).isSome = true) :
    (Directory.tree_entries cfg disk sub L entries).isSome = true := by
  induction entries with
  | nil => rfl
  | cons e rest ih =>
      have hrest := ih (fun e' he' => h e' (List.mem_cons_of_mem _ he'))
      obtain ⟨r, hr⟩ := Option.isSome_iff_exists.mp hrest
      by_cases hu : e.inUse = true
      · by_cases hd : (OpenFile.new disk e.sector).IsDir = true
        · obtain ⟨s, hs⟩ := Option.isSome_iff_exists.mp (h e (List.mem_cons_self _ _) hu hd)
          simp [Directory.tree_entries, hu, hd, hs, hr]
        · simp [Directory.tree_entries, hu, hd, hr]
      · simp [Directory.tree_entries, hu, hr]

/-- The listing of a hierarchy exists with one more level of recursion than
the rank of its subdirectories, when the rank of a directory is above the
ranks of the directories it holds. -/
theorem Directory.tree_isSome (cfg : Config) (disk : Disk) (rank : Int → Nat)
    (hrank : ∀ s : Int, (OpenFile.new disk s).IsDir = true →
      ∀ e ∈ (disk.dirFile s).take cfg.NumDirEntries, e.inUse = true →
        (OpenFile.new disk e.sector).IsDir = true → rank e.sector < rank s)
    (fuel : Nat) :
    ∀ (table : List DirectoryEntry) (L : Nat),
      (∀ e ∈ table, e.inUse = true → (OpenFile.new disk e.sector).IsDir = true →
        rank e.sector < fuel) →
      (Directory.tree cfg disk (fuel + 1) table L).isSome = true := by
  induction fuel with
  | zero =>
      intro table L h
      rw [Directory.tree]
      exact Directory.tree_entries_isSome cfg disk _ L table
        (fun e he hu hd => absurd (h e he hu hd) (Nat.not_lt_zero _))
  | succ fuel ih =>
      intro table L h
      rw [Directory.tree]
      refine Directory.tree_entries_isSome cfg disk _ L table (fun e he hu hd => ?_)
      refine ih _ _ (fun e' he' hu' hd' => ?_)
      have h1 := hrank e.sector hd e' he' hu' hd'
      have h2 := h e he hu hd
      omega

/-- C36. `Directory::List` called with depth 0 on a directory returns and
prints the listing of the claim: every in-use entry of the table, in table
order, as its bare name, followed by `(D)` for a directory, and the entries of
a subdirectory nested `L ≥ 1` levels below right after the line of that
subdirectory, each preceded by `4·L − 3` spaces and `+--`.  The hierarchy is
well founded (a directory ranks above the directories it holds, the
directories of the table rank below `fuel`), the file of every directory fills
the local directory of `NumDirEntries` entries, and the paths, of names of at
most `m` characters, fit the array of `MaxFileNameSize` characters. -/
theorem C36_List_prints_the_tree (cfg : Config) (MaxFileNameSize : Nat) (disk : Disk)
    (m : Nat) (rank : Int → Nat) (fuel : Nat) (table : List DirectoryEntry) (name : CString)
    (hfile : ∀ s : Int, (OpenFile.new disk s).IsDir = true →
      cfg.NumDirEntries ≤ (disk.dirFile s).length)
    (hnames : ∀ (s : Int) (e : DirectoryEntry), e ∈ disk.dirFile s → e.name.length ≤ m)
    (hrank : ∀ s : Int, (OpenFile.new disk s).IsDir = true →
      ∀ e ∈ (disk.dirFile s).take cfg.NumDirEntries, e.inUse = true →
        (OpenFile.new disk e.sector).IsDir = true → rank e.sector < rank s)
    (htable : ∀ e ∈ table, e.name.length ≤ m)
    (hdepth : ∀ e ∈ table, e.inUse = true → (OpenFile.new disk e.sector).IsDir = true →
      rank e.sector < fuel)
    (hfit : name.length + (fuel + 1) * m < MaxFileNameSize) :
    ∃ out : List Char,
      Directory.ListTree cfg MaxFileNameSize disk (fuel + 1) table name 0 = some out
        ∧ Directory.tree cfg disk (fuel + 1) table 0 = some out := by
  obtain ⟨out, hout⟩ := Option.isSome_iff_exists.mp
    (Directory.tree_isSome cfg disk rank hrank fuel table 0 hdepth)
  refine ⟨out, ?_, hout⟩
  rw [← hout]
  exact Directory.ListTree_eq_tree cfg MaxFileNameSize disk m hfile hnames (fuel + 1) table
    name 0 htable hfit

/-- C36 on a root directory that holds the directory `d`, with the files `x`
and `y`, an entry not in use and the file `f`. -/
theorem C36_List_prints_the_tree_witness :
    Directory.ListTree SampleDir.cfg 256 SampleDir.disk 2 SampleDir.root ['/'] 0
      = some "d(D)\n +--x\n +--y\nf\n".toList := by
  obtain ⟨out, hlist, htree⟩ := C36_List_prints_the_tree SampleDir.cfg 256 SampleDir.disk 3
    (fun _ => 0) 1 SampleDir.root ['/']
    (fun _ _ => Nat.le_refl 4)
    (fun s e he => by
      simp only [SampleDir.disk, List.mem_cons, List.mem_singleton] at he
      rcases he with rfl | rfl | rfl | rfl | he
      · decide
      · decide
      · decide
      · decide
      · exact absurd he (List.not_mem_nil _))
    (fun s _ e he hu hd => by
      simp only [SampleDir.disk, SampleDir.cfg, List.take, List.mem_cons] at he
      rcases he with rfl | rfl | rfl | rfl | he
      · exact absurd hd (by decide)
      · exact absurd hd (by decide)
      · exact absurd hu (by decide)
      · exact absurd hu (by decide)
      · exact absurd he (List.not_mem_nil _))
    (by decide) (by decide) (by decide)
  have hval : Directory.tree SampleDir.cfg SampleDir.disk 2 SampleDir.root 0
      = some "d(D)\n +--x\n +--y\nf\n".toList := by decide
  rw [hlist, ← htree, hval]

end Nachos
